import Mathlib

/-! tinylisp (gisp/l0.go): a shallow embedding and its verified properties

The interpreter keeps every value in one 64-bit word (a float64 whose NaN
payload carries a tag and an ordinal), all cons cells in one fixed array
that is filled from the top downwards, and all symbol names in one byte
buffer that is filled from the bottom upwards.

Conventions of the embedding

* A value of Go's `type L float64` is the bit pattern of the float, a
  natural number below `2^64`; a value of Go's `type I uint64` is a natural
  number and every operation that can wrap is reduced modulo `2^64`.  Both
  types are `Nat` here.
* A Go string is the list of its bytes.
* The package-level variables form the record `State`; a Go function
  becomes a function `State → Res α` that returns the value together with
  the successor state, or the run-time panic together with the state in
  which it was raised.
* Recursion and loops that Go does not bound are bounded here by a fuel
  argument; running out of fuel is the outcome `Res.diverge`.
-/

namespace Gisp

/-! ## Constants and value encoding -/

/-- A Go string, as its sequence of bytes. -/
abbrev GoString := List Nat

def ATOM : Nat := 0x7ff8
def PRIM : Nat := 0x7ff9
def CONS : Nat := 0x7ffa
def CLOS : Nat := 0x7ffb
def NIL : Nat := 0x7ffc
def N : Nat := 2048

/-- The modulus of `uint64` arithmetic. -/
def W64 : Nat := 2 ^ 64

/-- Go: `len(A)`, the size of the atom buffer `make([]byte, N*8)`. -/
def ALEN : Nat := N * 8

/-- Go: `uint64(t)<<48 | uint64(i)` reinterpreted as a float. -/
def box (t i : Nat) : Nat := ((t * 2 ^ 48) % W64) ||| i

/-- Go: `Float64bits(x) >> 48`. -/
def T (x : Nat) : Nat := x >>> 48

/-- Go: `Float64bits(x) & 0xFFFFFFFFFFFF`. -/
def ord (x : Nat) : Nat := x &&& 0xFFFFFFFFFFFF

/-- Go: `Float64bits(x) == Float64bits(y)`. -/
def equ (x y : Nat) : Bool := decide (x = y)

/-- Go: `T(x) == NIL`. -/
def notv (x : Nat) : Bool := decide (T x = NIL)

/-- Go: `ifv(cond, alt)`. -/
def ifv (cond alt : Nat) : Nat := if notv cond then alt else cond

/-- Go: the 64-bit operator `x &^ y` (bit clear). -/
def andNot (x y : Nat) : Nat := x &&& ((W64 - 1) ^^^ y)

/-- The test `T(p)&^(CONS^CLOS) == CONS` that guards `car` and `cdr`. -/
def isPairTag (p : Nat) : Bool := decide (andNot (T p) (CONS ^^^ CLOS) = CONS)

/-- The bytes of an ASCII string literal. -/
def bytes (s : String) : GoString := s.toList.map Char.toNat

/-! ## IEEE 754 binary64 arithmetic on bit patterns

Go's `+ - * /` on `float64` round to nearest, ties to even.  A finite
float is handled exactly: its magnitude is an integer multiple of
`2^-1074`.  For NaN operands Go leaves the payload of the result to the
hardware; the model follows amd64 (SSE2): the first NaN operand is
returned with its quiet bit set, and an invalid operation yields the
default NaN `0xFFF8000000000000`. -/

def fsign (x : Nat) : Nat := (x / 2 ^ 63) % 2
def fexp (x : Nat) : Nat := (x / 2 ^ 52) % 2 ^ 11
def ffrac (x : Nat) : Nat := x % 2 ^ 52
def fisNaN (x : Nat) : Bool := decide (fexp x = 2047) && decide (ffrac x ≠ 0)
def fisInf (x : Nat) : Bool := decide (fexp x = 2047) && decide (ffrac x = 0)
def fquiet (x : Nat) : Nat := x ||| 2 ^ 51
def fdefaultNaN : Nat := 0xFFF8000000000000
def fposInf : Nat := 0x7FF0000000000000

/-- Magnitude of a finite float in units of `2^-1074`. -/
def fmag (x : Nat) : Nat :=
  if fexp x = 0 then ffrac x else (2 ^ 52 + ffrac x) * 2 ^ (fexp x - 1)

/-- Signed value of a finite float in units of `2^-1074`. -/
def fval (x : Nat) : Int := if fsign x = 1 then - (fmag x : Int) else (fmag x : Int)

/-- Number of binary digits of `n`, counted with at most `fuel` steps. -/
def bitLen : Nat → Nat → Nat
  | 0, _ => 0
  | fuel + 1, n => if n = 0 then 0 else bitLen fuel (n / 2) + 1

/-- The float (sign bit clear) nearest to `n / d` units of `2^-1074`,
ties to even, overflowing to infinity. -/
def froundMag (n d : Nat) : Nat :=
  let sh := bitLen 4400 (n / d) - 53
  let d2 := d * 2 ^ sh
  let q := n / d2
  let r := n % d2
  let q2 := if d2 < 2 * r ∨ (2 * r = d2 ∧ q % 2 = 1) then q + 1 else q
  let b := sh * 2 ^ 52 + q2
  if fposInf ≤ b then fposInf else b

def fwithSign (sgn : Nat) (m : Nat) : Nat := sgn * 2 ^ 63 + m

/-- The NaN result of a binary operation with at least one NaN operand. -/
def fnanOf (a b : Nat) : Nat := if fisNaN a then fquiet a else fquiet b

def fneg (x : Nat) : Nat := if fsign x = 1 then x - 2 ^ 63 else x + 2 ^ 63

/-- Go: `a + b` on `float64`. -/
def fadd (a b : Nat) : Nat :=
  if fisNaN a || fisNaN b then fnanOf a b
  else if fisInf a then (if fisInf b && decide (fsign a ≠ fsign b) then fdefaultNaN else a)
  else if fisInf b then b
  else
    let v := fval a + fval b
    if v = 0 then (if fsign a = 1 ∧ fsign b = 1 then fwithSign 1 0 else 0)
    else fwithSign (if v < 0 then 1 else 0) (froundMag v.natAbs 1)

/-- Go: `a - b` on `float64`. -/
def fsub (a b : Nat) : Nat :=
  if fisNaN a || fisNaN b then fnanOf a b else fadd a (fneg b)

/-- Go: `a * b` on `float64`. -/
def fmul (a b : Nat) : Nat :=
  let sgn := (fsign a + fsign b) % 2
  if fisNaN a || fisNaN b then fnanOf a b
  else if fisInf a then (if fexp b = 0 ∧ ffrac b = 0 then fdefaultNaN else fwithSign sgn fposInf)
  else if fisInf b then (if fexp a = 0 ∧ ffrac a = 0 then fdefaultNaN else fwithSign sgn fposInf)
  else fwithSign sgn (froundMag (fmag a * fmag b) (2 ^ 1074))

/-- Go: `a / b` on `float64`. -/
def fdiv (a b : Nat) : Nat :=
  let sgn := (fsign a + fsign b) % 2
  if fisNaN a || fisNaN b then fnanOf a b
  else if fisInf a then (if fisInf b then fdefaultNaN else fwithSign sgn fposInf)
  else if fisInf b then fwithSign sgn 0
  else if fmag b = 0 then (if fmag a = 0 then fdefaultNaN else fwithSign sgn fposInf)
  else fwithSign sgn (froundMag (fmag a * 2 ^ 1074) (fmag b))

/-- Go: `x < 0` on `float64`. -/
def fltZero (x : Nat) : Bool :=
  !fisNaN x && decide (fsign x = 1) && (fisInf x || decide (fmag x ≠ 0))

/-- Go: `n < 1e16 && n > -1e16` on `float64`. -/
def fsmall (n : Nat) : Bool :=
  !fisNaN n && !fisInf n && decide (fmag n < 10 ^ 16 * 2 ^ 1074)

/-- Go: `L(int64(n))` for a float with `|n| < 1e16`: truncation toward
zero, then the exact conversion back to a float. -/
def ftrunc (n : Nat) : Nat :=
  let k := fmag n / 2 ^ 1074
  if k = 0 then 0 else fwithSign (fsign n) (froundMag (k * 2 ^ 1074) 1)

/-- The float64 with the value of the natural number `k` (Go: `L(k)`). -/
def num (k : Nat) : Nat := froundMag (k * 2 ^ 1074) 1

/-! ## Interpreter state and outcomes -/

/-- The built-in functions that the primitive table `prims` can hold. -/
inductive Prim where
  | f_eval | f_quote | f_cons | f_car | f_cdr | f_add | f_sub | f_mul | f_div
  | f_int | f_lt | f_eq | f_pair | f_or | f_and | f_not | f_cond | f_if
  | f_leta | f_lambda | f_define | f_load
  deriving DecidableEq, Repr

/-- Go run-time panics that the interpreter can raise. -/
inductive Panic where
  | outOfMemory
  | indexOutOfRange
  | sliceBounds
  deriving DecidableEq, Repr

/-- The package-level variables of `l0.go`.  `cell` and `A` are fixed-size
arrays; they are total functions here and every access checks the index
against `N` and `ALEN`.  A Go map is an association list; the order of
`prims` is the order in which `range prims` visits it. -/
structure State where
  cell : Nat → Nat
  hp : Nat
  sp : Nat
  A : Nat → Nat
  nilv : Nat
  tru : Nat
  err : Nat
  env : Nat
  prims : List (GoString × Prim)
  primIndex : List (GoString × Nat)

/-- Outcome of running a Go function: a value and the successor state, a
panic and the state at the moment it was raised, or no outcome within the
fuel that was given. -/
inductive Res (α : Type) where
  | ok (v : α) (s : State)
  | panic (p : Panic) (s : State)
  | diverge

/-- A Go function with access to the package-level variables. -/
def M (α : Type) : Type := State → Res α

def M.pure {α : Type} (v : α) : M α := fun s => Res.ok v s

def M.bind {α β : Type} (m : M α) (f : α → M β) : M β := fun s =>
  match m s with
  | Res.ok v s1 => f v s1
  | Res.panic p s1 => Res.panic p s1
  | Res.diverge => Res.diverge

instance : Monad M where
  pure := M.pure
  bind := M.bind

/-- Read the package-level variables. -/
def getS : M State := fun s => Res.ok s s

/-- Overwrite the package-level variables. -/
def setS (s : State) : M Unit := fun _ => Res.ok () s

/-- Raise a Go panic. -/
def throwP {α : Type} (p : Panic) : M α := fun s => Res.panic p s

/-- Fuel exhausted. -/
def diverge {α : Type} : M α := fun _ => Res.diverge

/-- The returned value, if the run returned. -/
def Res.val {α : Type} : Res α → Option α
  | Res.ok v _ => some v
  | _ => none

/-- The state in which the run returned. -/
def Res.state {α : Type} : Res α → Option State
  | Res.ok _ s => some s
  | _ => none

/-- The state a run ended in, whether it returned or panicked. -/
def Res.final {α : Type} : Res α → Option State
  | Res.ok _ s => some s
  | Res.panic _ s => some s
  | Res.diverge => none

/-- Array or buffer with one slot overwritten. -/
def upd (f : Nat → Nat) (i v : Nat) : Nat → Nat := fun j => if j = i then v else f j

/-- Go: `cell[i]` as an expression. -/
def readCell (i : Nat) : M Nat := fun s =>
  if i < N then Res.ok (s.cell i) s else Res.panic Panic.indexOutOfRange s

/-- Go: `cell[i] = v`. -/
def writeCell (i : Nat) (v : Nat) : M Unit := fun s =>
  if i < N then Res.ok () { s with cell := upd s.cell i v }
  else Res.panic Panic.indexOutOfRange s

/-- Go map lookup `m[k]`, zero when the key is absent. -/
def mapGet (m : List (GoString × Nat)) (k : GoString) : Nat := (m.lookup k).getD 0

/-- Go map assignment `m[k] = v`. -/
def mapSet {α : Type} (m : List (GoString × α)) (k : GoString) (v : α) : List (GoString × α) :=
  (k, v) :: m.filter (fun p => !(p.1 == k))

/-! ## Atoms, cons cells, environments -/

/-- Go: `string(A[i:e])`. -/
def sliceA (A : Nat → Nat) (i e : Nat) : GoString := (List.range (e - i)).map (fun k => A (i + k))

/-- The inner loop of `atom`: `for end < hp && A[end] != 0 { end++ }`.
The first argument is the distance `hp - end`, which bounds the number of
iterations; `none` is the index-out-of-range panic of `A[end]`. -/
def scanEnd (A : Nat → Nat) (hp : Nat) : Nat → Nat → Option Nat
  | 0, e => some e
  | k + 1, e =>
    if e < hp then
      if e < ALEN then (if A e ≠ 0 then scanEnd A hp k (e + 1) else some e) else none
    else some e

/-- The outer loop of `atom`: `for i < hp { ...; i = end + 1 }`.  The first
argument is the distance `hp - i`.  The result is `none` for a panic,
`some (some i)` when the name is found at offset `i`, `some none` when
the scan ends without a match. -/
def atomScan (s : GoString) (A : Nat → Nat) (hp : Nat) : Nat → Nat → Option (Option Nat)
  | 0, _ => some none
  | k + 1, i =>
    if i < hp then
      match scanEnd A hp (hp - i) i with
      | none => none
      | some e =>
        if e ≤ ALEN then
          (if sliceA A i e = s then some (some i) else atomScan s A hp k (e + 1))
        else none
    else some none

/-- Go: `copy(A[hp:], s)`; the copy stops at the end of the buffer. -/
def copyInto (A : Nat → Nat) (hp : Nat) (s : GoString) : Nat → Nat := fun j =>
  if hp ≤ j ∧ j < hp + s.length ∧ j < ALEN then s.getD (j - hp) 0 else A j

/-- Go: `func atom(s string) L`.  Past the slice expression `A[hp:]` the
watermark is at most `len(A)`, and a Go string is shorter than `2^63`, so
`hp+I(len(s))` and `hp += I(len(s)+1)` do not wrap. -/
def atom (s : GoString) : M Nat := fun st =>
  match atomScan s st.A st.hp st.hp 0 with
  | none => Res.panic Panic.indexOutOfRange st
  | some (some i) => Res.ok (box ATOM i) st
  | some none =>
    if ALEN < st.hp then Res.panic Panic.sliceBounds st
    else
      let st1 := { st with A := copyInto st.A st.hp s }
      let j := st.hp + s.length
      if ALEN ≤ j then Res.panic Panic.indexOutOfRange st1
      else
        let st2 := { st1 with A := upd st1.A j 0, hp := st.hp + (s.length + 1) }
        if (st2.sp * 8) % W64 < st2.hp then Res.panic Panic.outOfMemory st2
        else Res.ok (box ATOM st.hp) st2

/-- Go: `a - b` on `uint64`, for operands below `2^64`. -/
def wsub (a b : Nat) : Nat := if b ≤ a then a - b else W64 - (b - a)

/-- Go: `func cons(x, y L) L`. -/
def cons (x y : Nat) : M Nat := do
  let s ← getS
  writeCell (wsub s.sp 1) x
  writeCell (wsub s.sp 2) y
  let s1 ← getS
  let s2 := { s1 with sp := wsub s.sp 2 }
  setS s2
  if (s2.sp * 8) % W64 < s2.hp then throwP Panic.outOfMemory
  else pure (box CONS s2.sp)

/-- Go: `func car(p L) L`. -/
def car (p : Nat) : M Nat := do
  if isPairTag p then readCell (ord p + 1)
  else pure (← getS).err

/-- Go: `func cdr(p L) L`. -/
def cdr (p : Nat) : M Nat := do
  if isPairTag p then readCell (ord p)
  else pure (← getS).err

/-- Go: `func pair(v, x, e L) L`. -/
def pair (v x e : Nat) : M Nat := do
  let p ← cons v x
  cons p e

/-- Go: `func closure(v, x, e L) L`. -/
def closure (v x e : Nat) : M Nat := do
  let s ← getS
  if equ e s.env then
    let p ← pair v x s.nilv
    pure (box CLOS (ord p))
  else
    let p ← pair v x e
    pure (box CLOS (ord p))

/-- Go: `func assoc(v, e L) L`.  One unit of fuel per iteration of the
loop `for T(e) == CONS && !equ(v, car(car(e))) { e = cdr(e) }`. -/
def assoc : Nat → Nat → Nat → M Nat
  | 0, _, _ => diverge
  | k + 1, v, e => do
    if T e = CONS then
      let key ← car (← car e)
      if equ v key then cdr (← car e)
      else assoc k v (← cdr e)
    else pure (← getS).err

/-- Go: `func letv(x L) bool`. -/
def letv (x : Nat) : M Bool := do
  if notv x then pure false
  else pure (!notv (← cdr x))

/-- Go: `func gc()`. -/
def gc : M Unit := do
  let s ← getS
  setS { s with sp := ord s.env }

/-! ## The host: what the Go standard library supplies -/

/-- The two standard-library calls of the interpreter whose results come
from outside the program: `os.ReadFile` (`none` when it returns an error)
and `strconv.ParseFloat(s, 64)` (`none` when it returns an error). -/
structure Host where
  readFile : GoString → Option GoString
  parseFloat : GoString → Option Nat

/-! ## The reader `inputParser` -/

/-- Go: `type inputParser struct`. -/
structure InputParser where
  input : GoString
  pos : Nat
  ch : Nat

/-- Go: `func (p *inputParser) next()`. -/
def InputParser.next (p : InputParser) : InputParser :=
  if p.pos < p.input.length then { p with ch := p.input.getD p.pos 0, pos := p.pos + 1 }
  else { p with ch := 0 }

/-- Go: `func newInputParser(input string) *inputParser`. -/
def newInputParser (input : GoString) : InputParser :=
  InputParser.next { input := input, pos := 0, ch := 0 }

/-- The loop of `skipWhitespace`, at most `k` iterations. -/
def skipLoop : Nat → InputParser → InputParser
  | 0, p => p
  | k + 1, p => if 0 < p.ch ∧ p.ch ≤ 32 then skipLoop k p.next else p

/-- Go: `func (p *inputParser) skipWhitespace()`.  Every iteration but the
last consumes one byte of the input, so `length + 1` iterations suffice. -/
def InputParser.skipWhitespace (p : InputParser) : InputParser :=
  skipLoop (p.input.length + 1) p

/-- The loop of `readAtom`, at most `k` iterations. -/
def atomLoop : Nat → InputParser → InputParser
  | 0, p => p
  | k + 1, p =>
    if 32 < p.ch ∧ p.ch ≠ 40 ∧ p.ch ≠ 41 ∧ p.ch ≠ 39 ∧ p.ch ≠ 0 then atomLoop k p.next else p

/-- Go: `func (p *inputParser) readAtom() L`. -/
def InputParser.readAtom (h : Host) (p : InputParser) : M (Nat × InputParser) := do
  if p.pos = 0 then throwP Panic.sliceBounds
  else
    let start := p.pos - 1
    let p1 := atomLoop (p.input.length + 1) p
    let e := if p1.ch ≠ 0 then p1.pos - 1 else p1.pos
    if e < start ∨ p1.input.length < e then throwP Panic.sliceBounds
    else
      let s := (p1.input.drop start).take (e - start)
      match (if 0 < s.length then h.parseFloat s else none) with
      | some n => pure (n, p1)
      | none => do
        let a ← atom s
        pure (a, p1)

/-- The body of `readList`, given the function to call for `readExpr` and
the function to call for the recursive `readList`. -/
def readListBody (rdExpr rdList : InputParser → M (Nat × InputParser)) (p0 : InputParser) :
    M (Nat × InputParser) := do
  let p := p0.skipWhitespace
  if p.ch = 41 then pure ((← getS).nilv, p.next)
  else if p.ch = 0 then pure ((← getS).nilv, p)
  else if p.ch = 46 then
    let (result, p2) ← rdExpr p.next.skipWhitespace
    let p3 := p2.skipWhitespace
    if p3.ch = 41 then pure (result, p3.next) else pure (result, p3)
  else
    let (first, p2) ← rdExpr p
    let (rest, p3) ← rdList p2
    let r ← cons first rest
    pure (r, p3)

/-- The body of `readExpr`, given the function to call for `readList` and
the function to call for the recursive `readExpr`. -/
def readExprBody (h : Host) (rdList rdExpr : InputParser → M (Nat × InputParser))
    (p0 : InputParser) : M (Nat × InputParser) := do
  let p := p0.skipWhitespace
  if p.ch = 0 then pure ((← getS).nilv, p)
  else if p.ch = 40 then rdList p.next
  else if p.ch = 39 then
    let q ← atom (bytes "quote")
    let (x, p2) ← rdExpr p.next
    let nl := (← getS).nilv
    let tl ← cons x nl
    let r ← cons q tl
    pure (r, p2)
  else p.readAtom h

/-- Go: `func (p *inputParser) readList() L`, Go: `func (p *inputParser)
readExpr() L`.  The flag selects `readList`; one unit of fuel per call. -/
def readGen (h : Host) : Nat → Bool → InputParser → M (Nat × InputParser)
  | 0, _, _ => diverge
  | k + 1, true, p => readListBody (readGen h k false) (readGen h k true) p
  | k + 1, false, p => readExprBody h (readGen h k true) (readGen h k false) p

/-- Go: `func (p *inputParser) readExpr() L`. -/
def InputParser.readExpr (h : Host) (k : Nat) (p : InputParser) : M (Nat × InputParser) :=
  readGen h k false p

/-- Go: `func (p *inputParser) readList() L`. -/
def InputParser.readList (h : Host) (k : Nat) (p : InputParser) : M (Nat × InputParser) :=
  readGen h k true p

/-! ## The evaluator

`eval`, `apply`, `evlis` and the primitives are mutually recursive.  Each
function below takes the evaluator `ev` that it calls for `eval` and a
bound `k` on the iterations of its own loop or recursion; `eval` closes
the recursion on the fuel. -/

/-- Go: `func bind(v, t, e L) L`. -/
def bind : Nat → Nat → Nat → Nat → M Nat
  | 0, _, _, _ => diverge
  | k + 1, v, t, e => do
    if notv v then pure e
    else if T v = CONS then
      let dv ← cdr v
      let dt ← cdr t
      let av ← car v
      let at1 ← car t
      let e1 ← pair av at1 e
      bind k dv dt e1
    else pair v t e

/-- Go: `func evlis(t, e L) L`. -/
def evlis (ev : Nat → Nat → M Nat) : Nat → Nat → Nat → M Nat
  | 0, _, _ => diverge
  | k + 1, t, e => do
    if T t = CONS then
      let x ← ev (← car t) e
      let r ← evlis ev k (← cdr t) e
      cons x r
    else if T t = ATOM then assoc k t e
    else pure (← getS).nilv

/-- The loop shared by `f_add`, `f_sub`, `f_mul`, `f_div`:
`for { t = cdr(t); if notv(t) { break }; n = n op car(t) }`. -/
def arithLoop (op : Nat → Nat → Nat) : Nat → Nat → Nat → M Nat
  | 0, _, _ => diverge
  | k + 1, t, n => do
    let t1 ← cdr t
    if notv t1 then pure n
    else arithLoop op k t1 (op n (← car t1))

/-- The common shape of the four arithmetic primitives. -/
def arith (op : Nat → Nat → Nat) (ev : Nat → Nat → M Nat) (k : Nat) (t e : Nat) : M Nat := do
  let t1 ← evlis ev k t e
  let n ← car t1
  arithLoop op k t1 n

def f_add (ev : Nat → Nat → M Nat) (k : Nat) (t e : Nat) : M Nat := arith fadd ev k t e
def f_sub (ev : Nat → Nat → M Nat) (k : Nat) (t e : Nat) : M Nat := arith fsub ev k t e
def f_mul (ev : Nat → Nat → M Nat) (k : Nat) (t e : Nat) : M Nat := arith fmul ev k t e
def f_div (ev : Nat → Nat → M Nat) (k : Nat) (t e : Nat) : M Nat := arith fdiv ev k t e

def f_eval (ev : Nat → Nat → M Nat) (k : Nat) (t e : Nat) : M Nat := do
  ev (← car (← evlis ev k t e)) e

def f_quote (t _e : Nat) : M Nat := car t

def f_cons (ev : Nat → Nat → M Nat) (k : Nat) (t e : Nat) : M Nat := do
  let t1 ← evlis ev k t e
  let a ← car t1
  let b ← car (← cdr t1)
  cons a b

def f_car (ev : Nat → Nat → M Nat) (k : Nat) (t e : Nat) : M Nat := do
  car (← car (← evlis ev k t e))

def f_cdr (ev : Nat → Nat → M Nat) (k : Nat) (t e : Nat) : M Nat := do
  cdr (← car (← evlis ev k t e))

def f_int (ev : Nat → Nat → M Nat) (k : Nat) (t e : Nat) : M Nat := do
  let n ← car (← evlis ev k t e)
  if fsmall n then pure (ftrunc n) else pure n

def f_lt (ev : Nat → Nat → M Nat) (k : Nat) (t e : Nat) : M Nat := do
  let t1 ← evlis ev k t e
  let a ← car t1
  let b ← car (← cdr t1)
  if fltZero (fsub a b) then pure (← getS).tru else pure (← getS).nilv

def f_eq (ev : Nat → Nat → M Nat) (k : Nat) (t e : Nat) : M Nat := do
  let t1 ← evlis ev k t e
  let a ← car t1
  let b ← car (← cdr t1)
  if equ a b then pure (← getS).tru else pure (← getS).nilv

def f_pair (ev : Nat → Nat → M Nat) (k : Nat) (t e : Nat) : M Nat := do
  let x ← car (← evlis ev k t e)
  if T x = CONS then pure (← getS).tru else pure (← getS).nilv

/-- The loop of `f_or`, with the current value of `x`. -/
def orLoop (ev : Nat → Nat → M Nat) : Nat → Nat → Nat → Nat → M Nat
  | 0, _, _, _ => diverge
  | k + 1, t, e, x => do
    if notv t then pure x
    else
      let x1 ← ev (← car t) e
      if !notv x1 then pure x1
      else orLoop ev k (← cdr t) e x1

def f_or (ev : Nat → Nat → M Nat) (k : Nat) (t e : Nat) : M Nat := do
  orLoop ev k t e (← getS).nilv

/-- The loop of `f_and`, with the current value of `x`. -/
def andLoop (ev : Nat → Nat → M Nat) : Nat → Nat → Nat → Nat → M Nat
  | 0, _, _, _ => diverge
  | k + 1, t, e, x => do
    if notv t then pure x
    else
      let x1 ← ev (← car t) e
      if notv x1 then pure x1
      else andLoop ev k (← cdr t) e x1

def f_and (ev : Nat → Nat → M Nat) (k : Nat) (t e : Nat) : M Nat := do
  andLoop ev k t e (← getS).tru

def f_not (ev : Nat → Nat → M Nat) (k : Nat) (t e : Nat) : M Nat := do
  if notv (← car (← evlis ev k t e)) then pure (← getS).tru else pure (← getS).nilv

def f_cond (ev : Nat → Nat → M Nat) : Nat → Nat → Nat → M Nat
  | 0, _, _ => diverge
  | k + 1, t, e => do
    let g ← ev (← car (← car t)) e
    if notv g then f_cond ev k (← cdr t) e
    else ev (← car (← cdr (← car t))) e

def f_if (ev : Nat → Nat → M Nat) (t e : Nat) : M Nat := do
  let c ← ev (← car t) e
  if notv c then ev (← car (← cdr (← cdr t))) e
  else ev (← car (← cdr t)) e

def f_leta (ev : Nat → Nat → M Nat) : Nat → Nat → Nat → M Nat
  | 0, _, _ => diverge
  | k + 1, t, e => do
    if ← letv t then
      let s ← car (← car t)
      let v ← ev (← car (← cdr (← car t))) e
      let e1 ← pair s v e
      f_leta ev k (← cdr t) e1
    else ev (← car t) e

def f_lambda (t e : Nat) : M Nat := do
  let v ← car t
  let x ← car (← cdr t)
  closure v x e

/-- Go: `func f_define(t, e L) L`.  The package-level `env` that is passed
to `pair` is read after `eval` has returned. -/
def f_define (ev : Nat → Nat → M Nat) (t e : Nat) : M Nat := do
  let s ← car t
  let v ← ev (← car (← cdr t)) e
  let g := (← getS).env
  let e1 ← pair s v g
  setS { (← getS) with env := e1 }
  car t

/-- The loop of `loadFile`, with the current value of `result`; the
parameter `env` of `loadFile` is the argument `e` here. -/
def loadLoop (h : Host) (ev : Nat → Nat → M Nat) : Nat → InputParser → Nat → Nat → M Nat
  | 0, _, _, _ => diverge
  | k + 1, p, e, result => do
    if p.ch = 0 then pure result
    else
      let p1 := p.skipWhitespace
      if p1.ch = 0 then pure result
      else
        let (expr, p2) ← p1.readExpr h k
        let bad ← (if T expr = ATOM then do pure (equ expr (← atom (bytes "ERR")))
                   else pure false)
        if bad then atom (bytes "PARSE-ERROR")
        else
          let r ← ev expr e
          let bad2 ← (if T r = ATOM then do pure (equ r (← atom (bytes "ERR")))
                      else pure false)
          if bad2 then atom (bytes "EVAL-ERROR")
          else loadLoop h ev k p2 e r

/-- Go: `func loadFile(filename string, env L) L`. -/
def loadFile (h : Host) (ev : Nat → Nat → M Nat) (k : Nat) (filename : GoString) (e : Nat) : M Nat := do
  match h.readFile filename with
  | none => atom (bytes "FILE-ERROR")
  | some content => loadLoop h ev k (newInputParser content) e (← getS).nilv

/-- Go: `string(b)` for a byte `b`, the UTF-8 encoding of the code point. -/
def byteString (b : Nat) : GoString :=
  if b < 128 then [b] else [192 + b / 64, 128 + b % 64]

/-- The loop `for j := i; A[j] != 0; j++ { filename += string(A[j]) }`;
it stops at a zero byte or panics at the end of the buffer, so it runs at
most `ALEN` times. -/
def nameLoop : Nat → Nat → GoString → M GoString
  | 0, _, _ => throwP Panic.indexOutOfRange
  | k + 1, j, acc => do
    if ALEN ≤ j then throwP Panic.indexOutOfRange
    else
      let b := (← getS).A j
      if b = 0 then pure acc else nameLoop k (j + 1) (acc ++ byteString b)

/-- Go: `func f_load(t, e L) L`. -/
def f_load (h : Host) (ev : Nat → Nat → M Nat) (k : Nat) (t e : Nat) : M Nat := do
  let args ← evlis ev k t e
  if notv args then atom (bytes "MISSING-FILENAME")
  else
    let filenameAtom ← car args
    if T filenameAtom ≠ ATOM then atom (bytes "INVALID-FILENAME")
    else
      let filename ← nameLoop (ALEN + 1) (ord filenameAtom) []
      loadFile h ev k filename (← getS).env

/-- Call of the Go function value stored in the primitive table. -/
def callPrim (h : Host) (ev : Nat → Nat → M Nat) (k : Nat) : Prim → Nat → Nat → M Nat
  | Prim.f_eval => f_eval ev k
  | Prim.f_quote => f_quote
  | Prim.f_cons => f_cons ev k
  | Prim.f_car => f_car ev k
  | Prim.f_cdr => f_cdr ev k
  | Prim.f_add => f_add ev k
  | Prim.f_sub => f_sub ev k
  | Prim.f_mul => f_mul ev k
  | Prim.f_div => f_div ev k
  | Prim.f_int => f_int ev k
  | Prim.f_lt => f_lt ev k
  | Prim.f_eq => f_eq ev k
  | Prim.f_pair => f_pair ev k
  | Prim.f_or => f_or ev k
  | Prim.f_and => f_and ev k
  | Prim.f_not => f_not ev k
  | Prim.f_cond => f_cond ev k
  | Prim.f_if => f_if ev
  | Prim.f_leta => f_leta ev k
  | Prim.f_lambda => f_lambda
  | Prim.f_define => f_define ev
  | Prim.f_load => f_load h ev k

/-- Go: `func apply(f, t, e L) L`.  In the closure case the package-level
`env` is read when `ifv` is called, after `evlis` has returned. -/
def apply (h : Host) (ev : Nat → Nat → M Nat) (k : Nat) (f t e : Nat) : M Nat := do
  if T f = PRIM then
    let s ← getS
    match s.prims.find? (fun p => decide (mapGet s.primIndex p.1 = ord f)) with
    | some p => callPrim h ev k p.2 t e
    | none => pure s.err
  else if T f = CLOS then
    let body ← cdr (← car f)
    let params ← car (← car f)
    let args ← evlis ev k t e
    let ce ← cdr f
    let e1 ← bind k params args (ifv ce (← getS).env)
    ev body e1
  else pure (← getS).err

/-- One level of `eval`, with `ev` for the recursive calls. -/
def evalBody (h : Host) (ev : Nat → Nat → M Nat) (k : Nat) (x e : Nat) : M Nat := do
  if T x = ATOM then assoc k x e
  else if T x = CONS then
    let f ← ev (← car x) e
    apply h ev k f (← cdr x) e
  else pure x

/-- Go: `func eval(x, e L) L`.  The fuel bounds the nesting depth of the
calls of `eval` and the length of every loop below it. -/
def eval (h : Host) : Nat → Nat → Nat → M Nat
  | 0 => fun _ _ => diverge
  | n + 1 => evalBody h (eval h n) n

/-! ## Start-up -/

/-- The composite literal assigned to `prims` in `initTinyLisp`. -/
def primTable : List (GoString × Prim) :=
  [(bytes "eval", Prim.f_eval), (bytes "quote", Prim.f_quote), (bytes "cons", Prim.f_cons),
   (bytes "car", Prim.f_car), (bytes "cdr", Prim.f_cdr), (bytes "+", Prim.f_add),
   (bytes "-", Prim.f_sub), (bytes "*", Prim.f_mul), (bytes "/", Prim.f_div),
   (bytes "int", Prim.f_int), (bytes "<", Prim.f_lt), (bytes "eq?", Prim.f_eq),
   (bytes "pair?", Prim.f_pair), (bytes "or", Prim.f_or), (bytes "and", Prim.f_and),
   (bytes "not", Prim.f_not), (bytes "cond", Prim.f_cond), (bytes "if", Prim.f_if),
   (bytes "let*", Prim.f_leta), (bytes "lambda", Prim.f_lambda),
   (bytes "define", Prim.f_define)]

/-- The slice `primNames` in `initTinyLisp`. -/
def primNames : List GoString := primTable.map Prod.fst

/-- The composite literal assigned to `prims` in `main`. -/
def primTableMain : List (GoString × Prim) := primTable ++ [(bytes "load", Prim.f_load)]

/-- The slice `primNames` in `main`. -/
def primNamesMain : List GoString := primTableMain.map Prod.fst

/-- The loop `for _, name := range primNames` of start-up, with the
current value of `primOrd`. -/
def registerPrims : List GoString → Nat → M Unit
  | [], _ => pure ()
  | name :: rest, primOrd => do
    let s ← getS
    if (s.prims.lookup name).isSome then
      setS { s with primIndex := mapSet s.primIndex name primOrd }
      let a ← atom name
      let g := (← getS).env
      let e1 ← pair a (box PRIM primOrd) g
      setS { (← getS) with env := e1 }
      registerPrims rest ((primOrd + 1) % W64)
    else registerPrims rest primOrd

/-- The start-up sequence shared by `initTinyLisp` and `main`, for a given
primitive table and name list. -/
def setup (table : List (GoString × Prim)) (names : List GoString) : M Unit := do
  setS { (← getS) with nilv := box NIL 0 }
  let er ← atom (bytes "ERR")
  setS { (← getS) with err := er }
  let tr ← atom (bytes "#t")
  setS { (← getS) with tru := tr }
  let s ← getS
  let e0 ← pair s.tru s.tru s.nilv
  setS { (← getS) with env := e0, prims := table, primIndex := [] }
  registerPrims names 0

/-- Go: `func initTinyLisp()` of the test suite: the watermarks and the
atom buffer are reset, the cell array keeps its contents. -/
def initTinyLisp : M Unit := do
  setS { (← getS) with hp := 0, sp := N, A := fun _ => 0 }
  setup primTable primNames

/-- The package-level variables before `main` runs. -/
def zeroState : State :=
  { cell := fun _ => 0, hp := 0, sp := N, A := fun _ => 0, nilv := 0, tru := 0, err := 0,
    env := 0, prims := [], primIndex := [] }

/-- The part of `main` that precedes the read-eval-print loop. -/
def mainInit : M Unit := setup primTableMain primNamesMain

/-! ## Predicates on the arena used in the statements -/

/-- The value `v` is a `CONS` reference to a cell that lies inside the
array, at or above index `lo`. -/
def cellOk (lo v : Nat) : Bool :=
  decide (T v = CONS) && decide (lo ≤ ord v) && decide (ord v + 1 < N)

/-- The value `v` is, in state `s`, a chain of cons cells at or above `lo`
whose cars are `xs` and whose last cdr is `tl`. -/
def listSeg (s : State) (lo : Nat) : Nat → List Nat → Nat → Bool
  | v, [], tl => decide (v = tl)
  | v, x :: xs, tl =>
    cellOk lo v && decide (s.cell (ord v + 1) = x) && listSeg s lo (s.cell (ord v)) xs tl

/-- The value `e` is, in state `s`, a chain of environment nodes at or
above `lo` whose entries are the `(symbol . value)` pairs `l` and whose
last cdr is `tl`. -/
def envSeg (s : State) (lo : Nat) : Nat → List (Nat × Nat) → Nat → Bool
  | e, [], tl => decide (e = tl)
  | e, kv :: rest, tl =>
    cellOk lo e && cellOk lo (s.cell (ord e + 1)) &&
      decide (s.cell (ord (s.cell (ord e + 1)) + 1) = kv.1) &&
      decide (s.cell (ord (s.cell (ord e + 1))) = kv.2) &&
      envSeg s lo (s.cell (ord e)) rest tl

/-- The value bound to `v` by the front-most entry of `l` with key `v`. -/
def lookupEnv (v : Nat) (l : List (Nat × Nat)) : Option Nat :=
  (l.find? (fun kv => decide (kv.1 = v))).map Prod.snd

/-- The state a run ended in, `zeroState` if it did not end. -/
def Res.stateD {α : Type} (r : Res α) : State := (Res.final r).getD zeroState

/-- The value a run returned, the default value if it did not return. -/
def Res.valD {α : Type} [Inhabited α] (r : Res α) : α := (Res.val r).getD default

/-! ## Example runs -/

/-- The state after `initTinyLisp` in a fresh process. -/
def exampleInit : Res Unit := initTinyLisp zeroState

/-- The environment of `TestEnvironment`: `pair(x, 1, pair(y, 2, nilv))`
built in a fresh arena, with `x`, `y` the atoms at offsets 0 and 2. -/
def exampleEnv : Res Nat :=
  (do let e ← pair (box ATOM 2) (num 2) (box NIL 0)
      pair (box ATOM 0) (num 1) e) zeroState

/-- The byte region of the arena is well formed: it lies inside the
buffer and, unless it is empty, its last byte is a terminator. -/
def arenaOk (s : State) : Prop := s.hp ≤ ALEN ∧ (s.hp = 0 ∨ s.A (s.hp - 1) = 0)

/-- The state `u` is reached from `s` by a sequence of calls of `atom`
that returned. -/
inductive AtomCalls : State → State → Prop where
  | refl (s : State) : AtomCalls s s
  | step {s t u : State} (str : GoString) (v : Nat) :
      AtomCalls s t → atom str t = Res.ok v u → AtomCalls s u

/-- The byte region of `t` extends that of `s`: the watermark has not
moved down and every byte below the watermark of `s` is unchanged. -/
def arenaExt (s t : State) : Prop := s.hp ≤ t.hp ∧ ∀ j, j < s.hp → t.A j = s.A j

/-- The state after `pair(v, x, e)` has allocated its two cells below the
watermark of `s`. -/
def afterPair (v x e : Nat) (s : State) : State :=
  { s with
    cell := upd (upd (upd (upd s.cell (s.sp - 1) v) (s.sp - 2) x) (s.sp - 3) (box CONS (s.sp - 2)))
              (s.sp - 4) e,
    sp := s.sp - 4 }

/-- The argument list of `TestDefine`: after `initTinyLisp`, the list
`(x 42)` built by `cons(atom("x"), cons(42, nilv))`. -/
def exampleDefine : Res Nat :=
  (do initTinyLisp
      let x ← atom (bytes "x")
      let a ← cons (num 42) (← getS).nilv
      cons x a) zeroState

/-- A host without files and without number syntax. -/
def noHost : Host := { readFile := fun _ => none, parseFloat := fun _ => none }

/-- The value of an unsigned decimal integer literal, digit by digit. -/
def digitsValue (s : GoString) : Option Nat :=
  if s = [] then none
  else s.foldl (fun acc c => acc.bind (fun a =>
    if 48 ≤ c ∧ c ≤ 57 then some (a * 10 + (c - 48)) else none)) (some 0)

/-- A host without files whose `ParseFloat` accepts the unsigned decimal
integer literals, converting them as Go does. -/
def decimalHost : Host :=
  { readFile := fun _ => none, parseFloat := fun s => (digitsValue s).map num }

/-- The helper `parseAndEval` of the integration tests, with the reader
`inputParser` of `l0.go`: start up, read one form, evaluate it in the
global environment. -/
def parseAndEval (src : String) (fuel : Nat) : Res Nat :=
  (do initTinyLisp
      let (x, _) ← (newInputParser (bytes src)).readExpr decimalHost fuel
      eval decimalHost fuel x (← getS).env) zeroState

/-- The application `((lambda (x y) (+ x y)) 3 4)` of `TestLambdaFunctions`
after start-up and reading, at the moment `eval` calls `apply`: the
closure that the operator has evaluated to, and the argument list. -/
def exampleApply : Res (Nat × Nat) :=
  (do initTinyLisp
      let (x, _) ← (newInputParser (bytes "((lambda (x y) (+ x y)) 3 4)")).readExpr decimalHost 60
      let f ← eval decimalHost 60 (← car x) (← getS).env
      let t ← cdr x
      pure (f, t)) zeroState

/-- The parameters `x`, `y` of the closure of `exampleApply`. -/
def exampleParams : List Nat := [box ATOM 93, box ATOM 95]

/-- The argument values 3, 4 of `exampleApply`. -/
def exampleValues : List Nat := [num 3, num 4]

/-- A closure made by `closure(nilv, tru, nilv)` after start-up (no
parameters, body `#t`, created in the empty environment) and applied to
no arguments. -/
def exampleNilClosure : Res Nat :=
  (do initTinyLisp
      let s ← getS
      let c ← closure s.nilv s.tru s.nilv
      apply noHost (eval noHost 60) 60 c s.nilv s.nilv) zeroState

/-- The body `#t` of `exampleNilClosure` evaluated in the empty
environment in which the closure was created. -/
def exampleNilBody : Res Nat :=
  (do initTinyLisp
      let s ← getS
      let _ ← closure s.nilv s.tru s.nilv
      eval noHost 60 s.tru s.nilv) zeroState

/-- The global environment after start-up. -/
def exampleGlobalEnv : Res Nat :=
  (do initTinyLisp
      pure (← getS).env) zeroState

/-- A closure made after start-up by `closure(nilv, 1, e)` with `e` the
cdr of the global environment, which is not the global environment. -/
def exampleClosure : Res Nat :=
  closure (box NIL 0) (num 1) (box CONS 1964) exampleGlobalEnv.stateD

/-- The computation `m` only allocates: when it returns, the watermark
`sp` has not moved up and every cell at or above the old watermark holds
what it held before. -/
def Framed {α : Type} (m : M α) : Prop :=
  ∀ (s : State) (v : α) (s1 : State), m s = Res.ok v s1 →
    s1.sp ≤ s.sp ∧ ∀ i, s.sp ≤ i → s1.cell i = s.cell i

/-- The value `f` is, in state `s`, a closure reference whose two cells
lie at or above the watermark and hold the parameter list `params`, the
body `body` and the stored environment `ce`. -/
def closureAt (s : State) (f params body ce : Nat) : Bool :=
  decide (T f = CLOS) && decide (s.sp ≤ ord f) && decide (ord f + 1 < N) &&
    cellOk s.sp (s.cell (ord f + 1)) &&
    decide (s.cell (ord (s.cell (ord f + 1)) + 1) = params) &&
    decide (s.cell (ord (s.cell (ord f + 1))) = body) &&
    decide (s.cell (ord f) = ce)

/-- The expressions `xs` are evaluated one after the other in the
environment `e`, starting in state `s`; every evaluation returns, the
values are `vs` and the final state is `s2`. -/
inductive EvalArgs (h : Host) (n e : Nat) : List Nat → State → List Nat → State → Prop where
  | nil (s : State) : EvalArgs h n e [] s [] s
  | cons {x v : Nat} {xs vs : List Nat} {s s1 s2 : State} :
      eval h n x e s = Res.ok v s1 → EvalArgs h n e xs s1 vs s2 →
      EvalArgs h n e (x :: xs) s (v :: vs) s2

/-- The outcome `r` with its final state replaced by `f` of it. -/
def Res.mapState {α : Type} (f : State → State) : Res α → Res α
  | Res.ok v s => Res.ok v (f s)
  | Res.panic p s => Res.panic p (f s)
  | Res.diverge => Res.diverge

/-- The failure a run ended with, if it ended with one. -/
def Res.failure {α : Type} : Res α → Option Panic
  | Res.panic p _ => some p
  | _ => none

/-- The arena after start-up and after a name of 15576 bytes has been
interned: the byte watermark is 15670 and the cell watermark 1960, which
leaves no room for another cell pair. -/
def exampleNearlyFull : Res Nat :=
  (do initTinyLisp
      atom (List.replicate 15576 97)) zeroState

/-- One change of the package-level variables after start-up: a call of
`cons` that returned, a call of `atom` that returned, or the assignment
`env = pair(sym, v, env)` of `f_define`. -/
inductive Step : State → State → Prop where
  | cons (x y r : Nat) (s s1 : State) : cons x y s = Res.ok r s1 → Step s s1
  | atom (str : GoString) (v : Nat) (s s1 : State) : atom str s = Res.ok v s1 → Step s s1
  | define (sym v e1 : Nat) (s s1 : State) :
      pair sym v s.env s = Res.ok e1 s1 → Step s { s1 with env := e1 }

/-- A finite sequence of changes. -/
inductive Steps : State → State → Prop where
  | refl (s : State) : Steps s s
  | tail {s t u : State} : Steps s t → Step t u → Steps s u

/-- Whenever the computation `m` returns, its final state is reached from
its initial state by a sequence of changes. -/
def Traced {α : Type} (m : M α) : Prop :=
  ∀ (s : State) (v : α) (s1 : State), m s = Res.ok v s1 → Steps s s1

/-- The two watermarks are consistent: the byte region ends at or below
the start of the cell region, and the cell watermark is not above the
node of the global environment. -/
def WatermarksOk (s : State) : Prop := s.hp ≤ 8 * s.sp ∧ s.sp ≤ ord s.env

/-- The states that are reached without a failure: start-up has returned
(from any state of the variables, which covers the reset done by
`initTinyLisp`), followed by any number of returning calls of `atom`,
`cons`, `pair`, `f_define`, `eval` and `gc`. -/
inductive Reachable (h : Host) : State → Prop where
  | start (table : List (GoString × Prim)) (names : List GoString) (s0 s : State) :
      setup table names s0 = Res.ok () s → Reachable h s
  | atom (str : GoString) (v : Nat) (s s1 : State) :
      Reachable h s → atom str s = Res.ok v s1 → Reachable h s1
  | cons (x y r : Nat) (s s1 : State) :
      Reachable h s → cons x y s = Res.ok r s1 → Reachable h s1
  | pair (v x e r : Nat) (s s1 : State) :
      Reachable h s → pair v x e s = Res.ok r s1 → Reachable h s1
  | define (n t e v : Nat) (s s1 : State) :
      Reachable h s → f_define (eval h n) t e s = Res.ok v s1 → Reachable h s1
  | eval (n x e v : Nat) (s s1 : State) :
      Reachable h s → eval h n x e s = Res.ok v s1 → Reachable h s1
  | gc (s s1 : State) : Reachable h s → gc s = Res.ok () s1 → Reachable h s1

/-- The values that `bind` pairs with `n` parameters when the argument
values are `as`: the arguments in order, followed by `err` for every
parameter that has no argument. -/
def padArgs (err n : Nat) (as : List Nat) : List Nat :=
  as ++ List.replicate (n - as.length) err


/-- The lists of `TestBind`: after start-up, `vars` is `(x y)` and `vals`
is `(1 2)`, built by `cons(x, cons(y, nilv))` and
`cons(1, cons(2, nilv))`. -/
def exampleBind : Res (Nat × Nat) :=
  (do initTinyLisp
      let x ← atom (bytes "x")
      let y ← atom (bytes "y")
      let nl := (← getS).nilv
      let vars ← cons x (← cons y nl)
      let vals ← cons (num 1) (← cons (num 2) nl)
      pure (vars, vals)) zeroState

/-- The application `((lambda (x y) y) 1)` after start-up and reading, at
the moment `eval` calls `apply`: the closure that the operator has
evaluated to, and the argument list. -/
def exampleShortApply : Res (Nat × Nat) :=
  (do initTinyLisp
      let (x, _) ← (newInputParser (bytes "((lambda (x y) y) 1)")).readExpr decimalHost 60
      let f ← eval decimalHost 60 (← car x) (← getS).env
      let t ← cdr x
      pure (f, t)) zeroState

/-- The values `1`, `2` of `TestBind`. -/
def exampleBindValues : List Nat := [num 1, num 2]

/-- The single argument value `1` of `exampleShortApply`. -/
def exampleShortValues : List Nat := [num 1]

/-- A dotted list built after start-up by `cons(1, atom("car"))`: the
list `(1 . car)`, whose tail is the symbol `car`. -/
def exampleDotted : Res Nat :=
  (do initTinyLisp
      let a ← atom (bytes "car")
      cons (num 1) a) zeroState

/-- The loop of the integration tests that run a list of forms: each form
is read by a parser of its own and evaluated in the global environment
of that moment; the result is the value of the last form. -/
def evalForms (h : Host) (fuel : Nat) : List String → Nat → M Nat
  | [], r => pure r
  | src :: rest, _ => do
    let (x, _) ← (newInputParser (bytes src)).readExpr h fuel
    let r ← eval h fuel x (← getS).env
    evalForms h fuel rest r

/-- Start-up followed by the forms `srcs`, as the integration tests with
a `setup` list run them. -/
def parseAndEvalAll (srcs : List String) (fuel : Nat) : Res Nat :=
  (do initTinyLisp
      evalForms decimalHost fuel srcs 0) zeroState

/-- In state `s` the environment `e`, a chain of nodes at or above `lo`,
has a binding of `x`, and the front-most one binds `x` to `v`. -/
def Resolves (s : State) (lo e x v : Nat) : Prop :=
  ∃ (l : List (Nat × Nat)) (tl : Nat), envSeg s lo e l tl = true ∧ lookupEnv x l = some v

/-- The form `(if 0 1 2)` after start-up and reading: the argument list
`(0 1 2)` that `f_if` receives. -/
def exampleIf : Res Nat :=
  (do initTinyLisp
      let (x, _) ← (newInputParser (bytes "(if 0 1 2)")).readExpr decimalHost 60
      cdr x) zeroState

/-- The form `(- 10 3 2)` of `TestArithmetic` after start-up and reading:
the argument list `(10 3 2)` that the primitive receives. -/
def exampleArith : Res Nat :=
  (do initTinyLisp
      let (x, _) ← (newInputParser (bytes "(- 10 3 2)")).readExpr decimalHost 60
      cdr x) zeroState

/-- The form `(eq? 1 2)` after start-up and reading: the argument list
`(1 2)` that `f_eq` receives. -/
def exampleEq : Res Nat :=
  (do initTinyLisp
      let (x, _) ← (newInputParser (bytes "(eq? 1 2)")).readExpr decimalHost 60
      cdr x) zeroState

/-- The value `c` is, in state `s`, a list at or above `lo` with at least
two elements, the first two being `a` and `b`: a clause `(guard body)` of
`cond` or a binding `(symbol expression)` of `let*`. -/
def formAt (s : State) (lo c a b : Nat) : Bool :=
  cellOk lo c && decide (s.cell (ord c + 1) = a) && cellOk lo (s.cell (ord c)) &&
    decide (s.cell (ord (s.cell (ord c)) + 1) = b)

/-- The value `t` is, in state `s`, a chain of cons cells at or above `lo`
whose elements are the two-element forms `l` and whose last cdr is `tl`. -/
def clauseSeg (s : State) (lo : Nat) : Nat → List (Nat × Nat) → Nat → Bool
  | t, [], tl => decide (t = tl)
  | t, ab :: rest, tl =>
    cellOk lo t && formAt s lo (s.cell (ord t + 1)) ab.1 ab.2 &&
      clauseSeg s lo (s.cell (ord t)) rest tl

/-- The form `(cond (() 1) (#t 2))` of `TestConditionals` after start-up
and reading: the list of clauses that `f_cond` receives. -/
def exampleCond : Res Nat :=
  (do initTinyLisp
      let (x, _) ← (newInputParser (bytes "(cond (() 1) (#t 2))")).readExpr decimalHost 60
      cdr x) zeroState

/-- The clause `(() 1)` that precedes the selected clause of
`exampleCond`: guard NIL, body 1. -/
def exampleCondPre : List (Nat × Nat) := [(box NIL 0, num 1)]

/-- The form `(and 1 2)` after start-up and reading: the argument list
`(1 2)` that `f_and` receives. -/
def exampleAnd : Res Nat :=
  (do initTinyLisp
      let (x, _) ← (newInputParser (bytes "(and 1 2)")).readExpr decimalHost 60
      cdr x) zeroState

/-- The form `(and 1 2 () 3)` after start-up and reading: the argument
list `(1 2 () 3)`, in which a NIL argument follows `1` and `2`. -/
def exampleAndStop : Res Nat :=
  (do initTinyLisp
      let (x, _) ← (newInputParser (bytes "(and 1 2 () 3)")).readExpr decimalHost 60
      cdr x) zeroState

/-- The form `(or () ())` after start-up and reading: the argument list
`(() ())` that `f_or` receives. -/
def exampleOr : Res Nat :=
  (do initTinyLisp
      let (x, _) ← (newInputParser (bytes "(or () ())")).readExpr decimalHost 60
      cdr x) zeroState

/-- The form `(or () () 5 6)` after start-up and reading: the argument
list `(() () 5 6)`, in which a non-NIL argument follows the two NIL
arguments. -/
def exampleOrStop : Res Nat :=
  (do initTinyLisp
      let (x, _) ← (newInputParser (bytes "(or () () 5 6)")).readExpr decimalHost 60
      cdr x) zeroState

/-- The argument values `1`, `2` of `exampleAnd` and `exampleAndStop`. -/
def exampleAndValues : List Nat := [num 1, num 2]

/-- The argument values NIL, NIL of `exampleOr` and `exampleOrStop`. -/
def exampleOrValues : List Nat := [box NIL 0, box NIL 0]

/-- The loop of `f_leta` on the bindings `(sym x)`: starting with the
environment `e` in state `s`, each expression `x` is evaluated in the
current environment and `pair(sym, value, e)` becomes the current
environment; the values are `vs`, the final environment is `e2` and the
final state `s3`. -/
inductive LetBinds (h : Host) (n : Nat) :
    Nat → State → List (Nat × Nat) → List Nat → Nat → State → Prop where
  | nil (e : Nat) (s : State) : LetBinds h n e s [] [] e s
  | cons {e e1 e2 sym x v : Nat} {rest : List (Nat × Nat)} {vs : List Nat}
      {s s1 s2 s3 : State} :
      eval h n x e s = Res.ok v s1 → pair sym v e s1 = Res.ok e1 s2 →
      LetBinds h n e1 s2 rest vs e2 s3 →
      LetBinds h n e s ((sym, x) :: rest) (v :: vs) e2 s3

/-- The form `(let* (x 1) (y 2) (+ x y))` after start-up and reading: the
argument list `((x 1) (y 2) (+ x y))` that `f_leta` receives. -/
def exampleLet : Res Nat :=
  (do initTinyLisp
      let (x, _) ← (newInputParser (bytes "(let* (x 1) (y 2) (+ x y))")).readExpr decimalHost 60
      cdr x) zeroState

/-- The bindings `(x 1)`, `(y 2)` of `exampleLet`. -/
def exampleLetBinds : List (Nat × Nat) := [(box ATOM 93, num 1), (box ATOM 95, num 2)]

/-- The state of `exampleLet` after the binding of `x`. -/
def exampleLetMid : State :=
  afterPair (box ATOM 93) (num 1) exampleLet.stateD.env exampleLet.stateD

/-- The state of `exampleLet` after the binding of `y`. -/
def exampleLetEnd : State :=
  afterPair (box ATOM 95) (num 2) (box CONS 1934) exampleLetMid

/-- The state after the start-up part of `main` in a fresh process. -/
def exampleMain : Res Unit := mainInit zeroState

/-- Looking a name up in the global environment: `assoc(atom(name), env)`. -/
def lookupName (name : GoString) (fuel : Nat) : M Nat := do
  let a ← atom name
  assoc fuel a (← getS).env

/-- The entry at index `k` of the primitive table of `main`. -/
def primEntry (k : Nat) : GoString × Prim := primTableMain.getD k ([], Prim.f_eval)

/-- The state `s` with the entries of the map `prims` in the order `p`;
the order models the order in which `range prims` visits the map. -/
def withPrims (s : State) (p : List (GoString × Prim)) : State := { s with prims := p }

/-- A host with one file, named `f`, that holds the two forms
`(define x 1) x`; numbers are read as by `decimalHost`. -/
def fileHost : Host :=
  { readFile := fun name => if name = bytes "f" then some (bytes "(define x 1) x") else none,
    parseFloat := decimalHost.parseFloat }

/-- The start-up of `main` followed by the evaluation of the line
`(load 'f)` in the global environment, with the file of `fileHost`. -/
def exampleLoad : Res Nat :=
  (do mainInit
      let (x, _) ← (newInputParser (bytes "(load 'f)")).readExpr fileHost 60
      eval fileHost 60 x (← getS).env) zeroState

/-- The read-eval-print loop of `main` on the input lines `srcs`: each
line is read by a parser of its own, evaluated in the global environment
of that moment and followed by `gc()`; the result is the value of the
last line. -/
def replLines (h : Host) (fuel : Nat) : List String → Nat → M Nat
  | [], r => pure r
  | src :: rest, _ => do
    let (x, _) ← (newInputParser (bytes src)).readExpr h fuel
    let r ← eval h fuel x (← getS).env
    gc
    replLines h fuel rest r

/-- The start-up of `main` followed by the two forms of the file of
`fileHost`, typed as two lines at the prompt. -/
def exampleRepl : Res Nat :=
  (do mainInit
      replLines fileHost 60 ["(define x 1)", "x"] 0) zeroState

/-- The form `(cond (() 1))` after start-up and reading: the list of
clauses that `f_cond` receives; the guard of its only clause is NIL. -/
def exampleCondNone : Res Nat :=
  (do initTinyLisp
      let (x, _) ← (newInputParser (bytes "(cond (() 1))")).readExpr decimalHost 60
      cdr x) zeroState

/-- The clause `(() 1)` of `exampleCondNone`: guard NIL, body 1. -/
def exampleCondNoneClauses : List (Nat × Nat) := [(box NIL 0, num 1)]

/-- The values of the guards of `exampleCondNone`. -/
def exampleCondNoneValues : List Nat := [box NIL 0]

/-- The state of an `inputParser` on `input` whose current character is
the byte at offset `i`: `pos` is `i + 1` and `ch` is that byte; at and
past the end of the input it is the state that `next` leaves there, with
`pos` the length of the input and `ch` zero. -/
def cursor (input : GoString) (i : Nat) : InputParser :=
  if i < input.length then { input := input, pos := i + 1, ch := input.getD i 0 }
  else { input := input, pos := input.length, ch := 0 }

/-- The bytes on which the loop of `readAtom` continues: above the space,
and none of `(`, `)`, the quote character. -/
def symChar (c : Nat) : Bool :=
  decide (32 < c) && decide (c ≠ 40) && decide (c ≠ 41) && decide (c ≠ 39)

/-- A symbol token for the host `h`: a non-empty string of bytes on
which `readAtom` continues, which `ParseFloat` does not accept. -/
def symTok (h : Host) (name : GoString) : Bool :=
  decide (name ≠ []) && name.all symChar && (h.parseFloat name).isNone

/-- The text of the elements `names` of a list and its closing
parenthesis: `sep` stands before the first element and one space before
every other element. -/
def elemsText (sep : GoString) : List GoString → GoString
  | [] => [41]
  | n :: ns => sep ++ (n ++ elemsText [32] ns)

/-- The text `(n1 n2 .. nk)`; `()` for no names. -/
def listText (names : List GoString) : GoString := 40 :: elemsText [] names

/-- The text `(a .` followed by `gap`, `b` and `)`: with a space for
`gap` it is `(a . b)`, with the empty `gap` it is `(a .b)`. -/
def dotText (gap a b : GoString) : GoString := 40 :: (a ++ (32 :: 46 :: (gap ++ (b ++ [41]))))

/-- The names `ns` are interned one after the other by calls of `atom`
that return, starting in state `s`; the values are `as` and the final
state is `s2`. -/
inductive Interns : List GoString → State → List Nat → State → Prop where
  | nil (s : State) : Interns [] s [] s
  | cons {n : GoString} {ns : List GoString} {a : Nat} {as : List Nat} {s s1 s2 : State} :
      atom n s = Res.ok a s1 → Interns ns s1 as s2 → Interns (n :: ns) s (a :: as) s2

/-- The names of the text `(a b)`. -/
def exampleNames : List GoString := [bytes "a", bytes "b"]

/-- After start-up, the call `atom("a")`. -/
def exampleAtomA : Res Nat := atom (bytes "a") exampleInit.stateD

/-- After `exampleAtomA`, the call `atom("b")`. -/
def exampleAtomB : Res Nat := atom (bytes "b") exampleAtomA.stateD

/-- The atoms `a` and `b` of `exampleAtomA` and `exampleAtomB`. -/
def exampleAtoms : List Nat := [box ATOM 93, box ATOM 95]

/-- The helper `testParseOnly` of the parser tests: start-up, then one
expression read from `src`. -/
def exampleRead (src : String) : Res (Nat × InputParser) :=
  (do initTinyLisp
      (newInputParser (bytes src)).readExpr noHost 60) zeroState

/-- The value `v` is a 64-bit pattern and, if it is a pair or closure
reference, or a NaN that becomes one when its quiet bit is set, its two
cells lie inside the array at or above index `lo`. -/
def GoodAt (lo v : Nat) : Prop :=
  v < 2 ^ 64 ∧ (isPairTag (fquiet v) = true → lo ≤ ord v ∧ ord v + 1 < N)

/-- The cells of `s` are well formed: the watermark `sp` is inside the
array, `env` is a `CONS` reference at or above the watermark, every cell
at or above the watermark holds a value that refers, if at all, to cells
above itself, and `nilv`, `tru`, `err` are not references. -/
def HeapOk (s : State) : Prop :=
  s.sp ≤ N ∧ cellOk s.sp s.env = true ∧
    (∀ i, s.sp ≤ i → i < N → GoodAt (i + 1) (s.cell i)) ∧
    GoodAt N s.nilv ∧ GoodAt N s.tru ∧ GoodAt N s.err

/-- The package variables read from `st` are good values at level `lo`. -/
def GoodSt (lo : Nat) (st : State) : Prop :=
  GoodAt lo st.env ∧ GoodAt N st.nilv ∧ GoodAt N st.tru ∧ GoodAt N st.err

/-- The computation `m`, run in a well-formed state whose watermark is at
most `lo`, leaves a well-formed state when it returns, does not raise the
watermark, and returns a value that satisfies `Q` at the new watermark. -/
def Safe {α : Type} (Q : Nat → α → Prop) (lo : Nat) (m : M α) : Prop :=
  ∀ (s : State) (v : α) (s1 : State), HeapOk s → s.sp ≤ lo → m s = Res.ok v s1 →
    HeapOk s1 ∧ s1.sp ≤ s.sp ∧ Q s1.sp v

/-- What `strconv.ParseFloat` returns is a number: a 64-bit pattern that
is not a pair or closure reference, also after its quiet bit is set. -/
def HostOk (h : Host) : Prop :=
  ∀ (str : GoString) (n : Nat), h.parseFloat str = some n → GoodAt N n

/-- The values reachable from the global environment of `s`: `env`
itself, and `car` and `cdr` of every reachable value with tag `CONS` or
`CLOS`. -/
inductive EnvReach (s : State) : Nat → Prop where
  | root : EnvReach s s.env
  | car {p : Nat} : EnvReach s p → isPairTag p = true → EnvReach s (s.cell (ord p + 1))
  | cdr {p : Nat} : EnvReach s p → isPairTag p = true → EnvReach s (s.cell (ord p))

/-- The state `t` is reached from `s` by top-level steps that returned: a
form is read by `readExpr` from the text `src` with a parser of its own
and evaluated by `eval` in the global environment of that moment, or
`gc()` is called. -/
inductive Later (h : Host) : State → State → Prop where
  | refl (s : State) : Later h s s
  | form {s t : State} (src : GoString) (k n x v : Nat) (p : InputParser) (t1 t2 : State) :
      Later h s t → (newInputParser src).readExpr h k t = Res.ok (x, p) t1 →
      eval h n x t1.env t1 = Res.ok v t2 → Later h s t2
  | gc {s t : State} (t1 : State) : Later h s t → gc t = Res.ok () t1 → Later h s t1

/-- The state `s` is reached from initialisation: `initTinyLisp` from any
state, or the start-up of `main` from a state with the initial watermark
`sp = N`, followed by top-level steps. -/
def Session (h : Host) (s : State) : Prop :=
  ∃ s0 s1, (initTinyLisp s0 = Res.ok () s1 ∨ (s0.sp = N ∧ mainInit s0 = Res.ok () s1)) ∧
    Later h s1 s

/-- After the start-up of `main`, the line `(define f (lambda (x) (cons x x)))`
typed at the prompt. -/
def exampleSessionA : Res Nat :=
  replLines decimalHost 60 ["(define f (lambda (x) (cons x x)))"] 0 exampleMain.stateD

/-- After `exampleSessionA`, the line `(f 1)` typed at the prompt. -/
def exampleSessionB : Res Nat :=
  replLines decimalHost 60 ["(f 1)"] 0 exampleSessionA.stateD

/-- A state reached by calls of `cons` and `atom`, definitions and calls
of `gc()`, where at each `gc()` the node of the global environment lies
at or below index `lo`, so that `gc()` does not reclaim the cells at or
above `lo`. -/
inductive Kept (lo : Nat) : State → State → Prop where
  | refl (s : State) : Kept lo s s
  | step {s t u : State} : Kept lo s t → Step t u → Kept lo s u
  | gc {s t : State} (u : State) :
      Kept lo s t → ord t.env ≤ lo → gc t = Res.ok () u → Kept lo s u

/-- One line at the prompt without its `gc()`: the line is read and the
form evaluated in the global environment of that moment. -/
def evalLine (h : Host) (fuel : Nat) (src : String) : M Nat := do
  let (x, _) ← (newInputParser (bytes src)).readExpr h fuel
  eval h fuel x (← getS).env

/-- The argument list of the form read from `src`. -/
def readArgs (h : Host) (fuel : Nat) (src : String) : M Nat := do
  let (x, _) ← (newInputParser (bytes src)).readExpr h fuel
  cdr x

/-- A session of `main`: after the line `(define x 42)` and its `gc()`,
the line `(define f (lambda (y) x))` has been read; the value is the
argument list `((y) x)` of its `lambda`. -/
def exampleKeptCreate : Res Nat :=
  (do let _ ← replLines decimalHost 60 ["(define x 42)"] 0
      let (form, _) ← (newInputParser (bytes "(define f (lambda (y) x))")).readExpr decimalHost 60
      let lam ← car (← cdr (← cdr form))
      cdr lam) exampleMain.stateD

/-- The session of `exampleKeptCreate` once `f_lambda` has created the
closure. -/
def exampleKeptClosure : Res Nat :=
  f_lambda exampleKeptCreate.valD exampleKeptCreate.stateD.env exampleKeptCreate.stateD

/-- The session after `f_define` has bound `f`, the atom at offset 100,
to the closure: `env = pair(f, closure, env)`. -/
def exampleKeptBound : State :=
  { (pair (box ATOM 100) (box CLOS 1928) exampleKeptClosure.stateD.env
      exampleKeptClosure.stateD).stateD with env := box CONS 1924 }

/-- The session after the `gc()` of the second line and the evaluation of
a third line, `(+ 1 2)`. -/
def exampleKeptNext : Res Nat :=
  evalLine decimalHost 60 "(+ 1 2)" (gc exampleKeptBound).stateD

/-- The session after the `gc()` of the third line, when the fourth
line, `(f 1)`, has been read: the argument list `(1)` of the call. -/
def exampleKeptCall : Res Nat :=
  readArgs decimalHost 60 "(f 1)" (gc exampleKeptNext.stateD).stateD

/-- The parameter list `(y)` of `exampleKeptCreate`. -/
def exampleKeptParams : List Nat := [box ATOM 102]

/-- The two entries at the front of the global environment of
`exampleKeptCall`: `f` and `x`. -/
def exampleKeptEntries : List (Nat × Nat) :=
  [(box ATOM 100, box CLOS 1928), (box ATOM 98, num 42)]

/-! # Verified properties -/

/-! ## Runs of the examples

Each lemma evaluates the examples of one group once; the properties below
take their closed facts from here. -/

/-- Runs of the start-up examples: the state after `initTinyLisp`, a nearly
full arena, interning after start-up and the form of `TestDefine`. -/
theorem runs_startup :
    (exampleInit.stateD.err = box ATOM 0 ∧
     sliceA exampleInit.stateD.A 0 3 = bytes "ERR" ∧ exampleInit.stateD.A 3 = 0) ∧
    (listSeg exampleDefine.stateD exampleDefine.stateD.sp exampleDefine.valD
       [box ATOM 93, num 42] (box NIL 0) = true ∧
     T (num 42) ≠ ATOM ∧ T (num 42) ≠ CONS ∧
     (4 ≤ exampleDefine.stateD.sp ∧
       exampleDefine.stateD.hp ≤ (exampleDefine.stateD.sp - 4) * 8)) ∧
    ((cons (num 1) (num 2) exampleNearlyFull.stateD).failure = some Panic.outOfMemory ∧
       (cons (num 1) (num 2) exampleNearlyFull.stateD).stateD.cell 1959 ≠
         exampleNearlyFull.stateD.cell 1959 ∧
       (atom (List.replicate 15600 97) exampleInit.stateD).failure = some Panic.outOfMemory ∧
       (atom (List.replicate 15600 97) exampleInit.stateD).stateD.A 93 ≠
         exampleInit.stateD.A 93) ∧
    ((cons (num 1) (num 2) exampleNearlyFull.stateD).failure
       = some Panic.outOfMemory ∧
     (atom (List.replicate 15600 97) exampleInit.stateD).failure
       = some Panic.outOfMemory) ∧
    ((exampleInit.stateD.hp ≤ ALEN ∧
     exampleInit.stateD.A (exampleInit.stateD.hp - 1) = 0) ∧
     (atom (bytes "x") exampleInit.stateD).val = some (box ATOM 93)) ∧
    ((atom [97, 0, 98] zeroState).val = some (box ATOM 0) ∧
       (atom [97, 0, 98] zeroState).stateD.hp = 4 ∧
       (atom [97, 0, 98] (atom [97, 0, 98] zeroState).stateD).val = some (box ATOM 4) ∧
       (atom [97, 0, 98] (atom [97, 0, 98] zeroState).stateD).stateD.hp = 8 ∧
       (atom [97, 0, 98] (atom [97, 0, 98] zeroState).stateD).stateD.A 4 ≠
         (atom [97, 0, 98] zeroState).stateD.A 4) ∧
    ((initTinyLisp zeroState).val = some () ∧
     (cons (num 0) (box NIL 0) exampleInit.stateD).val = some (box CONS 1958) ∧
     (atom (bytes "a") (cons (num 0) (box NIL 0) exampleInit.stateD).stateD).val
       = some (box ATOM 93)) ∧
    (T (box NIL 0) = NIL ∧ T exampleInit.stateD.nilv = NIL ∧
     T exampleInit.stateD.err = ATOM) := by
  decide!

/-- Runs of the closure examples: creation and application of closures
after start-up. -/
theorem runs_closures :
    ((parseAndEval "((lambda (x) (+ x 1)) 5)" 60).val = some (num 6)) ∧
    ((parseAndEval "((lambda (x y) (+ x y)) 3 4)" 60).val = some (num 7)) ∧
    (closureAt exampleApply.stateD exampleApply.valD.1 (box CONS 1956) (box CONS 1950)
       (box NIL 0) = true ∧
     listSeg exampleApply.stateD exampleApply.stateD.sp (box CONS 1956)
       exampleParams (box NIL 0) = true ∧
     listSeg exampleApply.stateD exampleApply.stateD.sp exampleApply.valD.2
       exampleValues (box NIL 0) = true ∧
     (6 * exampleParams.length ≤ exampleApply.stateD.sp ∧
       exampleApply.stateD.hp ≤ (exampleApply.stateD.sp - 6 * exampleParams.length) * 8) ∧
     T (num 3) ≠ ATOM ∧ T (num 3) ≠ CONS ∧ T (num 4) ≠ ATOM ∧ T (num 4) ≠ CONS) ∧
    ((parseAndEval "(((lambda (x) (lambda (y) (+ x y))) 10) 5)" 60).val = some (num 15)) ∧
    (exampleGlobalEnv.val = some (box CONS 1960) ∧ box NIL 0 ≠ box CONS 1960 ∧
       exampleNilClosure.val = some (box ATOM 4) ∧ exampleNilBody.val = some (box ATOM 0) ∧
       box ATOM 4 ≠ box ATOM 0) ∧
    (box CONS 1964 ≠ exampleGlobalEnv.stateD.env ∧
     exampleClosure.val = some (box CLOS 1956)) ∧
    ((parseAndEvalAll ["(define f (lambda () y))", "(define y 5)", "(f)"] 60).val
       = some (num 5)) ∧
    ((closure (box NIL 0) (num 1) exampleInit.stateD.env exampleInit.stateD).val
       = some (box CLOS 1956) ∧
     T exampleInit.stateD.nilv = NIL) ∧
    ((closure (box NIL 0) (num 1) (box NIL 0) exampleInit.stateD).val = some (box CLOS 1956) ∧
       (cdr (box CLOS 1956)
         (closure (box NIL 0) (num 1) (box NIL 0) exampleInit.stateD).stateD).val
         = some (box NIL 0) ∧
       T (box NIL 0) = NIL ∧ box NIL 0 ≠ exampleInit.stateD.env) ∧
    ((parseAndEvalAll ["(define x 42)", "(define f (lambda (y) x))", "(f 1)"] 60).val
       = some (num 42) ∧
     (parseAndEvalAll ["(define square (lambda (x) (* x x)))", "(square 5)"] 60).val
       = some (num 25)) ∧
    ((parseAndEvalAll ["(define x 42)", "(((lambda (x) (lambda () x)) 7))"] 60).val
         = some (num 7) ∧
       (parseAndEvalAll
         ["(define x 42)", "(define f (lambda () x))", "(define x 43)", "(f)"] 60).val
         = some (num 43) ∧
       num 7 ≠ num 42 ∧ num 43 ≠ num 42) := by
  decide!

/-- Runs of the application examples: parameter binding, short argument
lists, argument evaluation and fresh pairs. -/
theorem runs_apply :
    (((parseAndEval "((lambda args args) 1 2 3)" 60).val = some (box CONS 1936) ∧
       listSeg (parseAndEval "((lambda args args) 1 2 3)" 60).stateD
         (parseAndEval "((lambda args args) 1 2 3)" 60).stateD.sp (box CONS 1936)
         [num 1, num 2, num 3] (box NIL 0) = true)) ∧
    (listSeg exampleBind.stateD exampleBind.stateD.sp exampleBind.valD.1
       exampleParams (box NIL 0) = true ∧
     listSeg exampleBind.stateD exampleBind.stateD.sp exampleBind.valD.2
       exampleBindValues (box NIL 0) = true ∧
     (4 * exampleParams.length ≤ exampleBind.stateD.sp ∧ exampleBind.stateD.sp ≤ N ∧
       exampleBind.stateD.hp ≤ (exampleBind.stateD.sp - 4 * exampleParams.length) * 8)) ∧
    (((parseAndEval "((lambda (x y) y) 1)" 60).val = some (box ATOM 0) ∧
       (parseAndEval "((lambda (x y) y) 1)" 60).stateD.err = box ATOM 0)) ∧
    (closureAt exampleShortApply.stateD exampleShortApply.valD.1 (box CONS 1956)
       (box ATOM 95) (box NIL 0) = true ∧
     listSeg exampleShortApply.stateD exampleShortApply.stateD.sp (box CONS 1956)
       exampleParams (box NIL 0) = true ∧
     listSeg exampleShortApply.stateD exampleShortApply.stateD.sp exampleShortApply.valD.2
       exampleShortValues (box NIL 0) = true ∧
     (6 * exampleParams.length ≤ exampleShortApply.stateD.sp ∧
       exampleShortApply.stateD.hp ≤
         (exampleShortApply.stateD.sp - 6 * exampleParams.length) * 8) ∧
     T (num 1) ≠ ATOM ∧ T (num 1) ≠ CONS ∧
     T exampleShortApply.stateD.nilv = NIL ∧ T exampleShortApply.stateD.err = ATOM) ∧
    (listSeg exampleApply.stateD exampleApply.stateD.sp exampleApply.valD.2
       exampleValues (box NIL 0) = true ∧
     T exampleApply.stateD.nilv = NIL ∧
     (2 * exampleValues.length ≤ exampleApply.stateD.sp ∧
       exampleApply.stateD.hp ≤ (exampleApply.stateD.sp - 2 * exampleValues.length) * 8) ∧
     T (num 3) ≠ ATOM ∧ T (num 3) ≠ CONS ∧ T (num 4) ≠ ATOM ∧ T (num 4) ≠ CONS ∧
     T (num 1) ≠ ATOM ∧ T (num 1) ≠ CONS ∧
     listSeg exampleDotted.stateD exampleDotted.stateD.sp exampleDotted.valD
       exampleShortValues (box ATOM 23) = true ∧
     T exampleDotted.stateD.nilv = NIL ∧
     (2 * exampleShortValues.length ≤ exampleDotted.stateD.sp ∧
       exampleDotted.stateD.hp ≤
         (exampleDotted.stateD.sp - 2 * exampleShortValues.length) * 8) ∧
     (assoc (60 - exampleShortValues.length - 1) (box ATOM 23) exampleDotted.stateD.env
       exampleDotted.stateD).val = some (box PRIM 3)) ∧
    (((parseAndEval "(42 1 2)" 60).val = some (box ATOM 0) ∧
       (parseAndEval "(42 1 2)" 60).stateD.err = box ATOM 0)) ∧
    ((parseAndEval "(eq? (cons 1 2) (cons 1 2))" 60).val = some (box NIL 0)) ∧
    ((cons (num 1) (num 2) exampleInit.stateD).val = some (box CONS 1958) ∧
     (cons (num 1) (num 2) (cons (num 1) (num 2) exampleInit.stateD).stateD).val
       = some (box CONS 1956)) := by
  decide!

/-- Runs of the examples of `if`, arithmetic and `eq?` after start-up. -/
theorem runs_forms :
    (((parseAndEval "(if () 1 2)" 60).val = some (num 2) ∧
       (parseAndEval "(if #t 42 24)" 60).val = some (num 42) ∧
       (parseAndEval "(if 0 1 2)" 60).val = some (num 1))) ∧
    (listSeg exampleIf.stateD exampleIf.stateD.sp exampleIf.valD
       [num 0, num 1, num 2] (box NIL 0) = true ∧
     T (num 0) ≠ ATOM ∧ T (num 0) ≠ CONS) ∧
    (((parseAndEval "(+ 1 2 3 4)" 60).val = some (num 10) ∧
       (parseAndEval "(- 10 3 2)" 60).val = some (num 5) ∧
       (parseAndEval "(* 2 3 4)" 60).val = some (num 24) ∧
       (parseAndEval "(/ 12 3 2)" 60).val = some (num 2) ∧
       (parseAndEval "(+ 7)" 60).val = some (num 7))) ∧
    (listSeg exampleArith.stateD exampleArith.stateD.sp exampleArith.valD
       (num 10 :: [num 3, num 2]) (box NIL 0) = true ∧
     ((T (num 10) ≠ ATOM ∧ T (num 10) ≠ CONS) ∧ (T (num 3) ≠ ATOM ∧ T (num 3) ≠ CONS) ∧
       (T (num 2) ≠ ATOM ∧ T (num 2) ≠ CONS)) ∧
     T exampleArith.stateD.nilv = NIL ∧
     (2 * (num 10 :: [num 3, num 2]).length ≤ exampleArith.stateD.sp ∧
       exampleArith.stateD.hp ≤
         (exampleArith.stateD.sp - 2 * (num 10 :: [num 3, num 2]).length) * 8)) ∧
    (((parseAndEval "(eq? 'a 'a)" 60).val = some (box ATOM 4) ∧
       (parseAndEval "(eq? 1 1)" 60).val = some (box ATOM 4) ∧
       (parseAndEval "(eq? 'a 'b)" 60).val = some (box NIL 0) ∧
       (parseAndEval "(eq? 1 2)" 60).val = some (box NIL 0) ∧
       (parseAndEval "(eq? 1 2)" 60).stateD.tru = box ATOM 4 ∧
       (parseAndEval "(eq? 1 2)" 60).stateD.nilv = box NIL 0)) ∧
    (listSeg exampleEq.stateD exampleEq.stateD.sp exampleEq.valD
       (num 1 :: num 2 :: []) (box NIL 0) = true ∧
     (T (num 1) ≠ ATOM ∧ T (num 1) ≠ CONS) ∧ (T (num 2) ≠ ATOM ∧ T (num 2) ≠ CONS) ∧
     (2 * (num 1 :: num 2 :: []).length ≤ exampleEq.stateD.sp ∧
       exampleEq.stateD.hp ≤ (exampleEq.stateD.sp - 2 * (num 1 :: num 2 :: []).length) * 8)) := by
  decide!

/-- Runs of the examples of `cond` after start-up. -/
theorem runs_cond :
    ((parseAndEval "(cond (() 1) (#t 2))" 60).val = some (num 2)) ∧
    (clauseSeg exampleCond.stateD exampleCond.stateD.sp exampleCond.valD
       (exampleCondPre ++ [(box ATOM 4, num 2)]) (box NIL 0) = true ∧
     (T (box NIL 0) ≠ ATOM ∧ T (box NIL 0) ≠ CONS ∧ T (box NIL 0) = NIL) ∧
     (eval decimalHost 60 (box ATOM 4) exampleCond.stateD.env exampleCond.stateD).val
       = some (box ATOM 4) ∧
     T (box ATOM 4) ≠ NIL) ∧
    ((parseAndEval "(cond (() 1))" 60).val = some (box ATOM 0)) ∧
    ((parseAndEval "(cond)" 60).val = some (box ATOM 0)) ∧
    (clauseSeg exampleCondNone.stateD exampleCondNone.stateD.sp exampleCondNone.valD
       exampleCondNoneClauses (box NIL 0) = true ∧
     (T (box NIL 0) ≠ ATOM ∧ T (box NIL 0) ≠ CONS ∧ T (box NIL 0) = NIL) ∧
     T exampleCondNone.stateD.err = ATOM) := by
  decide!

/-- Runs of the examples of `and`, `or` and `let*` after start-up. -/
theorem runs_control :
    (((parseAndEval "(and 1 2 3)" 60).val = some (num 3) ∧
       (parseAndEval "(and)" 60).val = some (box ATOM 4) ∧
       (parseAndEval "(or () 2 3)" 60).val = some (num 2) ∧
       (parseAndEval "(or)" 60).val = some (box NIL 0) ∧
       (parseAndEvalAll ["(and () (define z 1))", "z"] 60).val = some (box ATOM 0) ∧
       (parseAndEvalAll ["(or 1 (define z 1))", "z"] 60).val = some (box ATOM 0))) ∧
    ((listSeg exampleAnd.stateD exampleAnd.stateD.sp exampleAnd.valD
       exampleAndValues (box NIL 0) = true ∧
     listSeg exampleAndStop.stateD exampleAndStop.stateD.sp exampleAndStop.valD
       (exampleAndValues ++ box NIL 0 :: [num 3]) (box NIL 0) = true ∧
     listSeg exampleOr.stateD exampleOr.stateD.sp exampleOr.valD
       exampleOrValues (box NIL 0) = true ∧
     listSeg exampleOrStop.stateD exampleOrStop.stateD.sp exampleOrStop.valD
       (exampleOrValues ++ num 5 :: [num 6]) (box NIL 0) = true) ∧
     ((T (num 1) ≠ ATOM ∧ T (num 1) ≠ CONS ∧ T (num 1) ≠ NIL) ∧
       (T (num 2) ≠ ATOM ∧ T (num 2) ≠ CONS ∧ T (num 2) ≠ NIL) ∧
       (T (num 5) ≠ ATOM ∧ T (num 5) ≠ CONS ∧ T (num 5) ≠ NIL) ∧
       (T (box NIL 0) ≠ ATOM ∧ T (box NIL 0) ≠ CONS ∧ T (box NIL 0) = NIL))) ∧
    (((parseAndEval "(let* (x 1) (y (+ x 1)) (+ x y))" 60).val = some (num 3) ∧
       (parseAndEval "(let* (x 1) (y (+ x 1)) (+ x y))" 60).stateD.env
         = exampleInit.stateD.env)) ∧
    (clauseSeg exampleLet.stateD exampleLet.stateD.sp exampleLet.valD
       exampleLetBinds (box CONS 1944) = true ∧
     listSeg exampleLet.stateD exampleLet.stateD.sp (box CONS 1944) [box CONS 1946]
       (box NIL 0) = true ∧
     (T (num 1) ≠ ATOM ∧ T (num 1) ≠ CONS) ∧ (T (num 2) ≠ ATOM ∧ T (num 2) ≠ CONS) ∧
     (4 ≤ exampleLet.stateD.sp ∧ exampleLet.stateD.sp ≤ N ∧
       exampleLet.stateD.hp ≤ (exampleLet.stateD.sp - 4) * 8) ∧
     (4 ≤ exampleLetMid.sp ∧ exampleLetMid.sp ≤ N ∧
       exampleLetMid.hp ≤ (exampleLetMid.sp - 4) * 8) ∧
     box CONS (exampleLet.stateD.sp - 4) = box CONS 1934 ∧
     box CONS (exampleLetMid.sp - 4) = box CONS 1930) := by
  decide!

/-- Runs of the examples that start with `main`: the primitive table,
`load` and a session of two lines. -/
theorem runs_main :
    ((List.range 22).all (fun k =>
       decide ((lookupName (primNamesMain.getD k []) 60 exampleMain.stateD).val
         = some (box PRIM k)) &&
       decide ((primEntry k).1 = primNamesMain.getD k []) &&
       decide (primTableMain.lookup (primNamesMain.getD k []) = some (primEntry k).2) &&
       decide (primEntry k ∈ primTableMain) &&
       decide (mapGet exampleMain.stateD.primIndex (primEntry k).1 = k) &&
       primTableMain.all (fun y =>
         !(decide (mapGet exampleMain.stateD.primIndex y.1 = k)) || decide (y = primEntry k)))
       = true ∧
     primTableMain.all (fun y => decide (mapGet exampleMain.stateD.primIndex y.1 < 22)) = true ∧
     primNamesMain.Nodup ∧ exampleMain.stateD.prims = primTableMain) ∧
    (exampleLoad.val = (atom (bytes "EVAL-ERROR") exampleLoad.stateD).val ∧
       exampleLoad.val ≠ none ∧ exampleLoad.val ≠ some (num 1) ∧
       (atom (bytes "EVAL-ERROR") exampleLoad.stateD).stateD.hp = exampleLoad.stateD.hp ∧
       (lookupName (bytes "x") 60 exampleLoad.stateD).val = some (num 1) ∧
       exampleRepl.val = some (num 1)) ∧
    (exampleMain.val = some () ∧ exampleSessionA.val = some (box ATOM 98) ∧
     exampleSessionB.val = some (box CONS 1912) ∧
     isPairTag exampleSessionA.stateD.env = true ∧
     isPairTag (exampleSessionA.stateD.cell (ord exampleSessionA.stateD.env + 1)) = true ∧
     isPairTag (exampleSessionA.stateD.cell
       (ord (exampleSessionA.stateD.cell (ord exampleSessionA.stateD.env + 1)))) = true) := by
  decide!

/-- Runs of the reader examples: lists, dotted pairs and tokens that start
with a dot. -/
theorem runs_reader :
    (exampleAtomA.val = some (box ATOM 93) ∧ exampleAtomB.val = some (box ATOM 95) ∧
     (2 * exampleNames.length ≤ exampleAtomB.stateD.sp ∧ exampleAtomB.stateD.sp ≤ N ∧
       exampleAtomB.stateD.hp ≤ (exampleAtomB.stateD.sp - 2 * exampleNames.length) * 8) ∧
     (symTok noHost (bytes "a") = true ∧ (bytes "a").headD 0 ≠ 46) ∧
     (symTok noHost (bytes "b") = true ∧ (bytes "b").headD 0 ≠ 46) ∧
     symTok noHost (bytes "hello") = true ∧ exampleNames.length + 4 ≤ 60) ∧
    (symTok noHost (bytes "a") = true ∧ symTok noHost (bytes ".b") = true ∧
     listText [bytes "a", bytes ".b"] = bytes "(a .b)" ∧
     (exampleRead ".b").val.map Prod.fst = some (box ATOM 93) ∧
     sliceA (exampleRead ".b").stateD.A 93 95 = bytes ".b" ∧
     (exampleRead "(a .b)").val.map Prod.fst = some (box CONS 1958) ∧
     cellOk 0 ((exampleRead "(a .b)").stateD.cell (ord (box CONS 1958))) = false) ∧
    (((exampleRead "(a .b)").val.map Prod.fst = some (box CONS 1958) ∧
       (exampleRead "(a .b)").stateD.cell 1959 = box ATOM 93 ∧
       (exampleRead "(a .b)").stateD.cell 1958 = box ATOM 95 ∧
       sliceA (exampleRead "(a .b)").stateD.A 93 94 = bytes "a" ∧
       sliceA (exampleRead "(a .b)").stateD.A 95 96 = bytes "b" ∧
       (exampleRead "(a .b)").stateD.hp = 97 ∧
       (exampleRead "(a . b)").val.map Prod.fst = some (box CONS 1958) ∧
       (exampleRead "(a . b)").stateD.cell 1959 = box ATOM 93 ∧
       (exampleRead "(a . b)").stateD.cell 1958 = box ATOM 95 ∧
       (exampleRead "(a b)").val.map Prod.fst = some (box CONS 1956))) ∧
    ((newInputParser (bytes ".b)")).skipWhitespace.ch = 46 ∧
     (symTok noHost (bytes "a") = true ∧ (bytes "a").headD 0 ≠ 46) ∧
     symTok noHost (bytes "b") = true) := by
  decide!

/-- Runs of the session with `gc()` after every line: the states between
the creation of a closure and a call of it two lines later. -/
theorem runs_session :
    ((replLines decimalHost 60
        ["(define x 42)", "(define f (lambda (y) x))", "(+ 1 2)", "(f 1)"] 0
        exampleMain.stateD).val = some (num 42)) ∧
    (T exampleKeptCreate.stateD.nilv = NIL ∧ T exampleKeptCreate.stateD.err = ATOM ∧
     listSeg exampleKeptCreate.stateD exampleKeptCreate.stateD.sp exampleKeptCreate.valD
       [box CONS 1944, box ATOM 98] (box NIL 0) = true ∧
     listSeg exampleKeptCreate.stateD exampleKeptCreate.stateD.sp (box CONS 1944)
       exampleKeptParams (box NIL 0) = true ∧
     box ATOM 98 ∉ exampleKeptParams ∧
     exampleKeptClosure.val = some (box CLOS 1928) ∧
     (pair (box ATOM 100) (box CLOS 1928) exampleKeptClosure.stateD.env
       exampleKeptClosure.stateD).val = some (box CONS 1924) ∧
     ord exampleKeptBound.env ≤ ord (box CLOS 1928) ∧
     (gc exampleKeptBound).val = some () ∧
     exampleKeptNext.val = some (num 3) ∧
     ord exampleKeptNext.stateD.env ≤ ord (box CLOS 1928) ∧
     (gc exampleKeptNext.stateD).val = some () ∧
     exampleKeptCall.val = some (box CONS 1922) ∧
     listSeg exampleKeptCall.stateD exampleKeptCall.stateD.sp exampleKeptCall.valD
       exampleShortValues (box NIL 0) = true ∧
     envSeg exampleKeptCall.stateD exampleKeptCall.stateD.sp exampleKeptCall.stateD.env
       exampleKeptEntries (box CONS 1956) = true ∧
     lookupEnv (box ATOM 98) exampleKeptEntries = some (num 42) ∧
     (2 * exampleShortValues.length + 4 * exampleKeptParams.length
         ≤ exampleKeptCall.stateD.sp ∧
       exampleKeptCall.stateD.hp ≤ (exampleKeptCall.stateD.sp -
         (2 * exampleShortValues.length + 4 * exampleKeptParams.length)) * 8) ∧
     T (num 1) ≠ ATOM ∧ T (num 1) ≠ CONS) := by
  decide!

/-! ## The outcome monad -/

theorem run_pure {α : Type} (v : α) (s : State) : (pure v : M α) s = Res.ok v s := rfl

theorem run_bind {α β : Type} (m : M α) (f : α → M β) (s : State) :
    (m >>= f) s = match m s with
      | Res.ok v s1 => f v s1
      | Res.panic p s1 => Res.panic p s1
      | Res.diverge => Res.diverge := rfl

theorem run_bind_ok {α β : Type} {m : M α} {f : α → M β} {s s1 : State} {v : α}
    (h : m s = Res.ok v s1) : (m >>= f) s = f v s1 := by
  rw [run_bind, h]

theorem run_bind_panic {α β : Type} {m : M α} {f : α → M β} {s s1 : State} {p : Panic}
    (h : m s = Res.panic p s1) : (m >>= f) s = Res.panic p s1 := by
  rw [run_bind, h]

theorem run_bind_diverge {α β : Type} {m : M α} {f : α → M β} {s : State}
    (h : m s = Res.diverge) : (m >>= f) s = Res.diverge := by
  rw [run_bind, h]

theorem run_getS_bind {β : Type} (f : State → M β) (s : State) : (getS >>= f) s = f s s := rfl

theorem run_setS_bind {β : Type} (t : State) (f : Unit → M β) (s : State) :
    (setS t >>= f) s = f () t := rfl

theorem run_pure_bind {α β : Type} (v : α) (f : α → M β) (s : State) :
    (pure v >>= f) s = f v s := rfl

theorem Res.eq_ok_of_val {α : Type} {r : Res α} {v : α} (h : r.val = some v) :
    r = Res.ok v r.stateD := by
  cases r with
  | ok w s =>
    have : w = v := by simpa [Res.val] using h
    subst this
    rfl
  | panic p s => simp [Res.val] at h
  | diverge => simp [Res.val] at h

theorem run_ite {α : Type} (c : Prop) [Decidable c] (a b : M α) (s : State) :
    (if c then a else b) s = if c then a s else b s := by
  split <;> rfl

/-! ## Value encoding -/

theorem tag_lt (t : Nat) (ht : t = ATOM ∨ t = PRIM ∨ t = CONS ∨ t = CLOS ∨ t = NIL) :
    t < 2 ^ 16 := by
  rcases ht with h | h | h | h | h <;> subst h <;> decide

theorem box_eq_add {t o : Nat} (ht : t < 2 ^ 16) (ho : o < 2 ^ 48) :
    box t o = 2 ^ 48 * t + o := by
  unfold box W64
  rw [Nat.mod_eq_of_lt (by omega), Nat.mul_comm, Nat.mul_add_lt_is_or ho]

theorem T_box {t o : Nat} (ht : t < 2 ^ 16) (ho : o < 2 ^ 48) : T (box t o) = t := by
  rw [box_eq_add ht ho]
  unfold T
  rw [Nat.shiftRight_eq_div_pow]
  omega

theorem ord_box {t o : Nat} (ht : t < 2 ^ 16) (ho : o < 2 ^ 48) : ord (box t o) = o := by
  rw [box_eq_add ht ho]
  unfold ord
  have h : (0xFFFFFFFFFFFF : Nat) = 2 ^ 48 - 1 := by norm_num
  rw [h, Nat.and_pow_two_sub_one_eq_mod]
  omega

theorem box_lt {t o : Nat} (ht : t < 2 ^ 16) (ho : o < 2 ^ 48) : box t o < 2 ^ 64 := by
  rw [box_eq_add ht ho]
  omega

theorem T_lt {x : Nat} (hx : x < 2 ^ 64) : T x < 2 ^ 16 := by
  unfold T
  rw [Nat.shiftRight_eq_div_pow]
  omega

theorem and_clear_low (x : Nat) (hx : x < 2 ^ 64) :
    x &&& 0xFFFFFFFFFFFFFFFE = 2 * (x / 2) := by
  have h1 : (x &&& 0xFFFFFFFFFFFFFFFE) / 2 = x / 2 := by
    rw [Nat.and_div_two]
    have h : (0xFFFFFFFFFFFFFFFE : Nat) / 2 = 2 ^ 63 - 1 := by norm_num
    rw [h, Nat.and_pow_two_sub_one_eq_mod]
    omega
  have h2 : ¬ (x &&& 0xFFFFFFFFFFFFFFFE) % 2 = 1 := by
    rw [Nat.and_mod_two_eq_one]
    omega
  omega

theorem isPairTag_iff {p : Nat} (hp : p < 2 ^ 64) :
    isPairTag p = true ↔ (T p = CONS ∨ T p = CLOS) := by
  have ht := T_lt hp
  unfold isPairTag andNot
  have hm : (W64 - 1) ^^^ (CONS ^^^ CLOS) = 0xFFFFFFFFFFFFFFFE := by decide
  rw [hm, and_clear_low _ (by omega)]
  simp only [decide_eq_true_eq, CONS, CLOS]
  omega

theorem isPairTag_box_CONS {o : Nat} (ho : o < 2 ^ 48) : isPairTag (box CONS o) = true := by
  rw [isPairTag_iff (box_lt (by decide) ho)]
  exact Or.inl (T_box (by decide) ho)

theorem isPairTag_box_CLOS {o : Nat} (ho : o < 2 ^ 48) : isPairTag (box CLOS o) = true := by
  rw [isPairTag_iff (box_lt (by decide) ho)]
  exact Or.inr (T_box (by decide) ho)

/-! ## Cons cells -/

theorem car_pair {p : Nat} (h : isPairTag p = true) (s : State) :
    car p s = readCell (ord p + 1) s := by
  simp [car, h]

theorem cdr_pair {p : Nat} (h : isPairTag p = true) (s : State) :
    cdr p s = readCell (ord p) s := by
  simp [cdr, h]

theorem car_not_pair {p : Nat} (h : isPairTag p = false) (s : State) :
    car p s = Res.ok s.err s := by
  simp [car, h]
  rfl

theorem cdr_not_pair {p : Nat} (h : isPairTag p = false) (s : State) :
    cdr p s = Res.ok s.err s := by
  simp [cdr, h]
  rfl

theorem readCell_ok {i : Nat} (h : i < N) (s : State) : readCell i s = Res.ok (s.cell i) s := by
  simp [readCell, h]
/-- What a successful `cons` does to the state. -/
theorem cons_ok_iff (x y : Nat) (s : State) (r : Nat) (s1 : State) :
    cons x y s = Res.ok r s1 ↔
      (2 ≤ s.sp ∧ s.sp ≤ N ∧ s.hp ≤ (s.sp - 2) * 8 ∧ r = box CONS (s.sp - 2) ∧
        s1 = { s with cell := upd (upd s.cell (s.sp - 1) x) (s.sp - 2) y, sp := s.sp - 2 }) := by
  simp only [cons, run_bind, getS, writeCell, setS]
  by_cases h1 : wsub s.sp 1 < N
  · by_cases h2 : wsub s.sp 2 < N
    · have a2 : 2 ≤ s.sp ∧ s.sp ≤ N ∧ wsub s.sp 2 = s.sp - 2 ∧ wsub s.sp 1 = s.sp - 1 := by
        unfold wsub W64 N at *
        split at h2 <;> split at h1 <;> simp <;> omega
      obtain ⟨a, b, c, d⟩ := a2
      have b3 : (s.sp - 2) * 8 % W64 = (s.sp - 2) * 8 := by
        unfold W64 N at *; omega
      rw [d] at h1
      rw [c] at h2
      simp only [c, d, b3, h1, h2, if_true]
      by_cases h3 : (s.sp - 2) * 8 < s.hp
      · rw [run_ite, if_pos h3]
        simp only [throwP]
        constructor
        · intro h; cases h
        · intro h; omega
      · rw [run_ite, if_neg h3]
        simp only [run_pure]
        constructor
        · intro h
          injection h with h4 h5
          exact ⟨a, b, by omega, h4.symm, h5.symm⟩
        · rintro ⟨_, _, _, rfl, rfl⟩
          rfl
    · simp only [h1, h2, if_true, if_false]
      constructor
      · intro h; cases h
      · intro h
        exfalso
        apply h2
        unfold wsub W64 N at *
        split <;> omega
  · simp only [h1, if_false]
    constructor
    · intro h; cases h
    · intro h
      exfalso
      apply h1
      unfold wsub W64 N at *
      split <;> omega

theorem upd_same (f : Nat → Nat) (i v : Nat) : upd f i v i = v := by
  simp [upd]

theorem upd_other (f : Nat → Nat) {i j : Nat} (v : Nat) (h : j ≠ i) : upd f i v j = f j := by
  simp [upd, h]

theorem N_lt : N < 2 ^ 48 := by decide

/-- C1: whenever `cons(a, b)` returns, its result has tag `CONS`, and in
the state it leaves behind `car` of the result is bit-identical to `a` and
`cdr` of the result is bit-identical to `b`; neither read changes the
state. -/
theorem cons_car_cdr (a b : Nat) (s : State) (r : Nat) (s1 : State)
    (h : cons a b s = Res.ok r s1) :
    T r = CONS ∧ car r s1 = Res.ok a s1 ∧ cdr r s1 = Res.ok b s1 := by
  obtain ⟨h2, hN, _, hr, hs⟩ := (cons_ok_iff a b s r s1).1 h
  have hN2 : N < 2 ^ 48 := N_lt
  have ho : s.sp - 2 < 2 ^ 48 := by omega
  have hp : isPairTag r = true := by rw [hr]; exact isPairTag_box_CONS ho
  have hord : ord r = s.sp - 2 := by rw [hr]; exact ord_box (by decide) ho
  refine ⟨by rw [hr]; exact T_box (by decide) ho, ?_, ?_⟩
  · rw [car_pair hp, hord, readCell_ok (by omega)]
    have hc : s1.cell (s.sp - 2 + 1) = a := by
      rw [hs]
      show upd (upd s.cell (s.sp - 1) a) (s.sp - 2) b (s.sp - 2 + 1) = a
      rw [upd_other _ _ (by omega)]
      have e : s.sp - 2 + 1 = s.sp - 1 := by omega
      rw [e, upd_same]
    rw [hc]
  · rw [cdr_pair hp, hord, readCell_ok (by omega)]
    have hc : s1.cell (s.sp - 2) = b := by
      rw [hs]
      show upd (upd s.cell (s.sp - 1) a) (s.sp - 2) b (s.sp - 2) = b
      rw [upd_same]
    rw [hc]

/-- Witness for C1: the test `TestConsCarCdr`, `cons(42, 24)` in a fresh
arena. -/
theorem cons_car_cdr_witness :
    ∃ r s1, cons (num 42) (num 24) zeroState = Res.ok r s1 ∧
      T r = CONS ∧ car r s1 = Res.ok (num 42) s1 ∧ cdr r s1 = Res.ok (num 24) s1 :=
  ⟨_, _, (cons_ok_iff (num 42) (num 24) zeroState _ _).2
      ⟨by decide, by decide, by decide, rfl, rfl⟩,
    cons_car_cdr (num 42) (num 24) zeroState _ _
      ((cons_ok_iff (num 42) (num 24) zeroState _ _).2
        ⟨by decide, by decide, by decide, rfl, rfl⟩)⟩

/-- C5: for each of the five tags `t` and every ordinal `o` below `2^48`,
`T(box(t, o)) = t` and `ord(box(t, o)) = o`. -/
theorem box_roundtrip (t o : Nat)
    (ht : t = ATOM ∨ t = PRIM ∨ t = CONS ∨ t = CLOS ∨ t = NIL) (ho : o < 2 ^ 48) :
    T (box t o) = t ∧ ord (box t o) = o :=
  ⟨T_box (tag_lt t ht) ho, ord_box (tag_lt t ht) ho⟩

/-- Witness for C5: the case `{"cons", CONS, 512}` of `TestNaNBoxing`. -/
theorem box_roundtrip_witness :
    (CONS = ATOM ∨ CONS = PRIM ∨ CONS = CONS ∨ CONS = CLOS ∨ CONS = NIL) ∧ 512 < 2 ^ 48 ∧
      T (box CONS 512) = CONS ∧ ord (box CONS 512) = 512 :=
  ⟨by decide, by decide, box_roundtrip CONS 512 (by decide) (by decide)⟩

/-- C6: for every 64-bit value `p` whose tag is neither `CONS` nor `CLOS`,
`car(p)` and `cdr(p)` return the value of the package variable `err`,
without a panic and without changing the state; and start-up sets `err`
to the atom at offset 0, whose name is `ERR`. -/
theorem car_cdr_error (p : Nat) (s : State) (hp : p < 2 ^ 64)
    (h1 : T p ≠ CONS) (h2 : T p ≠ CLOS) :
    (car p s = Res.ok s.err s ∧ cdr p s = Res.ok s.err s) ∧
      exampleInit.stateD.err = box ATOM 0 ∧
      sliceA exampleInit.stateD.A 0 3 = bytes "ERR" ∧ exampleInit.stateD.A 3 = 0 := by
  have h : isPairTag p = false := by
    cases hq : isPairTag p
    · rfl
    · rcases (isPairTag_iff hp).1 hq with h | h
      · exact absurd h h1
      · exact absurd h h2
  exact ⟨⟨car_not_pair h s, cdr_not_pair h s⟩, runs_startup.1⟩

/-- Witness for C6: the number 42 of `TestConsCarCdr`, after start-up. -/
theorem car_cdr_error_witness :
    num 42 < 2 ^ 64 ∧ T (num 42) ≠ CONS ∧ T (num 42) ≠ CLOS ∧
      ((car (num 42) exampleInit.stateD = Res.ok exampleInit.stateD.err exampleInit.stateD ∧
        cdr (num 42) exampleInit.stateD = Res.ok exampleInit.stateD.err exampleInit.stateD) ∧
      exampleInit.stateD.err = box ATOM 0 ∧
      sliceA exampleInit.stateD.A 0 3 = bytes "ERR" ∧ exampleInit.stateD.A 3 = 0) := by
  have facts : num 42 < 2 ^ 64 ∧ T (num 42) ≠ CONS ∧ T (num 42) ≠ CLOS := by decide!
  exact ⟨facts.1, facts.2.1, facts.2.2,
    car_cdr_error (num 42) exampleInit.stateD facts.1 facts.2.1 facts.2.2⟩

/-! ## Truth values -/

theorem eq_box_of_tag {x t : Nat} (hx : x < 2 ^ 64) (ht : T x = t) :
    x = box t (x % 2 ^ 48) := by
  have hlt : t < 2 ^ 16 := by rw [← ht]; exact T_lt hx
  rw [box_eq_add hlt (Nat.mod_lt _ (by norm_num))]
  unfold T at ht
  rw [Nat.shiftRight_eq_div_pow] at ht
  omega

/-- C7 (counterexample): `box(NIL, 1)` is falsy and is not bit-identical
to `box(NIL, 0)`. -/
theorem notv_only_nil_counterexample :
    ¬ (notv (box NIL 1) = true ↔ box NIL 1 = box NIL 0) := by
  decide

/-- C7 (amended): a 64-bit value is falsy exactly when its tag is `NIL`,
that is, when it is `box(NIL, o)` for some 48-bit ordinal `o`; among these
is `box(NIL, 0)`, and the number 0 and every atom (so `#t` and `ERR`) are
truthy. -/
theorem notv_iff_nil_tag (x : Nat) (hx : x < 2 ^ 64) :
    (notv x = true ↔ ∃ o, o < 2 ^ 48 ∧ x = box NIL o) ∧
      notv (box NIL 0) = true ∧ notv (num 0) = false ∧
      (∀ i, i < 2 ^ 48 → notv (box ATOM i) = false) := by
  refine ⟨⟨?_, ?_⟩, by decide, by decide!, ?_⟩
  · intro h
    have ht : T x = NIL := by simpa [notv] using h
    exact ⟨x % 2 ^ 48, Nat.mod_lt _ (by norm_num), eq_box_of_tag hx ht⟩
  · rintro ⟨o, ho, rfl⟩
    simp [notv, T_box (show NIL < 2 ^ 16 by decide) ho]
  · intro i hi
    simp [notv, T_box (show ATOM < 2 ^ 16 by decide) hi]
    decide

/-- Witness for C7 (amended): the value `box(NIL, 1)`. -/
theorem notv_iff_nil_tag_witness :
    box NIL 1 < 2 ^ 64 ∧
      ((notv (box NIL 1) = true ↔ ∃ o, o < 2 ^ 48 ∧ box NIL 1 = box NIL o) ∧
        notv (box NIL 0) = true ∧ notv (num 0) = false ∧
        (∀ i, i < 2 ^ 48 → notv (box ATOM i) = false)) :=
  ⟨by decide, notv_iff_nil_tag (box NIL 1) (by decide)⟩

/-! ## Self-evaluating values -/

theorem eval_other_tag (h : Host) (n : Nat) (x e : Nat) (s : State)
    (h1 : T x ≠ ATOM) (h2 : T x ≠ CONS) :
    eval h (n + 1) x e s = Res.ok x s := by
  show evalBody h (eval h n) n x e s = Res.ok x s
  unfold evalBody
  rw [if_neg h1, if_neg h2]
  rfl

/-- C4: with any positive fuel, `eval(x, e)` returns `x` itself and leaves
the state unchanged whenever the tag of `x` is neither `ATOM` nor `CONS`. -/
theorem eval_self (h : Host) (n : Nat) (x e : Nat) (s : State)
    (h1 : T x ≠ ATOM) (h2 : T x ≠ CONS) :
    eval h (n + 1) x e s = Res.ok x s :=
  eval_other_tag h n x e s h1 h2

/-- Witness for C4: the number 42 of `TestSimpleEvaluation`, evaluated
after start-up in the global environment. -/
theorem eval_self_witness :
    T (num 42) ≠ ATOM ∧ T (num 42) ≠ CONS ∧
      eval noHost 1 (num 42) exampleInit.stateD.env exampleInit.stateD
        = Res.ok (num 42) exampleInit.stateD := by
  have facts : T (num 42) ≠ ATOM ∧ T (num 42) ≠ CONS := by decide!
  exact ⟨facts.1, facts.2,
    eval_self noHost 0 (num 42) exampleInit.stateD.env exampleInit.stateD facts.1 facts.2⟩

/-! ## Environments -/

theorem T_CONS_lt {p : Nat} (h : T p = CONS) : p < 2 ^ 64 := by
  unfold T CONS at h
  rw [Nat.shiftRight_eq_div_pow] at h
  omega

theorem isPairTag_of_CONS {p : Nat} (h : T p = CONS) : isPairTag p = true :=
  (isPairTag_iff (T_CONS_lt h)).2 (Or.inl h)

theorem cellOk_iff (lo v : Nat) :
    cellOk lo v = true ↔ T v = CONS ∧ lo ≤ ord v ∧ ord v + 1 < N := by
  simp [cellOk, and_assoc]

theorem car_cellOk {lo p : Nat} (h : cellOk lo p = true) (s : State) :
    car p s = Res.ok (s.cell (ord p + 1)) s := by
  obtain ⟨h1, _, h3⟩ := (cellOk_iff lo p).1 h
  rw [car_pair (isPairTag_of_CONS h1), readCell_ok h3]

theorem cdr_cellOk {lo p : Nat} (h : cellOk lo p = true) (s : State) :
    cdr p s = Res.ok (s.cell (ord p)) s := by
  obtain ⟨h1, _, h3⟩ := (cellOk_iff lo p).1 h
  rw [cdr_pair (isPairTag_of_CONS h1), readCell_ok (by omega)]

theorem envSeg_cons_iff (s : State) (lo e : Nat) (kv : Nat × Nat) (rest : List (Nat × Nat))
    (tl : Nat) :
    envSeg s lo e (kv :: rest) tl = true ↔
      cellOk lo e = true ∧ cellOk lo (s.cell (ord e + 1)) = true ∧
        s.cell (ord (s.cell (ord e + 1)) + 1) = kv.1 ∧
        s.cell (ord (s.cell (ord e + 1))) = kv.2 ∧
        envSeg s lo (s.cell (ord e)) rest tl = true := by
  simp [envSeg, and_assoc]
/-- One iteration of the loop of `assoc` at an environment node. -/
theorem assoc_step (k v e : Nat) (s : State) (kv : Nat × Nat) (rest : List (Nat × Nat))
    (lo tl : Nat) (h : envSeg s lo e (kv :: rest) tl = true) :
    assoc (k + 1) v e s =
      if kv.1 = v then Res.ok kv.2 s else assoc k v (s.cell (ord e)) s := by
  obtain ⟨h1, h2, h3, h4, _⟩ := (envSeg_cons_iff s lo e kv rest tl).1 h
  have hT : T e = CONS := ((cellOk_iff lo e).1 h1).1
  conv_lhs => unfold assoc
  rw [if_pos hT]
  rw [run_bind_ok (car_cellOk h1 s), run_bind_ok (car_cellOk h2 s), h3]
  by_cases hk : kv.1 = v
  · have : equ v kv.1 = true := by simp [equ, hk]
    rw [if_pos hk, this]
    simp only [if_true]
    rw [run_bind_ok (car_cellOk h1 s), cdr_cellOk h2 s, h4]
  · have : equ v kv.1 = false := by
      simp [equ]
      exact fun h => hk h.symm
    rw [if_neg hk, this]
    simp only [Bool.false_eq_true, if_false]
    rw [run_bind_ok (cdr_cellOk h1 s)]

/-- Lookup through a segment of an environment: the front-most matching
entry decides, and past the segment the lookup continues in its tail. -/
theorem assoc_seg (v : Nat) (s : State) (lo tl : Nat) (l : List (Nat × Nat)) :
    ∀ (k e : Nat), envSeg s lo e l tl = true →
      assoc (k + l.length) v e s =
        match lookupEnv v l with
        | some x => Res.ok x s
        | none => assoc k v tl s := by
  induction l with
  | nil =>
    intro k e h
    have : e = tl := by simpa [envSeg] using h
    subst this
    simp [lookupEnv]
  | cons kv rest ih =>
    intro k e h
    have h5 := ((envSeg_cons_iff s lo e kv rest tl).1 h).2.2.2.2
    have e1 : k + (kv :: rest).length = (k + rest.length) + 1 := by
      simp [List.length_cons]; omega
    rw [e1, assoc_step _ v e s kv rest lo tl h]
    by_cases hk : kv.1 = v
    · simp [lookupEnv, List.find?, hk]
    · rw [if_neg hk, ih k _ h5]
      simp [lookupEnv, List.find?, hk]

theorem assoc_nil (k v e : Nat) (s : State) (h : T e ≠ CONS) :
    assoc (k + 1) v e s = Res.ok s.err s := by
  conv_lhs => unfold assoc
  rw [if_neg h]
  rfl

/-- C3: on a proper association list (a chain of nodes with entries `l`
that ends in a value with tag `NIL`), `assoc(v, e)` returns the value of
the front-most entry whose key is bit-identical to `v`, and the package
variable `err` when there is none; the state is unchanged.  Any fuel
above the length of the chain is enough. -/
theorem assoc_front_most (v e : Nat) (s : State) (l : List (Nat × Nat)) (tl k : Nat)
    (henv : envSeg s 0 e l tl = true) (htl : T tl = NIL) (hk : l.length < k) :
    assoc k v e s = Res.ok ((lookupEnv v l).getD s.err) s := by
  obtain ⟨j, rfl⟩ : ∃ j, k = (j + 1) + l.length := ⟨k - l.length - 1, by omega⟩
  rw [assoc_seg v s 0 tl l (j + 1) e henv]
  have hne : T tl ≠ CONS := by rw [htl]; decide
  cases hl : lookupEnv v l with
  | none => simp [assoc_nil j v tl s hne]
  | some x => simp

/-- Witness for C3: in the environment `((x . 1) (y . 2))` of
`TestEnvironment` the symbol `y` resolves to 2. -/
theorem assoc_front_most_witness :
    envSeg exampleEnv.stateD 0 exampleEnv.valD
        [(box ATOM 0, num 1), (box ATOM 2, num 2)] (box NIL 0) = true ∧
      T (box NIL 0) = NIL ∧
      [(box ATOM 0, num 1), (box ATOM 2, num 2)].length < 3 ∧
      assoc 3 (box ATOM 2) exampleEnv.valD exampleEnv.stateD =
        Res.ok ((lookupEnv (box ATOM 2) [(box ATOM 0, num 1), (box ATOM 2, num 2)]).getD
          exampleEnv.stateD.err) exampleEnv.stateD :=
  ⟨by decide!, by decide, by decide,
    assoc_front_most (box ATOM 2) exampleEnv.valD exampleEnv.stateD
      [(box ATOM 0, num 1), (box ATOM 2, num 2)] (box NIL 0) 3
      (by decide!) (by decide) (by decide)⟩

/-! ## Atom interning -/

/-- The index `e` is the first terminator at or after `i`. -/
theorem exists_first_zero (A : Nat → Nat) (i hp : Nat) (hi : i < hp) (hz : A (hp - 1) = 0) :
    ∃ e, i ≤ e ∧ e < hp ∧ A e = 0 ∧ ∀ j, i ≤ j → j < e → A j ≠ 0 := by
  have hex : ∃ e, i ≤ e ∧ A e = 0 := ⟨hp - 1, by omega, hz⟩
  refine ⟨Nat.find hex, (Nat.find_spec hex).1, ?_, (Nat.find_spec hex).2, ?_⟩
  · have := Nat.find_min' hex (show i ≤ hp - 1 ∧ A (hp - 1) = 0 from ⟨by omega, hz⟩)
    omega
  · intro j hj hlt h0
    exact Nat.find_min hex hlt ⟨hj, h0⟩

theorem scanEnd_spec (A : Nat → Nat) (hp e : Nat) (hA : hp ≤ ALEN) (he : e < hp)
    (hz : A e = 0) :
    ∀ (k i : Nat), i ≤ e → (∀ j, i ≤ j → j < e → A j ≠ 0) → e - i < k →
      scanEnd A hp k i = some e := by
  intro k
  induction k with
  | zero => intro i _ _ h; omega
  | succ k ih =>
    intro i hi hmin hk
    unfold scanEnd
    rw [if_pos (by omega), if_pos (by omega)]
    by_cases h0 : A i = 0
    · have : i = e := by
        by_contra hne
        exact hmin i (le_refl i) (by omega) h0
      subst this
      simp [h0]
    · have hne : i ≠ e := fun h => h0 (h ▸ hz)
      rw [if_pos h0]
      exact ih (i + 1) (by omega) (fun j hj hlt => hmin j (by omega) hlt) (by omega)

theorem sliceA_congr (A B : Nat → Nat) (i e : Nat) (h : ∀ j, i ≤ j → j < e → B j = A j) :
    sliceA B i e = sliceA A i e := by
  unfold sliceA
  apply List.map_congr_left
  intro k hk
  have := List.mem_range.1 hk
  exact h (i + k) (by omega) (by omega)

/-- One iteration of the outer loop of `atom` at the start `i` of a stored
name that ends at `e`. -/
theorem atomScan_step (s : GoString) (A : Nat → Nat) (hp e k i : Nat) (hA : hp ≤ ALEN)
    (hi : i ≤ e) (he : e < hp) (hz : A e = 0) (hmin : ∀ j, i ≤ j → j < e → A j ≠ 0) :
    atomScan s A hp (k + 1) i =
      if sliceA A i e = s then some (some i) else atomScan s A hp k (e + 1) := by
  conv_lhs => unfold atomScan
  rw [if_pos (by omega), scanEnd_spec A hp e hA he hz (hp - i) i hi hmin (by omega)]
  simp only
  rw [if_pos (by omega)]

/-- A name that the scan finds is stored at the offset it reports. -/
theorem atomScan_found (s : GoString) (A : Nat → Nat) (hp : Nat) (hA : hp ≤ ALEN)
    (hz : hp = 0 ∨ A (hp - 1) = 0) :
    ∀ (k i j : Nat), atomScan s A hp k i = some (some j) →
      ∃ e, j ≤ e ∧ e < hp ∧ A e = 0 ∧ (∀ t, j ≤ t → t < e → A t ≠ 0) ∧ sliceA A j e = s := by
  intro k
  induction k with
  | zero => intro i j h; simp [atomScan] at h
  | succ k ih =>
    intro i j h
    by_cases hi : i < hp
    · have hz2 : A (hp - 1) = 0 := by
        rcases hz with h0 | h0
        · omega
        · exact h0
      obtain ⟨e, h1, h2, h3, h4⟩ := exists_first_zero A i hp hi hz2
      rw [atomScan_step s A hp e k i hA h1 h2 h3 h4] at h
      by_cases hs : sliceA A i e = s
      · rw [if_pos hs] at h
        have : i = j := by simpa using h
        subst this
        exact ⟨e, h1, h2, h3, h4, hs⟩
      · rw [if_neg hs] at h
        exact ih (e + 1) j h
    · unfold atomScan at h
      rw [if_neg hi] at h
      simp at h

theorem first_zero_unique (A : Nat → Nat) (j e1 e2 : Nat)
    (h1 : j ≤ e1) (z1 : A e1 = 0) (m1 : ∀ t, j ≤ t → t < e1 → A t ≠ 0)
    (h2 : j ≤ e2) (z2 : A e2 = 0) (m2 : ∀ t, j ≤ t → t < e2 → A t ≠ 0) : e1 = e2 := by
  rcases Nat.lt_trichotomy e1 e2 with h | h | h
  · exact absurd z1 (m2 e1 h1 h)
  · exact h
  · exact absurd z2 (m1 e2 h2 h)

/-- Two names found at the same offset are equal. -/
theorem atomScan_inj (s1 s2 : GoString) (A : Nat → Nat) (hp : Nat) (hA : hp ≤ ALEN)
    (hz : hp = 0 ∨ A (hp - 1) = 0) (k1 k2 i1 i2 j : Nat)
    (h1 : atomScan s1 A hp k1 i1 = some (some j))
    (h2 : atomScan s2 A hp k2 i2 = some (some j)) : s1 = s2 := by
  obtain ⟨e1, a1, _, a3, a4, a5⟩ := atomScan_found s1 A hp hA hz k1 i1 j h1
  obtain ⟨e2, b1, _, b3, b4, b5⟩ := atomScan_found s2 A hp hA hz k2 i2 j h2
  have := first_zero_unique A j e1 e2 a1 a3 a4 b1 b3 b4
  subst this
  rw [← a5, ← b5]

/-- A name found in an arena is found at the same offset in every
extension of the arena. -/
theorem atomScan_ext (s : GoString) (A B : Nat → Nat) (hp hq : Nat) (hA : hp ≤ ALEN)
    (hz : hp = 0 ∨ A (hp - 1) = 0) (hle : hp ≤ hq) (hB : hq ≤ ALEN)
    (hAB : ∀ j, j < hp → B j = A j) :
    ∀ (k k2 i j : Nat), hq - i ≤ k2 → atomScan s A hp k i = some (some j) →
      atomScan s B hq k2 i = some (some j) := by
  intro k
  induction k with
  | zero => intro k2 i j _ h; simp [atomScan] at h
  | succ k ih =>
    intro k2 i j hk2 h
    by_cases hi : i < hp
    · have hz2 : A (hp - 1) = 0 := by
        rcases hz with h0 | h0
        · omega
        · exact h0
      obtain ⟨e, h1, h2, h3, h4⟩ := exists_first_zero A i hp hi hz2
      rw [atomScan_step s A hp e k i hA h1 h2 h3 h4] at h
      obtain ⟨m, rfl⟩ : ∃ m, k2 = m + 1 := ⟨k2 - 1, by omega⟩
      have h3b : B e = 0 := by rw [hAB e h2]; exact h3
      have h4b : ∀ t, i ≤ t → t < e → B t ≠ 0 := by
        intro t ht hlt
        rw [hAB t (by omega)]
        exact h4 t ht hlt
      rw [atomScan_step s B hq e m i hB h1 (by omega) h3b h4b]
      rw [sliceA_congr A B i e (fun t _ hlt => hAB t (by omega))]
      by_cases hs : sliceA A i e = s
      · rw [if_pos hs] at h
        rw [if_pos hs]
        exact h
      · rw [if_neg hs] at h
        rw [if_neg hs]
        exact ih m (e + 1) j (by omega) h
    · unfold atomScan at h
      rw [if_neg hi] at h
      simp at h

/-- The buffer after `atom` has appended the name `s`. -/
theorem appended_below (A : Nat → Nat) (hp : Nat) (s : GoString) (j : Nat) (hj : j < hp) :
    upd (copyInto A hp s) (hp + s.length) 0 j = A j := by
  rw [upd_other _ _ (by omega)]
  unfold copyInto
  rw [if_neg (by omega)]

theorem appended_name (A : Nat → Nat) (hp : Nat) (s : GoString) (hfit : hp + s.length < ALEN)
    (t : Nat) (ht : t < s.length) :
    upd (copyInto A hp s) (hp + s.length) 0 (hp + t) = s.getD t 0 := by
  rw [upd_other _ _ (by omega)]
  unfold copyInto
  rw [if_pos ⟨by omega, by omega, by omega⟩]
  congr 1
  omega

theorem appended_slice (A : Nat → Nat) (hp : Nat) (s : GoString) (hfit : hp + s.length < ALEN) :
    sliceA (upd (copyInto A hp s) (hp + s.length) 0) hp (hp + s.length) = s := by
  unfold sliceA
  apply List.ext_getElem
  · simp
  · intro n h1 h2
    simp only [List.getElem_map, List.getElem_range]
    rw [appended_name A hp s hfit n h2]
    simp [List.getD_eq_getElem?_getD, List.getElem?_eq_getElem h2]

/-- A name that the scan does not find is found at the old watermark once
`atom` has appended it, provided it contains no zero byte. -/
theorem atomScan_appended (s : GoString) (A : Nat → Nat) (hp : Nat)
    (hz : hp = 0 ∨ A (hp - 1) = 0) (hfit : hp + s.length < ALEN) (hnul : 0 ∉ s) :
    ∀ (k k2 i : Nat), i ≤ hp → hp - i ≤ k → hp + s.length + 1 - i ≤ k2 →
      atomScan s A hp k i = some none →
      atomScan s (upd (copyInto A hp s) (hp + s.length) 0) (hp + s.length + 1) k2 i
        = some (some hp) := by
  have hA : hp ≤ ALEN := by omega
  have hB : hp + s.length + 1 ≤ ALEN := by omega
  have hnew : ∀ (k2 : Nat), 1 ≤ k2 →
      atomScan s (upd (copyInto A hp s) (hp + s.length) 0) (hp + s.length + 1) k2 hp
        = some (some hp) := by
    intro k2 hk2
    obtain ⟨m, rfl⟩ : ∃ m, k2 = m + 1 := ⟨k2 - 1, by omega⟩
    rw [atomScan_step s _ (hp + s.length + 1) (hp + s.length) m hp hB (by omega) (by omega)
      (upd_same _ _ _) ?_]
    · rw [if_pos (appended_slice A hp s hfit)]
    · intro j hj hlt h0
      obtain ⟨t, rfl⟩ : ∃ t, j = hp + t := ⟨j - hp, by omega⟩
      have ht : t < s.length := by omega
      rw [appended_name A hp s hfit t ht] at h0
      apply hnul
      rw [← h0, List.getD_eq_getElem?_getD, List.getElem?_eq_getElem ht]
      exact List.getElem_mem ht
  intro k
  induction k with
  | zero =>
    intro k2 i hi hk hk2 _
    have : i = hp := by omega
    subst this
    exact hnew k2 (by omega)
  | succ k ih =>
    intro k2 i hi hk hk2 h
    by_cases hlt : i < hp
    · have hz2 : A (hp - 1) = 0 := by
        rcases hz with h0 | h0
        · omega
        · exact h0
      obtain ⟨e, h1, h2, h3, h4⟩ := exists_first_zero A i hp hlt hz2
      rw [atomScan_step s A hp e k i hA h1 h2 h3 h4] at h
      obtain ⟨m, rfl⟩ : ∃ m, k2 = m + 1 := ⟨k2 - 1, by omega⟩
      have hAB := appended_below A hp s
      have h3b : upd (copyInto A hp s) (hp + s.length) 0 e = 0 := by rw [hAB e h2]; exact h3
      have h4b : ∀ t, i ≤ t → t < e → upd (copyInto A hp s) (hp + s.length) 0 t ≠ 0 := by
        intro t ht hlt
        rw [hAB t (by omega)]
        exact h4 t ht hlt
      rw [atomScan_step s _ (hp + s.length + 1) e m i hB h1 (by omega) h3b h4b]
      rw [sliceA_congr A _ i e (fun t _ hlt => hAB t (by omega))]
      by_cases hs : sliceA A i e = s
      · rw [if_pos hs] at h
        simp at h
      · rw [if_neg hs] at h
        rw [if_neg hs]
        exact ih m (e + 1) (by omega) (by omega) (by omega) h
    · have : i = hp := by omega
      subst this
      exact hnew k2 (by omega)

/-- What a call of `atom` that returns does in a well-formed arena: either
the name is found and nothing changes, or it is appended at the old
watermark. -/
theorem atom_ok_cases (str : GoString) (st st1 : State) (v : Nat) (hok : arenaOk st)
    (h : atom str st = Res.ok v st1) :
    (∃ i, atomScan str st.A st.hp st.hp 0 = some (some i) ∧ v = box ATOM i ∧ st1 = st) ∨
    (atomScan str st.A st.hp st.hp 0 = some none ∧ st.hp + str.length < ALEN ∧
      v = box ATOM st.hp ∧
      st1 = { st with A := upd (copyInto st.A st.hp str) (st.hp + str.length) 0,
                      hp := st.hp + str.length + 1 }) := by
  unfold atom at h
  cases hscan : atomScan str st.A st.hp st.hp 0 with
  | none => rw [hscan] at h; simp at h
  | some r =>
    cases r with
    | some i =>
      rw [hscan] at h
      simp only at h
      injection h with h1 h2
      exact Or.inl ⟨i, rfl, h1.symm, h2.symm⟩
    | none =>
      rw [hscan] at h
      simp only at h
      have hA : st.hp ≤ ALEN := hok.1
      rw [if_neg (by omega)] at h
      by_cases hfit : ALEN ≤ st.hp + str.length
      · rw [if_pos hfit] at h
        cases h
      · rw [if_neg hfit] at h
        split at h
        · cases h
        · injection h with h1 h2
          exact Or.inr ⟨rfl, by omega, h1.symm, h2.symm⟩

theorem ALEN_lt : ALEN < 2 ^ 48 := by decide

theorem box_ATOM_inj {i j : Nat} (hi : i < 2 ^ 48) (hj : j < 2 ^ 48)
    (h : box ATOM i = box ATOM j) : i = j := by
  have := congrArg ord h
  rwa [ord_box (by decide) hi, ord_box (by decide) hj] at this

/-- A returning call of `atom` keeps the arena well formed and extends it. -/
theorem atom_ext (str : GoString) (st st1 : State) (v : Nat) (hok : arenaOk st)
    (h : atom str st = Res.ok v st1) : arenaOk st1 ∧ arenaExt st st1 := by
  rcases atom_ok_cases str st st1 v hok h with ⟨i, _, _, hst⟩ | ⟨_, hfit, _, rfl⟩
  · rw [hst]
    exact ⟨hok, le_refl _, fun _ _ => rfl⟩
  · refine ⟨⟨by show st.hp + str.length + 1 ≤ ALEN; omega, Or.inr ?_⟩, ?_, ?_⟩
    · show upd (copyInto st.A st.hp str) (st.hp + str.length) 0 (st.hp + str.length + 1 - 1) = 0
      have : st.hp + str.length + 1 - 1 = st.hp + str.length := by omega
      rw [this, upd_same]
    · show st.hp ≤ st.hp + str.length + 1
      omega
    · intro j hj
      exact appended_below st.A st.hp str j hj

theorem arenaExt_trans {s t u : State} (h1 : arenaExt s t) (h2 : arenaExt t u) :
    arenaExt s u :=
  ⟨le_trans h1.1 h2.1, fun j hj => by rw [h2.2 j (by have := h1.1; omega), h1.2 j hj]⟩

theorem atomCalls_ext {s t : State} (h : AtomCalls s t) (hok : arenaOk s) :
    arenaOk t ∧ arenaExt s t := by
  induction h with
  | refl => exact ⟨hok, le_refl _, fun _ _ => rfl⟩
  | step str v _ hstep ih =>
    obtain ⟨a, b⟩ := ih
    obtain ⟨c, d⟩ := atom_ext str _ _ v a hstep
    exact ⟨c, arenaExt_trans b d⟩

/-- After `atom(str)` has returned, the scan finds `str` at the offset
that was returned. -/
theorem atom_post (str : GoString) (st st1 : State) (v : Nat) (hok : arenaOk st)
    (hnul : 0 ∉ str) (h : atom str st = Res.ok v st1) :
    ∃ i, v = box ATOM i ∧ i < st1.hp ∧
      atomScan str st1.A st1.hp st1.hp 0 = some (some i) := by
  rcases atom_ok_cases str st st1 v hok h with ⟨i, hf, hv, hst⟩ | ⟨hn, hfit, hv, rfl⟩
  · obtain ⟨e, h1, h2, _⟩ := atomScan_found str st.A st.hp hok.1 hok.2 st.hp 0 i hf
    rw [hst]
    exact ⟨i, hv, by omega, hf⟩
  · refine ⟨st.hp, hv, ?_, ?_⟩
    · show st.hp < st.hp + str.length + 1
      omega
    · exact atomScan_appended str st.A st.hp hok.2 hfit hnul st.hp (st.hp + str.length + 1) 0
        (Nat.zero_le _) (by omega) (by omega) hn

/-- C2 (amended): in a well-formed arena, let `atom(s1)` return `v1`, let
any number of further calls of `atom` follow, and let `atom(s2)` then
return `v2`.  If `s1` contains no zero byte, `v1` and `v2` are
bit-identical exactly when `s1 = s2`, and both have tag `ATOM`. -/
theorem atom_interning (s1 s2 : GoString) (st sa sb sc : State) (v1 v2 : Nat)
    (hok : arenaOk st) (hnul : 0 ∉ s1)
    (h1 : atom s1 st = Res.ok v1 sa) (hmid : AtomCalls sa sb)
    (h2 : atom s2 sb = Res.ok v2 sc) :
    (v1 = v2 ↔ s1 = s2) ∧ T v1 = ATOM ∧ T v2 = ATOM := by
  obtain ⟨i1, hv1, hi1, hf1⟩ := atom_post s1 st sa v1 hok hnul h1
  obtain ⟨hoka, _⟩ := atom_ext s1 st sa v1 hok h1
  obtain ⟨hokb, hext⟩ := atomCalls_ext hmid hoka
  have hA := ALEN_lt
  have hb : sb.hp ≤ ALEN := hokb.1
  have hle : sa.hp ≤ sb.hp := hext.1
  have hf1b : atomScan s1 sb.A sb.hp sb.hp 0 = some (some i1) :=
    atomScan_ext s1 sa.A sb.A sa.hp sb.hp hoka.1 hoka.2 hle hb hext.2 sa.hp sb.hp 0 i1
      (by omega) hf1
  have hi1' : i1 < 2 ^ 48 := by omega
  rcases atom_ok_cases s2 sb sc v2 hokb h2 with ⟨i2, hf2, hv2, _⟩ | ⟨hn2, hfit, hv2, _⟩
  · obtain ⟨e, q1, q2, _⟩ := atomScan_found s2 sb.A sb.hp hokb.1 hokb.2 sb.hp 0 i2 hf2
    have hi2' : i2 < 2 ^ 48 := by omega
    refine ⟨⟨?_, ?_⟩, ?_, ?_⟩
    · intro hv
      rw [hv1, hv2] at hv
      have := box_ATOM_inj hi1' hi2' hv
      subst this
      exact atomScan_inj s1 s2 sb.A sb.hp hokb.1 hokb.2 _ _ _ _ _ hf1b hf2
    · intro hs
      subst hs
      rw [hf1b] at hf2
      have : i1 = i2 := by simpa using hf2
      rw [hv1, hv2, this]
    · rw [hv1]; exact T_box (by decide) hi1'
    · rw [hv2]; exact T_box (by decide) hi2'
  · have hi2' : sb.hp < 2 ^ 48 := by omega
    refine ⟨⟨?_, ?_⟩, ?_, ?_⟩
    · intro hv
      rw [hv1, hv2] at hv
      have := box_ATOM_inj hi1' hi2' hv
      omega
    · intro hs
      subst hs
      rw [hf1b] at hn2
      simp at hn2
    · rw [hv1]; exact T_box (by decide) hi1'
    · rw [hv2]; exact T_box (by decide) hi2'

theorem arenaOk_zeroState : arenaOk zeroState := ⟨Nat.zero_le _, Or.inl rfl⟩

/-- Witness for C2 (amended): the calls `atom("test")`, `atom("test")`,
`atom("different")` of `TestAtomInterning` in a fresh arena. -/
theorem atom_interning_witness :
    ∃ sa sb sc v1 v2, arenaOk zeroState ∧ 0 ∉ bytes "test" ∧
      atom (bytes "test") zeroState = Res.ok v1 sa ∧ AtomCalls sa sb ∧
      atom (bytes "different") sb = Res.ok v2 sc ∧
      ((v1 = v2 ↔ bytes "test" = bytes "different") ∧ T v1 = ATOM ∧ T v2 = ATOM) := by
  have facts : (atom (bytes "test") zeroState).val = some (box ATOM 0) ∧
      (atom (bytes "test") (atom (bytes "test") zeroState).stateD).val = some (box ATOM 0) ∧
      (atom (bytes "different")
        (atom (bytes "test") (atom (bytes "test") zeroState).stateD).stateD).val
        = some (box ATOM 5) := by
    decide!
  have h1 := Res.eq_ok_of_val facts.1
  have h2 := Res.eq_ok_of_val facts.2.1
  have h3 := Res.eq_ok_of_val facts.2.2
  have hmid := AtomCalls.step (bytes "test") (box ATOM 0) (AtomCalls.refl _) h2
  have hnul : 0 ∉ bytes "test" := by decide
  exact ⟨_, _, _, _, _, arenaOk_zeroState, hnul, h1, hmid, h3,
    atom_interning (bytes "test") (bytes "different") zeroState _ _ _ _ _
      arenaOk_zeroState hnul h1 hmid h3⟩

/-- C2 (counterexample): in a fresh arena the name with the bytes
`a`, 0, `b` is interned twice at different offsets, and the different name
`a` is then given the offset of the first. -/
theorem atom_interning_counterexample :
    (atom [97, 0, 98] zeroState).val = some (box ATOM 0) ∧
      (atom [97, 0, 98] (atom [97, 0, 98] zeroState).stateD).val = some (box ATOM 4) ∧
      (atom [97] (atom [97, 0, 98] zeroState).stateD).val = some (box ATOM 0) ∧
      box ATOM 0 ≠ box ATOM 4 ∧ ([97, 0, 98] : GoString) ≠ [97] := by
  decide!

/-! ## Pairs, definitions, closures -/

theorem pair_ok (v x e : Nat) (s : State) (h4 : 4 ≤ s.sp) (hN : s.sp ≤ N)
    (hhp : s.hp ≤ (s.sp - 4) * 8) :
    pair v x e s = Res.ok (box CONS (s.sp - 4)) (afterPair v x e s) := by
  unfold pair
  rw [run_bind_ok ((cons_ok_iff v x s _ _).2 ⟨by omega, hN, by omega, rfl, rfl⟩)]
  rw [(cons_ok_iff _ e _ _ _).2 ⟨by show 2 ≤ s.sp - 2; omega, by show s.sp - 2 ≤ N; omega,
    by show s.hp ≤ (s.sp - 2 - 2) * 8; omega, rfl, rfl⟩]
  have e1 : s.sp - 2 - 2 = s.sp - 4 := by omega
  have e2 : s.sp - 2 - 1 = s.sp - 3 := by omega
  simp only [afterPair, e1, e2]

theorem pair_ok_iff (v x e : Nat) (s : State) (r : Nat) (s1 : State) :
    pair v x e s = Res.ok r s1 ↔
      (4 ≤ s.sp ∧ s.sp ≤ N ∧ s.hp ≤ (s.sp - 4) * 8 ∧ r = box CONS (s.sp - 4) ∧
        s1 = afterPair v x e s) := by
  constructor
  · intro h
    unfold pair at h
    rw [run_bind] at h
    cases hc : cons v x s with
    | ok p sm =>
      rw [hc] at h
      simp only at h
      obtain ⟨a1, a2, a3, a4, a5⟩ := (cons_ok_iff v x s p sm).1 hc
      obtain ⟨b1, b2, b3, b4, b5⟩ := (cons_ok_iff p e sm r s1).1 h
      subst a5
      simp only at b1 b2 b3 b4 b5
      have h4 : 4 ≤ s.sp := by omega
      have hh : s.hp ≤ (s.sp - 4) * 8 := by omega
      have := pair_ok v x e s h4 a2 hh
      unfold pair at this
      rw [run_bind_ok hc, h] at this
      injection this with q1 q2
      exact ⟨h4, a2, hh, q1, q2⟩
    | panic q sm => rw [hc] at h; simp at h
    | diverge => rw [hc] at h; simp at h
  · rintro ⟨h4, hN, hh, rfl, rfl⟩
    exact pair_ok v x e s h4 hN hh

theorem afterPair_cell_above (v x e : Nat) (s : State) (h4 : 4 ≤ s.sp) (i : Nat)
    (hi : s.sp ≤ i) : (afterPair v x e s).cell i = s.cell i := by
  show upd (upd (upd (upd s.cell (s.sp - 1) v) (s.sp - 2) x) (s.sp - 3) (box CONS (s.sp - 2)))
      (s.sp - 4) e i = s.cell i
  rw [upd_other _ _ (by omega), upd_other _ _ (by omega), upd_other _ _ (by omega),
    upd_other _ _ (by omega)]

theorem afterPair_cells (v x e : Nat) (s : State) (h4 : 4 ≤ s.sp) :
    (afterPair v x e s).cell (s.sp - 4) = e ∧
      (afterPair v x e s).cell (s.sp - 4 + 1) = box CONS (s.sp - 2) ∧
      (afterPair v x e s).cell (s.sp - 2) = x ∧
      (afterPair v x e s).cell (s.sp - 2 + 1) = v := by
  have e1 : s.sp - 4 + 1 = s.sp - 3 := by omega
  have e2 : s.sp - 2 + 1 = s.sp - 1 := by omega
  rw [e1, e2]
  refine ⟨?_, ?_, ?_, ?_⟩
  · show upd _ (s.sp - 4) e (s.sp - 4) = e
    rw [upd_same]
  · show upd (upd _ (s.sp - 3) (box CONS (s.sp - 2))) (s.sp - 4) e (s.sp - 3) = _
    rw [upd_other _ _ (by omega), upd_same]
  · show upd (upd (upd _ (s.sp - 2) x) (s.sp - 3) _) (s.sp - 4) e (s.sp - 2) = _
    rw [upd_other _ _ (by omega), upd_other _ _ (by omega), upd_same]
  · show upd (upd (upd (upd _ (s.sp - 1) v) (s.sp - 2) x) (s.sp - 3) _) (s.sp - 4) e (s.sp - 1)
      = _
    rw [upd_other _ _ (by omega), upd_other _ _ (by omega), upd_other _ _ (by omega), upd_same]

theorem cellOk_box {lo o : Nat} (h1 : lo ≤ o) (h2 : o + 1 < N) : cellOk lo (box CONS o) = true := by
  have hN := N_lt
  have ho : o < 2 ^ 48 := by omega
  rw [cellOk_iff, T_box (by decide) ho, ord_box (by decide) ho]
  exact ⟨rfl, h1, h2⟩

/-- The node that `pair(v, x, e)` returns is an environment with the one
entry `(v . x)` in front of `e`. -/
theorem envSeg_afterPair (v x e : Nat) (s : State) (lo : Nat) (h4 : 4 ≤ s.sp) (hN : s.sp ≤ N)
    (hlo : lo ≤ s.sp - 4) :
    envSeg (afterPair v x e s) lo (box CONS (s.sp - 4)) [(v, x)] e = true := by
  have hNN := N_lt
  obtain ⟨c1, c2, c3, c4⟩ := afterPair_cells v x e s h4
  rw [envSeg_cons_iff]
  have o4 : ord (box CONS (s.sp - 4)) = s.sp - 4 := ord_box (by decide) (by omega)
  have o2 : ord (box CONS (s.sp - 2)) = s.sp - 2 := ord_box (by decide) (by omega)
  rw [o4, c2, o2, c4, c3, c1]
  refine ⟨cellOk_box hlo (by omega), cellOk_box (by omega) (by omega), rfl, rfl, ?_⟩
  simp [envSeg]

theorem listSeg_frame (s s2 : State) (lo : Nat) (h : ∀ i, lo ≤ i → s2.cell i = s.cell i)
    (xs : List Nat) (tl : Nat) :
    ∀ v, listSeg s lo v xs tl = true → listSeg s2 lo v xs tl = true := by
  induction xs with
  | nil => intro v hv; simpa [listSeg] using hv
  | cons x xs ih =>
    intro v hv
    simp only [listSeg, Bool.and_eq_true, decide_eq_true_eq] at hv ⊢
    obtain ⟨⟨hc, hx⟩, hr⟩ := hv
    obtain ⟨_, h2, _⟩ := (cellOk_iff lo v).1 hc
    rw [h _ (by omega), h _ h2]
    exact ⟨⟨hc, hx⟩, ih _ hr⟩

theorem envSeg_frame (s s2 : State) (lo : Nat) (h : ∀ i, lo ≤ i → s2.cell i = s.cell i)
    (l : List (Nat × Nat)) (tl : Nat) :
    ∀ e, envSeg s lo e l tl = true → envSeg s2 lo e l tl = true := by
  induction l with
  | nil => intro e he; simpa [envSeg] using he
  | cons kv rest ih =>
    intro e he
    rw [envSeg_cons_iff] at he ⊢
    obtain ⟨h1, h2, h3, h4, h5⟩ := he
    obtain ⟨_, a2, _⟩ := (cellOk_iff lo e).1 h1
    obtain ⟨_, b2, _⟩ := (cellOk_iff lo _).1 h2
    rw [h _ (by omega), h _ a2, h _ (by omega), h _ b2]
    exact ⟨h1, h2, h3, h4, ih _ h5⟩

theorem listSeg_cons_iff (s : State) (lo v x : Nat) (xs : List Nat) (tl : Nat) :
    listSeg s lo v (x :: xs) tl = true ↔
      cellOk lo v = true ∧ s.cell (ord v + 1) = x ∧ listSeg s lo (s.cell (ord v)) xs tl = true := by
  simp [listSeg, and_assoc]

/-! ## The evaluator only allocates -/

theorem framed_pure {α : Type} (v : α) : Framed (pure v : M α) := by
  intro s w s1 h
  rw [run_pure] at h
  injection h with _ h2
  subst h2
  exact ⟨le_refl _, fun _ _ => rfl⟩

theorem framed_bind {α β : Type} {m : M α} {f : α → M β} (hm : Framed m)
    (hf : ∀ a, Framed (f a)) : Framed (m >>= f) := by
  intro s w s2 h
  rw [run_bind] at h
  cases hr : m s with
  | ok a s1 =>
    rw [hr] at h
    obtain ⟨a1, a2⟩ := hm s a s1 hr
    obtain ⟨b1, b2⟩ := hf a s1 w s2 h
    exact ⟨le_trans b1 a1, fun i hi => by rw [b2 i (le_trans a1 hi), a2 i hi]⟩
  | panic p s1 => rw [hr] at h; cases h
  | diverge => rw [hr] at h; cases h

theorem framed_getS : Framed getS := by
  intro s w s1 h
  injection h with _ h2
  subst h2
  exact ⟨le_refl _, fun _ _ => rfl⟩

theorem framed_throwP {α : Type} (p : Panic) : Framed (throwP p : M α) := by
  intro s w s1 h
  cases h

theorem framed_diverge {α : Type} : Framed (diverge : M α) := by
  intro s w s1 h
  cases h

/-- Assigning the package variable `env`. -/
theorem framed_setEnv {β : Type} (e1 : Nat) (f : Unit → M β) (hf : Framed (f ())) :
    Framed (getS >>= fun s => (setS { s with env := e1 } >>= f)) := by
  intro s w s2 h
  rw [run_getS_bind, run_setS_bind] at h
  exact hf { s with env := e1 } w s2 h

theorem framed_readCell (i : Nat) : Framed (readCell i) := by
  intro s w s1 h
  unfold readCell at h
  split at h
  · injection h with _ h2
    subst h2
    exact ⟨le_refl _, fun _ _ => rfl⟩
  · cases h

theorem framed_car (p : Nat) : Framed (car p) := by
  unfold car
  split
  · exact framed_readCell _
  · exact framed_bind framed_getS (fun _ => framed_pure _)

theorem framed_cdr (p : Nat) : Framed (cdr p) := by
  unfold cdr
  split
  · exact framed_readCell _
  · exact framed_bind framed_getS (fun _ => framed_pure _)

theorem framed_cons (x y : Nat) : Framed (cons x y) := by
  intro s w s1 h
  obtain ⟨h2, _, _, _, rfl⟩ := (cons_ok_iff x y s w s1).1 h
  refine ⟨Nat.sub_le _ _, fun i hi => ?_⟩
  show upd (upd s.cell (s.sp - 1) x) (s.sp - 2) y i = s.cell i
  rw [upd_other _ _ (by omega), upd_other _ _ (by omega)]

theorem framed_atom (str : GoString) : Framed (atom str) := by
  intro s w s1 h
  unfold atom at h
  split at h
  · cases h
  · injection h with _ h2
    subst h2
    exact ⟨le_refl _, fun _ _ => rfl⟩
  · split at h
    · cases h
    · dsimp only at h
      split at h
      · cases h
      · split at h
        · cases h
        · injection h with _ h2
          subst h2
          exact ⟨le_refl _, fun _ _ => rfl⟩

theorem framed_pair (v x e : Nat) : Framed (pair v x e) :=
  framed_bind (framed_cons _ _) (fun _ => framed_cons _ _)

theorem framed_closure (v x e : Nat) : Framed (closure v x e) := by
  unfold closure
  refine framed_bind framed_getS (fun s => ?_)
  split
  · exact framed_bind (framed_pair _ _ _) (fun _ => framed_pure _)
  · exact framed_bind (framed_pair _ _ _) (fun _ => framed_pure _)

theorem framed_assoc : ∀ (k v e : Nat), Framed (assoc k v e) := by
  intro k
  induction k with
  | zero => intro v e; exact framed_diverge
  | succ k ih =>
    intro v e
    unfold assoc
    split
    · refine framed_bind (framed_car _) (fun _ => framed_bind (framed_car _) (fun _ => ?_))
      split
      · exact framed_bind (framed_car _) (fun _ => framed_cdr _)
      · exact framed_bind (framed_cdr _) (fun _ => ih _ _)
    · exact framed_bind framed_getS (fun _ => framed_pure _)

theorem framed_letv (x : Nat) : Framed (letv x) := by
  unfold letv
  split
  · exact framed_pure _
  · exact framed_bind (framed_cdr _) (fun _ => framed_pure _)

theorem framed_bindLoop : ∀ (k v t e : Nat), Framed (bind k v t e) := by
  intro k
  induction k with
  | zero => intro v t e; exact framed_diverge
  | succ k ih =>
    intro v t e
    unfold bind
    split
    · exact framed_pure _
    · split
      · exact framed_bind (framed_cdr _) (fun _ => framed_bind (framed_cdr _) (fun _ =>
          framed_bind (framed_car _) (fun _ => framed_bind (framed_car _) (fun _ =>
            framed_bind (framed_pair _ _ _) (fun _ => ih _ _ _)))))
      · exact framed_pair _ _ _

theorem framed_evlis {ev : Nat → Nat → M Nat} (hev : ∀ x e, Framed (ev x e)) :
    ∀ (k t e : Nat), Framed (evlis ev k t e) := by
  intro k
  induction k with
  | zero => intro t e; exact framed_diverge
  | succ k ih =>
    intro t e
    unfold evlis
    split
    · exact framed_bind (framed_car _) (fun _ => framed_bind (hev _ _) (fun _ =>
        framed_bind (framed_cdr _) (fun _ => framed_bind (ih _ _) (fun _ => framed_cons _ _))))
    · split
      · exact framed_assoc _ _ _
      · exact framed_bind framed_getS (fun _ => framed_pure _)

theorem framed_arithLoop (op : Nat → Nat → Nat) : ∀ (k t n : Nat), Framed (arithLoop op k t n) := by
  intro k
  induction k with
  | zero => intro t n; exact framed_diverge
  | succ k ih =>
    intro t n
    unfold arithLoop
    refine framed_bind (framed_cdr _) (fun _ => ?_)
    split
    · exact framed_pure _
    · exact framed_bind (framed_car _) (fun _ => ih _ _)

theorem framed_arith (op : Nat → Nat → Nat) {ev : Nat → Nat → M Nat}
    (hev : ∀ x e, Framed (ev x e)) (k t e : Nat) : Framed (arith op ev k t e) :=
  framed_bind (framed_evlis hev _ _ _) (fun _ => framed_bind (framed_car _) (fun _ =>
    framed_arithLoop op _ _ _))

theorem framed_ite {α : Type} (c : Prop) [Decidable c] {a b : M α} (ha : Framed a)
    (hb : Framed b) : Framed (if c then a else b) := by
  split
  · exact ha
  · exact hb

theorem framed_ret (c : Prop) [Decidable c] :
    Framed (if c then (do pure (← getS).tru) else (do pure (← getS).nilv) : M Nat) :=
  framed_ite c (framed_bind framed_getS (fun _ => framed_pure _))
    (framed_bind framed_getS (fun _ => framed_pure _))

set_option linter.unusedTactic false
set_option linter.unreachableTactic false

theorem framed_f_eval {ev : Nat → Nat → M Nat} (hev : ∀ x e, Framed (ev x e)) (k t e : Nat) :
    Framed (f_eval ev k t e) := by
  unfold f_eval
  repeat' (first
    | with_reducible (first
      | exact framed_pure _ | exact framed_getS | exact framed_car _ | exact framed_cdr _
      | exact framed_cons _ _ | exact framed_pair _ _ _ | exact framed_closure _ _ _
      | exact framed_atom _ | exact framed_assoc _ _ _ | exact framed_letv _
      | exact framed_throwP _ | exact framed_diverge | exact hev _ _
      | exact framed_evlis hev _ _ _
      | refine framed_setEnv _ _ ?_ | refine framed_bind ?_ (fun _ => ?_))
    | split)

theorem framed_f_cons {ev : Nat → Nat → M Nat} (hev : ∀ x e, Framed (ev x e)) (k t e : Nat) :
    Framed (f_cons ev k t e) := by
  unfold f_cons
  repeat' (first
    | with_reducible (first
      | exact framed_pure _ | exact framed_getS | exact framed_car _ | exact framed_cdr _
      | exact framed_cons _ _ | exact framed_pair _ _ _ | exact framed_closure _ _ _
      | exact framed_atom _ | exact framed_assoc _ _ _ | exact framed_letv _
      | exact framed_throwP _ | exact framed_diverge | exact hev _ _
      | exact framed_evlis hev _ _ _
      | refine framed_setEnv _ _ ?_ | refine framed_bind ?_ (fun _ => ?_))
    | split)

theorem framed_f_car {ev : Nat → Nat → M Nat} (hev : ∀ x e, Framed (ev x e)) (k t e : Nat) :
    Framed (f_car ev k t e) := by
  unfold f_car
  repeat' (first
    | with_reducible (first
      | exact framed_pure _ | exact framed_getS | exact framed_car _ | exact framed_cdr _
      | exact framed_cons _ _ | exact framed_pair _ _ _ | exact framed_closure _ _ _
      | exact framed_atom _ | exact framed_assoc _ _ _ | exact framed_letv _
      | exact framed_throwP _ | exact framed_diverge | exact hev _ _
      | exact framed_evlis hev _ _ _
      | refine framed_setEnv _ _ ?_ | refine framed_bind ?_ (fun _ => ?_))
    | split)

theorem framed_f_cdr {ev : Nat → Nat → M Nat} (hev : ∀ x e, Framed (ev x e)) (k t e : Nat) :
    Framed (f_cdr ev k t e) := by
  unfold f_cdr
  repeat' (first
    | with_reducible (first
      | exact framed_pure _ | exact framed_getS | exact framed_car _ | exact framed_cdr _
      | exact framed_cons _ _ | exact framed_pair _ _ _ | exact framed_closure _ _ _
      | exact framed_atom _ | exact framed_assoc _ _ _ | exact framed_letv _
      | exact framed_throwP _ | exact framed_diverge | exact hev _ _
      | exact framed_evlis hev _ _ _
      | refine framed_setEnv _ _ ?_ | refine framed_bind ?_ (fun _ => ?_))
    | split)

theorem framed_f_int {ev : Nat → Nat → M Nat} (hev : ∀ x e, Framed (ev x e)) (k t e : Nat) :
    Framed (f_int ev k t e) := by
  unfold f_int
  repeat' (first
    | with_reducible (first
      | exact framed_pure _ | exact framed_getS | exact framed_car _ | exact framed_cdr _
      | exact framed_cons _ _ | exact framed_pair _ _ _ | exact framed_closure _ _ _
      | exact framed_atom _ | exact framed_assoc _ _ _ | exact framed_letv _
      | exact framed_throwP _ | exact framed_diverge | exact hev _ _
      | exact framed_evlis hev _ _ _
      | refine framed_setEnv _ _ ?_ | refine framed_bind ?_ (fun _ => ?_))
    | split)

theorem framed_f_lt {ev : Nat → Nat → M Nat} (hev : ∀ x e, Framed (ev x e)) (k t e : Nat) :
    Framed (f_lt ev k t e) := by
  unfold f_lt
  repeat' (first
    | with_reducible (first
      | exact framed_pure _ | exact framed_getS | exact framed_car _ | exact framed_cdr _
      | exact framed_cons _ _ | exact framed_pair _ _ _ | exact framed_closure _ _ _
      | exact framed_atom _ | exact framed_assoc _ _ _ | exact framed_letv _
      | exact framed_throwP _ | exact framed_diverge | exact hev _ _
      | exact framed_evlis hev _ _ _
      | refine framed_setEnv _ _ ?_ | refine framed_bind ?_ (fun _ => ?_))
    | split)

theorem framed_f_eq {ev : Nat → Nat → M Nat} (hev : ∀ x e, Framed (ev x e)) (k t e : Nat) :
    Framed (f_eq ev k t e) := by
  unfold f_eq
  repeat' (first
    | with_reducible (first
      | exact framed_pure _ | exact framed_getS | exact framed_car _ | exact framed_cdr _
      | exact framed_cons _ _ | exact framed_pair _ _ _ | exact framed_closure _ _ _
      | exact framed_atom _ | exact framed_assoc _ _ _ | exact framed_letv _
      | exact framed_throwP _ | exact framed_diverge | exact hev _ _
      | exact framed_evlis hev _ _ _
      | refine framed_setEnv _ _ ?_ | refine framed_bind ?_ (fun _ => ?_))
    | split)

theorem framed_f_pair {ev : Nat → Nat → M Nat} (hev : ∀ x e, Framed (ev x e)) (k t e : Nat) :
    Framed (f_pair ev k t e) := by
  unfold f_pair
  repeat' (first
    | with_reducible (first
      | exact framed_pure _ | exact framed_getS | exact framed_car _ | exact framed_cdr _
      | exact framed_cons _ _ | exact framed_pair _ _ _ | exact framed_closure _ _ _
      | exact framed_atom _ | exact framed_assoc _ _ _ | exact framed_letv _
      | exact framed_throwP _ | exact framed_diverge | exact hev _ _
      | exact framed_evlis hev _ _ _
      | refine framed_setEnv _ _ ?_ | refine framed_bind ?_ (fun _ => ?_))
    | split)

theorem framed_f_not {ev : Nat → Nat → M Nat} (hev : ∀ x e, Framed (ev x e)) (k t e : Nat) :
    Framed (f_not ev k t e) := by
  unfold f_not
  repeat' (first
    | with_reducible (first
      | exact framed_pure _ | exact framed_getS | exact framed_car _ | exact framed_cdr _
      | exact framed_cons _ _ | exact framed_pair _ _ _ | exact framed_closure _ _ _
      | exact framed_atom _ | exact framed_assoc _ _ _ | exact framed_letv _
      | exact framed_throwP _ | exact framed_diverge | exact hev _ _
      | exact framed_evlis hev _ _ _
      | refine framed_setEnv _ _ ?_ | refine framed_bind ?_ (fun _ => ?_))
    | split)

theorem framed_f_add {ev : Nat → Nat → M Nat} (hev : ∀ x e, Framed (ev x e)) (k t e : Nat) :
    Framed (f_add ev k t e) :=
  framed_arith fadd hev k t e

theorem framed_f_sub {ev : Nat → Nat → M Nat} (hev : ∀ x e, Framed (ev x e)) (k t e : Nat) :
    Framed (f_sub ev k t e) :=
  framed_arith fsub hev k t e

theorem framed_f_mul {ev : Nat → Nat → M Nat} (hev : ∀ x e, Framed (ev x e)) (k t e : Nat) :
    Framed (f_mul ev k t e) :=
  framed_arith fmul hev k t e

theorem framed_f_div {ev : Nat → Nat → M Nat} (hev : ∀ x e, Framed (ev x e)) (k t e : Nat) :
    Framed (f_div ev k t e) :=
  framed_arith fdiv hev k t e

theorem framed_f_if {ev : Nat → Nat → M Nat} (hev : ∀ x e, Framed (ev x e)) (t e : Nat) :
    Framed (f_if ev t e) := by
  unfold f_if
  repeat' (first
    | with_reducible (first
      | exact framed_pure _ | exact framed_getS | exact framed_car _ | exact framed_cdr _
      | exact framed_cons _ _ | exact framed_pair _ _ _ | exact framed_closure _ _ _
      | exact framed_atom _ | exact framed_assoc _ _ _ | exact framed_letv _
      | exact framed_throwP _ | exact framed_diverge | exact hev _ _
      | exact framed_evlis hev _ _ _
      | refine framed_setEnv _ _ ?_ | refine framed_bind ?_ (fun _ => ?_))
    | split)

theorem framed_f_define {ev : Nat → Nat → M Nat} (hev : ∀ x e, Framed (ev x e)) (t e : Nat) :
    Framed (f_define ev t e) := by
  unfold f_define
  repeat' (first
    | with_reducible (first
      | exact framed_pure _ | exact framed_getS | exact framed_car _ | exact framed_cdr _
      | exact framed_cons _ _ | exact framed_pair _ _ _ | exact framed_closure _ _ _
      | exact framed_atom _ | exact framed_assoc _ _ _ | exact framed_letv _
      | exact framed_throwP _ | exact framed_diverge | exact hev _ _
      | exact framed_evlis hev _ _ _
      | refine framed_setEnv _ _ ?_ | refine framed_bind ?_ (fun _ => ?_))
    | split)

theorem framed_f_quote (t e : Nat) : Framed (f_quote t e) := by
  unfold f_quote
  repeat' (first
    | with_reducible (first
      | exact framed_pure _ | exact framed_getS | exact framed_car _ | exact framed_cdr _
      | exact framed_cons _ _ | exact framed_pair _ _ _ | exact framed_closure _ _ _
      | exact framed_atom _ | exact framed_assoc _ _ _ | exact framed_letv _
      | exact framed_throwP _ | exact framed_diverge
      | refine framed_setEnv _ _ ?_ | refine framed_bind ?_ (fun _ => ?_))
    | split)

theorem framed_f_lambda (t e : Nat) : Framed (f_lambda t e) := by
  unfold f_lambda
  repeat' (first
    | with_reducible (first
      | exact framed_pure _ | exact framed_getS | exact framed_car _ | exact framed_cdr _
      | exact framed_cons _ _ | exact framed_pair _ _ _ | exact framed_closure _ _ _
      | exact framed_atom _ | exact framed_assoc _ _ _ | exact framed_letv _
      | exact framed_throwP _ | exact framed_diverge
      | refine framed_setEnv _ _ ?_ | refine framed_bind ?_ (fun _ => ?_))
    | split)

theorem framed_orLoop {ev : Nat → Nat → M Nat} (hev : ∀ x e, Framed (ev x e)) :
    ∀ (k t e x : Nat), Framed (orLoop ev k t e x) := by
  intro k
  induction k with
  | zero => intro t e x; exact framed_diverge
  | succ k ih =>
    intro t e x
    unfold orLoop
    repeat' (first
      | with_reducible (first
        | exact framed_pure _ | exact framed_getS | exact framed_car _ | exact framed_cdr _
        | exact framed_cons _ _ | exact framed_pair _ _ _ | exact framed_closure _ _ _
        | exact framed_atom _ | exact framed_assoc _ _ _ | exact framed_letv _
        | exact framed_throwP _ | exact framed_diverge | exact hev _ _
        | exact framed_evlis hev _ _ _ | exact ih _ _ _
        | refine framed_setEnv _ _ ?_ | refine framed_bind ?_ (fun _ => ?_))
      | split)

theorem framed_andLoop {ev : Nat → Nat → M Nat} (hev : ∀ x e, Framed (ev x e)) :
    ∀ (k t e x : Nat), Framed (andLoop ev k t e x) := by
  intro k
  induction k with
  | zero => intro t e x; exact framed_diverge
  | succ k ih =>
    intro t e x
    unfold andLoop
    repeat' (first
      | with_reducible (first
        | exact framed_pure _ | exact framed_getS | exact framed_car _ | exact framed_cdr _
        | exact framed_cons _ _ | exact framed_pair _ _ _ | exact framed_closure _ _ _
        | exact framed_atom _ | exact framed_assoc _ _ _ | exact framed_letv _
        | exact framed_throwP _ | exact framed_diverge | exact hev _ _
        | exact framed_evlis hev _ _ _ | exact ih _ _ _
        | refine framed_setEnv _ _ ?_ | refine framed_bind ?_ (fun _ => ?_))
      | split)

theorem framed_f_or {ev : Nat → Nat → M Nat} (hev : ∀ x e, Framed (ev x e)) (k t e : Nat) :
    Framed (f_or ev k t e) :=
  framed_bind framed_getS (fun _ => framed_orLoop hev _ _ _ _)

theorem framed_f_and {ev : Nat → Nat → M Nat} (hev : ∀ x e, Framed (ev x e)) (k t e : Nat) :
    Framed (f_and ev k t e) :=
  framed_bind framed_getS (fun _ => framed_andLoop hev _ _ _ _)

theorem framed_f_cond {ev : Nat → Nat → M Nat} (hev : ∀ x e, Framed (ev x e)) :
    ∀ (k t e : Nat), Framed (f_cond ev k t e) := by
  intro k
  induction k with
  | zero => intro t e; exact framed_diverge
  | succ k ih =>
    intro t e
    unfold f_cond
    repeat' (first
      | with_reducible (first
        | exact framed_pure _ | exact framed_getS | exact framed_car _ | exact framed_cdr _
        | exact framed_cons _ _ | exact framed_pair _ _ _ | exact framed_closure _ _ _
        | exact framed_atom _ | exact framed_assoc _ _ _ | exact framed_letv _
        | exact framed_throwP _ | exact framed_diverge | exact hev _ _
        | exact framed_evlis hev _ _ _ | exact ih _ _
        | refine framed_setEnv _ _ ?_ | refine framed_bind ?_ (fun _ => ?_))
      | split)

theorem framed_f_leta {ev : Nat → Nat → M Nat} (hev : ∀ x e, Framed (ev x e)) :
    ∀ (k t e : Nat), Framed (f_leta ev k t e) := by
  intro k
  induction k with
  | zero => intro t e; exact framed_diverge
  | succ k ih =>
    intro t e
    unfold f_leta
    repeat' (first
      | with_reducible (first
        | exact framed_pure _ | exact framed_getS | exact framed_car _ | exact framed_cdr _
        | exact framed_cons _ _ | exact framed_pair _ _ _ | exact framed_closure _ _ _
        | exact framed_atom _ | exact framed_assoc _ _ _ | exact framed_letv _
        | exact framed_throwP _ | exact framed_diverge | exact hev _ _
        | exact framed_evlis hev _ _ _ | exact ih _ _
        | refine framed_setEnv _ _ ?_ | refine framed_bind ?_ (fun _ => ?_))
      | split)

theorem framed_readAtom (h : Host) (p : InputParser) : Framed (p.readAtom h) := by
  unfold InputParser.readAtom
  repeat' (first
    | with_reducible (first
      | exact framed_pure _ | exact framed_getS | exact framed_atom _ | exact framed_throwP _
      | refine framed_bind ?_ (fun _ => ?_))
    | split | dsimp only)

theorem framed_readListBody {rdExpr rdList : InputParser → M (Nat × InputParser)}
    (h1 : ∀ p, Framed (rdExpr p)) (h2 : ∀ p, Framed (rdList p)) (p0 : InputParser) :
    Framed (readListBody rdExpr rdList p0) := by
  unfold readListBody
  repeat' (first
    | with_reducible (first
      | exact framed_pure _ | exact framed_getS | exact framed_cons _ _ | exact h1 _ | exact h2 _
      | refine framed_bind ?_ (fun _ => ?_))
    | split | dsimp only)

theorem framed_readExprBody (h : Host) {rdList rdExpr : InputParser → M (Nat × InputParser)}
    (h1 : ∀ p, Framed (rdList p)) (h2 : ∀ p, Framed (rdExpr p)) (p0 : InputParser) :
    Framed (readExprBody h rdList rdExpr p0) := by
  unfold readExprBody
  repeat' (first
    | with_reducible (first
      | exact framed_pure _ | exact framed_getS | exact framed_cons _ _ | exact framed_atom _
      | exact h1 _ | exact h2 _ | exact framed_readAtom _ _
      | refine framed_bind ?_ (fun _ => ?_))
    | split | dsimp only)

theorem framed_readGen (h : Host) : ∀ (k : Nat) (b : Bool) (p : InputParser),
    Framed (readGen h k b p) := by
  intro k
  induction k with
  | zero => intro b p; exact framed_diverge
  | succ k ih =>
    intro b p
    cases b with
    | true => exact framed_readListBody (fun q => ih false q) (fun q => ih true q) p
    | false => exact framed_readExprBody h (fun q => ih true q) (fun q => ih false q) p

theorem framed_loadLoop (h : Host) {ev : Nat → Nat → M Nat} (hev : ∀ x e, Framed (ev x e)) :
    ∀ (k : Nat) (p : InputParser) (e result : Nat), Framed (loadLoop h ev k p e result) := by
  intro k
  induction k with
  | zero => intro p e r; exact framed_diverge
  | succ k ih =>
    intro p e r
    unfold loadLoop
    repeat' (first
      | with_reducible (first
        | exact framed_pure _ | exact framed_getS | exact framed_atom _ | exact hev _ _
        | exact ih _ _ _
        | refine framed_bind ?_ (fun _ => ?_))
      | exact framed_readGen h _ _ _ | split | dsimp only)

theorem framed_loadFile (h : Host) {ev : Nat → Nat → M Nat} (hev : ∀ x e, Framed (ev x e))
    (k : Nat) (filename : GoString) (e : Nat) : Framed (loadFile h ev k filename e) := by
  unfold loadFile
  repeat' (first
    | with_reducible (first
      | exact framed_pure _ | exact framed_getS | exact framed_atom _
      | exact framed_loadLoop h hev _ _ _ _
      | refine framed_bind ?_ (fun _ => ?_))
    | split | dsimp only)

theorem framed_nameLoop : ∀ (k j : Nat) (acc : GoString), Framed (nameLoop k j acc) := by
  intro k
  induction k with
  | zero => intro j acc; exact framed_throwP _
  | succ k ih =>
    intro j acc
    unfold nameLoop
    repeat' (first
      | with_reducible (first
        | exact framed_pure _ | exact framed_getS | exact framed_throwP _ | exact ih _ _
        | refine framed_bind ?_ (fun _ => ?_))
      | split | dsimp only)

theorem framed_f_load (h : Host) {ev : Nat → Nat → M Nat} (hev : ∀ x e, Framed (ev x e))
    (k t e : Nat) : Framed (f_load h ev k t e) := by
  unfold f_load
  repeat' (first
    | with_reducible (first
      | exact framed_pure _ | exact framed_getS | exact framed_atom _ | exact framed_car _
      | exact framed_evlis hev _ _ _ | exact framed_nameLoop _ _ _
      | exact framed_loadFile h hev _ _ _
      | refine framed_bind ?_ (fun _ => ?_))
    | split | dsimp only)

theorem framed_callPrim (h : Host) {ev : Nat → Nat → M Nat} (hev : ∀ x e, Framed (ev x e))
    (k : Nat) (p : Prim) (t e : Nat) : Framed (callPrim h ev k p t e) := by
  cases p
  · exact framed_f_eval hev k t e
  · exact framed_f_quote t e
  · exact framed_f_cons hev k t e
  · exact framed_f_car hev k t e
  · exact framed_f_cdr hev k t e
  · exact framed_f_add hev k t e
  · exact framed_f_sub hev k t e
  · exact framed_f_mul hev k t e
  · exact framed_f_div hev k t e
  · exact framed_f_int hev k t e
  · exact framed_f_lt hev k t e
  · exact framed_f_eq hev k t e
  · exact framed_f_pair hev k t e
  · exact framed_f_or hev k t e
  · exact framed_f_and hev k t e
  · exact framed_f_not hev k t e
  · exact framed_f_cond hev k t e
  · exact framed_f_if hev t e
  · exact framed_f_leta hev k t e
  · exact framed_f_lambda t e
  · exact framed_f_define hev t e
  · exact framed_f_load h hev k t e

theorem framed_apply (h : Host) {ev : Nat → Nat → M Nat} (hev : ∀ x e, Framed (ev x e))
    (k f t e : Nat) : Framed (apply h ev k f t e) := by
  unfold apply
  repeat' (first
    | with_reducible (first
      | exact framed_pure _ | exact framed_getS | exact framed_car _ | exact framed_cdr _
      | exact framed_evlis hev _ _ _ | exact framed_bindLoop _ _ _ _ | exact hev _ _
      | exact framed_callPrim h hev _ _ _ _
      | refine framed_bind ?_ (fun _ => ?_))
    | split | dsimp only)

theorem framed_evalBody (h : Host) {ev : Nat → Nat → M Nat} (hev : ∀ x e, Framed (ev x e))
    (k x e : Nat) : Framed (evalBody h ev k x e) := by
  unfold evalBody
  repeat' (first
    | with_reducible (first
      | exact framed_pure _ | exact framed_car _ | exact framed_cdr _ | exact framed_assoc _ _ _
      | exact hev _ _ | exact framed_apply h hev _ _ _ _
      | refine framed_bind ?_ (fun _ => ?_))
    | split | dsimp only)

/-- The evaluator only allocates: when `eval` returns, the watermark has
not moved up and the cells at or above the old watermark are unchanged. -/
theorem framed_eval (h : Host) : ∀ (n x e : Nat), Framed (eval h n x e) := by
  intro n
  induction n with
  | zero => intro x e; exact framed_diverge
  | succ n ih => intro x e; exact framed_evalBody h ih n x e


/-- C8: let the argument list `t` be `(sym x ...)`, lying at or above
the watermark, let the evaluation of `x` in `e` return `v` in state `s1`,
and let there be room for two more cells.  Then `f_define` returns `sym`,
and the new global environment is a node whose entry is `(sym . v)` and
whose cdr is the global environment as it was when the evaluation of `x`
returned; looking `sym` up in it yields `v` whether or not `sym` was bound
before; nothing at or above the old watermarks, and nothing but `cell`,
`sp` and `env`, has changed. -/
theorem define_prepends (h : Host) (n : Nat) (t e sym x v tl : Nat) (rest : List Nat)
    (s s1 : State)
    (hargs : listSeg s s.sp t (sym :: x :: rest) tl = true)
    (hev : eval h n x e s = Res.ok v s1)
    (hroom : 4 ≤ s1.sp ∧ s1.hp ≤ (s1.sp - 4) * 8) :
    ∃ s2, f_define (eval h n) t e s = Res.ok sym s2 ∧
      envSeg s2 0 s2.env [(sym, v)] s1.env = true ∧
      (∀ k, assoc (k + 1) sym s2.env s2 = Res.ok v s2) ∧
      (∀ i, s1.sp ≤ i → s2.cell i = s1.cell i) ∧
      (∀ i, s.sp ≤ i → s2.cell i = s.cell i) ∧
      s2.sp = s1.sp - 4 ∧ s2.hp = s1.hp ∧ s2.A = s1.A := by
  obtain ⟨h4, hhp⟩ := hroom
  obtain ⟨c1, c2, c3⟩ := (listSeg_cons_iff s s.sp t sym _ tl).1 hargs
  obtain ⟨d1, d2, _⟩ := (listSeg_cons_iff s s.sp _ x rest tl).1 c3
  obtain ⟨_, ct2, ct3⟩ := (cellOk_iff _ _).1 c1
  obtain ⟨f1, f2⟩ := framed_eval h n x e s v s1 hev
  have hN : s1.sp ≤ N := by omega
  have hp := pair_ok sym v s1.env s1 h4 hN hhp
  let s2 : State := { afterPair sym v s1.env s1 with env := box CONS (s1.sp - 4) }
  have hcell : ∀ i, s1.sp ≤ i → s2.cell i = s1.cell i :=
    fun i hi => afterPair_cell_above sym v s1.env s1 h4 i hi
  have hseg : envSeg s2 0 s2.env [(sym, v)] s1.env = true :=
    envSeg_frame (afterPair sym v s1.env s1) s2 0 (fun _ _ => rfl) _ _ _
      (envSeg_afterPair sym v s1.env s1 0 h4 hN (Nat.zero_le _))
  refine ⟨s2, ?_, hseg, ?_, hcell, fun i hi => by rw [hcell i (by omega), f2 i hi], rfl, rfl,
    rfl⟩
  · unfold f_define
    rw [run_bind_ok (car_cellOk c1 s), c2, run_bind_ok (cdr_cellOk c1 s),
      run_bind_ok (car_cellOk d1 s), d2, run_bind_ok hev, run_getS_bind, run_bind_ok hp,
      run_getS_bind, run_setS_bind, car_cellOk c1]
    have : s2.cell (ord t + 1) = sym := by rw [hcell _ (by omega), f2 _ (by omega)]; exact c2
    show Res.ok (s2.cell (ord t + 1)) s2 = Res.ok sym s2
    rw [this]
  · intro k
    have := assoc_seg sym s2 0 s1.env [(sym, v)] (k + 0) s2.env hseg
    simpa [lookupEnv] using this

/-- Witness for C8: `TestDefine`, the form `(define x 42)` after start-up. -/
theorem define_prepends_witness :
    ∃ s2, listSeg exampleDefine.stateD exampleDefine.stateD.sp exampleDefine.valD
        [box ATOM 93, num 42] (box NIL 0) = true ∧
      eval noHost 1 (num 42) exampleDefine.stateD.env exampleDefine.stateD
        = Res.ok (num 42) exampleDefine.stateD ∧
      (4 ≤ exampleDefine.stateD.sp ∧
        exampleDefine.stateD.hp ≤ (exampleDefine.stateD.sp - 4) * 8) ∧
      f_define (eval noHost 1) exampleDefine.valD exampleDefine.stateD.env exampleDefine.stateD
        = Res.ok (box ATOM 93) s2 ∧
      envSeg s2 0 s2.env [(box ATOM 93, num 42)] exampleDefine.stateD.env = true ∧
      (∀ k, assoc (k + 1) (box ATOM 93) s2.env s2 = Res.ok (num 42) s2) ∧
      (∀ i, exampleDefine.stateD.sp ≤ i → s2.cell i = exampleDefine.stateD.cell i) ∧
      (∀ i, exampleDefine.stateD.sp ≤ i → s2.cell i = exampleDefine.stateD.cell i) ∧
      s2.sp = exampleDefine.stateD.sp - 4 ∧ s2.hp = exampleDefine.stateD.hp ∧
      s2.A = exampleDefine.stateD.A := by
  have facts := runs_startup.2.1
  obtain ⟨h1, t1, t2, h4⟩ := facts
  have h2 := eval_other_tag noHost 0 (num 42) exampleDefine.stateD.env exampleDefine.stateD t1 t2
  obtain ⟨s2, h5⟩ := define_prepends noHost 1 exampleDefine.valD exampleDefine.stateD.env
    (box ATOM 93) (num 42) (num 42) (box NIL 0) [] exampleDefine.stateD exampleDefine.stateD
    h1 h2 h4
  exact ⟨s2, h1, h2, h4, h5⟩

theorem cellOk_mono {lo lo2 v : Nat} (h : lo2 ≤ lo) (hv : cellOk lo v = true) :
    cellOk lo2 v = true := by
  rw [cellOk_iff] at hv ⊢
  exact ⟨hv.1, by omega, hv.2.2⟩

theorem envSeg_mono (s : State) {lo lo2 : Nat} (h : lo2 ≤ lo) (l : List (Nat × Nat)) (tl : Nat) :
    ∀ e, envSeg s lo e l tl = true → envSeg s lo2 e l tl = true := by
  induction l with
  | nil => intro e he; simpa [envSeg] using he
  | cons kv rest ih =>
    intro e he
    rw [envSeg_cons_iff] at he ⊢
    obtain ⟨h1, h2, h3, h4, h5⟩ := he
    exact ⟨cellOk_mono h h1, cellOk_mono h h2, h3, h4, ih _ h5⟩

theorem listSeg_mono (s : State) {lo lo2 : Nat} (h : lo2 ≤ lo) (xs : List Nat) (tl : Nat) :
    ∀ v, listSeg s lo v xs tl = true → listSeg s lo2 v xs tl = true := by
  induction xs with
  | nil => intro v hv; simpa [listSeg] using hv
  | cons x xs ih =>
    intro v hv
    rw [listSeg_cons_iff] at hv ⊢
    exact ⟨cellOk_mono h hv.1, hv.2.1, ih _ hv.2.2⟩

theorem envSeg_append (s : State) (lo : Nat) (l1 l2 : List (Nat × Nat)) (mid tl : Nat) :
    ∀ e, envSeg s lo e l1 mid = true → envSeg s lo mid l2 tl = true →
      envSeg s lo e (l1 ++ l2) tl = true := by
  induction l1 with
  | nil =>
    intro e he hm
    have : e = mid := by simpa [envSeg] using he
    subst this
    simpa using hm
  | cons kv rest ih =>
    intro e he hm
    rw [List.cons_append, envSeg_cons_iff]
    rw [envSeg_cons_iff] at he
    obtain ⟨h1, h2, h3, h4, h5⟩ := he
    exact ⟨h1, h2, h3, h4, ih _ h5 hm⟩

theorem notv_of_NIL {v : Nat} (h : T v = NIL) : notv v = true := by
  simp [notv, h]

theorem notv_of_CONS {v : Nat} (h : T v = CONS) : notv v = false := by
  simp [notv, h]
  decide

/-- What `bind` does on a parameter list `ps` and an argument list `as`
of the same length that both lie at or above the watermark. -/
theorem bind_lists (ps : List Nat) :
    ∀ (as : List Nat) (k params args e tlp tla : Nat) (s : State),
      listSeg s s.sp params ps tlp = true → T tlp = NIL →
      listSeg s s.sp args as tla = true → as.length = ps.length →
      4 * ps.length ≤ s.sp → s.sp ≤ N → s.hp ≤ (s.sp - 4 * ps.length) * 8 →
      ps.length < k →
      ∃ r s2, bind k params args e s = Res.ok r s2 ∧
        envSeg s2 s2.sp r (ps.zip as).reverse e = true ∧
        s2.sp = s.sp - 4 * ps.length ∧
        (∀ i, s.sp ≤ i → s2.cell i = s.cell i) ∧
        s2.hp = s.hp ∧ s2.A = s.A ∧ s2.env = s.env ∧ s2.err = s.err := by
  induction ps with
  | nil =>
    intro as k params args e tlp tla s hps htl _ _ _ _ _ hk
    have : params = tlp := by simpa [listSeg] using hps
    subst this
    obtain ⟨m, rfl⟩ : ∃ m, k = m + 1 := ⟨k - 1, by simp at hk; omega⟩
    refine ⟨e, s, ?_, by simp [envSeg], by simp, fun _ _ => rfl, rfl, rfl, rfl, rfl⟩
    unfold bind
    rw [if_pos (notv_of_NIL htl)]
    rfl
  | cons p ps ih =>
    intro as k params args e tlp tla s hps htl has hlen h4 hN hhp hk
    cases as with
    | nil => simp at hlen
    | cons a as =>
      have hl1 := List.length_cons p ps
      have hl2 := List.length_cons a as
      obtain ⟨m, rfl⟩ : ∃ m, k = m + 1 := ⟨k - 1, by omega⟩
      obtain ⟨c1, c2, c3⟩ := (listSeg_cons_iff s s.sp params p ps tlp).1 hps
      obtain ⟨d1, d2, d3⟩ := (listSeg_cons_iff s s.sp args a as tla).1 has
      have hT : T params = CONS := ((cellOk_iff _ _).1 c1).1
      have hpair := pair_ok p a e s (by omega) hN (by omega)
      have hfr : ∀ i, s.sp ≤ i → (afterPair p a e s).cell i = s.cell i :=
        fun i hi => afterPair_cell_above p a e s (by omega) i hi
      have hsp : (afterPair p a e s).sp = s.sp - 4 := rfl
      obtain ⟨r, s2, hb, hseg, hsp2, hcell2, hhp2, hA2, henv2, herr2⟩ :=
        ih as m (s.cell (ord params)) (s.cell (ord args)) (box CONS (s.sp - 4)) tlp tla
          (afterPair p a e s)
          (listSeg_mono _ (by rw [hsp]; omega) _ _ _
            (listSeg_frame s _ s.sp hfr _ _ _ c3))
          htl
          (listSeg_mono _ (by rw [hsp]; omega) _ _ _
            (listSeg_frame s _ s.sp hfr _ _ _ d3))
          (by omega) (by rw [hsp]; omega) (by rw [hsp]; omega)
          (by
            rw [hsp]
            show s.hp ≤ _
            have : s.sp - 4 - 4 * ps.length = s.sp - 4 * (p :: ps).length := by omega
            rw [this]
            exact hhp)
          (by omega)
      refine ⟨r, s2, ?_, ?_, by rw [hsp2, hsp]; omega, ?_, hhp2, hA2, henv2, herr2⟩
      · conv_lhs => unfold bind
        rw [if_neg (by rw [notv_of_CONS hT]; simp), if_pos hT]
        rw [run_bind_ok (cdr_cellOk c1 s), run_bind_ok (cdr_cellOk d1 s),
          run_bind_ok (car_cellOk c1 s), run_bind_ok (car_cellOk d1 s), c2, d2,
          run_bind_ok hpair]
        exact hb
      · rw [List.zip_cons_cons, List.reverse_cons]
        apply envSeg_append s2 s2.sp _ _ (box CONS (s.sp - 4)) e r hseg
        apply envSeg_mono s2 (show s2.sp ≤ s.sp - 4 by rw [hsp2, hsp]; omega)
        apply envSeg_frame (afterPair p a e s) s2 (s.sp - 4) (fun i hi => hcell2 i hi)
        exact envSeg_afterPair p a e s (s.sp - 4) (by omega) hN (le_refl _)
      · intro i hi
        rw [hcell2 i (by rw [hsp]; omega), hfr i hi]

theorem lookupEnv_append (v : Nat) (l1 l2 : List (Nat × Nat)) :
    lookupEnv v (l1 ++ l2) = (lookupEnv v l1).or (lookupEnv v l2) := by
  unfold lookupEnv
  rw [List.find?_append]
  cases List.find? (fun kv => decide (kv.1 = v)) l1 <;> simp

theorem lookupEnv_absent (v : Nat) (ps as : List Nat) (h : v ∉ ps) :
    lookupEnv v (ps.zip as).reverse = none := by
  unfold lookupEnv
  rw [Option.map_eq_none', List.find?_eq_none]
  intro kv hkv
  have h1 : kv ∈ ps.zip as := List.mem_reverse.1 hkv
  have h2 : kv.1 ∈ ps := (List.of_mem_zip h1).1
  simp only [decide_eq_true_eq]
  intro heq
  exact h (heq ▸ h2)

theorem lookupEnv_positional (ps : List Nat) :
    ∀ (as : List Nat), ps.Nodup → as.length = ps.length →
      ∀ (i : Nat) (h1 : i < ps.length) (h2 : i < as.length),
        lookupEnv ps[i] (ps.zip as).reverse = some as[i] := by
  induction ps with
  | nil => intro as _ _ i h1; simp at h1
  | cons p ps ih =>
    intro as hnd hlen i h1 h2
    cases as with
    | nil => simp at h2
    | cons a as =>
      rw [List.zip_cons_cons, List.reverse_cons, lookupEnv_append]
      rw [List.nodup_cons] at hnd
      cases i with
      | zero =>
        simp only [List.getElem_cons_zero]
        rw [lookupEnv_absent p ps as hnd.1]
        simp [lookupEnv]
      | succ j =>
        simp only [List.getElem_cons_succ]
        simp only [List.length_cons] at h1 h2 hlen
        rw [ih as hnd.2 (by omega) j (by omega) (by omega)]
        simp
theorem car_eq {p : Nat} (h : isPairTag p = true) (hN : ord p + 1 < N) (s : State) :
    car p s = Res.ok (s.cell (ord p + 1)) s := by
  rw [car_pair h, readCell_ok hN]

theorem cdr_eq {p : Nat} (h : isPairTag p = true) (hN : ord p < N) (s : State) :
    cdr p s = Res.ok (s.cell (ord p)) s := by
  rw [cdr_pair h, readCell_ok hN]


theorem car_val {p v : Nat} {s : State} (h : isPairTag p = true) (hN : ord p + 1 < N)
    (hv : s.cell (ord p + 1) = v) : car p s = Res.ok v s := by
  rw [car_eq h hN, hv]

theorem cdr_val {p v : Nat} {s : State} (h : isPairTag p = true) (hN : ord p < N)
    (hv : s.cell (ord p) = v) : cdr p s = Res.ok v s := by
  rw [cdr_eq h hN, hv]

theorem T_CLOS_lt {p : Nat} (h : T p = CLOS) : p < 2 ^ 64 := by
  unfold T CLOS at h
  rw [Nat.shiftRight_eq_div_pow] at h
  omega

theorem isPairTag_of_CLOS {p : Nat} (h : T p = CLOS) : isPairTag p = true :=
  (isPairTag_iff (T_CLOS_lt h)).2 (Or.inr h)

theorem closureAt_iff (s : State) (f params body ce : Nat) :
    closureAt s f params body ce = true ↔
      T f = CLOS ∧ s.sp ≤ ord f ∧ ord f + 1 < N ∧ cellOk s.sp (s.cell (ord f + 1)) = true ∧
        s.cell (ord (s.cell (ord f + 1)) + 1) = params ∧
        s.cell (ord (s.cell (ord f + 1))) = body ∧ s.cell (ord f) = ce := by
  simp [closureAt, and_assoc]

/-- The closure case of `apply`, step by step. -/
theorem apply_closure_eq (h : Host) (ev : Nat → Nat → M Nat) (k f t e pb params body args ce : Nat)
    (s s1 : State) (hf : T f = CLOS)
    (hpb : car f s = Res.ok pb s) (hbody : cdr pb s = Res.ok body s)
    (hparams : car pb s = Res.ok params s)
    (hargs : evlis ev k t e s = Res.ok args s1) (hce : cdr f s1 = Res.ok ce s1) :
    apply h ev k f t e s = (bind k params args (ifv ce s1.env) >>= ev body) s1 := by
  unfold apply
  have h1 : T f ≠ PRIM := by rw [hf]; decide
  rw [if_neg h1, if_pos hf]
  rw [run_bind_ok hpb, run_bind_ok hbody, run_bind_ok hpb, run_bind_ok hparams,
    run_bind_ok hargs, run_bind_ok hce, run_getS_bind]

/-- The closure case of `apply` for a closure whose cells are in place
above the watermark when `apply` is called. -/
theorem apply_closureAt (h : Host) {ev : Nat → Nat → M Nat} (hev : ∀ x e, Framed (ev x e))
    (k f t e params body args ce : Nat) (s s1 : State)
    (hcl : closureAt s f params body ce = true)
    (hargs : evlis ev k t e s = Res.ok args s1) :
    apply h ev k f t e s = (bind k params args (ifv ce s1.env) >>= ev body) s1 := by
  obtain ⟨hf, c2, c3, c4, c5, c6, c7⟩ := (closureAt_iff s f params body ce).1 hcl
  obtain ⟨f1, f2⟩ := framed_evlis hev k t e s args s1 hargs
  have hp := isPairTag_of_CLOS hf
  exact apply_closure_eq h ev k f t e (s.cell (ord f + 1)) params body args ce s s1 hf
    (car_val hp c3 rfl) (by rw [cdr_cellOk c4, c6]) (by rw [car_cellOk c4, c5]) hargs
    (cdr_val hp (by omega) (by rw [f2 _ c2, c7]))


theorem evalArgs_framed (h : Host) (n e : Nat) {xs vs : List Nat} {s s2 : State}
    (hea : EvalArgs h n e xs s vs s2) :
    s2.sp ≤ s.sp ∧ ∀ i, s.sp ≤ i → s2.cell i = s.cell i := by
  induction hea with
  | nil s => exact ⟨le_refl _, fun _ _ => rfl⟩
  | cons hev _ ih =>
    obtain ⟨f1, f2⟩ := framed_eval h n _ _ _ _ _ hev
    exact ⟨le_trans ih.1 f1, fun i hi => by rw [ih.2 i (le_trans f1 hi), f2 i hi]⟩

theorem evalArgs_length (h : Host) (n e : Nat) {xs vs : List Nat} {s s2 : State}
    (hea : EvalArgs h n e xs s vs s2) : vs.length = xs.length := by
  induction hea with
  | nil s => rfl
  | cons _ _ ih => simp [ih]

/-- What `evlis` does on a list of expressions that lies at or above the
watermark and whose evaluations return: the values are consed up, last
one first, below the cells that the evaluations have allocated. -/
theorem evlis_list (h : Host) (n e : Nat) (xs : List Nat) :
    ∀ (vs : List Nat) (k t tl : Nat) (s s2 : State),
      listSeg s s.sp t xs tl = true → T tl ≠ CONS → T tl ≠ ATOM →
      EvalArgs h n e xs s vs s2 →
      2 * xs.length ≤ s2.sp → s2.hp ≤ (s2.sp - 2 * xs.length) * 8 → xs.length < k →
      ∃ args s3, evlis (eval h n) k t e s = Res.ok args s3 ∧
        listSeg s3 s3.sp args vs s2.nilv = true ∧
        s3.sp = s2.sp - 2 * xs.length ∧
        (∀ i, s2.sp ≤ i → s3.cell i = s2.cell i) ∧
        s3.hp = s2.hp ∧ s3.A = s2.A ∧ s3.env = s2.env ∧ s3.nilv = s2.nilv := by
  induction xs with
  | nil =>
    intro vs k t tl s s2 hl h1 h2 hea _ _ hk
    cases hea
    have : t = tl := by simpa [listSeg] using hl
    subst this
    obtain ⟨m, rfl⟩ : ∃ m, k = m + 1 := ⟨k - 1, by simp at hk; omega⟩
    refine ⟨s.nilv, s, ?_, by simp [listSeg], by simp, fun _ _ => rfl, rfl, rfl, rfl, rfl⟩
    unfold evlis
    rw [if_neg h1, if_neg h2]
    rfl
  | cons x xs ih =>
    intro vs k t tl s s2 hl h1 h2 hea hroom hhp hk
    cases hea with
    | cons hev hrest =>
      rename_i v vs s1
      have hl1 := List.length_cons x xs
      obtain ⟨m, rfl⟩ : ∃ m, k = m + 1 := ⟨k - 1, by omega⟩
      obtain ⟨c1, c2, c3⟩ := (listSeg_cons_iff s s.sp t x xs tl).1 hl
      obtain ⟨hT, ct2, ct3⟩ := (cellOk_iff _ _).1 c1
      obtain ⟨f1, f2⟩ := framed_eval h n x e s v s1 hev
      obtain ⟨g1, g2⟩ := evalArgs_framed h n e hrest
      have hl' : listSeg s1 s1.sp (s.cell (ord t)) xs tl = true :=
        listSeg_mono s1 f1 _ _ _ (listSeg_frame s s1 s.sp f2 _ _ _ c3)
      obtain ⟨r, s3, hr, hseg, hsp, hcell, hhp3, hA3, henv3, hnil3⟩ :=
        ih vs m (s.cell (ord t)) tl s1 s2 hl' h1 h2 hrest (by omega)
          (le_trans hhp (Nat.mul_le_mul_right 8 (by omega))) (by omega)
      have hc : cons v r s3 = Res.ok (box CONS (s3.sp - 2))
          { s3 with cell := upd (upd s3.cell (s3.sp - 1) v) (s3.sp - 2) r, sp := s3.sp - 2 } :=
        (cons_ok_iff v r s3 _ _).2 ⟨by omega, by omega, by
          rw [hhp3, hsp]
          have : s2.sp - 2 * xs.length - 2 = s2.sp - 2 * (x :: xs).length := by omega
          rw [this]; exact hhp, rfl, rfl⟩
      have hcd : cdr t s1 = Res.ok (s.cell (ord t)) s1 := by
        rw [cdr_cellOk c1, f2 _ ct2]
      have hNN := N_lt
      have hfr3 : ∀ i, s3.sp ≤ i →
          (upd (upd s3.cell (s3.sp - 1) v) (s3.sp - 2) r) i = s3.cell i := by
        intro i hi
        rw [upd_other _ _ (by omega), upd_other _ _ (by omega)]
      refine ⟨box CONS (s3.sp - 2),
        { s3 with cell := upd (upd s3.cell (s3.sp - 1) v) (s3.sp - 2) r, sp := s3.sp - 2 },
        ?_, ?_, ?_, ?_, hhp3, hA3, henv3, hnil3⟩
      · conv_lhs => unfold evlis
        rw [if_pos hT, run_bind_ok (car_cellOk c1 s), c2, run_bind_ok hev, run_bind_ok hcd,
          run_bind_ok hr, hc]
      · rw [listSeg_cons_iff]
        have ho : ord (box CONS (s3.sp - 2)) = s3.sp - 2 := ord_box (by decide) (by omega)
        rw [ho]
        refine ⟨cellOk_box (le_refl _) (by omega), ?_, ?_⟩
        · show upd (upd s3.cell (s3.sp - 1) v) (s3.sp - 2) r (s3.sp - 2 + 1) = v
          have e1 : s3.sp - 2 + 1 = s3.sp - 1 := by omega
          rw [e1, upd_other _ _ (by omega), upd_same]
        · have e2 : upd (upd s3.cell (s3.sp - 1) v) (s3.sp - 2) r (s3.sp - 2) = r := upd_same _ _ _
          show listSeg _ (s3.sp - 2) (upd (upd s3.cell (s3.sp - 1) v) (s3.sp - 2) r (s3.sp - 2))
            vs s2.nilv = true
          rw [e2]
          apply listSeg_mono _ (show s3.sp - 2 ≤ s3.sp by omega)
          exact listSeg_frame s3 _ s3.sp hfr3 _ _ _ hseg
      · show s3.sp - 2 = _
        omega
      · intro i hi
        show upd (upd s3.cell (s3.sp - 1) v) (s3.sp - 2) r i = _
        rw [hfr3 i (by omega), hcell i hi]


/-- C9: let `f` be a closure, in place above the watermark, whose
parameter list is a proper list `ps` of distinct symbols, and let the
argument list `t` be a proper list of as many expressions `xs`, whose
evaluations in the caller's environment `e`, one after the other, return
the values `vs`.  If there is room for three cells per parameter, `apply`
returns what `eval` returns for the body in an environment `env1` in
which the `i`-th parameter resolves to the `i`-th argument value and
every other symbol resolves as in the closure's environment (the stored
one, or the global one when `NIL` is stored); the cells at or above the
watermark and the global environment are as the evaluation of the
arguments left them.  In particular `((lambda (x) (+ x 1)) 5)` evaluates
to 6 and `((lambda (x y) (+ x y)) 3 4)` to 7. -/
theorem apply_closure_binds (h : Host) (n f t e params body ce tlp tla : Nat)
    (ps xs vs : List Nat) (s s2 : State)
    (hcl : closureAt s f params body ce = true)
    (hps : listSeg s s.sp params ps tlp = true) (htlp : T tlp = NIL) (hnd : ps.Nodup)
    (hxs : listSeg s s.sp t xs tla = true) (htla : T tla = NIL)
    (hea : EvalArgs h n e xs s vs s2) (hlen : xs.length = ps.length)
    (hroom : 6 * ps.length ≤ s2.sp ∧ s2.hp ≤ (s2.sp - 6 * ps.length) * 8)
    (hfuel : ps.length < n) :
    (∃ env1 s4,
      apply h (eval h n) n f t e s = eval h n body env1 s4 ∧
      (∀ (i : Nat), i < ps.length → ∀ (k : Nat),
        assoc (k + 1 + ps.length) (ps.getD i 0) env1 s4 = Res.ok (vs.getD i 0) s4) ∧
      (∀ v, v ∉ ps → ∀ k, assoc (k + ps.length) v env1 s4 = assoc k v (ifv ce s2.env) s4) ∧
      (∀ i, s2.sp ≤ i → s4.cell i = s2.cell i) ∧ s4.env = s2.env) ∧
    (parseAndEval "((lambda (x) (+ x 1)) 5)" 60).val = some (num 6) ∧
    (parseAndEval "((lambda (x y) (+ x y)) 3 4)" 60).val = some (num 7) := by
  refine ⟨?_, runs_closures.1, runs_closures.2.1⟩
  obtain ⟨r6, rhp⟩ := hroom
  have hvl : vs.length = ps.length := by rw [evalArgs_length h n e hea, hlen]
  obtain ⟨args, s3, hargs, hseg3, hsp3, hcell3, hhp3, _, henv3, _⟩ :=
    evlis_list h n e xs vs n t tla s s2 hxs (by rw [htla]; decide) (by rw [htla]; decide) hea
      (by omega) (le_trans rhp (Nat.mul_le_mul_right 8 (by omega))) (by omega)
  obtain ⟨_, c2, c3, _⟩ := (closureAt_iff s f params body ce).1 hcl
  obtain ⟨f1, f2⟩ := framed_evlis (framed_eval h n) n t e s args s3 hargs
  have hps3 : listSeg s3 s3.sp params ps tlp = true :=
    listSeg_mono s3 f1 _ _ _ (listSeg_frame s s3 s.sp f2 _ _ _ hps)
  obtain ⟨env1, s4, hb, hseg, _, hcell, _, _, henv, _⟩ :=
    bind_lists ps vs n params args (ifv ce s3.env) tlp s2.nilv s3 hps3 htlp hseg3 hvl
      (by omega) (by omega)
      (by
        rw [hhp3, hsp3, hlen]
        have : s2.sp - 2 * ps.length - 4 * ps.length = s2.sp - 6 * ps.length := by omega
        rw [this]
        exact rhp)
      hfuel
  rw [henv3] at hb hseg
  refine ⟨env1, s4, ?_, ?_, ?_, ?_, by rw [henv, henv3]⟩
  · rw [apply_closureAt h (framed_eval h n) n f t e params body args ce s s3 hcl hargs,
      henv3, run_bind_ok hb]
  · intro i h1 k
    have h2 : i < vs.length := by omega
    have hz : (ps.zip vs).reverse.length = ps.length := by
      rw [List.length_reverse, List.length_zip, hvl, Nat.min_self]
    have := assoc_seg ps[i] s4 s4.sp (ifv ce s2.env) (ps.zip vs).reverse (k + 1) env1 hseg
    rw [hz, lookupEnv_positional ps vs hnd hvl i h1 h2] at this
    rw [List.getD_eq_getElem _ _ h1, List.getD_eq_getElem _ _ h2]
    exact this
  · intro v hv k
    have hz : (ps.zip vs).reverse.length = ps.length := by
      rw [List.length_reverse, List.length_zip, hvl, Nat.min_self]
    have := assoc_seg v s4 s4.sp (ifv ce s2.env) (ps.zip vs).reverse k env1 hseg
    rw [hz, lookupEnv_absent v ps vs hv] at this
    exact this
  · intro i hi
    rw [hcell i (by omega), hcell3 i hi]

/-- Witness for C9: the call `((lambda (x y) (+ x y)) 3 4)` of
`TestLambdaFunctions`, at the moment `eval` calls `apply`. -/
theorem apply_closure_binds_witness :
    closureAt exampleApply.stateD exampleApply.valD.1 (box CONS 1956) (box CONS 1950)
      (box NIL 0) = true ∧
    listSeg exampleApply.stateD exampleApply.stateD.sp (box CONS 1956)
      exampleParams (box NIL 0) = true ∧
    T (box NIL 0) = NIL ∧ exampleParams.Nodup ∧
    listSeg exampleApply.stateD exampleApply.stateD.sp exampleApply.valD.2
      exampleValues (box NIL 0) = true ∧
    EvalArgs decimalHost 60 exampleApply.stateD.env exampleValues exampleApply.stateD
      exampleValues exampleApply.stateD ∧
    exampleValues.length = exampleParams.length ∧
    (6 * exampleParams.length ≤ exampleApply.stateD.sp ∧
      exampleApply.stateD.hp ≤ (exampleApply.stateD.sp - 6 * exampleParams.length) * 8) ∧
    exampleParams.length < 60 ∧
    ((∃ env1 s4,
      apply decimalHost (eval decimalHost 60) 60 exampleApply.valD.1 exampleApply.valD.2
          exampleApply.stateD.env exampleApply.stateD
        = eval decimalHost 60 (box CONS 1950) env1 s4 ∧
      (∀ (i : Nat), i < exampleParams.length → ∀ (k : Nat),
        assoc (k + 1 + exampleParams.length) (exampleParams.getD i 0) env1 s4
          = Res.ok (exampleValues.getD i 0) s4) ∧
      (∀ v, v ∉ exampleParams → ∀ k,
        assoc (k + exampleParams.length) v env1 s4
          = assoc k v (ifv (box NIL 0) exampleApply.stateD.env) s4) ∧
      (∀ i, exampleApply.stateD.sp ≤ i → s4.cell i = exampleApply.stateD.cell i) ∧
      s4.env = exampleApply.stateD.env) ∧
    (parseAndEval "((lambda (x) (+ x 1)) 5)" 60).val = some (num 6) ∧
    (parseAndEval "((lambda (x y) (+ x y)) 3 4)" 60).val = some (num 7)) := by
  have facts := runs_closures.2.2.1
  obtain ⟨a1, a2, a5, a8, n1, n2, n3, n4⟩ := facts
  have a3 : T (box NIL 0) = NIL := by decide
  have a4 : exampleParams.Nodup := by decide
  have a6 : EvalArgs decimalHost 60 exampleApply.stateD.env exampleValues exampleApply.stateD
      exampleValues exampleApply.stateD :=
    EvalArgs.cons (eval_other_tag decimalHost 59 (num 3) _ _ n1 n2)
      (EvalArgs.cons (eval_other_tag decimalHost 59 (num 4) _ _ n3 n4) (EvalArgs.nil _))
  have a7 : exampleValues.length = exampleParams.length := by decide
  have a9 : exampleParams.length < 60 := by decide
  exact ⟨a1, a2, a3, a4, a5, a6, a7, a8, a9,
    apply_closure_binds decimalHost 60 exampleApply.valD.1 exampleApply.valD.2
      exampleApply.stateD.env (box CONS 1956) (box CONS 1950) (box NIL 0)
      (box NIL 0) (box NIL 0) exampleParams exampleValues exampleValues
      exampleApply.stateD exampleApply.stateD a1 a2 a3 a4 a5 a3 a6 a7 a8 a9⟩


/-- What a returning call of `closure` does when `e` is not the global
environment. -/
theorem closure_ok_ne (v x e : Nat) (s : State) (c : Nat) (s1 : State) (hne : e ≠ s.env)
    (hc : closure v x e s = Res.ok c s1) :
    4 ≤ s.sp ∧ s.sp ≤ N ∧ c = box CLOS (s.sp - 4) ∧ s1 = afterPair v x e s := by
  unfold closure at hc
  rw [run_getS_bind] at hc
  have hq : equ e s.env = false := by simp [equ, hne]
  rw [hq] at hc
  simp only [Bool.false_eq_true, if_false] at hc
  rw [run_bind] at hc
  cases hp : pair v x e s with
  | ok p sm =>
    rw [hp] at hc
    simp only [run_pure] at hc
    injection hc with h1 h2
    obtain ⟨a1, a2, _, a4, a5⟩ := (pair_ok_iff v x e s p sm).1 hp
    have hN := N_lt
    refine ⟨a1, a2, ?_, ?_⟩
    · rw [← h1, a4, ord_box (by decide) (by omega)]
    · rw [← h2, a5]
  | panic q sm => rw [hp] at hc; simp at hc
  | diverge => rw [hp] at hc; simp at hc

theorem ifv_of_not_nil {c : Nat} (alt : Nat) (h : T c ≠ NIL) : ifv c alt = c := by
  simp [ifv, notv, h]

/-- C10 (amended): a closure made by `closure(v, x, e)` in an environment
`e` that is neither the global environment nor `NIL` stores `e`: it is a
closure reference with parameters `v`, body `x` and environment `e`.  In
every later state in which its cells are in place above the watermark,
whatever the caller's environment `e2` and whatever the global
environment then is, `apply` evaluates the body `x` in
`bind(v, args, e)`, so that the free variables of the body resolve
against `e`.  In particular `(((lambda (x) (lambda (y) (+ x y))) 10) 5)`
evaluates to 15. -/
theorem closure_lexical (h : Host) (n v x e : Nat) (s : State) (c : Nat) (s1 : State)
    (hne : e ≠ s.env) (hnil : T e ≠ NIL) (hc : closure v x e s = Res.ok c s1) :
    (closureAt s1 c v x e = true ∧
      ∀ (t e2 args : Nat) (s2 s3 : State), closureAt s2 c v x e = true →
        evlis (eval h n) n t e2 s2 = Res.ok args s3 →
        apply h (eval h n) n c t e2 s2 = (bind n v args e >>= eval h n x) s3) ∧
    (parseAndEval "(((lambda (x) (lambda (y) (+ x y))) 10) 5)" 60).val = some (num 15) := by
  refine ⟨⟨?_, ?_⟩, runs_closures.2.2.2.1⟩
  · obtain ⟨h4, hN, rfl, rfl⟩ := closure_ok_ne v x e s c s1 hne hc
    have hNN := N_lt
    obtain ⟨c1, c2, c3, c4⟩ := afterPair_cells v x e s h4
    have ho : ord (box CLOS (s.sp - 4)) = s.sp - 4 := ord_box (by decide) (by omega)
    have ho2 : ord (box CONS (s.sp - 2)) = s.sp - 2 := ord_box (by decide) (by omega)
    have hsp : (afterPair v x e s).sp = s.sp - 4 := rfl
    rw [closureAt_iff, ho, c2, ho2, hsp]
    exact ⟨T_box (by decide) (by omega), le_refl _, by omega,
      cellOk_box (by omega) (by omega), c4, c3, c1⟩
  · intro t e2 args s2 s3 k1 k2
    rw [apply_closureAt h (framed_eval h n) n c t e2 v x args e s2 s3 k1 k2,
      ifv_of_not_nil _ hnil]

/-- C10 (counterexample): after start-up the global environment is the
node at 1960, not `NIL`; the closure made by `closure(nilv, tru, nilv)`
in the empty environment evaluates its body `#t` to the atom `#t`
(offset 4), its global binding, whereas `#t` is unbound in the empty
environment and evaluates there to `ERR` (offset 0). -/
theorem closure_lexical_counterexample :
    exampleGlobalEnv.val = some (box CONS 1960) ∧ box NIL 0 ≠ box CONS 1960 ∧
      exampleNilClosure.val = some (box ATOM 4) ∧ exampleNilBody.val = some (box ATOM 0) ∧
      box ATOM 4 ≠ box ATOM 0 :=
  runs_closures.2.2.2.2.1

/-- Witness for C10 (amended): after start-up, a closure created in the
environment that is the cdr of the global one. -/
theorem closure_lexical_witness :
    box CONS 1964 ≠ exampleGlobalEnv.stateD.env ∧ T (box CONS 1964) ≠ NIL ∧
    closure (box NIL 0) (num 1) (box CONS 1964) exampleGlobalEnv.stateD
      = Res.ok (box CLOS 1956) exampleClosure.stateD ∧
    ((closureAt exampleClosure.stateD (box CLOS 1956) (box NIL 0) (num 1) (box CONS 1964)
        = true ∧
      ∀ (t e2 args : Nat) (s2 s3 : State),
        closureAt s2 (box CLOS 1956) (box NIL 0) (num 1) (box CONS 1964) = true →
        evlis (eval noHost 60) 60 t e2 s2 = Res.ok args s3 →
        apply noHost (eval noHost 60) 60 (box CLOS 1956) t e2 s2
          = (bind 60 (box NIL 0) args (box CONS 1964) >>= eval noHost 60 (num 1)) s3) ∧
    (parseAndEval "(((lambda (x) (lambda (y) (+ x y))) 10) 5)" 60).val = some (num 15)) := by
  have facts := runs_closures.2.2.2.2.2.1
  obtain ⟨a1, b1⟩ := facts
  have a2 : T (box CONS 1964) ≠ NIL := by decide
  have a3 : closure (box NIL 0) (num 1) (box CONS 1964) exampleGlobalEnv.stateD
      = Res.ok (box CLOS 1956) exampleClosure.stateD :=
    Res.eq_ok_of_val (r := exampleClosure) b1
  exact ⟨a1, a2, a3,
    closure_lexical noHost 60 (box NIL 0) (num 1) (box CONS 1964) exampleGlobalEnv.stateD
      (box CLOS 1956) exampleClosure.stateD a1 a2 a3⟩

/-! ## Returning runs, step by step -/

theorem bind_ok_inv {α β : Type} {m : M α} {f : α → M β} {s s2 : State} {w : β}
    (h : (m >>= f) s = Res.ok w s2) : ∃ a s1, m s = Res.ok a s1 ∧ f a s1 = Res.ok w s2 := by
  rw [run_bind] at h
  cases hr : m s with
  | ok a s1 => rw [hr] at h; exact ⟨a, s1, rfl, h⟩
  | panic p s1 => rw [hr] at h; cases h
  | diverge => rw [hr] at h; cases h

theorem car_ok_state {p v : Nat} {s s1 : State} (h : car p s = Res.ok v s1) : s1 = s := by
  unfold car at h
  by_cases hp : isPairTag p = true
  · rw [if_pos hp] at h
    unfold readCell at h
    split at h
    · injection h with _ h2; exact h2.symm
    · cases h
  · rw [if_neg hp] at h
    injection h with _ h2; exact h2.symm

theorem cdr_ok_state {p v : Nat} {s s1 : State} (h : cdr p s = Res.ok v s1) : s1 = s := by
  unfold cdr at h
  by_cases hp : isPairTag p = true
  · rw [if_pos hp] at h
    unfold readCell at h
    split at h
    · injection h with _ h2; exact h2.symm
    · cases h
  · rw [if_neg hp] at h
    injection h with _ h2; exact h2.symm

/-! ## Lookups read the cells of the chain only -/

theorem envSeg_nil_iff (s : State) (lo e tl : Nat) : envSeg s lo e [] tl = true ↔ e = tl := by
  simp [envSeg]

theorem assoc_frame (u : Nat) (s s2 : State) (lo : Nat)
    (hc : ∀ i, lo ≤ i → s2.cell i = s.cell i) (herr : s2.err = s.err) (tl : Nat)
    (htl : T tl ≠ CONS) (l : List (Nat × Nat)) :
    ∀ (k e : Nat), envSeg s lo e l tl = true →
      assoc k u e s2 = Res.mapState (fun _ => s2) (assoc k u e s) := by
  induction l with
  | nil =>
    intro k e he
    rw [envSeg_nil_iff] at he
    subst he
    cases k with
    | zero => rfl
    | succ k => rw [assoc_nil k u e s2 htl, assoc_nil k u e s htl, herr]; rfl
  | cons kv rest ih =>
    intro k e he
    cases k with
    | zero => rfl
    | succ k =>
      have he2 := envSeg_frame s s2 lo hc _ tl e he
      rw [assoc_step k u e s2 kv rest lo tl he2, assoc_step k u e s kv rest lo tl he]
      by_cases hk : kv.1 = u
      · rw [if_pos hk, if_pos hk]; rfl
      · rw [if_neg hk, if_neg hk]
        obtain ⟨a1, _, _, _, a5⟩ := (envSeg_cons_iff s lo e kv rest tl).mp he
        have hlo : lo ≤ ord e := ((cellOk_iff lo e).mp a1).2.1
        rw [hc (ord e) hlo]
        exact ih k _ a5

/-! ## Reclaiming the cells below the global environment -/

theorem mapState_bind {α β : Type} (g : State → State) {m : M α} {f : α → M β}
    (hm : ∀ s, m (g s) = Res.mapState g (m s))
    (hf : ∀ a s, f a (g s) = Res.mapState g (f a s)) (s : State) :
    (m >>= f) (g s) = Res.mapState g ((m >>= f) s) := by
  rw [run_bind, run_bind, hm s]
  cases m s with
  | ok a s1 => exact hf a s1
  | panic p s1 => rfl
  | diverge => rfl

theorem car_sp (sp1 p : Nat) (s : State) :
    car p { s with sp := sp1 } = Res.mapState (fun t => { t with sp := sp1 }) (car p s) := by
  unfold car
  by_cases hp : isPairTag p = true
  · simp only [if_pos hp]
    unfold readCell
    split <;> rfl
  · simp only [if_neg hp]
    rfl

theorem cdr_sp (sp1 p : Nat) (s : State) :
    cdr p { s with sp := sp1 } = Res.mapState (fun t => { t with sp := sp1 }) (cdr p s) := by
  unfold cdr
  by_cases hp : isPairTag p = true
  · simp only [if_pos hp]
    unfold readCell
    split <;> rfl
  · simp only [if_neg hp]
    rfl

theorem assoc_sp (sp1 v : Nat) : ∀ (k e : Nat) (s : State),
    assoc k v e { s with sp := sp1 } =
      Res.mapState (fun t => { t with sp := sp1 }) (assoc k v e s) := by
  intro k
  induction k with
  | zero => intro e s; rfl
  | succ k ih =>
    intro e s
    unfold assoc
    by_cases he : T e = CONS
    · simp only [if_pos he]
      refine mapState_bind (fun t => { t with sp := sp1 }) (car_sp sp1 e) (fun a t => ?_) s
      refine mapState_bind (fun t => { t with sp := sp1 }) (car_sp sp1 a) (fun b t => ?_) t
      split
      · exact mapState_bind (fun t => { t with sp := sp1 }) (car_sp sp1 e)
          (fun c t => cdr_sp sp1 c t) t
      · exact mapState_bind (fun t => { t with sp := sp1 }) (cdr_sp sp1 e)
          (fun c t => ih c t) t
    · simp only [if_neg he]
      rfl

/-- C15: `gc()` returns with the cell watermark `sp` equal to `ord(env)`;
the global environment value, every cell, `hp` and the atom buffer are
unchanged, and every lookup `assoc(v, env)` has the same outcome after
`gc` as before it (the same value, failure or non-termination), whatever
the fuel. -/
theorem gc_keeps_lookups (s : State) :
    ∃ s1, gc s = Res.ok () s1 ∧ s1.sp = ord s.env ∧ s1.env = s.env ∧ s1.cell = s.cell ∧
      s1.hp = s.hp ∧ s1.A = s.A ∧
      ∀ (k v : Nat),
        assoc k v s1.env s1 =
          Res.mapState (fun t => { t with sp := ord s.env }) (assoc k v s.env s) ∧
        (assoc k v s1.env s1).val = (assoc k v s.env s).val := by
  refine ⟨{ s with sp := ord s.env }, rfl, rfl, rfl, rfl, rfl, rfl, fun k v => ?_⟩
  have h := assoc_sp (ord s.env) v k s.env s
  show assoc k v s.env { s with sp := ord s.env } = _ ∧ _
  rw [h]
  cases hr : assoc k v s.env s with
  | ok r t => exact ⟨rfl, rfl⟩
  | panic p t => exact ⟨rfl, rfl⟩
  | diverge => exact ⟨rfl, rfl⟩

/-! ## `pair` leaves existing structure alone -/

theorem afterPair_cell_outside (v x e : Nat) (s : State) (h4 : 4 ≤ s.sp) (i : Nat)
    (hi : i < s.sp - 4 ∨ s.sp ≤ i) : (afterPair v x e s).cell i = s.cell i := by
  show upd (upd (upd (upd s.cell (s.sp - 1) v) (s.sp - 2) x) (s.sp - 3) (box CONS (s.sp - 2)))
    (s.sp - 4) e i = s.cell i
  rw [upd_other _ _ (by omega), upd_other _ _ (by omega), upd_other _ _ (by omega),
    upd_other _ _ (by omega)]

/-- C17: a call `pair(v, x, e)` that returns has moved the watermark down
by four and written the four slots below the old watermark (the new entry
`(v . x)` and the node that links it to `e`); every other cell, `hp` and
the atom buffer are unchanged, the cdr of the result is `e`, and when `e`
is an environment whose nodes lie at or above the old watermark every
lookup in `e` has the same outcome after the call as before it. -/
theorem pair_preserves (v x e : Nat) (s s1 : State) (r : Nat)
    (h : pair v x e s = Res.ok r s1) :
    4 ≤ s.sp ∧ s1.sp = s.sp - 4 ∧
      s1.cell (s.sp - 1) = v ∧ s1.cell (s.sp - 2) = x ∧
      s1.cell (s.sp - 3) = box CONS (s.sp - 2) ∧ s1.cell (s.sp - 4) = e ∧
      (∀ i, (i < s.sp - 4 ∨ s.sp ≤ i) → s1.cell i = s.cell i) ∧
      s1.hp = s.hp ∧ s1.A = s.A ∧ s1.env = s.env ∧
      cdr r s1 = Res.ok e s1 ∧
      ∀ (l : List (Nat × Nat)) (tl : Nat), envSeg s s.sp e l tl = true → T tl ≠ CONS →
        ∀ (k u : Nat), assoc k u e s1 = Res.mapState (fun _ => s1) (assoc k u e s) := by
  obtain ⟨h4, hN, _, hr, hs1⟩ := (pair_ok_iff v x e s r s1).mp h
  subst hs1
  obtain ⟨c1, c2, c3, c4⟩ := afterPair_cells v x e s h4
  have e1 : s.sp - 4 + 1 = s.sp - 3 := by omega
  have e2 : s.sp - 2 + 1 = s.sp - 1 := by omega
  rw [e1] at c2
  rw [e2] at c4
  refine ⟨h4, rfl, c4, c3, c2, c1, afterPair_cell_outside v x e s h4, rfl, rfl, rfl, ?_, ?_⟩
  · have ho : ord (box CONS (s.sp - 4)) = s.sp - 4 :=
      ord_box (by decide) (lt_of_le_of_lt (Nat.sub_le _ _) (lt_of_le_of_lt hN N_lt))
    have hN2 : N = 2048 := rfl
    rw [hr]
    refine cdr_val (isPairTag_box_CONS ?_) ?_ ?_
    · exact lt_of_le_of_lt (Nat.sub_le _ _) (lt_of_le_of_lt hN N_lt)
    · rw [ho]; omega
    · rw [ho]; exact c1
  · intro l tl hl htl k u
    exact assoc_frame u s (afterPair v x e s) s.sp
      (fun i hi => afterPair_cell_above v x e s h4 i hi) rfl tl htl l k e hl

/-- Witness for C17: the environment `((x . 1) (y . 2))` of
`TestEnvironment` is extended by `pair`; a lookup of `y` in the old
environment is unaffected. -/
theorem pair_preserves_witness :
    pair (box ATOM 4) (num 3) exampleEnv.valD exampleEnv.stateD =
        Res.ok (box CONS (exampleEnv.stateD.sp - 4))
          (afterPair (box ATOM 4) (num 3) exampleEnv.valD exampleEnv.stateD) ∧
      assoc 3 (box ATOM 2) exampleEnv.valD
          (afterPair (box ATOM 4) (num 3) exampleEnv.valD exampleEnv.stateD) =
        Res.mapState (fun _ => afterPair (box ATOM 4) (num 3) exampleEnv.valD exampleEnv.stateD)
          (assoc 3 (box ATOM 2) exampleEnv.valD exampleEnv.stateD) := by
  have facts : (4 ≤ exampleEnv.stateD.sp ∧ exampleEnv.stateD.sp ≤ N ∧
      exampleEnv.stateD.hp ≤ (exampleEnv.stateD.sp - 4) * 8) ∧
      envSeg exampleEnv.stateD exampleEnv.stateD.sp exampleEnv.valD
        [(box ATOM 0, num 1), (box ATOM 2, num 2)] (box NIL 0) = true := by
    decide!
  obtain ⟨⟨a1, a2, a3⟩, a4⟩ := facts
  have hp := pair_ok (box ATOM 4) (num 3) exampleEnv.valD exampleEnv.stateD a1 a2 a3
  exact ⟨hp, (pair_preserves (box ATOM 4) (num 3) exampleEnv.valD exampleEnv.stateD _ _ hp).2.2.2.2.2.2.2.2.2.2.2
    [(box ATOM 0, num 1), (box ATOM 2, num 2)] (box NIL 0) a4 (by decide) 3 (box ATOM 2)⟩

/-! ## Running out of memory -/

theorem Res.eq_panic_of_failure {α : Type} {r : Res α} {p : Panic}
    (h : r.failure = some p) : r = Res.panic p r.stateD := by
  cases r with
  | ok w s => simp [Res.failure] at h
  | panic q s =>
    have : q = p := by simpa [Res.failure] using h
    subst this
    rfl
  | diverge => simp [Res.failure] at h

theorem cons_oom (x y : Nat) (s s1 : State)
    (h : cons x y s = Res.panic Panic.outOfMemory s1) :
    2 ≤ s.sp ∧ s.sp ≤ N ∧ (s.sp - 2) * 8 < s.hp ∧
      s1 = { s with cell := upd (upd s.cell (s.sp - 1) x) (s.sp - 2) y, sp := s.sp - 2 } := by
  simp only [cons, run_bind, getS, writeCell, setS] at h
  by_cases h1 : wsub s.sp 1 < N
  · by_cases h2 : wsub s.sp 2 < N
    · have a2 : 2 ≤ s.sp ∧ s.sp ≤ N ∧ wsub s.sp 2 = s.sp - 2 ∧ wsub s.sp 1 = s.sp - 1 := by
        unfold wsub W64 N at *
        split at h2 <;> split at h1 <;> simp <;> omega
      obtain ⟨a, b, c, d⟩ := a2
      have b3 : (s.sp - 2) * 8 % W64 = (s.sp - 2) * 8 := by
        unfold W64 N at *; omega
      rw [d] at h1
      rw [c] at h2
      simp only [c, d, b3, h1, h2, if_true] at h
      by_cases h3 : (s.sp - 2) * 8 < s.hp
      · rw [run_ite, if_pos h3] at h
        simp only [throwP] at h
        injection h with _ h5
        exact ⟨a, b, h3, h5.symm⟩
      · rw [run_ite, if_neg h3] at h
        cases h
    · simp only [h1, h2, if_true, if_false] at h
      cases h
  · simp only [h1, if_false] at h
    cases h

theorem atom_oom (str : GoString) (s s1 : State)
    (h : atom str s = Res.panic Panic.outOfMemory s1) :
    s.hp + str.length < ALEN ∧ s.sp * 8 % W64 < s.hp + str.length + 1 ∧
      s1 = { s with A := upd (copyInto s.A s.hp str) (s.hp + str.length) 0,
                    hp := s.hp + str.length + 1 } := by
  unfold atom at h
  cases hscan : atomScan str s.A s.hp s.hp 0 with
  | none => rw [hscan] at h; simp at h
  | some r =>
    cases r with
    | some i => rw [hscan] at h; simp at h
    | none =>
      rw [hscan] at h
      simp only at h
      by_cases hA : ALEN < s.hp
      · rw [if_pos hA] at h
        simp at h
      · rw [if_neg hA] at h
        by_cases hfit : ALEN ≤ s.hp + str.length
        · rw [if_pos hfit] at h
          simp at h
        · rw [if_neg hfit] at h
          split at h
          · rename_i hlt
            injection h with _ h2
            exact ⟨by omega, hlt, h2.symm⟩
          · cases h

theorem copyInto_below (A : Nat → Nat) (hp : Nat) (s : GoString) (j : Nat) (hj : j < hp) :
    copyInto A hp s j = A j := by
  unfold copyInto
  rw [if_neg (by omega)]

/-- C14 (amended): a call of `cons` or of `atom` that fails with the
out-of-memory check has already written what it was about to allocate
(the two cell slots below the watermark, or the bytes of the name and its
terminator from the watermark on) and has moved its watermark; what was
allocated before is untouched: `cons` leaves every cell at or above the
old `sp`, `hp` and the atom buffer unchanged, and `atom` leaves every
byte below the old `hp`, `sp` and every cell unchanged. -/
theorem alloc_fail_spares_live (x y : Nat) (str : GoString) (s s1 : State) :
    (cons x y s = Res.panic Panic.outOfMemory s1 →
      2 ≤ s.sp ∧ s1.cell (s.sp - 1) = x ∧ s1.cell (s.sp - 2) = y ∧ s1.sp = s.sp - 2 ∧
        (∀ i, s.sp ≤ i → s1.cell i = s.cell i) ∧ s1.hp = s.hp ∧ s1.A = s.A) ∧
    (atom str s = Res.panic Panic.outOfMemory s1 →
      s1.hp = s.hp + str.length + 1 ∧
        (∀ i, i < str.length → s1.A (s.hp + i) = str.getD i 0) ∧
        s1.A (s.hp + str.length) = 0 ∧
        (∀ j, j < s.hp → s1.A j = s.A j) ∧ s1.sp = s.sp ∧ s1.cell = s.cell) := by
  constructor
  · intro h
    obtain ⟨a, _, _, hs⟩ := cons_oom x y s s1 h
    subst hs
    refine ⟨a, ?_, ?_, rfl, ?_, rfl, rfl⟩
    · show upd (upd s.cell (s.sp - 1) x) (s.sp - 2) y (s.sp - 1) = x
      rw [upd_other _ _ (by omega), upd_same]
    · show upd (upd s.cell (s.sp - 1) x) (s.sp - 2) y (s.sp - 2) = y
      rw [upd_same]
    · intro i hi
      show upd (upd s.cell (s.sp - 1) x) (s.sp - 2) y i = s.cell i
      rw [upd_other _ _ (by omega), upd_other _ _ (by omega)]
  · intro h
    obtain ⟨a, _, hs⟩ := atom_oom str s s1 h
    subst hs
    refine ⟨rfl, ?_, ?_, ?_, rfl, rfl⟩
    · intro i hi
      show upd (copyInto s.A s.hp str) (s.hp + str.length) 0 (s.hp + i) = str.getD i 0
      rw [upd_other _ _ (by omega)]
      unfold copyInto
      rw [if_pos ⟨by omega, by omega, by omega⟩, Nat.add_sub_cancel_left]
    · show upd (copyInto s.A s.hp str) (s.hp + str.length) 0 (s.hp + str.length) = 0
      rw [upd_same]
    · intro j hj
      show upd (copyInto s.A s.hp str) (s.hp + str.length) 0 j = s.A j
      rw [upd_other _ _ (by omega), copyInto_below _ _ _ _ hj]

/-- C14 (counterexample): after start-up and a name of 15576 bytes, the
call `cons(1, 2)` fails with the out-of-memory check and has overwritten
cell 1959; after start-up alone, `atom` of a name of 15600 bytes fails
with the out-of-memory check and has overwritten byte 93 of the atom
buffer. -/
theorem alloc_fail_untouched_counterexample :
    (cons (num 1) (num 2) exampleNearlyFull.stateD).failure = some Panic.outOfMemory ∧
      (cons (num 1) (num 2) exampleNearlyFull.stateD).stateD.cell 1959 ≠
        exampleNearlyFull.stateD.cell 1959 ∧
      (atom (List.replicate 15600 97) exampleInit.stateD).failure = some Panic.outOfMemory ∧
      (atom (List.replicate 15600 97) exampleInit.stateD).stateD.A 93 ≠
        exampleInit.stateD.A 93 :=
  runs_startup.2.2.1

/-- Witness for C14 (amended): the two failing calls of the
counterexample. -/
theorem alloc_fail_spares_live_witness :
    (∀ i, exampleNearlyFull.stateD.sp ≤ i →
        (cons (num 1) (num 2) exampleNearlyFull.stateD).stateD.cell i =
          exampleNearlyFull.stateD.cell i) ∧
      (∀ j, j < exampleInit.stateD.hp →
        (atom (List.replicate 15600 97) exampleInit.stateD).stateD.A j =
          exampleInit.stateD.A j) := by
  have facts := runs_startup.2.2.2.1
  have h1 := Res.eq_panic_of_failure facts.1
  have h2 := Res.eq_panic_of_failure facts.2
  exact ⟨(((alloc_fail_spares_live (num 1) (num 2) [] exampleNearlyFull.stateD _).1 h1).2.2.2.2.1),
    (((alloc_fail_spares_live 0 0 (List.replicate 15600 97) exampleInit.stateD _).2 h2).2.2.2.1)⟩

/-! ## Interning a name again -/

theorem atom_found (str : GoString) (s : State) (i : Nat)
    (h : atomScan str s.A s.hp s.hp 0 = some (some i)) : atom str s = Res.ok (box ATOM i) s := by
  unfold atom
  rw [h]

/-- C16 (amended): in a well-formed arena, once `atom(s)` has returned for
a string `s` without a zero byte, every later call `atom(s)` (after any
number of other calls of `atom`) returns the same value and leaves the
whole state, in particular the byte watermark `hp` and the atom buffer,
unchanged. -/
theorem atom_again_unchanged (str : GoString) (st sa sb : State) (v : Nat)
    (hok : arenaOk st) (hnul : 0 ∉ str)
    (h1 : atom str st = Res.ok v sa) (hmid : AtomCalls sa sb) :
    atom str sb = Res.ok v sb := by
  obtain ⟨i, hv, _, hf⟩ := atom_post str st sa v hok hnul h1
  obtain ⟨hoka, _⟩ := atom_ext str st sa v hok h1
  obtain ⟨hokb, hext⟩ := atomCalls_ext hmid hoka
  have hfb : atomScan str sb.A sb.hp sb.hp 0 = some (some i) :=
    atomScan_ext str sa.A sb.A sa.hp sb.hp hoka.1 hoka.2 hext.1 hokb.1 hext.2 sa.hp sb.hp 0 i
      (by omega) hf
  rw [hv]
  exact atom_found str sb i hfb

/-- Witness for C16 (amended): the two calls `atom("x")` of
`TestDefineDebug` after start-up. -/
theorem atom_again_unchanged_witness :
    ∃ sa, arenaOk exampleInit.stateD ∧ 0 ∉ bytes "x" ∧
      atom (bytes "x") exampleInit.stateD = Res.ok (box ATOM 93) sa ∧ AtomCalls sa sa ∧
      atom (bytes "x") sa = Res.ok (box ATOM 93) sa := by
  have facts := runs_startup.2.2.2.2.1
  have hok : arenaOk exampleInit.stateD := ⟨facts.1.1, Or.inr facts.1.2⟩
  have hnul : 0 ∉ bytes "x" := by decide
  have h1 := Res.eq_ok_of_val facts.2
  exact ⟨_, hok, hnul, h1, AtomCalls.refl _,
    atom_again_unchanged (bytes "x") exampleInit.stateD _ _ _ hok hnul h1 (AtomCalls.refl _)⟩

/-- C16 (counterexample): in a fresh arena the name with the bytes `a`, 0,
`b` is interned by a first call, which moves `hp` from 0 to 4; the second
call with the same name returns as well and moves `hp` on to 8, writing
the bytes again at offset 4. -/
theorem atom_again_counterexample :
    (atom [97, 0, 98] zeroState).val = some (box ATOM 0) ∧
      (atom [97, 0, 98] zeroState).stateD.hp = 4 ∧
      (atom [97, 0, 98] (atom [97, 0, 98] zeroState).stateD).val = some (box ATOM 4) ∧
      (atom [97, 0, 98] (atom [97, 0, 98] zeroState).stateD).stateD.hp = 8 ∧
      (atom [97, 0, 98] (atom [97, 0, 98] zeroState).stateD).stateD.A 4 ≠
        (atom [97, 0, 98] zeroState).stateD.A 4 :=
  runs_startup.2.2.2.2.2.1

/-! ## Every state change of the evaluator is an allocation or a definition -/

theorem steps_trans {s t u : State} (h1 : Steps s t) (h2 : Steps t u) : Steps s u := by
  induction h2 with
  | refl => exact h1
  | tail _ hs ih => exact Steps.tail ih hs

theorem traced_pure {α : Type} (v : α) : Traced (pure v : M α) := by
  intro s w s1 h
  rw [run_pure] at h
  injection h with _ h2
  subst h2
  exact Steps.refl _

theorem traced_bind {α β : Type} {m : M α} {f : α → M β} (hm : Traced m)
    (hf : ∀ a, Traced (f a)) : Traced (m >>= f) := by
  intro s w s2 h
  obtain ⟨a, s1, h1, h2⟩ := bind_ok_inv h
  exact steps_trans (hm s a s1 h1) (hf a s1 w s2 h2)

theorem traced_getS : Traced getS := by
  intro s w s1 h
  injection h with _ h2
  subst h2
  exact Steps.refl _

theorem traced_throwP {α : Type} (p : Panic) : Traced (throwP p : M α) := by
  intro s w s1 h
  cases h

theorem traced_diverge {α : Type} : Traced (diverge : M α) := by
  intro s w s1 h
  cases h

theorem traced_readCell (i : Nat) : Traced (readCell i) := by
  intro s w s1 h
  unfold readCell at h
  split at h
  · injection h with _ h2
    subst h2
    exact Steps.refl _
  · cases h

theorem traced_cons (x y : Nat) : Traced (cons x y) := by
  intro s w s1 h
  exact Steps.tail (Steps.refl _) (Step.cons x y w s s1 h)

theorem traced_atom (str : GoString) : Traced (atom str) := by
  intro s w s1 h
  exact Steps.tail (Steps.refl _) (Step.atom str w s s1 h)

/-- The assignment `env = pair(sym, v, env)` of `f_define`. -/
theorem traced_definePair {β : Type} (sym v : Nat) (f : Unit → M β) (hf : Traced (f ())) :
    Traced (getS >>= fun s0 => pair sym v s0.env >>= fun e1 =>
      getS >>= fun s1 => (setS { s1 with env := e1 } >>= f)) := by
  intro s w s3 h
  rw [run_getS_bind] at h
  obtain ⟨e1, s1, h1, h2⟩ := bind_ok_inv h
  rw [run_getS_bind, run_setS_bind] at h2
  exact steps_trans (Steps.tail (Steps.refl _) (Step.define sym v e1 s s1 h1))
    (hf { s1 with env := e1 } w s3 h2)

theorem traced_car (p : Nat) : Traced (car p) := by
  unfold car
  split
  · exact traced_readCell _
  · exact traced_bind traced_getS (fun _ => traced_pure _)

theorem traced_cdr (p : Nat) : Traced (cdr p) := by
  unfold cdr
  split
  · exact traced_readCell _
  · exact traced_bind traced_getS (fun _ => traced_pure _)

theorem traced_pair (v x e : Nat) : Traced (pair v x e) :=
  traced_bind (traced_cons _ _) (fun _ => traced_cons _ _)

theorem traced_closure (v x e : Nat) : Traced (closure v x e) := by
  unfold closure
  refine traced_bind traced_getS (fun s => ?_)
  split
  · exact traced_bind (traced_pair _ _ _) (fun _ => traced_pure _)
  · exact traced_bind (traced_pair _ _ _) (fun _ => traced_pure _)

theorem traced_assoc : ∀ (k v e : Nat), Traced (assoc k v e) := by
  intro k
  induction k with
  | zero => intro v e; exact traced_diverge
  | succ k ih =>
    intro v e
    unfold assoc
    split
    · refine traced_bind (traced_car _) (fun _ => traced_bind (traced_car _) (fun _ => ?_))
      split
      · exact traced_bind (traced_car _) (fun _ => traced_cdr _)
      · exact traced_bind (traced_cdr _) (fun _ => ih _ _)
    · exact traced_bind traced_getS (fun _ => traced_pure _)

theorem traced_letv (x : Nat) : Traced (letv x) := by
  unfold letv
  split
  · exact traced_pure _
  · exact traced_bind (traced_cdr _) (fun _ => traced_pure _)

theorem traced_bindLoop : ∀ (k v t e : Nat), Traced (bind k v t e) := by
  intro k
  induction k with
  | zero => intro v t e; exact traced_diverge
  | succ k ih =>
    intro v t e
    unfold bind
    split
    · exact traced_pure _
    · split
      · exact traced_bind (traced_cdr _) (fun _ => traced_bind (traced_cdr _) (fun _ =>
          traced_bind (traced_car _) (fun _ => traced_bind (traced_car _) (fun _ =>
            traced_bind (traced_pair _ _ _) (fun _ => ih _ _ _)))))
      · exact traced_pair _ _ _

theorem traced_evlis {ev : Nat → Nat → M Nat} (hev : ∀ x e, Traced (ev x e)) :
    ∀ (k t e : Nat), Traced (evlis ev k t e) := by
  intro k
  induction k with
  | zero => intro t e; exact traced_diverge
  | succ k ih =>
    intro t e
    unfold evlis
    split
    · exact traced_bind (traced_car _) (fun _ => traced_bind (hev _ _) (fun _ =>
        traced_bind (traced_cdr _) (fun _ => traced_bind (ih _ _) (fun _ => traced_cons _ _))))
    · split
      · exact traced_assoc _ _ _
      · exact traced_bind traced_getS (fun _ => traced_pure _)

theorem traced_arithLoop (op : Nat → Nat → Nat) : ∀ (k t n : Nat), Traced (arithLoop op k t n) := by
  intro k
  induction k with
  | zero => intro t n; exact traced_diverge
  | succ k ih =>
    intro t n
    unfold arithLoop
    refine traced_bind (traced_cdr _) (fun _ => ?_)
    split
    · exact traced_pure _
    · exact traced_bind (traced_car _) (fun _ => ih _ _)

theorem traced_arith (op : Nat → Nat → Nat) {ev : Nat → Nat → M Nat}
    (hev : ∀ x e, Traced (ev x e)) (k t e : Nat) : Traced (arith op ev k t e) :=
  traced_bind (traced_evlis hev _ _ _) (fun _ => traced_bind (traced_car _) (fun _ =>
    traced_arithLoop op _ _ _))

theorem traced_ite {α : Type} (c : Prop) [Decidable c] {a b : M α} (ha : Traced a)
    (hb : Traced b) : Traced (if c then a else b) := by
  split
  · exact ha
  · exact hb

theorem traced_ret (c : Prop) [Decidable c] :
    Traced (if c then (do pure (← getS).tru) else (do pure (← getS).nilv) : M Nat) :=
  traced_ite c (traced_bind traced_getS (fun _ => traced_pure _))
    (traced_bind traced_getS (fun _ => traced_pure _))

theorem traced_f_eval {ev : Nat → Nat → M Nat} (hev : ∀ x e, Traced (ev x e)) (k t e : Nat) :
    Traced (f_eval ev k t e) := by
  unfold f_eval
  repeat' (first
    | with_reducible (first
      | exact traced_pure _ | exact traced_getS | exact traced_car _ | exact traced_cdr _
      | exact traced_cons _ _ | exact traced_pair _ _ _ | exact traced_closure _ _ _
      | exact traced_atom _ | exact traced_assoc _ _ _ | exact traced_letv _
      | exact traced_throwP _ | exact traced_diverge | exact hev _ _
      | exact traced_evlis hev _ _ _
      | refine traced_definePair _ _ _ ?_ | refine traced_bind ?_ (fun _ => ?_))
    | split)

theorem traced_f_cons {ev : Nat → Nat → M Nat} (hev : ∀ x e, Traced (ev x e)) (k t e : Nat) :
    Traced (f_cons ev k t e) := by
  unfold f_cons
  repeat' (first
    | with_reducible (first
      | exact traced_pure _ | exact traced_getS | exact traced_car _ | exact traced_cdr _
      | exact traced_cons _ _ | exact traced_pair _ _ _ | exact traced_closure _ _ _
      | exact traced_atom _ | exact traced_assoc _ _ _ | exact traced_letv _
      | exact traced_throwP _ | exact traced_diverge | exact hev _ _
      | exact traced_evlis hev _ _ _
      | refine traced_definePair _ _ _ ?_ | refine traced_bind ?_ (fun _ => ?_))
    | split)

theorem traced_f_car {ev : Nat → Nat → M Nat} (hev : ∀ x e, Traced (ev x e)) (k t e : Nat) :
    Traced (f_car ev k t e) := by
  unfold f_car
  repeat' (first
    | with_reducible (first
      | exact traced_pure _ | exact traced_getS | exact traced_car _ | exact traced_cdr _
      | exact traced_cons _ _ | exact traced_pair _ _ _ | exact traced_closure _ _ _
      | exact traced_atom _ | exact traced_assoc _ _ _ | exact traced_letv _
      | exact traced_throwP _ | exact traced_diverge | exact hev _ _
      | exact traced_evlis hev _ _ _
      | refine traced_definePair _ _ _ ?_ | refine traced_bind ?_ (fun _ => ?_))
    | split)

theorem traced_f_cdr {ev : Nat → Nat → M Nat} (hev : ∀ x e, Traced (ev x e)) (k t e : Nat) :
    Traced (f_cdr ev k t e) := by
  unfold f_cdr
  repeat' (first
    | with_reducible (first
      | exact traced_pure _ | exact traced_getS | exact traced_car _ | exact traced_cdr _
      | exact traced_cons _ _ | exact traced_pair _ _ _ | exact traced_closure _ _ _
      | exact traced_atom _ | exact traced_assoc _ _ _ | exact traced_letv _
      | exact traced_throwP _ | exact traced_diverge | exact hev _ _
      | exact traced_evlis hev _ _ _
      | refine traced_definePair _ _ _ ?_ | refine traced_bind ?_ (fun _ => ?_))
    | split)

theorem traced_f_int {ev : Nat → Nat → M Nat} (hev : ∀ x e, Traced (ev x e)) (k t e : Nat) :
    Traced (f_int ev k t e) := by
  unfold f_int
  repeat' (first
    | with_reducible (first
      | exact traced_pure _ | exact traced_getS | exact traced_car _ | exact traced_cdr _
      | exact traced_cons _ _ | exact traced_pair _ _ _ | exact traced_closure _ _ _
      | exact traced_atom _ | exact traced_assoc _ _ _ | exact traced_letv _
      | exact traced_throwP _ | exact traced_diverge | exact hev _ _
      | exact traced_evlis hev _ _ _
      | refine traced_definePair _ _ _ ?_ | refine traced_bind ?_ (fun _ => ?_))
    | split)

theorem traced_f_lt {ev : Nat → Nat → M Nat} (hev : ∀ x e, Traced (ev x e)) (k t e : Nat) :
    Traced (f_lt ev k t e) := by
  unfold f_lt
  repeat' (first
    | with_reducible (first
      | exact traced_pure _ | exact traced_getS | exact traced_car _ | exact traced_cdr _
      | exact traced_cons _ _ | exact traced_pair _ _ _ | exact traced_closure _ _ _
      | exact traced_atom _ | exact traced_assoc _ _ _ | exact traced_letv _
      | exact traced_throwP _ | exact traced_diverge | exact hev _ _
      | exact traced_evlis hev _ _ _
      | refine traced_definePair _ _ _ ?_ | refine traced_bind ?_ (fun _ => ?_))
    | split)

theorem traced_f_eq {ev : Nat → Nat → M Nat} (hev : ∀ x e, Traced (ev x e)) (k t e : Nat) :
    Traced (f_eq ev k t e) := by
  unfold f_eq
  repeat' (first
    | with_reducible (first
      | exact traced_pure _ | exact traced_getS | exact traced_car _ | exact traced_cdr _
      | exact traced_cons _ _ | exact traced_pair _ _ _ | exact traced_closure _ _ _
      | exact traced_atom _ | exact traced_assoc _ _ _ | exact traced_letv _
      | exact traced_throwP _ | exact traced_diverge | exact hev _ _
      | exact traced_evlis hev _ _ _
      | refine traced_definePair _ _ _ ?_ | refine traced_bind ?_ (fun _ => ?_))
    | split)

theorem traced_f_pair {ev : Nat → Nat → M Nat} (hev : ∀ x e, Traced (ev x e)) (k t e : Nat) :
    Traced (f_pair ev k t e) := by
  unfold f_pair
  repeat' (first
    | with_reducible (first
      | exact traced_pure _ | exact traced_getS | exact traced_car _ | exact traced_cdr _
      | exact traced_cons _ _ | exact traced_pair _ _ _ | exact traced_closure _ _ _
      | exact traced_atom _ | exact traced_assoc _ _ _ | exact traced_letv _
      | exact traced_throwP _ | exact traced_diverge | exact hev _ _
      | exact traced_evlis hev _ _ _
      | refine traced_definePair _ _ _ ?_ | refine traced_bind ?_ (fun _ => ?_))
    | split)

theorem traced_f_not {ev : Nat → Nat → M Nat} (hev : ∀ x e, Traced (ev x e)) (k t e : Nat) :
    Traced (f_not ev k t e) := by
  unfold f_not
  repeat' (first
    | with_reducible (first
      | exact traced_pure _ | exact traced_getS | exact traced_car _ | exact traced_cdr _
      | exact traced_cons _ _ | exact traced_pair _ _ _ | exact traced_closure _ _ _
      | exact traced_atom _ | exact traced_assoc _ _ _ | exact traced_letv _
      | exact traced_throwP _ | exact traced_diverge | exact hev _ _
      | exact traced_evlis hev _ _ _
      | refine traced_definePair _ _ _ ?_ | refine traced_bind ?_ (fun _ => ?_))
    | split)

theorem traced_f_add {ev : Nat → Nat → M Nat} (hev : ∀ x e, Traced (ev x e)) (k t e : Nat) :
    Traced (f_add ev k t e) :=
  traced_arith fadd hev k t e

theorem traced_f_sub {ev : Nat → Nat → M Nat} (hev : ∀ x e, Traced (ev x e)) (k t e : Nat) :
    Traced (f_sub ev k t e) :=
  traced_arith fsub hev k t e

theorem traced_f_mul {ev : Nat → Nat → M Nat} (hev : ∀ x e, Traced (ev x e)) (k t e : Nat) :
    Traced (f_mul ev k t e) :=
  traced_arith fmul hev k t e

theorem traced_f_div {ev : Nat → Nat → M Nat} (hev : ∀ x e, Traced (ev x e)) (k t e : Nat) :
    Traced (f_div ev k t e) :=
  traced_arith fdiv hev k t e

theorem traced_f_if {ev : Nat → Nat → M Nat} (hev : ∀ x e, Traced (ev x e)) (t e : Nat) :
    Traced (f_if ev t e) := by
  unfold f_if
  repeat' (first
    | with_reducible (first
      | exact traced_pure _ | exact traced_getS | exact traced_car _ | exact traced_cdr _
      | exact traced_cons _ _ | exact traced_pair _ _ _ | exact traced_closure _ _ _
      | exact traced_atom _ | exact traced_assoc _ _ _ | exact traced_letv _
      | exact traced_throwP _ | exact traced_diverge | exact hev _ _
      | exact traced_evlis hev _ _ _
      | refine traced_definePair _ _ _ ?_ | refine traced_bind ?_ (fun _ => ?_))
    | split)

theorem traced_f_define {ev : Nat → Nat → M Nat} (hev : ∀ x e, Traced (ev x e)) (t e : Nat) :
    Traced (f_define ev t e) := by
  unfold f_define
  repeat' (first
    | with_reducible (first
      | exact traced_pure _ | exact traced_getS | exact traced_car _ | exact traced_cdr _
      | exact traced_cons _ _ | exact traced_pair _ _ _ | exact traced_closure _ _ _
      | exact traced_atom _ | exact traced_assoc _ _ _ | exact traced_letv _
      | exact traced_throwP _ | exact traced_diverge | exact hev _ _
      | exact traced_evlis hev _ _ _
      | refine traced_definePair _ _ _ ?_ | refine traced_bind ?_ (fun _ => ?_))
    | split)

theorem traced_f_quote (t e : Nat) : Traced (f_quote t e) := by
  unfold f_quote
  repeat' (first
    | with_reducible (first
      | exact traced_pure _ | exact traced_getS | exact traced_car _ | exact traced_cdr _
      | exact traced_cons _ _ | exact traced_pair _ _ _ | exact traced_closure _ _ _
      | exact traced_atom _ | exact traced_assoc _ _ _ | exact traced_letv _
      | exact traced_throwP _ | exact traced_diverge
      | refine traced_definePair _ _ _ ?_ | refine traced_bind ?_ (fun _ => ?_))
    | split)

theorem traced_f_lambda (t e : Nat) : Traced (f_lambda t e) := by
  unfold f_lambda
  repeat' (first
    | with_reducible (first
      | exact traced_pure _ | exact traced_getS | exact traced_car _ | exact traced_cdr _
      | exact traced_cons _ _ | exact traced_pair _ _ _ | exact traced_closure _ _ _
      | exact traced_atom _ | exact traced_assoc _ _ _ | exact traced_letv _
      | exact traced_throwP _ | exact traced_diverge
      | refine traced_definePair _ _ _ ?_ | refine traced_bind ?_ (fun _ => ?_))
    | split)

theorem traced_orLoop {ev : Nat → Nat → M Nat} (hev : ∀ x e, Traced (ev x e)) :
    ∀ (k t e x : Nat), Traced (orLoop ev k t e x) := by
  intro k
  induction k with
  | zero => intro t e x; exact traced_diverge
  | succ k ih =>
    intro t e x
    unfold orLoop
    repeat' (first
      | with_reducible (first
        | exact traced_pure _ | exact traced_getS | exact traced_car _ | exact traced_cdr _
        | exact traced_cons _ _ | exact traced_pair _ _ _ | exact traced_closure _ _ _
        | exact traced_atom _ | exact traced_assoc _ _ _ | exact traced_letv _
        | exact traced_throwP _ | exact traced_diverge | exact hev _ _
        | exact traced_evlis hev _ _ _ | exact ih _ _ _
        | refine traced_definePair _ _ _ ?_ | refine traced_bind ?_ (fun _ => ?_))
      | split)

theorem traced_andLoop {ev : Nat → Nat → M Nat} (hev : ∀ x e, Traced (ev x e)) :
    ∀ (k t e x : Nat), Traced (andLoop ev k t e x) := by
  intro k
  induction k with
  | zero => intro t e x; exact traced_diverge
  | succ k ih =>
    intro t e x
    unfold andLoop
    repeat' (first
      | with_reducible (first
        | exact traced_pure _ | exact traced_getS | exact traced_car _ | exact traced_cdr _
        | exact traced_cons _ _ | exact traced_pair _ _ _ | exact traced_closure _ _ _
        | exact traced_atom _ | exact traced_assoc _ _ _ | exact traced_letv _
        | exact traced_throwP _ | exact traced_diverge | exact hev _ _
        | exact traced_evlis hev _ _ _ | exact ih _ _ _
        | refine traced_definePair _ _ _ ?_ | refine traced_bind ?_ (fun _ => ?_))
      | split)

theorem traced_f_or {ev : Nat → Nat → M Nat} (hev : ∀ x e, Traced (ev x e)) (k t e : Nat) :
    Traced (f_or ev k t e) :=
  traced_bind traced_getS (fun _ => traced_orLoop hev _ _ _ _)

theorem traced_f_and {ev : Nat → Nat → M Nat} (hev : ∀ x e, Traced (ev x e)) (k t e : Nat) :
    Traced (f_and ev k t e) :=
  traced_bind traced_getS (fun _ => traced_andLoop hev _ _ _ _)

theorem traced_f_cond {ev : Nat → Nat → M Nat} (hev : ∀ x e, Traced (ev x e)) :
    ∀ (k t e : Nat), Traced (f_cond ev k t e) := by
  intro k
  induction k with
  | zero => intro t e; exact traced_diverge
  | succ k ih =>
    intro t e
    unfold f_cond
    repeat' (first
      | with_reducible (first
        | exact traced_pure _ | exact traced_getS | exact traced_car _ | exact traced_cdr _
        | exact traced_cons _ _ | exact traced_pair _ _ _ | exact traced_closure _ _ _
        | exact traced_atom _ | exact traced_assoc _ _ _ | exact traced_letv _
        | exact traced_throwP _ | exact traced_diverge | exact hev _ _
        | exact traced_evlis hev _ _ _ | exact ih _ _
        | refine traced_definePair _ _ _ ?_ | refine traced_bind ?_ (fun _ => ?_))
      | split)

theorem traced_f_leta {ev : Nat → Nat → M Nat} (hev : ∀ x e, Traced (ev x e)) :
    ∀ (k t e : Nat), Traced (f_leta ev k t e) := by
  intro k
  induction k with
  | zero => intro t e; exact traced_diverge
  | succ k ih =>
    intro t e
    unfold f_leta
    repeat' (first
      | with_reducible (first
        | exact traced_pure _ | exact traced_getS | exact traced_car _ | exact traced_cdr _
        | exact traced_cons _ _ | exact traced_pair _ _ _ | exact traced_closure _ _ _
        | exact traced_atom _ | exact traced_assoc _ _ _ | exact traced_letv _
        | exact traced_throwP _ | exact traced_diverge | exact hev _ _
        | exact traced_evlis hev _ _ _ | exact ih _ _
        | refine traced_definePair _ _ _ ?_ | refine traced_bind ?_ (fun _ => ?_))
      | split)

theorem traced_readAtom (h : Host) (p : InputParser) : Traced (p.readAtom h) := by
  unfold InputParser.readAtom
  repeat' (first
    | with_reducible (first
      | exact traced_pure _ | exact traced_getS | exact traced_atom _ | exact traced_throwP _
      | refine traced_bind ?_ (fun _ => ?_))
    | split | dsimp only)

theorem traced_readListBody {rdExpr rdList : InputParser → M (Nat × InputParser)}
    (h1 : ∀ p, Traced (rdExpr p)) (h2 : ∀ p, Traced (rdList p)) (p0 : InputParser) :
    Traced (readListBody rdExpr rdList p0) := by
  unfold readListBody
  repeat' (first
    | with_reducible (first
      | exact traced_pure _ | exact traced_getS | exact traced_cons _ _ | exact h1 _ | exact h2 _
      | refine traced_bind ?_ (fun _ => ?_))
    | split | dsimp only)

theorem traced_readExprBody (h : Host) {rdList rdExpr : InputParser → M (Nat × InputParser)}
    (h1 : ∀ p, Traced (rdList p)) (h2 : ∀ p, Traced (rdExpr p)) (p0 : InputParser) :
    Traced (readExprBody h rdList rdExpr p0) := by
  unfold readExprBody
  repeat' (first
    | with_reducible (first
      | exact traced_pure _ | exact traced_getS | exact traced_cons _ _ | exact traced_atom _
      | exact h1 _ | exact h2 _ | exact traced_readAtom _ _
      | refine traced_bind ?_ (fun _ => ?_))
    | split | dsimp only)

theorem traced_readGen (h : Host) : ∀ (k : Nat) (b : Bool) (p : InputParser),
    Traced (readGen h k b p) := by
  intro k
  induction k with
  | zero => intro b p; exact traced_diverge
  | succ k ih =>
    intro b p
    cases b with
    | true => exact traced_readListBody (fun q => ih false q) (fun q => ih true q) p
    | false => exact traced_readExprBody h (fun q => ih true q) (fun q => ih false q) p

theorem traced_loadLoop (h : Host) {ev : Nat → Nat → M Nat} (hev : ∀ x e, Traced (ev x e)) :
    ∀ (k : Nat) (p : InputParser) (e result : Nat), Traced (loadLoop h ev k p e result) := by
  intro k
  induction k with
  | zero => intro p e r; exact traced_diverge
  | succ k ih =>
    intro p e r
    unfold loadLoop
    repeat' (first
      | with_reducible (first
        | exact traced_pure _ | exact traced_getS | exact traced_atom _ | exact hev _ _
        | exact ih _ _ _
        | refine traced_bind ?_ (fun _ => ?_))
      | exact traced_readGen h _ _ _ | split | dsimp only)

theorem traced_loadFile (h : Host) {ev : Nat → Nat → M Nat} (hev : ∀ x e, Traced (ev x e))
    (k : Nat) (filename : GoString) (e : Nat) : Traced (loadFile h ev k filename e) := by
  unfold loadFile
  repeat' (first
    | with_reducible (first
      | exact traced_pure _ | exact traced_getS | exact traced_atom _
      | exact traced_loadLoop h hev _ _ _ _
      | refine traced_bind ?_ (fun _ => ?_))
    | split | dsimp only)

theorem traced_nameLoop : ∀ (k j : Nat) (acc : GoString), Traced (nameLoop k j acc) := by
  intro k
  induction k with
  | zero => intro j acc; exact traced_throwP _
  | succ k ih =>
    intro j acc
    unfold nameLoop
    repeat' (first
      | with_reducible (first
        | exact traced_pure _ | exact traced_getS | exact traced_throwP _ | exact ih _ _
        | refine traced_bind ?_ (fun _ => ?_))
      | split | dsimp only)

theorem traced_f_load (h : Host) {ev : Nat → Nat → M Nat} (hev : ∀ x e, Traced (ev x e))
    (k t e : Nat) : Traced (f_load h ev k t e) := by
  unfold f_load
  repeat' (first
    | with_reducible (first
      | exact traced_pure _ | exact traced_getS | exact traced_atom _ | exact traced_car _
      | exact traced_evlis hev _ _ _ | exact traced_nameLoop _ _ _
      | exact traced_loadFile h hev _ _ _
      | refine traced_bind ?_ (fun _ => ?_))
    | split | dsimp only)

theorem traced_callPrim (h : Host) {ev : Nat → Nat → M Nat} (hev : ∀ x e, Traced (ev x e))
    (k : Nat) (p : Prim) (t e : Nat) : Traced (callPrim h ev k p t e) := by
  cases p
  · exact traced_f_eval hev k t e
  · exact traced_f_quote t e
  · exact traced_f_cons hev k t e
  · exact traced_f_car hev k t e
  · exact traced_f_cdr hev k t e
  · exact traced_f_add hev k t e
  · exact traced_f_sub hev k t e
  · exact traced_f_mul hev k t e
  · exact traced_f_div hev k t e
  · exact traced_f_int hev k t e
  · exact traced_f_lt hev k t e
  · exact traced_f_eq hev k t e
  · exact traced_f_pair hev k t e
  · exact traced_f_or hev k t e
  · exact traced_f_and hev k t e
  · exact traced_f_not hev k t e
  · exact traced_f_cond hev k t e
  · exact traced_f_if hev t e
  · exact traced_f_leta hev k t e
  · exact traced_f_lambda t e
  · exact traced_f_define hev t e
  · exact traced_f_load h hev k t e

theorem traced_apply (h : Host) {ev : Nat → Nat → M Nat} (hev : ∀ x e, Traced (ev x e))
    (k f t e : Nat) : Traced (apply h ev k f t e) := by
  unfold apply
  repeat' (first
    | with_reducible (first
      | exact traced_pure _ | exact traced_getS | exact traced_car _ | exact traced_cdr _
      | exact traced_evlis hev _ _ _ | exact traced_bindLoop _ _ _ _ | exact hev _ _
      | exact traced_callPrim h hev _ _ _ _
      | refine traced_bind ?_ (fun _ => ?_))
    | split | dsimp only)

theorem traced_evalBody (h : Host) {ev : Nat → Nat → M Nat} (hev : ∀ x e, Traced (ev x e))
    (k x e : Nat) : Traced (evalBody h ev k x e) := by
  unfold evalBody
  repeat' (first
    | with_reducible (first
      | exact traced_pure _ | exact traced_car _ | exact traced_cdr _ | exact traced_assoc _ _ _
      | exact hev _ _ | exact traced_apply h hev _ _ _ _
      | refine traced_bind ?_ (fun _ => ?_))
    | split | dsimp only)

theorem traced_eval (h : Host) : ∀ (n x e : Nat), Traced (eval h n x e) := by
  intro n
  induction n with
  | zero => intro x e; exact traced_diverge
  | succ n ih => intro x e; exact traced_evalBody h ih n x e

/-! ## The safety invariant -/

theorem atom_ok_shape (str : GoString) (s s1 : State) (v : Nat)
    (h : atom str s = Res.ok v s1) :
    s1 = s ∨ (s.hp + str.length + 1 ≤ s.sp * 8 % W64 ∧
      s1 = { s with A := upd (copyInto s.A s.hp str) (s.hp + str.length) 0,
                    hp := s.hp + str.length + 1 }) := by
  unfold atom at h
  cases hscan : atomScan str s.A s.hp s.hp 0 with
  | none => rw [hscan] at h; simp at h
  | some r =>
    cases r with
    | some i =>
      rw [hscan] at h
      simp only at h
      injection h with _ h2
      exact Or.inl h2.symm
    | none =>
      rw [hscan] at h
      simp only at h
      by_cases hA : ALEN < s.hp
      · rw [if_pos hA] at h
        simp at h
      · rw [if_neg hA] at h
        by_cases hfit : ALEN ≤ s.hp + str.length
        · rw [if_pos hfit] at h
          simp at h
        · rw [if_neg hfit] at h
          split at h
          · cases h
          · rename_i hlt
            injection h with _ h2
            exact Or.inr ⟨by simpa using hlt, h2.symm⟩

theorem step_consts {s t : State} (h : Step s t) :
    t.nilv = s.nilv ∧ t.err = s.err ∧ t.tru = s.tru ∧ t.prims = s.prims ∧
      t.primIndex = s.primIndex := by
  cases h with
  | cons x y r _ _ hc =>
    obtain ⟨_, _, _, _, hs⟩ := (cons_ok_iff x y s r t).mp hc
    subst hs
    exact ⟨rfl, rfl, rfl, rfl, rfl⟩
  | atom str v _ _ ha =>
    rcases atom_ok_shape str s t v ha with hs | ⟨_, hs⟩
    · subst hs; exact ⟨rfl, rfl, rfl, rfl, rfl⟩
    · subst hs; exact ⟨rfl, rfl, rfl, rfl, rfl⟩
  | define sym v e1 _ s1 hp =>
    obtain ⟨_, _, _, _, hs⟩ := (pair_ok_iff sym v s.env s e1 s1).mp hp
    subst hs
    exact ⟨rfl, rfl, rfl, rfl, rfl⟩

theorem steps_consts {s t : State} (h : Steps s t) :
    t.nilv = s.nilv ∧ t.err = s.err ∧ t.tru = s.tru ∧ t.prims = s.prims ∧
      t.primIndex = s.primIndex := by
  induction h with
  | refl => exact ⟨rfl, rfl, rfl, rfl, rfl⟩
  | tail _ hs ih =>
    obtain ⟨a1, a2, a3, a4, a5⟩ := step_consts hs
    obtain ⟨b1, b2, b3, b4, b5⟩ := ih
    exact ⟨a1.trans b1, a2.trans b2, a3.trans b3, a4.trans b4, a5.trans b5⟩

theorem watermarksOk_afterPair (v x : Nat) (s : State) (_h4 : 4 ≤ s.sp) (hN : s.sp ≤ N)
    (hhp : s.hp ≤ (s.sp - 4) * 8) :
    WatermarksOk { afterPair v x s.env s with env := box CONS (s.sp - 4) } := by
  have ho : ord (box CONS (s.sp - 4)) = s.sp - 4 :=
    ord_box (by decide) (lt_of_le_of_lt (Nat.sub_le _ _) (lt_of_le_of_lt hN N_lt))
  refine ⟨?_, ?_⟩
  · show s.hp ≤ 8 * (s.sp - 4)
    omega
  · show s.sp - 4 ≤ ord (box CONS (s.sp - 4))
    rw [ho]

theorem step_watermarksOk {s t : State} (h : Step s t) (hi : WatermarksOk s) :
    WatermarksOk t := by
  obtain ⟨i1, i2⟩ := hi
  cases h with
  | cons x y r _ _ hc =>
    obtain ⟨_, _, c3, _, hs⟩ := (cons_ok_iff x y s r t).mp hc
    subst hs
    refine ⟨?_, ?_⟩
    · show s.hp ≤ 8 * (s.sp - 2)
      omega
    · show s.sp - 2 ≤ ord s.env
      omega
  | atom str v _ _ ha =>
    rcases atom_ok_shape str s t v ha with hs | ⟨hle, hs⟩
    · subst hs; exact ⟨i1, i2⟩
    · subst hs
      refine ⟨?_, i2⟩
      show s.hp + str.length + 1 ≤ 8 * s.sp
      have := Nat.mod_le (s.sp * 8) W64
      omega
  | define sym v e1 _ s1 hp =>
    obtain ⟨p4, pN, php, pr, hs⟩ := (pair_ok_iff sym v s.env s e1 s1).mp hp
    subst hs
    subst pr
    exact watermarksOk_afterPair sym v s p4 pN php

theorem steps_watermarksOk {s t : State} (h : Steps s t) (hi : WatermarksOk s) :
    WatermarksOk t := by
  induction h with
  | refl => exact hi
  | tail _ hs ih => exact step_watermarksOk hs ih

theorem registerPrims_watermarksOk : ∀ (names : List GoString) (o : Nat) (s s1 : State),
    registerPrims names o s = Res.ok () s1 → WatermarksOk s → WatermarksOk s1 := by
  intro names
  induction names with
  | nil =>
    intro o s s1 h hi
    rw [registerPrims, run_pure] at h
    injection h with _ h2
    subst h2
    exact hi
  | cons name rest ih =>
    intro o s s1 h hi
    rw [registerPrims, run_getS_bind] at h
    split at h
    · rw [run_setS_bind] at h
      obtain ⟨a, sa, _, h2⟩ := bind_ok_inv h
      rw [run_getS_bind] at h2
      obtain ⟨e1, sb, h3, h4⟩ := bind_ok_inv h2
      rw [run_getS_bind, run_setS_bind] at h4
      refine ih _ _ _ h4 ?_
      obtain ⟨p4, pN, php, pr, hs⟩ := (pair_ok_iff _ _ _ _ _ _).mp h3
      subst hs
      subst pr
      exact watermarksOk_afterPair _ _ sa p4 pN php
    · exact ih _ _ _ h hi

theorem setup_watermarksOk (table : List (GoString × Prim)) (names : List GoString)
    (s0 s : State) (h : setup table names s0 = Res.ok () s) : WatermarksOk s := by
  unfold setup at h
  rw [run_getS_bind, run_setS_bind] at h
  obtain ⟨er, s1, _, h1⟩ := bind_ok_inv h
  rw [run_getS_bind, run_setS_bind] at h1
  obtain ⟨tr, s2, _, h2⟩ := bind_ok_inv h1
  rw [run_getS_bind, run_setS_bind, run_getS_bind] at h2
  obtain ⟨e0, s3, h3, h4⟩ := bind_ok_inv h2
  rw [run_getS_bind, run_setS_bind] at h4
  refine registerPrims_watermarksOk _ _ _ _ h4 ?_
  obtain ⟨p4, pN, php, pr, hs⟩ := (pair_ok_iff _ _ _ _ _ _).mp h3
  subst hs
  subst pr
  refine ⟨?_, ?_⟩
  · show s2.hp ≤ 8 * (s2.sp - 4)
    change s2.hp ≤ (s2.sp - 4) * 8 at php
    omega
  · show s2.sp - 4 ≤ ord (box CONS (s2.sp - 4))
    change 4 ≤ s2.sp at p4
    change s2.sp ≤ N at pN
    rw [ord_box (by decide) (lt_of_le_of_lt (Nat.sub_le _ _) (lt_of_le_of_lt pN N_lt))]

theorem traced_f_define_eval (h : Host) (n t e : Nat) : Traced (f_define (eval h n) t e) :=
  traced_f_define (traced_eval h n) t e

theorem reachable_watermarksOk (h : Host) (s : State) (hr : Reachable h s) :
    WatermarksOk s := by
  induction hr with
  | start table names s0 s hs => exact setup_watermarksOk table names s0 s hs
  | atom str v s s1 _ ha ih => exact steps_watermarksOk (traced_atom str s v s1 ha) ih
  | cons x y r s s1 _ hc ih => exact steps_watermarksOk (traced_cons x y s r s1 hc) ih
  | pair v x e r s s1 _ hp ih => exact steps_watermarksOk (traced_pair v x e s r s1 hp) ih
  | define n t e v s s1 _ hd ih =>
    exact steps_watermarksOk (traced_f_define_eval h n t e s v s1 hd) ih
  | eval n x e v s s1 _ he ih => exact steps_watermarksOk (traced_eval h n x e s v s1 he) ih
  | gc s s1 _ hg ih =>
    have hs : s1 = { s with sp := ord s.env } := by
      have : gc s = Res.ok () { s with sp := ord s.env } := rfl
      rw [this] at hg
      injection hg with _ h2
      exact h2.symm
    subst hs
    obtain ⟨i1, i2⟩ := ih
    refine ⟨?_, le_refl _⟩
    show s.hp ≤ 8 * ord s.env
    omega

theorem reachable_init (h : Host) (s0 s : State) (hi : initTinyLisp s0 = Res.ok () s) :
    Reachable h s := by
  rw [initTinyLisp, run_getS_bind, run_setS_bind] at hi
  exact Reachable.start primTable primNames _ s hi

/-- C13: the safety invariant `hp <= 8*sp` holds in every state that is
reached without a failure: after start-up, and after every call of `atom`,
`cons`, `pair`, `f_define`, `eval` and `gc` that returns from such a
state. -/
theorem safety_invariant (h : Host) (s : State) (hr : Reachable h s) : s.hp ≤ 8 * s.sp :=
  (reachable_watermarksOk h s hr).1

/-- Witness for C13: the steps of `TestMemoryManagement`, start-up, a
`cons`, an `atom`, followed by `gc`. -/
theorem safety_invariant_witness :
    (gc (atom (bytes "a") (cons (num 0) (box NIL 0) exampleInit.stateD).stateD).stateD).stateD.hp
      ≤ 8 *
    (gc (atom (bytes "a") (cons (num 0) (box NIL 0) exampleInit.stateD).stateD).stateD).stateD.sp
    := by
  have facts := runs_startup.2.2.2.2.2.2.1
  have h1 : initTinyLisp zeroState = Res.ok () exampleInit.stateD := Res.eq_ok_of_val facts.1
  have h2 := Res.eq_ok_of_val facts.2.1
  have h3 := Res.eq_ok_of_val facts.2.2
  exact safety_invariant noHost _
    (Reachable.gc _ _
      (Reachable.atom _ _ _ _
        (Reachable.cons _ _ _ _ _ (reachable_init noHost zeroState _ h1) h2) h3) rfl)

/-! ## Binding parameter lists of any length -/

theorem isPairTag_of_NIL {p : Nat} (h : T p = NIL) : isPairTag p = false := by
  unfold isPairTag
  rw [h]
  decide

theorem isPairTag_of_ATOM {p : Nat} (h : T p = ATOM) : isPairTag p = false := by
  unfold isPairTag
  rw [h]
  decide

theorem listSeg_nil_iff (s : State) (lo v tl : Nat) : listSeg s lo v [] tl = true ↔ v = tl := by
  simp [listSeg]

theorem bind_entries (ps : List Nat) :
    ∀ (as : List Nat) (k params args e tlp tla : Nat) (s : State),
      listSeg s s.sp params ps tlp = true → T tlp = NIL →
      listSeg s s.sp args as tla = true → isPairTag tla = false → isPairTag s.err = false →
      4 * ps.length ≤ s.sp → s.sp ≤ N → s.hp ≤ (s.sp - 4 * ps.length) * 8 →
      ps.length < k →
      ∃ r s2, bind k params args e s = Res.ok r s2 ∧
        envSeg s2 s2.sp r (ps.zip (padArgs s.err ps.length as)).reverse e = true ∧
        s2.sp = s.sp - 4 * ps.length ∧
        (∀ i, s.sp ≤ i → s2.cell i = s.cell i) ∧
        s2.hp = s.hp ∧ s2.A = s.A ∧ s2.env = s.env ∧ s2.err = s.err ∧ s2.nilv = s.nilv := by
  induction ps with
  | nil =>
    intro as k params args e tlp tla s hps htl _ _ _ _ _ _ hk
    have : params = tlp := by simpa [listSeg] using hps
    subst this
    obtain ⟨m, rfl⟩ : ∃ m, k = m + 1 := ⟨k - 1, by simp at hk; omega⟩
    refine ⟨e, s, ?_, by simp [envSeg], by simp, fun _ _ => rfl, rfl, rfl, rfl, rfl, rfl⟩
    unfold bind
    rw [if_pos (notv_of_NIL htl)]
    rfl
  | cons p ps ih =>
    intro as k params args e tlp tla s hps htl has hta herr h4 hN hhp hk
    have hl1 := List.length_cons p ps
    obtain ⟨m, rfl⟩ : ∃ m, k = m + 1 := ⟨k - 1, by omega⟩
    obtain ⟨c1, c2, c3⟩ := (listSeg_cons_iff s s.sp params p ps tlp).1 hps
    have hT : T params = CONS := ((cellOk_iff _ _).1 c1).1
    cases as with
    | nil =>
      have hargs : args = tla := (listSeg_nil_iff s s.sp args tla).1 has
      subst hargs
      have hpair := pair_ok p s.err e s (by omega) hN (by omega)
      have hfr : ∀ i, s.sp ≤ i → (afterPair p s.err e s).cell i = s.cell i :=
        fun i hi => afterPair_cell_above p s.err e s (by omega) i hi
      have hsp : (afterPair p s.err e s).sp = s.sp - 4 := rfl
      obtain ⟨r, s2, hb, hseg, hsp2, hcell2, hhp2, hA2, henv2, herr2, hnil2⟩ :=
        ih [] m (s.cell (ord params)) s.err (box CONS (s.sp - 4)) tlp s.err
          (afterPair p s.err e s)
          (listSeg_mono _ (by rw [hsp]; omega) _ _ _
            (listSeg_frame s _ s.sp hfr _ _ _ c3))
          htl ((listSeg_nil_iff _ _ _ _).2 rfl) herr herr
          (by omega) (by rw [hsp]; omega)
          (by
            rw [hsp]
            show s.hp ≤ _
            have : s.sp - 4 - 4 * ps.length = s.sp - 4 * (p :: ps).length := by omega
            rw [this]
            exact hhp)
          (by omega)
      refine ⟨r, s2, ?_, ?_, by rw [hsp2, hsp]; omega, ?_, hhp2, hA2, henv2, herr2, hnil2⟩
      · conv_lhs => unfold bind
        rw [if_neg (by rw [notv_of_CONS hT]; simp), if_pos hT]
        rw [run_bind_ok (cdr_cellOk c1 s), run_bind_ok (cdr_not_pair hta s),
          run_bind_ok (car_cellOk c1 s), run_bind_ok (car_not_pair hta s), c2,
          run_bind_ok hpair]
        exact hb
      · have hz : (p :: ps).zip (padArgs s.err (p :: ps).length []) =
            (p, s.err) :: ps.zip (padArgs s.err ps.length []) := by
          simp [padArgs, List.replicate_succ]
        rw [hz, List.reverse_cons]
        apply envSeg_append s2 s2.sp _ _ (box CONS (s.sp - 4)) e r hseg
        apply envSeg_mono s2 (show s2.sp ≤ s.sp - 4 by rw [hsp2, hsp]; omega)
        apply envSeg_frame (afterPair p s.err e s) s2 (s.sp - 4) (fun i hi => hcell2 i hi)
        exact envSeg_afterPair p s.err e s (s.sp - 4) (by omega) hN (le_refl _)
      · intro i hi
        rw [hcell2 i (by rw [hsp]; omega), hfr i hi]
    | cons a as =>
      have hl2 := List.length_cons a as
      obtain ⟨d1, d2, d3⟩ := (listSeg_cons_iff s s.sp args a as tla).1 has
      have hpair := pair_ok p a e s (by omega) hN (by omega)
      have hfr : ∀ i, s.sp ≤ i → (afterPair p a e s).cell i = s.cell i :=
        fun i hi => afterPair_cell_above p a e s (by omega) i hi
      have hsp : (afterPair p a e s).sp = s.sp - 4 := rfl
      obtain ⟨r, s2, hb, hseg, hsp2, hcell2, hhp2, hA2, henv2, herr2, hnil2⟩ :=
        ih as m (s.cell (ord params)) (s.cell (ord args)) (box CONS (s.sp - 4)) tlp tla
          (afterPair p a e s)
          (listSeg_mono _ (by rw [hsp]; omega) _ _ _
            (listSeg_frame s _ s.sp hfr _ _ _ c3))
          htl
          (listSeg_mono _ (by rw [hsp]; omega) _ _ _
            (listSeg_frame s _ s.sp hfr _ _ _ d3))
          hta herr
          (by omega) (by rw [hsp]; omega)
          (by
            rw [hsp]
            show s.hp ≤ _
            have : s.sp - 4 - 4 * ps.length = s.sp - 4 * (p :: ps).length := by omega
            rw [this]
            exact hhp)
          (by omega)
      refine ⟨r, s2, ?_, ?_, by rw [hsp2, hsp]; omega, ?_, hhp2, hA2, henv2, herr2, hnil2⟩
      · conv_lhs => unfold bind
        rw [if_neg (by rw [notv_of_CONS hT]; simp), if_pos hT]
        rw [run_bind_ok (cdr_cellOk c1 s), run_bind_ok (cdr_cellOk d1 s),
          run_bind_ok (car_cellOk c1 s), run_bind_ok (car_cellOk d1 s), c2, d2,
          run_bind_ok hpair]
        exact hb
      · have hz : (p :: ps).zip (padArgs s.err (p :: ps).length (a :: as)) =
            (p, a) :: ps.zip (padArgs s.err ps.length as) := by
          simp [padArgs]
        rw [hz, List.reverse_cons]
        apply envSeg_append s2 s2.sp _ _ (box CONS (s.sp - 4)) e r hseg
        apply envSeg_mono s2 (show s2.sp ≤ s.sp - 4 by rw [hsp2, hsp]; omega)
        apply envSeg_frame (afterPair p a e s) s2 (s.sp - 4) (fun i hi => hcell2 i hi)
        exact envSeg_afterPair p a e s (s.sp - 4) (by omega) hN (le_refl _)
      · intro i hi
        rw [hcell2 i (by rw [hsp]; omega), hfr i hi]

theorem lookupEnv_zip (ps : List Nat) :
    ∀ (as : List Nat), ps.Nodup → ps.length ≤ as.length →
      ∀ (i : Nat), i < ps.length →
        lookupEnv (ps.getD i 0) (ps.zip as).reverse = some (as.getD i 0) := by
  induction ps with
  | nil => intro as _ _ i h1; simp at h1
  | cons p ps ih =>
    intro as hnd hlen i h1
    cases as with
    | nil => simp at hlen
    | cons a as =>
      rw [List.zip_cons_cons, List.reverse_cons, lookupEnv_append]
      rw [List.nodup_cons] at hnd
      cases i with
      | zero =>
        simp only [List.getD_cons_zero]
        rw [lookupEnv_absent p ps as hnd.1]
        simp [lookupEnv]
      | succ j =>
        simp only [List.getD_cons_succ]
        simp only [List.length_cons] at h1 hlen
        rw [ih as hnd.2 (by omega) j (by omega)]
        simp

theorem padArgs_length (err n : Nat) (as : List Nat) : n ≤ (padArgs err n as).length := by
  unfold padArgs
  rw [List.length_append, List.length_replicate]
  omega

theorem padArgs_getD_lt (err n : Nat) (as : List Nat) (i : Nat) (hi : i < as.length) :
    (padArgs err n as).getD i 0 = as.getD i 0 := by
  unfold padArgs
  rw [List.getD_append _ _ _ _ hi]

theorem padArgs_getD_ge (err n : Nat) (as : List Nat) (i : Nat) (hi : as.length ≤ i)
    (hn : i < n) : (padArgs err n as).getD i 0 = err := by
  unfold padArgs
  rw [List.getD_append_right _ _ _ _ hi]
  have hlt : i - as.length < (List.replicate (n - as.length) err).length := by
    rw [List.length_replicate]; omega
  rw [List.getD_eq_getElem _ _ hlt, List.getElem_replicate]

theorem evalArgs_consts (h : Host) (n e : Nat) {xs vs : List Nat} {s s2 : State}
    (hea : EvalArgs h n e xs s vs s2) : s2.nilv = s.nilv ∧ s2.err = s.err := by
  induction hea with
  | nil => exact ⟨rfl, rfl⟩
  | cons hev _ ih =>
    obtain ⟨a1, a2, _⟩ := steps_consts (traced_eval h n _ _ _ _ _ hev)
    exact ⟨ih.1.trans a1, ih.2.trans a2⟩

theorem bind_symbol (j p t e : Nat) (s : State) (hp1 : T p ≠ NIL) (hp2 : T p ≠ CONS) :
    bind (j + 1) p t e s = pair p t e s := by
  unfold bind
  have : notv p = false := by
    unfold notv
    simp [hp1]
  rw [this]
  simp [hp2]

theorem bind_nil (j p t e : Nat) (s : State) (hp : T p = NIL) :
    bind (j + 1) p t e s = Res.ok e s := by
  unfold bind
  rw [if_pos (notv_of_NIL hp)]
  rfl

/-- C18: `bind(params, args, e)`.  When `params` is a proper list of
pairwise distinct symbols `p1..pn` and `args` a list of `n` values
`a1..an`, the call returns (given room for `n` entries) an environment
that resolves each `pi` to `ai` and every other symbol as `e` does.  When
`params` is a single symbol `p`, the result binds `p` to the whole
argument list and resolves every other symbol as `e` does; so
`((lambda args args) 1 2 3)` yields the list `(1 2 3)`.  When `params` is
NIL the result is `e` itself and nothing is allocated. -/
theorem bind_cases (ps as : List Nat) (k params args e tlp tla : Nat) (s : State)
    (hps : listSeg s s.sp params ps tlp = true) (htlp : T tlp = NIL) (hnd : ps.Nodup)
    (has : listSeg s s.sp args as tla = true) (hlen : as.length = ps.length)
    (hroom : 4 * ps.length ≤ s.sp ∧ s.sp ≤ N ∧ s.hp ≤ (s.sp - 4 * ps.length) * 8)
    (hk : ps.length < k) :
    (∃ r s2, bind k params args e s = Res.ok r s2 ∧
      (∀ (i : Nat), i < ps.length → ∀ (j : Nat),
        assoc (j + 1 + ps.length) (ps.getD i 0) r s2 = Res.ok (as.getD i 0) s2) ∧
      (∀ v, v ∉ ps → ∀ j, assoc (j + ps.length) v r s2 = assoc j v e s2)) ∧
    (∀ (p t1 e1 : Nat) (s1 : State) (j : Nat), T p = ATOM →
      4 ≤ s1.sp → s1.sp ≤ N → s1.hp ≤ (s1.sp - 4) * 8 →
      ∃ r s2, bind (j + 1) p t1 e1 s1 = Res.ok r s2 ∧
        (∀ i, assoc (i + 1) p r s2 = Res.ok t1 s2) ∧
        (∀ v, v ≠ p → ∀ i, assoc (i + 1) v r s2 = assoc i v e1 s2)) ∧
    (∀ (p t1 e1 : Nat) (s1 : State) (j : Nat), T p = NIL →
      bind (j + 1) p t1 e1 s1 = Res.ok e1 s1) ∧
    ((parseAndEval "((lambda args args) 1 2 3)" 60).val = some (box CONS 1936) ∧
      listSeg (parseAndEval "((lambda args args) 1 2 3)" 60).stateD
        (parseAndEval "((lambda args args) 1 2 3)" 60).stateD.sp (box CONS 1936)
        [num 1, num 2, num 3] (box NIL 0) = true) := by
  refine ⟨?_, ?_, ?_, runs_apply.1⟩
  · obtain ⟨r, s2, hb, hseg, _⟩ :=
      bind_lists ps as k params args e tlp tla s hps htlp has hlen hroom.1 hroom.2.1
        hroom.2.2 hk
    have hz : (ps.zip as).reverse.length = ps.length := by
      rw [List.length_reverse, List.length_zip, hlen, Nat.min_self]
    refine ⟨r, s2, hb, ?_, ?_⟩
    · intro i h1 j
      have := assoc_seg (ps.getD i 0) s2 s2.sp e (ps.zip as).reverse (j + 1) r hseg
      rw [hz, lookupEnv_zip ps as hnd (by omega) i h1] at this
      exact this
    · intro v hv j
      have := assoc_seg v s2 s2.sp e (ps.zip as).reverse j r hseg
      rw [hz, lookupEnv_absent v ps as hv] at this
      exact this
  · intro p t1 e1 s1 j hp h4 hN hhp
    refine ⟨box CONS (s1.sp - 4), afterPair p t1 e1 s1, ?_, ?_, ?_⟩
    · rw [bind_symbol j p t1 e1 s1 (by rw [hp]; decide) (by rw [hp]; decide)]
      exact pair_ok p t1 e1 s1 h4 hN hhp
    · intro i
      have := assoc_seg p (afterPair p t1 e1 s1) (s1.sp - 4) e1 [(p, t1)] i _
        (envSeg_afterPair p t1 e1 s1 (s1.sp - 4) h4 hN (le_refl _))
      simpa [lookupEnv] using this
    · intro v hv i
      have := assoc_seg v (afterPair p t1 e1 s1) (s1.sp - 4) e1 [(p, t1)] i _
        (envSeg_afterPair p t1 e1 s1 (s1.sp - 4) h4 hN (le_refl _))
      have hne : ¬ p = v := fun h => hv h.symm
      simpa [lookupEnv, hne] using this
  · intro p t1 e1 s1 j hp
    exact bind_nil j p t1 e1 s1 hp

/-- Witness for C18: the call `bind(vars, vals, nilv)` of `TestBind`, with
`vars` the list `(x y)` and `vals` the list `(1 2)`. -/
theorem bind_cases_witness :
    ∃ r s2, bind 3 exampleBind.valD.1 exampleBind.valD.2 (box NIL 0) exampleBind.stateD
        = Res.ok r s2 ∧
      (∀ (i : Nat), i < exampleParams.length → ∀ (j : Nat),
        assoc (j + 1 + exampleParams.length) (exampleParams.getD i 0) r s2
          = Res.ok (exampleBindValues.getD i 0) s2) ∧
      (∀ v, v ∉ exampleParams → ∀ j,
        assoc (j + exampleParams.length) v r s2 = assoc j v (box NIL 0) s2) := by
  have facts := runs_apply.2.1
  obtain ⟨a1, a2, a3⟩ := facts
  have a4 : exampleParams.Nodup := by decide
  have a5 : exampleBindValues.length = exampleParams.length := by decide
  have a6 : exampleParams.length < 3 := by decide
  exact (bind_cases exampleParams exampleBindValues 3 exampleBind.valD.1
      exampleBind.valD.2 (box NIL 0) (box NIL 0) (box NIL 0) exampleBind.stateD
      a1 (by decide) a4 a2 a5 a3 a6).1

/-- C19: when a closure with the pairwise distinct parameters `p1..pn` is
applied to fewer than `n` arguments (a proper argument list whose
evaluations return, in a state where `nilv` is NIL and `err` an atom, with
room for the allocations), binding the parameters does not fail: the
body is evaluated in a call environment that resolves each parameter
with a matching argument to the value of that argument and every
trailing parameter to the error atom `err`.  For example
`((lambda (x y) y) 1)` evaluates to `ERR`, the atom at offset 0. -/
theorem apply_short_args (h : Host) (n f t e params body ce tlp tla : Nat)
    (ps xs vs : List Nat) (s s2 : State)
    (hcl : closureAt s f params body ce = true)
    (hps : listSeg s s.sp params ps tlp = true) (htlp : T tlp = NIL) (hnd : ps.Nodup)
    (hxs : listSeg s s.sp t xs tla = true) (htla : T tla = NIL)
    (hea : EvalArgs h n e xs s vs s2) (hlen : xs.length < ps.length)
    (hnilv : T s.nilv = NIL) (herr : T s.err = ATOM)
    (hroom : 6 * ps.length ≤ s2.sp ∧ s2.hp ≤ (s2.sp - 6 * ps.length) * 8)
    (hfuel : ps.length < n) :
    (∃ env1 s4,
      apply h (eval h n) n f t e s = eval h n body env1 s4 ∧
      (∀ (i : Nat), i < xs.length → ∀ (k : Nat),
        assoc (k + 1 + ps.length) (ps.getD i 0) env1 s4 = Res.ok (vs.getD i 0) s4) ∧
      (∀ (i : Nat), xs.length ≤ i → i < ps.length → ∀ (k : Nat),
        assoc (k + 1 + ps.length) (ps.getD i 0) env1 s4 = Res.ok s4.err s4)) ∧
    ((parseAndEval "((lambda (x y) y) 1)" 60).val = some (box ATOM 0) ∧
      (parseAndEval "((lambda (x y) y) 1)" 60).stateD.err = box ATOM 0) := by
  refine ⟨?_, runs_apply.2.2.1⟩
  obtain ⟨r6, rhp⟩ := hroom
  have hvl : vs.length = xs.length := evalArgs_length h n e hea
  obtain ⟨hn2, he2⟩ := evalArgs_consts h n e hea
  obtain ⟨args, s3, hargs, hseg3, hsp3, hcell3, hhp3, _, henv3, hnil3⟩ :=
    evlis_list h n e xs vs n t tla s s2 hxs (by rw [htla]; decide) (by rw [htla]; decide) hea
      (by omega) (le_trans rhp (Nat.mul_le_mul_right 8 (by omega))) (by omega)
  obtain ⟨_, c2, c3, _⟩ := (closureAt_iff s f params body ce).1 hcl
  obtain ⟨f1, f2⟩ := framed_evlis (framed_eval h n) n t e s args s3 hargs
  obtain ⟨_, he3, _⟩ := steps_consts (traced_evlis (traced_eval h n) n t e s args s3 hargs)
  have hps3 : listSeg s3 s3.sp params ps tlp = true :=
    listSeg_mono s3 f1 _ _ _ (listSeg_frame s s3 s.sp f2 _ _ _ hps)
  have hN3 : s3.sp ≤ N := by
    have hN2 : N = 2048 := rfl
    omega
  obtain ⟨env1, s4, hb, hseg, _, hcell, _, _, henv, herr4, _⟩ :=
    bind_entries ps vs n params args (ifv ce s3.env) tlp s2.nilv s3 hps3 htlp hseg3
      (isPairTag_of_NIL (by rw [hn2]; exact hnilv))
      (isPairTag_of_ATOM (by rw [he3]; exact herr))
      (by omega) hN3
      (by
        rw [hhp3, hsp3]
        refine le_trans rhp (Nat.mul_le_mul_right 8 ?_)
        omega)
      hfuel
  have hz : (ps.zip (padArgs s3.err ps.length vs)).reverse.length = ps.length := by
    rw [List.length_reverse, List.length_zip]
    have := padArgs_length s3.err ps.length vs
    omega
  refine ⟨env1, s4, ?_, ?_, ?_⟩
  · rw [apply_closureAt h (framed_eval h n) n f t e params body args ce s s3 hcl hargs,
      run_bind_ok hb]
  · intro i h1 k
    have := assoc_seg (ps.getD i 0) s4 s4.sp (ifv ce s3.env)
      (ps.zip (padArgs s3.err ps.length vs)).reverse (k + 1) env1 hseg
    rw [hz, lookupEnv_zip ps _ hnd (padArgs_length _ _ _) i (by omega),
      padArgs_getD_lt _ _ _ _ (by omega)] at this
    exact this
  · intro i h1 h2 k
    have := assoc_seg (ps.getD i 0) s4 s4.sp (ifv ce s3.env)
      (ps.zip (padArgs s3.err ps.length vs)).reverse (k + 1) env1 hseg
    rw [hz, lookupEnv_zip ps _ hnd (padArgs_length _ _ _) i h2,
      padArgs_getD_ge _ _ _ _ (by omega) h2] at this
    rw [herr4]
    exact this

/-- Witness for C19: the call `((lambda (x y) y) 1)` at the moment `eval`
calls `apply`; the parameter `y` has no argument. -/
theorem apply_short_args_witness :
    ∃ env1 s4,
      apply decimalHost (eval decimalHost 60) 60 exampleShortApply.valD.1
          exampleShortApply.valD.2 exampleShortApply.stateD.env exampleShortApply.stateD
        = eval decimalHost 60 (box ATOM 95) env1 s4 ∧
      (∀ (i : Nat), i < exampleShortValues.length → ∀ (k : Nat),
        assoc (k + 1 + exampleParams.length) (exampleParams.getD i 0) env1 s4
          = Res.ok (exampleShortValues.getD i 0) s4) ∧
      (∀ (i : Nat), exampleShortValues.length ≤ i → i < exampleParams.length → ∀ (k : Nat),
        assoc (k + 1 + exampleParams.length) (exampleParams.getD i 0) env1 s4
          = Res.ok s4.err s4) := by
  have facts := runs_apply.2.2.2.1
  obtain ⟨a1, a2, a3, a4, n1, n2, a5, a6⟩ := facts
  have a7 : exampleParams.Nodup := by decide
  have a8 : exampleShortValues.length < exampleParams.length := by decide
  have a9 : exampleParams.length < 60 := by decide
  have hea : EvalArgs decimalHost 60 exampleShortApply.stateD.env exampleShortValues
      exampleShortApply.stateD exampleShortValues exampleShortApply.stateD :=
    EvalArgs.cons (eval_other_tag decimalHost 59 (num 1) _ _ n1 n2) (EvalArgs.nil _)
  exact (apply_short_args decimalHost 60 exampleShortApply.valD.1 exampleShortApply.valD.2
      exampleShortApply.stateD.env (box CONS 1956) (box ATOM 95) (box NIL 0) (box NIL 0)
      (box NIL 0) exampleParams exampleShortValues exampleShortValues
      exampleShortApply.stateD exampleShortApply.stateD a1 a2 (by decide) a7 a3 (by decide)
      hea a8 a5 a6 a4 a9).1

/-! ## Evaluating argument lists -/

theorem assoc_ok_state : ∀ (k v e r : Nat) (s s1 : State),
    assoc k v e s = Res.ok r s1 → s1 = s := by
  intro k
  induction k with
  | zero => intro v e r s s1 h; cases h
  | succ k ih =>
    intro v e r s s1 h
    unfold assoc at h
    split at h
    · obtain ⟨a, sa, h1, h2⟩ := bind_ok_inv h
      have e1 := car_ok_state h1
      subst e1
      obtain ⟨b, sb, h3, h4⟩ := bind_ok_inv h2
      have e2 := car_ok_state h3
      subst e2
      split at h4
      · obtain ⟨c, sc, h5, h6⟩ := bind_ok_inv h4
        have e3 := car_ok_state h5
        subst e3
        exact cdr_ok_state h6
      · obtain ⟨c, sc, h5, h6⟩ := bind_ok_inv h4
        have e3 := cdr_ok_state h5
        subst e3
        exact ih _ _ _ _ _ h6
    · rw [run_getS_bind, run_pure] at h
      injection h with _ h2
      exact h2.symm

theorem assoc_eq_of_val {k v e r : Nat} {s : State} (h : (assoc k v e s).val = some r) :
    assoc k v e s = Res.ok r s := by
  have h1 := Res.eq_ok_of_val h
  have h2 := assoc_ok_state k v e r s _ h1
  rw [h2] at h1
  exact h1

theorem evlis_seg (h : Host) (n e : Nat) (xs : List Nat) :
    ∀ (vs : List Nat) (k t tl tv : Nat) (s s2 : State),
      listSeg s s.sp t xs tl = true →
      EvalArgs h n e xs s vs s2 →
      evlis (eval h n) (k - xs.length) tl e s2 = Res.ok tv s2 →
      2 * xs.length ≤ s2.sp → s2.hp ≤ (s2.sp - 2 * xs.length) * 8 → xs.length < k →
      ∃ args s3, evlis (eval h n) k t e s = Res.ok args s3 ∧
        listSeg s3 s3.sp args vs tv = true ∧
        s3.sp = s2.sp - 2 * xs.length ∧
        (∀ i, s2.sp ≤ i → s3.cell i = s2.cell i) ∧
        s3.hp = s2.hp ∧ s3.A = s2.A ∧ s3.env = s2.env := by
  induction xs with
  | nil =>
    intro vs k t tl tv s s2 hl hea htail _ _ _
    cases hea
    have : t = tl := by simpa [listSeg] using hl
    subst this
    rw [List.length_nil, Nat.sub_zero] at htail
    exact ⟨tv, s, htail, by simp [listSeg], by simp, fun _ _ => rfl, rfl, rfl, rfl⟩
  | cons x xs ih =>
    intro vs k t tl tv s s2 hl hea htail hroom hhp hk
    cases hea with
    | cons hev hrest =>
      rename_i v vs s1
      have hl1 := List.length_cons x xs
      obtain ⟨m, rfl⟩ : ∃ m, k = m + 1 := ⟨k - 1, by omega⟩
      have hsub : m + 1 - (x :: xs).length = m - xs.length := by
        rw [hl1]; omega
      rw [hsub] at htail
      obtain ⟨c1, c2, c3⟩ := (listSeg_cons_iff s s.sp t x xs tl).1 hl
      obtain ⟨hT, ct2, ct3⟩ := (cellOk_iff _ _).1 c1
      obtain ⟨f1, f2⟩ := framed_eval h n x e s v s1 hev
      obtain ⟨g1, g2⟩ := evalArgs_framed h n e hrest
      have hl2 : listSeg s1 s1.sp (s.cell (ord t)) xs tl = true :=
        listSeg_mono s1 f1 _ _ _ (listSeg_frame s s1 s.sp f2 _ _ _ c3)
      obtain ⟨r, s3, hr, hseg, hsp, hcell, hhp3, hA3, henv3⟩ :=
        ih vs m (s.cell (ord t)) tl tv s1 s2 hl2 hrest htail (by omega)
          (le_trans hhp (Nat.mul_le_mul_right 8 (by omega))) (by omega)
      have hc : cons v r s3 = Res.ok (box CONS (s3.sp - 2))
          { s3 with cell := upd (upd s3.cell (s3.sp - 1) v) (s3.sp - 2) r, sp := s3.sp - 2 } :=
        (cons_ok_iff v r s3 _ _).2 ⟨by omega, by omega, by
          rw [hhp3, hsp]
          have : s2.sp - 2 * xs.length - 2 = s2.sp - 2 * (x :: xs).length := by omega
          rw [this]; exact hhp, rfl, rfl⟩
      have hcd : cdr t s1 = Res.ok (s.cell (ord t)) s1 := by
        rw [cdr_cellOk c1, f2 _ ct2]
      have hNN := N_lt
      have hfr3 : ∀ i, s3.sp ≤ i →
          (upd (upd s3.cell (s3.sp - 1) v) (s3.sp - 2) r) i = s3.cell i := by
        intro i hi
        rw [upd_other _ _ (by omega), upd_other _ _ (by omega)]
      refine ⟨box CONS (s3.sp - 2),
        { s3 with cell := upd (upd s3.cell (s3.sp - 1) v) (s3.sp - 2) r, sp := s3.sp - 2 },
        ?_, ?_, ?_, ?_, hhp3, hA3, henv3⟩
      · conv_lhs => unfold evlis
        rw [if_pos hT, run_bind_ok (car_cellOk c1 s), c2, run_bind_ok hev, run_bind_ok hcd,
          run_bind_ok hr, hc]
      · rw [listSeg_cons_iff]
        have ho : ord (box CONS (s3.sp - 2)) = s3.sp - 2 := ord_box (by decide) (by omega)
        rw [ho]
        refine ⟨cellOk_box (le_refl _) (by omega), ?_, ?_⟩
        · show upd (upd s3.cell (s3.sp - 1) v) (s3.sp - 2) r (s3.sp - 2 + 1) = v
          have e1 : s3.sp - 2 + 1 = s3.sp - 1 := by omega
          rw [e1, upd_other _ _ (by omega), upd_same]
        · have e2 : upd (upd s3.cell (s3.sp - 1) v) (s3.sp - 2) r (s3.sp - 2) = r := upd_same _ _ _
          show listSeg _ (s3.sp - 2) (upd (upd s3.cell (s3.sp - 1) v) (s3.sp - 2) r (s3.sp - 2))
            vs tv = true
          rw [e2]
          apply listSeg_mono _ (show s3.sp - 2 ≤ s3.sp by omega)
          exact listSeg_frame s3 _ s3.sp hfr3 _ _ _ hseg
      · show s3.sp - 2 = _
        omega
      · intro i hi
        show upd (upd s3.cell (s3.sp - 1) v) (s3.sp - 2) r i = _
        rw [hfr3 i (by omega), hcell i hi]

theorem evlis_nil_tag (ev : Nat → Nat → M Nat) (j t e : Nat) (s : State) (ht : T t = NIL) :
    evlis ev (j + 1) t e s = Res.ok s.nilv s := by
  unfold evlis
  rw [if_neg (by rw [ht]; decide), if_neg (by rw [ht]; decide)]
  rfl

theorem evlis_atom_tag (ev : Nat → Nat → M Nat) (j t e : Nat) (s : State) (ht : T t = ATOM) :
    evlis ev (j + 1) t e s = assoc j t e s := by
  unfold evlis
  rw [if_neg (by rw [ht]; decide), if_pos ht]

/-- C20: let `t` be a list of the expressions `x1 .. xn` with last cdr
`tl`, and let the evaluations of `x1 .. xn` in `e`, one after the other,
return the values `vs` (with `nilv` NIL and room for `n` cells).  Then
`vs` has `n` elements and: when `tl` is NIL, `evlis(t, e)` returns a
proper list whose elements are `vs` in the same order; when `tl` is an
atom whose lookup in `e` returns `tv`, `evlis(t, e)` returns the list of
`vs` with last cdr `tv`; and `evlis` of a NIL value returns `nilv`
without allocating. -/
theorem evlis_values (h : Host) (n e : Nat) (xs vs : List Nat) (k t tl : Nat) (s s2 : State)
    (hl : listSeg s s.sp t xs tl = true) (hea : EvalArgs h n e xs s vs s2)
    (hnilv : T s.nilv = NIL)
    (hroom : 2 * xs.length ≤ s2.sp ∧ s2.hp ≤ (s2.sp - 2 * xs.length) * 8)
    (hk : xs.length + 1 < k) :
    vs.length = xs.length ∧
    (T tl = NIL → ∃ args s3 nl, evlis (eval h n) k t e s = Res.ok args s3 ∧
      listSeg s3 s3.sp args vs nl = true ∧ nl = s.nilv ∧ T nl = NIL) ∧
    (T tl = ATOM → ∀ tv, assoc (k - xs.length - 1) tl e s2 = Res.ok tv s2 →
      ∃ args s3, evlis (eval h n) k t e s = Res.ok args s3 ∧
        listSeg s3 s3.sp args vs tv = true) ∧
    (∀ (j t0 : Nat) (s0 : State), T t0 = NIL →
      evlis (eval h n) (j + 1) t0 e s0 = Res.ok s0.nilv s0) := by
  obtain ⟨m, hm⟩ : ∃ m, k - xs.length = m + 1 := ⟨k - xs.length - 1, by omega⟩
  refine ⟨evalArgs_length h n e hea, ?_, ?_, fun j t0 s0 ht => evlis_nil_tag _ j t0 e s0 ht⟩
  · intro htl
    have htail : evlis (eval h n) (k - xs.length) tl e s2 = Res.ok s2.nilv s2 := by
      rw [hm]; exact evlis_nil_tag _ m tl e s2 htl
    obtain ⟨args, s3, h1, h2, _⟩ :=
      evlis_seg h n e xs vs k t tl s2.nilv s s2 hl hea htail hroom.1 hroom.2 (by omega)
    have hn2 := (evalArgs_consts h n e hea).1
    rw [hn2] at h2
    exact ⟨args, s3, s.nilv, h1, h2, rfl, hnilv⟩
  · intro htl tv hassoc
    have hm2 : k - xs.length - 1 = m := by omega
    rw [hm2] at hassoc
    have htail : evlis (eval h n) (k - xs.length) tl e s2 = Res.ok tv s2 := by
      rw [hm, evlis_atom_tag _ m tl e s2 htl]; exact hassoc
    obtain ⟨args, s3, h1, h2, _⟩ :=
      evlis_seg h n e xs vs k t tl tv s s2 hl hea htail hroom.1 hroom.2 (by omega)
    exact ⟨args, s3, h1, h2⟩

/-- Witness for C20: the argument list `(3 4)` of `exampleApply`, a proper
list, and the dotted list `(1 . car)` of `exampleDotted`, whose tail is
looked up in the global environment and gives the primitive `car`. -/
theorem evlis_values_witness :
    (∃ args s3 nl,
      evlis (eval decimalHost 60) 60 exampleApply.valD.2 exampleApply.stateD.env
          exampleApply.stateD = Res.ok args s3 ∧
        listSeg s3 s3.sp args exampleValues nl = true ∧ nl = exampleApply.stateD.nilv ∧
        T nl = NIL) ∧
    (∃ args s3,
      evlis (eval decimalHost 60) 60 exampleDotted.valD exampleDotted.stateD.env
          exampleDotted.stateD = Res.ok args s3 ∧
        listSeg s3 s3.sp args exampleShortValues (box PRIM 3) = true) := by
  have facts := runs_apply.2.2.2.2.1
  obtain ⟨a1, a2, a3, n1, n2, n3, n4, n5, n6, b1, b2, b3, b4⟩ := facts
  have hea1 : EvalArgs decimalHost 60 exampleApply.stateD.env exampleValues exampleApply.stateD
      exampleValues exampleApply.stateD :=
    EvalArgs.cons (eval_other_tag decimalHost 59 (num 3) _ _ n1 n2)
      (EvalArgs.cons (eval_other_tag decimalHost 59 (num 4) _ _ n3 n4) (EvalArgs.nil _))
  have hea2 : EvalArgs decimalHost 60 exampleDotted.stateD.env exampleShortValues
      exampleDotted.stateD exampleShortValues exampleDotted.stateD :=
    EvalArgs.cons (eval_other_tag decimalHost 59 (num 1) _ _ n5 n6) (EvalArgs.nil _)
  have k1 : exampleValues.length + 1 < 60 := by decide
  have k2 : exampleShortValues.length + 1 < 60 := by decide
  exact ⟨(evlis_values decimalHost 60 exampleApply.stateD.env exampleValues exampleValues 60
      exampleApply.valD.2 (box NIL 0) exampleApply.stateD exampleApply.stateD a1 hea1 a2 a3
      k1).2.1 (by decide),
    (evlis_values decimalHost 60 exampleDotted.stateD.env exampleShortValues
      exampleShortValues 60 exampleDotted.valD (box ATOM 23) exampleDotted.stateD
      exampleDotted.stateD b1 hea2 b2 b3 k2).2.2.1 (by decide) (box PRIM 3)
      (assoc_eq_of_val b4)⟩

/-! ## Closures and the global environment -/

theorem closure_ok_eq (v x : Nat) (s : State) (c : Nat) (s1 : State)
    (hc : closure v x s.env s = Res.ok c s1) :
    4 ≤ s.sp ∧ s.sp ≤ N ∧ c = box CLOS (s.sp - 4) ∧ s1 = afterPair v x s.nilv s := by
  unfold closure at hc
  rw [run_getS_bind] at hc
  have hq : equ s.env s.env = true := by simp [equ]
  rw [hq] at hc
  simp only [if_true] at hc
  obtain ⟨p, sm, hp, h2⟩ := bind_ok_inv hc
  rw [run_pure] at h2
  injection h2 with h3 h4
  obtain ⟨a1, a2, _, a4, a5⟩ := (pair_ok_iff v x s.nilv s p sm).1 hp
  have hN := N_lt
  refine ⟨a1, a2, ?_, ?_⟩
  · rw [← h3, a4, ord_box (by decide) (by omega)]
  · rw [← h4, a5]

theorem closure_ok (v x e : Nat) (s : State) (c : Nat) (s1 : State)
    (hc : closure v x e s = Res.ok c s1) :
    4 ≤ s.sp ∧ s.sp ≤ N ∧ c = box CLOS (s.sp - 4) ∧
      s1 = afterPair v x (if e = s.env then s.nilv else e) s := by
  by_cases he : e = s.env
  · subst he
    rw [if_pos rfl]
    exact closure_ok_eq v x s c s1 hc
  · rw [if_neg he]
    exact closure_ok_ne v x e s c s1 he hc

theorem closureAt_afterPair (v x ce : Nat) (s : State) (h4 : 4 ≤ s.sp) (hN : s.sp ≤ N) :
    closureAt (afterPair v x ce s) (box CLOS (s.sp - 4)) v x ce = true := by
  have hNN := N_lt
  obtain ⟨c1, c2, c3, c4⟩ := afterPair_cells v x ce s h4
  have ho : ord (box CLOS (s.sp - 4)) = s.sp - 4 := ord_box (by decide) (by omega)
  have ho2 : ord (box CONS (s.sp - 2)) = s.sp - 2 := ord_box (by decide) (by omega)
  have hsp : (afterPair v x ce s).sp = s.sp - 4 := rfl
  rw [closureAt_iff, ho, c2, ho2, hsp]
  exact ⟨T_box (by decide) (by omega), le_refl _, by omega,
    cellOk_box (by omega) (by omega), c4, c3, c1⟩

theorem closureAt_frame (s s2 : State) (f params body ce : Nat) (hsp : s2.sp ≤ s.sp)
    (hc : ∀ i, s.sp ≤ i → s2.cell i = s.cell i)
    (h : closureAt s f params body ce = true) : closureAt s2 f params body ce = true := by
  rw [closureAt_iff] at h ⊢
  obtain ⟨a1, a2, a3, a4, a5, a6, a7⟩ := h
  obtain ⟨b1, b2, b3⟩ := (cellOk_iff _ _).1 a4
  have e1 : s2.cell (ord f + 1) = s.cell (ord f + 1) := hc _ (by omega)
  rw [e1, hc _ b2, hc _ (by omega), hc _ a2]
  exact ⟨a1, by omega, a3, (cellOk_iff _ _).2 ⟨b1, by omega, b3⟩, a5, a6, a7⟩

theorem ifv_of_nil {c : Nat} (alt : Nat) (h : T c = NIL) : ifv c alt = alt := by
  simp [ifv, notv, h]

theorem step_frame {s t : State} (h : Step s t) :
    t.sp ≤ s.sp ∧ ∀ i, s.sp ≤ i → t.cell i = s.cell i := by
  cases h with
  | cons x y r _ _ hc => exact framed_cons x y s r t hc
  | atom str v _ _ ha => exact framed_atom str s v t ha
  | define sym v e1 _ s1 hp => exact framed_pair sym v s.env s e1 s1 hp

theorem steps_frame {s t : State} (h : Steps s t) :
    t.sp ≤ s.sp ∧ ∀ i, s.sp ≤ i → t.cell i = s.cell i := by
  induction h with
  | refl => exact ⟨le_refl _, fun _ _ => rfl⟩
  | tail _ hs ih =>
    obtain ⟨a1, a2⟩ := step_frame hs
    exact ⟨le_trans a1 ih.1, fun i hi => by rw [a2 i (le_trans ih.1 hi), ih.2 i hi]⟩

theorem resolves_assoc {s : State} {lo e x v : Nat} (h : Resolves s lo e x v) :
    ∃ K, ∀ k, K ≤ k → assoc k x e s = Res.ok v s := by
  obtain ⟨l, tl, h1, h2⟩ := h
  refine ⟨l.length, fun k hk => ?_⟩
  have := assoc_seg x s lo tl l (k - l.length) e h1
  rw [Nat.sub_add_cancel hk, h2] at this
  exact this

theorem resolves_frame {s s2 : State} {lo lo2 e x v : Nat} (hlo : lo2 ≤ lo)
    (hc : ∀ i, lo ≤ i → s2.cell i = s.cell i) (h : Resolves s lo e x v) :
    Resolves s2 lo2 e x v := by
  obtain ⟨l, tl, h1, h2⟩ := h
  exact ⟨l, tl, envSeg_mono s2 hlo _ _ _ (envSeg_frame s s2 lo hc _ _ _ h1), h2⟩

theorem resolves_extend {s : State} {lo r e x v : Nat} (l2 : List (Nat × Nat))
    (hseg : envSeg s lo r l2 e = true) (hx : lookupEnv x l2 = none)
    (h : Resolves s lo e x v) : Resolves s lo r x v := by
  obtain ⟨l, tl, h1, h2⟩ := h
  refine ⟨l2 ++ l, tl, envSeg_append s lo l2 l e tl r hseg h1, ?_⟩
  rw [lookupEnv_append, hx, h2]
  rfl

theorem f_lambda_eq (t e params body tl0 : Nat) (s : State)
    (ht : listSeg s s.sp t [params, body] tl0 = true) :
    f_lambda t e s = closure params body e s := by
  obtain ⟨c1, c2, c3⟩ := (listSeg_cons_iff s s.sp t params [body] tl0).1 ht
  obtain ⟨d1, d2, _⟩ := (listSeg_cons_iff s s.sp _ body [] tl0).1 c3
  unfold f_lambda
  rw [run_bind_ok (car_cellOk c1 s), c2, run_bind_ok (cdr_cellOk c1 s),
    run_bind_ok (car_cellOk d1 s), d2]

/-- C11 (amended): a call `closure(v, x, e)` that returns gives a `CLOS`
value `c` with `car(car(c)) = v` and `cdr(car(c)) = x`; its stored
environment `cdr(c)` is `nilv` when `e` is bit-identical to the global
environment and is `e` otherwise, so it is NIL exactly when `e` is the
global environment or `e` is itself NIL.  Applying a closure whose stored
environment is NIL evaluates its body in `bind(params, args, env)` with
`env` the global environment at the time of the call (read after the
arguments have been evaluated); so a function created in the global
environment sees global definitions made after it was created:
`(define f (lambda () y))`, `(define y 5)`, `(f)` yields 5. -/
theorem closure_stored_env (h : Host) (n v x e : Nat) (s s1 : State) (c : Nat)
    (hc : closure v x e s = Res.ok c s1) (hnil : T s.nilv = NIL) :
    (T c = CLOS ∧ (car c >>= car) s1 = Res.ok v s1 ∧ (car c >>= cdr) s1 = Res.ok x s1 ∧
      cdr c s1 = Res.ok (if e = s.env then s.nilv else e) s1 ∧
      (T (if e = s.env then s.nilv else e) = NIL ↔ (e = s.env ∨ T e = NIL))) ∧
    (∀ (f t ea params body ce args : Nat) (sa sb : State),
      closureAt sa f params body ce = true → T ce = NIL →
      evlis (eval h n) n t ea sa = Res.ok args sb →
      apply h (eval h n) n f t ea sa = (bind n params args sb.env >>= eval h n body) sb) ∧
    (parseAndEvalAll ["(define f (lambda () y))", "(define y 5)", "(f)"] 60).val
      = some (num 5) := by
  refine ⟨?_, ?_, runs_closures.2.2.2.2.2.2.1⟩
  · obtain ⟨h4, hN, hcv, hs1⟩ := closure_ok v x e s c s1 hc
    subst hs1
    subst hcv
    have hcl := closureAt_afterPair v x (if e = s.env then s.nilv else e) s h4 hN
    obtain ⟨a1, a2, a3, a4, a5, a6, a7⟩ := (closureAt_iff _ _ _ _ _).1 hcl
    obtain ⟨b1, b2, b3⟩ := (cellOk_iff _ _).1 a4
    have hp := isPairTag_of_CLOS a1
    refine ⟨a1, ?_, ?_, cdr_val hp (by omega) a7, ?_⟩
    · rw [run_bind_ok (car_eq hp a3 _)]
      exact car_val (isPairTag_of_CONS b1) b3 a5
    · rw [run_bind_ok (car_eq hp a3 _)]
      exact cdr_val (isPairTag_of_CONS b1) (by omega) a6
    · by_cases he : e = s.env
      · rw [if_pos he]
        exact ⟨fun _ => Or.inl he, fun _ => hnil⟩
      · rw [if_neg he]
        exact ⟨fun ht => Or.inr ht, fun ht => ht.resolve_left he⟩
  · intro f t ea params body ce args sa sb k1 k2 k3
    rw [apply_closureAt h (framed_eval h n) n f t ea params body args ce sa sb k1 k3,
      ifv_of_nil _ k2]

/-- Witness for C11 (amended): after start-up, a closure created in the
global environment stores `nilv`. -/
theorem closure_stored_env_witness :
    ∃ s1, closure (box NIL 0) (num 1) exampleInit.stateD.env exampleInit.stateD
        = Res.ok (box CLOS 1956) s1 ∧
      T exampleInit.stateD.nilv = NIL ∧ T (box CLOS 1956) = CLOS ∧
      cdr (box CLOS 1956) s1 = Res.ok exampleInit.stateD.nilv s1 := by
  have facts := runs_closures.2.2.2.2.2.2.2.1
  have hc := Res.eq_ok_of_val facts.1
  have hm := (closure_stored_env noHost 0 (box NIL 0) (num 1) exampleInit.stateD.env
    exampleInit.stateD _ (box CLOS 1956) hc facts.2).1
  have h4 := hm.2.2.2.1
  rw [if_pos rfl] at h4
  exact ⟨_, hc, facts.2, hm.1, h4⟩

/-- C11 (counterexample): after start-up the call
`closure(nilv, 1, nilv)` returns a closure whose stored environment is
NIL, although `nilv` is not the global environment. -/
theorem closure_stored_env_counterexample :
    (closure (box NIL 0) (num 1) (box NIL 0) exampleInit.stateD).val = some (box CLOS 1956) ∧
      (cdr (box CLOS 1956)
        (closure (box NIL 0) (num 1) (box NIL 0) exampleInit.stateD).stateD).val
        = some (box NIL 0) ∧
      T (box NIL 0) = NIL ∧ box NIL 0 ≠ exampleInit.stateD.env :=
  runs_closures.2.2.2.2.2.2.2.2.1

theorem kept_frame {lo : Nat} {s t : State} (h : Kept lo s t) (hs : s.sp ≤ lo) :
    t.sp ≤ lo ∧ (∀ i, lo ≤ i → t.cell i = s.cell i) ∧ t.nilv = s.nilv ∧ t.err = s.err := by
  induction h with
  | refl => exact ⟨hs, fun _ _ => rfl, rfl, rfl⟩
  | step _ hstep ih =>
    obtain ⟨a1, a2, a3, a4⟩ := ih
    obtain ⟨b1, b2⟩ := step_frame hstep
    obtain ⟨c1, c2, _⟩ := step_consts hstep
    exact ⟨by omega, fun i hi => by rw [b2 i (by omega), a2 i hi], by rw [c1, a3],
      by rw [c2, a4]⟩
  | gc u hk hle hg ih =>
    rename_i t0
    obtain ⟨a1, a2, a3, a4⟩ := ih
    have hu : gc t0 = Res.ok () { t0 with sp := ord t0.env } := rfl
    rw [hu] at hg
    injection hg with _ h2
    subst h2
    exact ⟨hle, a2, a3, a4⟩

theorem kept_steps {lo : Nat} {s t u : State} (h : Kept lo s t) (h2 : Steps t u) :
    Kept lo s u := by
  induction h2 with
  | refl => exact h
  | tail _ hs ih => exact Kept.step ih hs

theorem traced_evalLine (h : Host) (fuel : Nat) (src : String) :
    Traced (evalLine h fuel src) := by
  intro s v s1 hr
  unfold evalLine at hr
  obtain ⟨xp, t1, h1, h2⟩ := bind_ok_inv hr
  obtain ⟨x, p⟩ := xp
  simp only at h2
  rw [run_getS_bind] at h2
  exact steps_trans (traced_readGen h _ _ _ _ _ _ h1) (traced_eval h _ _ _ _ _ _ h2)

theorem traced_readArgs (h : Host) (fuel : Nat) (src : String) :
    Traced (readArgs h fuel src) := by
  intro s v s1 hr
  unfold readArgs at hr
  obtain ⟨xp, t1, h1, h2⟩ := bind_ok_inv hr
  obtain ⟨x, p⟩ := xp
  simp only at h2
  exact steps_trans (traced_readGen h _ _ _ _ _ _ h1) (traced_cdr _ _ _ _ h2)

/-- C12 (amended): let the lambda form with argument list `(params body)`
be evaluated in the environment `e`, giving the closure `c`, where `e` is
either the global environment or an environment (not NIL) that resolves
`x` to `v`; let `x` not be among the parameters.  Let `c` be applied in a
later state, reached by allocations, definitions and calls of `gc()`,
where at each `gc()` the node of the global environment is not above the
closure (as it is for every closure bound by `define`), so that `gc()`
has not reclaimed the closure; and, in case `c` was created in the global
environment, let the global environment at the time of the call resolve
`x` to `v` (no later definition has rebound `x`).  Then the body is
evaluated in a call environment that resolves `x` to `v`.  So after
`(define x 42)`, `(define f (lambda (y) x))`, the call `(f 1)` yields
42, in the tests and at the prompt of `main`, where `gc()` follows every
line and the line `(+ 1 2)` comes before the call. -/
theorem closure_sees_definition (h : Host) (n x v : Nat)
    (t e params body tl0 c : Nat) (s0 s1 : State)
    (ta ea tlp tla : Nat) (ps xs vs : List Nat) (s s2 : State)
    (hnil : T s0.nilv = NIL) (herr : T s0.err = ATOM)
    (ht : listSeg s0 s0.sp t [params, body] tl0 = true)
    (hps : listSeg s0 s0.sp params ps tlp = true) (htlp : T tlp = NIL) (hx : x ∉ ps)
    (hcr : f_lambda t e s0 = Res.ok c s1)
    (hlocal : e ≠ s0.env → T e ≠ NIL ∧ Resolves s0 s0.sp e x v)
    (hlater : Kept (ord c) s1 s)
    (hxs : listSeg s s.sp ta xs tla = true) (htla : T tla = NIL)
    (hea : EvalArgs h n ea xs s vs s2)
    (hglobal : e = s0.env → Resolves s2 s2.sp s2.env x v)
    (hroom : 2 * xs.length + 4 * ps.length ≤ s2.sp ∧
      s2.hp ≤ (s2.sp - (2 * xs.length + 4 * ps.length)) * 8)
    (hfuel : xs.length < n ∧ ps.length < n) :
    (∃ env1 s4, apply h (eval h n) n c ta ea s = eval h n body env1 s4 ∧
      ∃ K, ∀ k, K ≤ k → assoc k x env1 s4 = Res.ok v s4) ∧
    (parseAndEvalAll ["(define x 42)", "(define f (lambda (y) x))", "(f 1)"] 60).val
      = some (num 42) ∧
    (parseAndEvalAll ["(define square (lambda (x) (* x x)))", "(square 5)"] 60).val
      = some (num 25) ∧
    (replLines decimalHost 60
      ["(define x 42)", "(define f (lambda (y) x))", "(+ 1 2)", "(f 1)"] 0
      exampleMain.stateD).val = some (num 42) := by
  refine ⟨?_, runs_closures.2.2.2.2.2.2.2.2.2.1.1, runs_closures.2.2.2.2.2.2.2.2.2.1.2,
    runs_session.1⟩
  have hN2 : N = 2048 := rfl
  rw [f_lambda_eq t e params body tl0 s0 ht] at hcr
  obtain ⟨h4, hN, hcv, hs1⟩ := closure_ok params body e s0 c s1 hcr
  subst hs1
  subst hcv
  have hcl1 := closureAt_afterPair params body (if e = s0.env then s0.nilv else e) s0 h4 hN
  have fr01 : ∀ i, s0.sp ≤ i →
      (afterPair params body (if e = s0.env then s0.nilv else e) s0).cell i = s0.cell i :=
    fun i hi => afterPair_cell_above _ _ _ s0 h4 i hi
  have hsp1 : (afterPair params body (if e = s0.env then s0.nilv else e) s0).sp = s0.sp - 4 :=
    rfl
  rw [ord_box (show CLOS < 2 ^ 16 by decide) (show s0.sp - 4 < 2 ^ 48 by omega)] at hlater
  obtain ⟨g1, g2, k1, k2⟩ := kept_frame hlater (le_of_eq hsp1)
  have hnil1 : s.nilv = s0.nilv := k1
  have herr1 : s.err = s0.err := k2
  have hcl := closureAt_frame _ s _ _ _ _ g1 g2 hcl1
  obtain ⟨e1, e2⟩ := evalArgs_framed h n ea hea
  obtain ⟨hn2, he2⟩ := evalArgs_consts h n ea hea
  obtain ⟨args, s3, hargs, hseg3, hsp3, hcell3, hhp3, _, henv3, hnil3⟩ :=
    evlis_list h n ea xs vs n ta tla s s2 hxs (by rw [htla]; decide) (by rw [htla]; decide)
      hea (by omega) (le_trans hroom.2 (Nat.mul_le_mul_right 8 (by omega))) hfuel.1
  obtain ⟨f1, f2⟩ := framed_evlis (framed_eval h n) n ta ea s args s3 hargs
  obtain ⟨_, he3, _⟩ := steps_consts (traced_evlis (traced_eval h n) n ta ea s args s3 hargs)
  have fr0s : ∀ i, s0.sp ≤ i → s.cell i = s0.cell i := by
    intro i hi
    rw [g2 i (by omega), fr01 i hi]
  have hsp0 : s.sp ≤ s0.sp := by omega
  have fr03 : ∀ i, s0.sp ≤ i → s3.cell i = s0.cell i := by
    intro i hi
    rw [f2 i (by omega), fr0s i hi]
  have hps3 : listSeg s3 s3.sp params ps tlp = true :=
    listSeg_mono s3 (by omega) _ _ _ (listSeg_frame s0 s3 s0.sp fr03 _ _ _ hps)
  obtain ⟨env1, s4, hb, hseg, hsp4, hcell, _, _, _, _, _⟩ :=
    bind_entries ps vs n params args (ifv (if e = s0.env then s0.nilv else e) s3.env) tlp
      s2.nilv s3 hps3 htlp hseg3
      (isPairTag_of_NIL (by rw [hn2, hnil1]; exact hnil))
      (isPairTag_of_ATOM (by rw [he3, herr1]; exact herr))
      (by omega) (by omega)
      (by
        rw [hhp3, hsp3]
        refine le_trans hroom.2 (Nat.mul_le_mul_right 8 ?_)
        omega)
      hfuel.2
  have hbase : Resolves s4 s4.sp (ifv (if e = s0.env then s0.nilv else e) s3.env) x v := by
    by_cases he : e = s0.env
    · rw [if_pos he, ifv_of_nil _ hnil, henv3]
      refine resolves_frame (by omega) (fun i hi => ?_) (hglobal he)
      rw [hcell i (by omega), hcell3 i hi]
    · rw [if_neg he, ifv_of_not_nil _ (hlocal he).1]
      refine resolves_frame (by omega) (fun i hi => ?_) (hlocal he).2
      rw [hcell i (by omega), fr03 i hi]
  refine ⟨env1, s4, ?_, ?_⟩
  · rw [apply_closureAt h (framed_eval h n) n _ ta ea params body args _ s s3 hcl hargs,
      run_bind_ok hb]
  · exact resolves_assoc (resolves_extend _ hseg (lookupEnv_absent x ps _ hx) hbase)

/-- Witness for C12 (amended): a session of `main` with `gc()` after
every line.  After `(define x 42)`, the closure of `(lambda (y) x)` is
created in the global environment and bound to `f`; the line `(+ 1 2)`
is evaluated; then the closure is applied to the argument `1` of the
line `(f 1)`. -/
theorem closure_sees_definition_witness :
    ∃ env1 s4,
      apply decimalHost (eval decimalHost 60) 60 (box CLOS 1928) exampleKeptCall.valD
          exampleKeptCall.stateD.env exampleKeptCall.stateD
        = eval decimalHost 60 (box ATOM 98) env1 s4 ∧
      ∃ K, ∀ k, K ≤ k → assoc k (box ATOM 98) env1 s4 = Res.ok (num 42) s4 := by
  obtain ⟨a1, a2, a3, a4, ax, a5, a6, a7, a8, a9, a10, a11, a12, a13, a14, a15, a16, n1, n2⟩ :=
    runs_session.2
  have hcr : f_lambda exampleKeptCreate.valD exampleKeptCreate.stateD.env
      exampleKeptCreate.stateD = Res.ok (box CLOS 1928) exampleKeptClosure.stateD :=
    Res.eq_ok_of_val a5
  have k1 : Kept (ord (box CLOS 1928)) exampleKeptClosure.stateD exampleKeptBound :=
    Kept.step (Kept.refl _) (Step.define _ _ _ _ _ (Res.eq_ok_of_val a6))
  have k2 := Kept.gc _ k1 a7 (Res.eq_ok_of_val a8)
  have k3 : Kept (ord (box CLOS 1928)) exampleKeptClosure.stateD exampleKeptNext.stateD :=
    kept_steps k2 (traced_evalLine decimalHost 60 "(+ 1 2)" _ _ _ (Res.eq_ok_of_val a9))
  have k4 := Kept.gc _ k3 a10 (Res.eq_ok_of_val a11)
  have k5 : Kept (ord (box CLOS 1928)) exampleKeptClosure.stateD exampleKeptCall.stateD :=
    kept_steps k4 (traced_readArgs decimalHost 60 "(f 1)" _ _ _ (Res.eq_ok_of_val a12))
  have hea : EvalArgs decimalHost 60 exampleKeptCall.stateD.env exampleShortValues
      exampleKeptCall.stateD exampleShortValues exampleKeptCall.stateD :=
    EvalArgs.cons (eval_other_tag decimalHost 59 (num 1) _ _ n1 n2) (EvalArgs.nil _)
  have kk : exampleShortValues.length < 60 ∧ exampleKeptParams.length < 60 := by decide
  exact (closure_sees_definition decimalHost 60 (box ATOM 98) (num 42)
    exampleKeptCreate.valD exampleKeptCreate.stateD.env (box CONS 1944) (box ATOM 98) (box NIL 0)
    (box CLOS 1928) exampleKeptCreate.stateD _ exampleKeptCall.valD exampleKeptCall.stateD.env
    (box NIL 0) (box NIL 0) exampleKeptParams exampleShortValues exampleShortValues _ _
    a1 a2 a3 a4 (by decide) ax hcr (fun hne => absurd rfl hne) k5 a13 (by decide)
    hea (fun _ => ⟨_, _, a14, a15⟩) a16 kk).1

/-- C12 (counterexample): after `(define x 42)`, the closure of
`(lambda () x)` created inside a call that binds `x` to 7 resolves `x`
to 7; and a closure of `(lambda () x)` created in the global environment
resolves `x` to 43 once `(define x 43)` has been evaluated. -/
theorem closure_sees_definition_counterexample :
    (parseAndEvalAll ["(define x 42)", "(((lambda (x) (lambda () x)) 7))"] 60).val
        = some (num 7) ∧
      (parseAndEvalAll
        ["(define x 42)", "(define f (lambda () x))", "(define x 43)", "(f)"] 60).val
        = some (num 43) ∧
      num 7 ≠ num 42 ∧ num 43 ≠ num 42 :=
  runs_closures.2.2.2.2.2.2.2.2.2.2

/-! ## Applying a value that is not a function -/

/-- C21: for every value `f` whose tag is neither `PRIM` nor `CLOS`,
every argument list `t` and environment `e`, `apply(f, t, e)` returns
`err` and leaves the state unchanged, whatever the evaluator would do
with the arguments (no argument is evaluated); `(42 1 2)` evaluates to
`ERR`, the atom at offset 0. -/
theorem apply_non_function (h : Host) (ev : Nat → Nat → M Nat) (k f t e : Nat) (s : State)
    (h1 : T f ≠ PRIM) (h2 : T f ≠ CLOS) :
    apply h ev k f t e s = Res.ok s.err s ∧
    ((parseAndEval "(42 1 2)" 60).val = some (box ATOM 0) ∧
      (parseAndEval "(42 1 2)" 60).stateD.err = box ATOM 0) := by
  refine ⟨?_, runs_apply.2.2.2.2.2.1⟩
  unfold apply
  rw [if_neg h1, if_neg h2]
  rfl

/-- Witness for C21: the number 42 applied after start-up, with an
evaluator that never returns. -/
theorem apply_non_function_witness :
    T (num 42) ≠ PRIM ∧ T (num 42) ≠ CLOS ∧
      apply noHost (fun _ _ => diverge) 0 (num 42) (box NIL 0) (box NIL 0) exampleInit.stateD
        = Res.ok exampleInit.stateD.err exampleInit.stateD := by
  have facts : T (num 42) ≠ PRIM ∧ T (num 42) ≠ CLOS := by decide!
  exact ⟨facts.1, facts.2,
    (apply_non_function noHost (fun _ _ => diverge) 0 (num 42) (box NIL 0) (box NIL 0)
      exampleInit.stateD facts.1 facts.2).1⟩

/-! ## Separately built pairs -/

/-- C24: when `cons(a, b)` returns `r1` and, after any further
allocations and definitions but no `gc`, a second call `cons(a, b)`
returns `r2`, the second result has a strictly lower ordinal and the two
are not bit-identical; so `(eq? (cons 1 2) (cons 1 2))` is NIL. -/
theorem cons_twice_distinct (a b r1 r2 : Nat) (s s1 s2 s3 : State)
    (h1 : cons a b s = Res.ok r1 s1) (hmid : Steps s1 s2)
    (h2 : cons a b s2 = Res.ok r2 s3) :
    (ord r2 < ord r1 ∧ r1 ≠ r2 ∧ equ r1 r2 = false) ∧
    (parseAndEval "(eq? (cons 1 2) (cons 1 2))" 60).val = some (box NIL 0) := by
  refine ⟨?_, runs_apply.2.2.2.2.2.2.1⟩
  obtain ⟨a1, a2, _, a4, a5⟩ := (cons_ok_iff a b s r1 s1).1 h1
  obtain ⟨b1, b2, _, b4, _⟩ := (cons_ok_iff a b s2 r2 s3).1 h2
  obtain ⟨g1, _⟩ := steps_frame hmid
  have hsp1 : s1.sp = s.sp - 2 := by rw [a5]
  have hN := N_lt
  have o1 : ord r1 = s.sp - 2 := by rw [a4]; exact ord_box (by decide) (by omega)
  have o2 : ord r2 = s2.sp - 2 := by rw [b4]; exact ord_box (by decide) (by omega)
  have hlt : ord r2 < ord r1 := by rw [o1, o2]; omega
  have hne : r1 ≠ r2 := by
    intro heq
    rw [heq] at hlt
    exact Nat.lt_irrefl _ hlt
  exact ⟨hlt, hne, by simp [equ, hne]⟩

/-- Witness for C24: two calls `cons(1, 2)` in a row after start-up. -/
theorem cons_twice_distinct_witness :
    ∃ s1 s3, cons (num 1) (num 2) exampleInit.stateD = Res.ok (box CONS 1958) s1 ∧
      cons (num 1) (num 2) s1 = Res.ok (box CONS 1956) s3 ∧
      ord (box CONS 1956) < ord (box CONS 1958) ∧ box CONS 1958 ≠ box CONS 1956 := by
  have facts := runs_apply.2.2.2.2.2.2.2
  have h1 := Res.eq_ok_of_val facts.1
  have h2 := Res.eq_ok_of_val facts.2
  have hm := (cons_twice_distinct (num 1) (num 2) _ _ exampleInit.stateD _ _ _ h1
    (Steps.refl _) h2).1
  exact ⟨_, _, h1, h2, hm.1, hm.2.1⟩

/-! ## Conditionals -/

/-- C25: `f_if` applied to `(c a b)`: when the evaluation of `c`
returns `vc`, the call is the evaluation of `b` if `vc` is NIL and the
evaluation of `a` otherwise, in the state left by the evaluation of `c`;
only the selected branch is evaluated.  `(if () 1 2)` is 2,
`(if #t 42 24)` is 42 and `(if 0 1 2)` is 1. -/
theorem if_selects (h : Host) (n t e c a b tl vc : Nat) (s s1 : State)
    (ht : listSeg s s.sp t [c, a, b] tl = true)
    (hc : eval h n c e s = Res.ok vc s1) :
    f_if (eval h n) t e s = (if T vc = NIL then eval h n b e s1 else eval h n a e s1) ∧
    ((parseAndEval "(if () 1 2)" 60).val = some (num 2) ∧
      (parseAndEval "(if #t 42 24)" 60).val = some (num 42) ∧
      (parseAndEval "(if 0 1 2)" 60).val = some (num 1)) := by
  refine ⟨?_, runs_forms.1⟩
  obtain ⟨c1, c2, c3⟩ := (listSeg_cons_iff s s.sp t c [a, b] tl).1 ht
  obtain ⟨d1, d2, d3⟩ := (listSeg_cons_iff s s.sp _ a [b] tl).1 c3
  obtain ⟨e1, e2, _⟩ := (listSeg_cons_iff s s.sp _ b [] tl).1 d3
  obtain ⟨f1, f2⟩ := framed_eval h n c e s vc s1 hc
  have k1 := ((cellOk_iff _ _).1 c1).2.1
  have k2 := ((cellOk_iff _ _).1 d1).2.1
  have k3 := ((cellOk_iff _ _).1 e1).2.1
  have hcdr1 : cdr t s1 = Res.ok (s.cell (ord t)) s1 := by
    rw [cdr_cellOk c1, f2 _ k1]
  have hcar2 : car (s.cell (ord t)) s1 = Res.ok a s1 := by
    rw [car_cellOk d1, f2 _ (by omega), d2]
  have hcdr2 : cdr (s.cell (ord t)) s1 = Res.ok (s.cell (ord (s.cell (ord t)))) s1 := by
    rw [cdr_cellOk d1, f2 _ k2]
  have hcar3 : car (s.cell (ord (s.cell (ord t)))) s1 = Res.ok b s1 := by
    rw [car_cellOk e1, f2 _ (by omega), e2]
  unfold f_if
  rw [run_bind_ok (car_cellOk c1 s), c2, run_bind_ok hc]
  by_cases hv : T vc = NIL
  · rw [if_pos hv, if_pos (notv_of_NIL hv), run_bind_ok hcdr1, run_bind_ok hcdr2,
      run_bind_ok hcar3]
  · have hnv : notv vc = false := by simp [notv, hv]
    rw [if_neg hv, hnv]
    simp only [Bool.false_eq_true, if_false]
    rw [run_bind_ok hcdr1, run_bind_ok hcar2]

/-- Witness for C25: the argument list `(0 1 2)` of `(if 0 1 2)`; the
condition is the number 0, which is not NIL. -/
theorem if_selects_witness :
    f_if (eval decimalHost 60) exampleIf.valD exampleIf.stateD.env exampleIf.stateD =
      (if T (num 0) = NIL then eval decimalHost 60 (num 2) exampleIf.stateD.env exampleIf.stateD
       else eval decimalHost 60 (num 1) exampleIf.stateD.env exampleIf.stateD) := by
  have facts := runs_forms.2.1
  exact (if_selects decimalHost 60 exampleIf.valD exampleIf.stateD.env (num 0) (num 1) (num 2)
    (box NIL 0) (num 0) exampleIf.stateD exampleIf.stateD facts.1
    (eval_other_tag decimalHost 59 (num 0) _ _ facts.2.1 facts.2.2)).1

/-! ## Arithmetic and comparison primitives -/

theorem evalArgs_self (h : Host) (n e : Nat) (s : State) :
    ∀ (xs : List Nat), (∀ x, x ∈ xs → T x ≠ ATOM ∧ T x ≠ CONS) →
      EvalArgs h (n + 1) e xs s xs s := by
  intro xs
  induction xs with
  | nil => intro _; exact EvalArgs.nil s
  | cons x xs ih =>
    intro hx
    have h1 := hx x (List.mem_cons_self _ _)
    exact EvalArgs.cons (eval_other_tag h n x e s h1.1 h1.2)
      (ih (fun y hy => hx y (List.mem_cons_of_mem _ hy)))

theorem arithLoop_fold (op : Nat → Nat → Nat) (s : State) (lo nl : Nat) (hnl : T nl = NIL) :
    ∀ (vs : List Nat) (k t v n : Nat), listSeg s lo t (v :: vs) nl = true → vs.length < k →
      arithLoop op k t n s = Res.ok (vs.foldl op n) s := by
  intro vs
  induction vs with
  | nil =>
    intro k t v n ht hk
    obtain ⟨m, rfl⟩ : ∃ m, k = m + 1 := ⟨k - 1, by simp at hk; omega⟩
    obtain ⟨c1, _, c3⟩ := (listSeg_cons_iff s lo t v [] nl).1 ht
    have hc : s.cell (ord t) = nl := (listSeg_nil_iff s lo _ nl).1 c3
    unfold arithLoop
    rw [run_bind_ok (cdr_cellOk c1 s), hc, if_pos (notv_of_NIL hnl)]
    rfl
  | cons w vs ih =>
    intro k t v n ht hk
    have hl := List.length_cons w vs
    obtain ⟨m, rfl⟩ : ∃ m, k = m + 1 := ⟨k - 1, by omega⟩
    obtain ⟨c1, _, c3⟩ := (listSeg_cons_iff s lo t v (w :: vs) nl).1 ht
    obtain ⟨d1, d2, _⟩ := (listSeg_cons_iff s lo _ w vs nl).1 c3
    have hT : T (s.cell (ord t)) = CONS := ((cellOk_iff _ _).1 d1).1
    conv_lhs => unfold arithLoop
    rw [run_bind_ok (cdr_cellOk c1 s), if_neg (by rw [notv_of_CONS hT]; simp),
      run_bind_ok (car_cellOk d1 s), d2]
    exact ih m (s.cell (ord t)) w (op n w) c3 (by omega)

/-- C22: for every non-empty proper list of self-evaluating values
`a1 .. an` (number literals), with `nilv` NIL and room for `n` cells,
each of `f_add`, `f_sub`, `f_mul`, `f_div` returns the left fold
`((a1 op a2) op a3) .. op an` of its IEEE operation over the arguments in
textual order; a single argument is returned unchanged.  `(+ 1 2 3 4)` is
10, `(- 10 3 2)` is 5, `(* 2 3 4)` is 24 and `(/ 12 3 2)` is 2. -/
theorem arith_left_fold (h : Host) (n e t tl a : Nat) (as : List Nat) (s : State)
    (ht : listSeg s s.sp t (a :: as) tl = true) (htl : T tl = NIL)
    (hlit : ∀ x, x ∈ a :: as → T x ≠ ATOM ∧ T x ≠ CONS) (hnil : T s.nilv = NIL)
    (hroom : 2 * (a :: as).length ≤ s.sp ∧ s.hp ≤ (s.sp - 2 * (a :: as).length) * 8)
    (hk : (a :: as).length < n) :
    (∃ s3, f_add (eval h n) n t e s = Res.ok (as.foldl fadd a) s3 ∧
      f_sub (eval h n) n t e s = Res.ok (as.foldl fsub a) s3 ∧
      f_mul (eval h n) n t e s = Res.ok (as.foldl fmul a) s3 ∧
      f_div (eval h n) n t e s = Res.ok (as.foldl fdiv a) s3) ∧
    ((parseAndEval "(+ 1 2 3 4)" 60).val = some (num 10) ∧
      (parseAndEval "(- 10 3 2)" 60).val = some (num 5) ∧
      (parseAndEval "(* 2 3 4)" 60).val = some (num 24) ∧
      (parseAndEval "(/ 12 3 2)" 60).val = some (num 2) ∧
      (parseAndEval "(+ 7)" 60).val = some (num 7)) := by
  refine ⟨?_, runs_forms.2.2.1⟩
  obtain ⟨m, rfl⟩ : ∃ m, n = m + 1 := ⟨n - 1, by
    have := List.length_cons a as
    omega⟩
  have hea := evalArgs_self h m e s (a :: as) hlit
  obtain ⟨args, s3, hargs, hseg3, _⟩ :=
    evlis_list h (m + 1) e (a :: as) (a :: as) (m + 1) t tl s s ht (by rw [htl]; decide)
      (by rw [htl]; decide) hea hroom.1 hroom.2 hk
  have hl := List.length_cons a as
  obtain ⟨c1, c2, _⟩ := (listSeg_cons_iff s3 s3.sp args a as s.nilv).1 hseg3
  have hloop : ∀ op, arith op (eval h (m + 1)) (m + 1) t e s = Res.ok (as.foldl op a) s3 := by
    intro op
    unfold arith
    rw [run_bind_ok hargs, run_bind_ok (car_cellOk c1 s3), c2]
    exact arithLoop_fold op s3 s3.sp s.nilv hnil as (m + 1) args a a hseg3 (by omega)
  exact ⟨s3, hloop fadd, hloop fsub, hloop fmul, hloop fdiv⟩

/-- Witness for C22: the argument list `(10 3 2)` of `(- 10 3 2)`. -/
theorem arith_left_fold_witness :
    ∃ s3, f_add (eval decimalHost 60) 60 exampleArith.valD exampleArith.stateD.env
          exampleArith.stateD = Res.ok ([num 3, num 2].foldl fadd (num 10)) s3 ∧
      f_sub (eval decimalHost 60) 60 exampleArith.valD exampleArith.stateD.env
          exampleArith.stateD = Res.ok ([num 3, num 2].foldl fsub (num 10)) s3 ∧
      f_mul (eval decimalHost 60) 60 exampleArith.valD exampleArith.stateD.env
          exampleArith.stateD = Res.ok ([num 3, num 2].foldl fmul (num 10)) s3 ∧
      f_div (eval decimalHost 60) 60 exampleArith.valD exampleArith.stateD.env
          exampleArith.stateD = Res.ok ([num 3, num 2].foldl fdiv (num 10)) s3 := by
  have facts := runs_forms.2.2.2.1
  obtain ⟨a1, ⟨l1, l2, l3⟩, a3, a4⟩ := facts
  have hlit : ∀ x, x ∈ num 10 :: [num 3, num 2] → T x ≠ ATOM ∧ T x ≠ CONS := by
    intro x hx
    rcases List.mem_cons.1 hx with h1 | hx
    · rw [h1]; exact l1
    · rcases List.mem_cons.1 hx with h2 | hx
      · rw [h2]; exact l2
      · rcases List.mem_cons.1 hx with h3 | hx
        · rw [h3]; exact l3
        · cases hx
  exact (arith_left_fold decimalHost 60 exampleArith.stateD.env exampleArith.valD (box NIL 0)
    (num 10) [num 3, num 2] exampleArith.stateD a1 (by decide) hlit a3 a4 (by decide)).1

/-- C23: let the argument list of `f_eq` be a proper list of at least two
expressions whose evaluations return the values `v1`, `v2`, ...  (with
room for the argument cells).  Then `f_eq` returns `tru`, the atom `#t`,
when `v1` and `v2` are bit-identical and `nilv` otherwise, and no other
value.  `(eq? 'a 'a)` and `(eq? 1 1)` are `#t` (the atom at offset 4),
`(eq? 'a 'b)` and `(eq? 1 2)` are NIL. -/
theorem eq_result (h : Host) (n e t tl x1 x2 v1 v2 : Nat) (rest vrest : List Nat)
    (s s2 : State)
    (ht : listSeg s s.sp t (x1 :: x2 :: rest) tl = true) (htl : T tl = NIL)
    (hea : EvalArgs h n e (x1 :: x2 :: rest) s (v1 :: v2 :: vrest) s2)
    (hroom : 2 * (x1 :: x2 :: rest).length ≤ s2.sp ∧
      s2.hp ≤ (s2.sp - 2 * (x1 :: x2 :: rest).length) * 8)
    (hk : (x1 :: x2 :: rest).length < n) :
    (∃ s3, f_eq (eval h n) n t e s = Res.ok (if v1 = v2 then s.tru else s.nilv) s3) ∧
    ((parseAndEval "(eq? 'a 'a)" 60).val = some (box ATOM 4) ∧
      (parseAndEval "(eq? 1 1)" 60).val = some (box ATOM 4) ∧
      (parseAndEval "(eq? 'a 'b)" 60).val = some (box NIL 0) ∧
      (parseAndEval "(eq? 1 2)" 60).val = some (box NIL 0) ∧
      (parseAndEval "(eq? 1 2)" 60).stateD.tru = box ATOM 4 ∧
      (parseAndEval "(eq? 1 2)" 60).stateD.nilv = box NIL 0) := by
  refine ⟨?_, runs_forms.2.2.2.2.1⟩
  obtain ⟨args, s3, hargs, hseg3, _⟩ :=
    evlis_list h n e (x1 :: x2 :: rest) (v1 :: v2 :: vrest) n t tl s s2 ht
      (by rw [htl]; decide) (by rw [htl]; decide) hea hroom.1 hroom.2 hk
  obtain ⟨hn2, _⟩ := evalArgs_consts h n e hea
  obtain ⟨k1, _, k3, _⟩ := steps_consts (traced_evlis (traced_eval h n) n t e s args s3 hargs)
  obtain ⟨c1, c2, c3⟩ := (listSeg_cons_iff s3 s3.sp args v1 (v2 :: vrest) s2.nilv).1 hseg3
  obtain ⟨d1, d2, _⟩ := (listSeg_cons_iff s3 s3.sp _ v2 vrest s2.nilv).1 c3
  refine ⟨s3, ?_⟩
  unfold f_eq
  rw [run_bind_ok hargs, run_bind_ok (car_cellOk c1 s3), c2, run_bind_ok (cdr_cellOk c1 s3),
    run_bind_ok (car_cellOk d1 s3), d2]
  by_cases hv : v1 = v2
  · rw [if_pos hv]
    have : equ v1 v2 = true := by simp [equ, hv]
    rw [this, if_pos rfl, run_getS_bind, run_pure, k3]
  · rw [if_neg hv]
    have : equ v1 v2 = false := by simp [equ, hv]
    rw [this]
    simp only [Bool.false_eq_true, if_false]
    rw [run_getS_bind, run_pure, k1]

/-- Witness for C23: the argument list `(1 2)` of `(eq? 1 2)`. -/
theorem eq_result_witness :
    ∃ s3, f_eq (eval decimalHost 60) 60 exampleEq.valD exampleEq.stateD.env exampleEq.stateD
      = Res.ok (if num 1 = num 2 then exampleEq.stateD.tru else exampleEq.stateD.nilv) s3 := by
  have facts := runs_forms.2.2.2.2.2
  obtain ⟨a1, l1, l2, a4⟩ := facts
  have hea : EvalArgs decimalHost 60 exampleEq.stateD.env (num 1 :: num 2 :: [])
      exampleEq.stateD (num 1 :: num 2 :: []) exampleEq.stateD :=
    EvalArgs.cons (eval_other_tag decimalHost 59 (num 1) _ _ l1.1 l1.2)
      (EvalArgs.cons (eval_other_tag decimalHost 59 (num 2) _ _ l2.1 l2.2) (EvalArgs.nil _))
  exact (eq_result decimalHost 60 exampleEq.stateD.env exampleEq.valD (box NIL 0) (num 1)
    (num 2) (num 1) (num 2) [] [] exampleEq.stateD exampleEq.stateD a1 (by decide) hea a4
    (by decide)).1

/-! ## Clause lists -/

theorem formAt_iff (s : State) (lo c a b : Nat) :
    formAt s lo c a b = true ↔
      cellOk lo c = true ∧ s.cell (ord c + 1) = a ∧ cellOk lo (s.cell (ord c)) = true ∧
        s.cell (ord (s.cell (ord c)) + 1) = b := by
  simp [formAt, and_assoc]

theorem clauseSeg_cons_iff (s : State) (lo t : Nat) (ab : Nat × Nat) (rest : List (Nat × Nat))
    (tl : Nat) :
    clauseSeg s lo t (ab :: rest) tl = true ↔
      cellOk lo t = true ∧ formAt s lo (s.cell (ord t + 1)) ab.1 ab.2 = true ∧
        clauseSeg s lo (s.cell (ord t)) rest tl = true := by
  simp [clauseSeg, and_assoc]

theorem clauseSeg_nil_iff (s : State) (lo t tl : Nat) :
    clauseSeg s lo t [] tl = true ↔ t = tl := by
  simp [clauseSeg]

theorem formAt_frame (s s2 : State) (lo : Nat) (h : ∀ i, lo ≤ i → s2.cell i = s.cell i)
    (c a b : Nat) (hf : formAt s lo c a b = true) : formAt s2 lo c a b = true := by
  rw [formAt_iff] at hf ⊢
  obtain ⟨a1, a2, a3, a4⟩ := hf
  obtain ⟨_, b2, _⟩ := (cellOk_iff _ _).1 a1
  obtain ⟨_, c2, _⟩ := (cellOk_iff _ _).1 a3
  rw [h _ (by omega), h _ b2, h _ (by omega)]
  exact ⟨a1, a2, a3, a4⟩

theorem clauseSeg_frame (s s2 : State) (lo : Nat) (h : ∀ i, lo ≤ i → s2.cell i = s.cell i)
    (l : List (Nat × Nat)) (tl : Nat) :
    ∀ t, clauseSeg s lo t l tl = true → clauseSeg s2 lo t l tl = true := by
  induction l with
  | nil => intro t ht; simpa [clauseSeg] using ht
  | cons ab rest ih =>
    intro t ht
    rw [clauseSeg_cons_iff] at ht ⊢
    obtain ⟨a1, a2, a3⟩ := ht
    obtain ⟨_, b2, _⟩ := (cellOk_iff _ _).1 a1
    rw [h _ (by omega), h _ b2]
    exact ⟨a1, formAt_frame s s2 lo h _ _ _ a2, ih _ a3⟩

theorem formAt_reads (s : State) (lo c a b : Nat) (hf : formAt s lo c a b = true) :
    car c s = Res.ok a s ∧ cdr c s = Res.ok (s.cell (ord c)) s ∧
      car (s.cell (ord c)) s = Res.ok b s := by
  obtain ⟨a1, a2, a3, a4⟩ := (formAt_iff s lo c a b).1 hf
  refine ⟨?_, cdr_cellOk a1 s, ?_⟩
  · rw [car_cellOk a1 s, a2]
  · rw [car_cellOk a3 s, a4]

/-! ## `cond` -/

theorem cond_loop (h : Host) (n e lo g b vg tl : Nat) (s3 : State) :
    ∀ (pre : List (Nat × Nat)) (vs : List Nat) (k t : Nat) (s s2 : State),
      clauseSeg s lo t (pre ++ [(g, b)]) tl = true → s.sp ≤ lo →
      EvalArgs h n e (pre.map Prod.fst) s vs s2 → (∀ v, v ∈ vs → T v = NIL) →
      eval h n g e s2 = Res.ok vg s3 → T vg ≠ NIL → pre.length < k →
      f_cond (eval h n) k t e s = eval h n b e s3 := by
  intro pre
  induction pre with
  | nil =>
    intro vs k t s s2 ht hlo hea _ hg hvg hk
    cases hea
    obtain ⟨m, rfl⟩ : ∃ m, k = m + 1 := ⟨k - 1, by simp at hk; omega⟩
    obtain ⟨c1, c2, _⟩ := (clauseSeg_cons_iff s lo t (g, b) [] tl).1 ht
    obtain ⟨r1, _, _⟩ := formAt_reads s lo _ g b c2
    obtain ⟨f1, f2⟩ := framed_eval h n g e s vg s3 hg
    have hfr : ∀ i, lo ≤ i → s3.cell i = s.cell i := fun i hi => f2 i (by omega)
    obtain ⟨_, q2, q3⟩ := formAt_reads s3 lo _ g b (formAt_frame s s3 lo hfr _ _ _ c2)
    have k1 := ((cellOk_iff _ _).1 c1).2.1
    have hcar3 : car t s3 = Res.ok (s.cell (ord t + 1)) s3 := by
      rw [car_cellOk c1, hfr _ (by omega)]
    have hnv : notv vg = false := by simp [notv, hvg]
    unfold f_cond
    rw [run_bind_ok (car_cellOk c1 s), run_bind_ok r1, run_bind_ok hg, hnv]
    simp only [Bool.false_eq_true, if_false]
    rw [run_bind_ok hcar3, run_bind_ok q2, run_bind_ok q3]
  | cons gb pre ih =>
    intro vs k t s s2 ht hlo hea hvs hg hvg hk
    have hl := List.length_cons gb pre
    obtain ⟨m, rfl⟩ : ∃ m, k = m + 1 := ⟨k - 1, by omega⟩
    rw [List.map_cons] at hea
    cases hea with
    | cons hev hrest =>
      rename_i v vs1 s1
      rw [List.cons_append] at ht
      obtain ⟨c1, c2, c3⟩ := (clauseSeg_cons_iff s lo t gb _ tl).1 ht
      obtain ⟨r1, _, _⟩ := formAt_reads s lo _ gb.1 gb.2 c2
      obtain ⟨f1, f2⟩ := framed_eval h n gb.1 e s v s1 hev
      have hfr : ∀ i, lo ≤ i → s1.cell i = s.cell i := fun i hi => f2 i (by omega)
      have k1 := ((cellOk_iff _ _).1 c1).2.1
      have hcdr1 : cdr t s1 = Res.ok (s.cell (ord t)) s1 := by
        rw [cdr_cellOk c1, hfr _ k1]
      have hv : T v = NIL := hvs v (List.mem_cons_self _ _)
      conv_lhs => unfold f_cond
      rw [run_bind_ok (car_cellOk c1 s), run_bind_ok r1, run_bind_ok hev,
        if_pos (notv_of_NIL hv), run_bind_ok hcdr1]
      exact ih vs1 m _ s1 s2 (clauseSeg_frame s s1 lo hfr _ _ _ c3) (by omega) hrest
        (fun w hw => hvs w (List.mem_cons_of_mem _ hw)) hg hvg (by omega)

/-- C26: `f_cond` applied to a list of clauses: when the guards of the
clauses before the clause `(g b)` evaluate, one after the other, to NIL
values, and the guard `g` then evaluates to a value that is not NIL, the
call is the evaluation of the body `b` in the state left by the guard
`g`; no body of an earlier clause and nothing of a later clause is
evaluated.  `(cond (() 1) (#t 2))` is 2. -/
theorem cond_first_true (h : Host) (n e k t g b vg tl : Nat) (pre : List (Nat × Nat))
    (vs : List Nat) (s s2 s3 : State)
    (ht : clauseSeg s s.sp t (pre ++ [(g, b)]) tl = true)
    (hpre : EvalArgs h n e (pre.map Prod.fst) s vs s2) (hvs : ∀ v, v ∈ vs → T v = NIL)
    (hg : eval h n g e s2 = Res.ok vg s3) (hvg : T vg ≠ NIL) (hk : pre.length < k) :
    f_cond (eval h n) k t e s = eval h n b e s3 ∧
    (parseAndEval "(cond (() 1) (#t 2))" 60).val = some (num 2) := by
  refine ⟨?_, runs_cond.1⟩
  exact cond_loop h n e s.sp g b vg tl s3 pre vs k t s s2 ht (le_refl _) hpre hvs hg hvg hk

/-- Witness for C26: the clauses `(() 1) (#t 2)` of `TestConditionals`;
the first guard is NIL, the second is the atom `#t`, bound to itself. -/
theorem cond_first_true_witness :
    f_cond (eval decimalHost 60) 60 exampleCond.valD exampleCond.stateD.env exampleCond.stateD
      = eval decimalHost 60 (num 2) exampleCond.stateD.env
          (eval decimalHost 60 (box ATOM 4) exampleCond.stateD.env exampleCond.stateD).stateD := by
  have facts := runs_cond.2.1
  obtain ⟨a1, ⟨l1, l2, l3⟩, a3, a4⟩ := facts
  have hea : EvalArgs decimalHost 60 exampleCond.stateD.env (exampleCondPre.map Prod.fst)
      exampleCond.stateD [box NIL 0] exampleCond.stateD :=
    EvalArgs.cons (eval_other_tag decimalHost 59 (box NIL 0) _ _ l1 l2) (EvalArgs.nil _)
  have hvs : ∀ v, v ∈ [box NIL 0] → T v = NIL := by
    intro v hv
    rcases List.mem_cons.1 hv with h1 | hv
    · rw [h1]; exact l3
    · cases hv
  have hk : exampleCondPre.length < 60 := by decide
  exact (cond_first_true decimalHost 60 exampleCond.stateD.env 60 exampleCond.valD (box ATOM 4)
    (num 2) (box ATOM 4) (box NIL 0) exampleCondPre [box NIL 0] exampleCond.stateD
    exampleCond.stateD _ a1 hea hvs (Res.eq_ok_of_val a3) a4 hk).1

/-! ## `and`, `or` -/

theorem andLoop_all (h : Host) (n e lo tl : Nat) (htl : T tl = NIL) :
    ∀ (xs vs : List Nat) (k t x0 : Nat) (s s2 : State),
      listSeg s lo t xs tl = true → s.sp ≤ lo → EvalArgs h n e xs s vs s2 →
      (∀ v, v ∈ vs → T v ≠ NIL) → xs.length < k →
      andLoop (eval h n) k t e x0 s = Res.ok (vs.getLastD x0) s2 := by
  intro xs
  induction xs with
  | nil =>
    intro vs k t x0 s s2 ht _ hea _ hk
    cases hea
    obtain ⟨m, rfl⟩ : ∃ m, k = m + 1 := ⟨k - 1, by simp at hk; omega⟩
    have : t = tl := (listSeg_nil_iff s lo t tl).1 ht
    subst this
    unfold andLoop
    rw [if_pos (notv_of_NIL htl)]
    rfl
  | cons x xs ih =>
    intro vs k t x0 s s2 ht hlo hea hvs hk
    have hl := List.length_cons x xs
    obtain ⟨m, rfl⟩ : ∃ m, k = m + 1 := ⟨k - 1, by omega⟩
    cases hea with
    | cons hev hrest =>
      rename_i v vs1 s1
      obtain ⟨c1, c2, c3⟩ := (listSeg_cons_iff s lo t x xs tl).1 ht
      obtain ⟨hT, k1, _⟩ := (cellOk_iff _ _).1 c1
      obtain ⟨f1, f2⟩ := framed_eval h n x e s v s1 hev
      have hfr : ∀ i, lo ≤ i → s1.cell i = s.cell i := fun i hi => f2 i (by omega)
      have hcdr1 : cdr t s1 = Res.ok (s.cell (ord t)) s1 := by
        rw [cdr_cellOk c1, hfr _ k1]
      have hv : T v ≠ NIL := hvs v (List.mem_cons_self _ _)
      have hnv : notv v = false := by simp [notv, hv]
      conv_lhs => unfold andLoop
      rw [if_neg (by rw [notv_of_CONS hT]; simp), run_bind_ok (car_cellOk c1 s), c2,
        run_bind_ok hev, hnv]
      simp only [Bool.false_eq_true, if_false]
      rw [run_bind_ok hcdr1, List.getLastD_cons]
      exact ih vs1 m _ v s1 s2 (listSeg_frame s s1 lo hfr _ _ _ c3) (by omega) hrest
        (fun w hw => hvs w (List.mem_cons_of_mem _ hw)) (by omega)

theorem andLoop_break (h : Host) (n e lo tl x v : Nat) (rest : List Nat) (s3 : State)
    (hv : T v = NIL) :
    ∀ (pre vs : List Nat) (k t x0 : Nat) (s s2 : State),
      listSeg s lo t (pre ++ x :: rest) tl = true → s.sp ≤ lo →
      EvalArgs h n e pre s vs s2 → (∀ w, w ∈ vs → T w ≠ NIL) →
      eval h n x e s2 = Res.ok v s3 → pre.length < k →
      andLoop (eval h n) k t e x0 s = Res.ok v s3 := by
  intro pre
  induction pre with
  | nil =>
    intro vs k t x0 s s2 ht _ hea _ hx hk
    cases hea
    obtain ⟨m, rfl⟩ : ∃ m, k = m + 1 := ⟨k - 1, by simp at hk; omega⟩
    rw [List.nil_append] at ht
    obtain ⟨c1, c2, _⟩ := (listSeg_cons_iff s lo t x rest tl).1 ht
    obtain ⟨hT, _, _⟩ := (cellOk_iff _ _).1 c1
    unfold andLoop
    rw [if_neg (by rw [notv_of_CONS hT]; simp), run_bind_ok (car_cellOk c1 s), c2,
      run_bind_ok hx, if_pos (notv_of_NIL hv)]
    rfl
  | cons p pre ih =>
    intro vs k t x0 s s2 ht hlo hea hvs hx hk
    have hl := List.length_cons p pre
    obtain ⟨m, rfl⟩ : ∃ m, k = m + 1 := ⟨k - 1, by omega⟩
    cases hea with
    | cons hev hrest =>
      rename_i w vs1 s1
      rw [List.cons_append] at ht
      obtain ⟨c1, c2, c3⟩ := (listSeg_cons_iff s lo t p _ tl).1 ht
      obtain ⟨hT, k1, _⟩ := (cellOk_iff _ _).1 c1
      obtain ⟨f1, f2⟩ := framed_eval h n p e s w s1 hev
      have hfr : ∀ i, lo ≤ i → s1.cell i = s.cell i := fun i hi => f2 i (by omega)
      have hcdr1 : cdr t s1 = Res.ok (s.cell (ord t)) s1 := by
        rw [cdr_cellOk c1, hfr _ k1]
      have hw : T w ≠ NIL := hvs w (List.mem_cons_self _ _)
      have hnv : notv w = false := by simp [notv, hw]
      conv_lhs => unfold andLoop
      rw [if_neg (by rw [notv_of_CONS hT]; simp), run_bind_ok (car_cellOk c1 s), c2,
        run_bind_ok hev, hnv]
      simp only [Bool.false_eq_true, if_false]
      rw [run_bind_ok hcdr1]
      exact ih vs1 m _ w s1 s2 (listSeg_frame s s1 lo hfr _ _ _ c3) (by omega) hrest
        (fun u hu => hvs u (List.mem_cons_of_mem _ hu)) hx (by omega)

theorem orLoop_all (h : Host) (n e lo tl : Nat) (htl : T tl = NIL) :
    ∀ (xs vs : List Nat) (k t x0 : Nat) (s s2 : State),
      listSeg s lo t xs tl = true → s.sp ≤ lo → EvalArgs h n e xs s vs s2 →
      (∀ v, v ∈ vs → T v = NIL) → xs.length < k →
      orLoop (eval h n) k t e x0 s = Res.ok (vs.getLastD x0) s2 := by
  intro xs
  induction xs with
  | nil =>
    intro vs k t x0 s s2 ht _ hea _ hk
    cases hea
    obtain ⟨m, rfl⟩ : ∃ m, k = m + 1 := ⟨k - 1, by simp at hk; omega⟩
    have : t = tl := (listSeg_nil_iff s lo t tl).1 ht
    subst this
    unfold orLoop
    rw [if_pos (notv_of_NIL htl)]
    rfl
  | cons x xs ih =>
    intro vs k t x0 s s2 ht hlo hea hvs hk
    have hl := List.length_cons x xs
    obtain ⟨m, rfl⟩ : ∃ m, k = m + 1 := ⟨k - 1, by omega⟩
    cases hea with
    | cons hev hrest =>
      rename_i v vs1 s1
      obtain ⟨c1, c2, c3⟩ := (listSeg_cons_iff s lo t x xs tl).1 ht
      obtain ⟨hT, k1, _⟩ := (cellOk_iff _ _).1 c1
      obtain ⟨f1, f2⟩ := framed_eval h n x e s v s1 hev
      have hfr : ∀ i, lo ≤ i → s1.cell i = s.cell i := fun i hi => f2 i (by omega)
      have hcdr1 : cdr t s1 = Res.ok (s.cell (ord t)) s1 := by
        rw [cdr_cellOk c1, hfr _ k1]
      have hv : T v = NIL := hvs v (List.mem_cons_self _ _)
      have hnv : notv v = true := notv_of_NIL hv
      conv_lhs => unfold orLoop
      rw [if_neg (by rw [notv_of_CONS hT]; simp), run_bind_ok (car_cellOk c1 s), c2,
        run_bind_ok hev, hnv]
      simp only [Bool.not_true, Bool.false_eq_true, if_false]
      rw [run_bind_ok hcdr1, List.getLastD_cons]
      exact ih vs1 m _ v s1 s2 (listSeg_frame s s1 lo hfr _ _ _ c3) (by omega) hrest
        (fun w hw => hvs w (List.mem_cons_of_mem _ hw)) (by omega)

theorem orLoop_break (h : Host) (n e lo tl x v : Nat) (rest : List Nat) (s3 : State)
    (hv : T v ≠ NIL) :
    ∀ (pre vs : List Nat) (k t x0 : Nat) (s s2 : State),
      listSeg s lo t (pre ++ x :: rest) tl = true → s.sp ≤ lo →
      EvalArgs h n e pre s vs s2 → (∀ w, w ∈ vs → T w = NIL) →
      eval h n x e s2 = Res.ok v s3 → pre.length < k →
      orLoop (eval h n) k t e x0 s = Res.ok v s3 := by
  intro pre
  induction pre with
  | nil =>
    intro vs k t x0 s s2 ht _ hea _ hx hk
    cases hea
    obtain ⟨m, rfl⟩ : ∃ m, k = m + 1 := ⟨k - 1, by simp at hk; omega⟩
    rw [List.nil_append] at ht
    obtain ⟨c1, c2, _⟩ := (listSeg_cons_iff s lo t x rest tl).1 ht
    obtain ⟨hT, _, _⟩ := (cellOk_iff _ _).1 c1
    have hnv : notv v = false := by simp [notv, hv]
    unfold orLoop
    rw [if_neg (by rw [notv_of_CONS hT]; simp), run_bind_ok (car_cellOk c1 s), c2,
      run_bind_ok hx, hnv]
    simp only [Bool.not_false, if_true]
    rfl
  | cons p pre ih =>
    intro vs k t x0 s s2 ht hlo hea hvs hx hk
    have hl := List.length_cons p pre
    obtain ⟨m, rfl⟩ : ∃ m, k = m + 1 := ⟨k - 1, by omega⟩
    cases hea with
    | cons hev hrest =>
      rename_i w vs1 s1
      rw [List.cons_append] at ht
      obtain ⟨c1, c2, c3⟩ := (listSeg_cons_iff s lo t p _ tl).1 ht
      obtain ⟨hT, k1, _⟩ := (cellOk_iff _ _).1 c1
      obtain ⟨f1, f2⟩ := framed_eval h n p e s w s1 hev
      have hfr : ∀ i, lo ≤ i → s1.cell i = s.cell i := fun i hi => f2 i (by omega)
      have hcdr1 : cdr t s1 = Res.ok (s.cell (ord t)) s1 := by
        rw [cdr_cellOk c1, hfr _ k1]
      have hw : T w = NIL := hvs w (List.mem_cons_self _ _)
      have hnv : notv w = true := notv_of_NIL hw
      conv_lhs => unfold orLoop
      rw [if_neg (by rw [notv_of_CONS hT]; simp), run_bind_ok (car_cellOk c1 s), c2,
        run_bind_ok hev, hnv]
      simp only [Bool.not_true, Bool.false_eq_true, if_false]
      rw [run_bind_ok hcdr1]
      exact ih vs1 m _ w s1 s2 (listSeg_frame s s1 lo hfr _ _ _ c3) (by omega) hrest
        (fun u hu => hvs u (List.mem_cons_of_mem _ hu)) hx (by omega)

/-- C27: for every list `t` of argument expressions, in four cases that
stand on their own.  (1) `t` is a proper list of the expressions `xs`,
whose evaluations, one after the other, return values `vs` none of which
is NIL: `f_and` returns the last value, `tru` when there are none.
(2) `t` starts with expressions `xs` whose values are all non-NIL,
followed by an expression `x` whose evaluation returns a NIL value `v`:
`f_and` returns `v` in the state left by `x`, whatever follows `x` in the
list, so nothing after `x` is evaluated.  (3) `t` is a proper list of
expressions whose values are all NIL: `f_or` returns the last value,
`nilv` when there are none.  (4) `t` starts with expressions whose
values are all NIL, followed by an expression `x` whose evaluation
returns a non-NIL value `v`: `f_or` returns `v` in the state left by
`x`. -/
theorem and_or_short_circuit (h : Host) (n : Nat) :
    ((∀ (e k t tl : Nat) (xs vs : List Nat) (s s2 : State),
        listSeg s s.sp t xs tl = true → T tl = NIL → EvalArgs h n e xs s vs s2 →
        (∀ w, w ∈ vs → T w ≠ NIL) → xs.length < k →
        f_and (eval h n) k t e s = Res.ok (vs.getLastD s.tru) s2) ∧
      (∀ (e k t tl x v : Nat) (xs rest vs : List Nat) (s s2 s3 : State),
        listSeg s s.sp t (xs ++ x :: rest) tl = true → EvalArgs h n e xs s vs s2 →
        (∀ w, w ∈ vs → T w ≠ NIL) → eval h n x e s2 = Res.ok v s3 → T v = NIL →
        xs.length < k →
        f_and (eval h n) k t e s = Res.ok v s3) ∧
      (∀ (e k t tl : Nat) (xs vs : List Nat) (s s2 : State),
        listSeg s s.sp t xs tl = true → T tl = NIL → EvalArgs h n e xs s vs s2 →
        (∀ w, w ∈ vs → T w = NIL) → xs.length < k →
        f_or (eval h n) k t e s = Res.ok (vs.getLastD s.nilv) s2) ∧
      (∀ (e k t tl x v : Nat) (xs rest vs : List Nat) (s s2 s3 : State),
        listSeg s s.sp t (xs ++ x :: rest) tl = true → EvalArgs h n e xs s vs s2 →
        (∀ w, w ∈ vs → T w = NIL) → eval h n x e s2 = Res.ok v s3 → T v ≠ NIL →
        xs.length < k →
        f_or (eval h n) k t e s = Res.ok v s3)) ∧
    ((parseAndEval "(and 1 2 3)" 60).val = some (num 3) ∧
      (parseAndEval "(and)" 60).val = some (box ATOM 4) ∧
      (parseAndEval "(or () 2 3)" 60).val = some (num 2) ∧
      (parseAndEval "(or)" 60).val = some (box NIL 0) ∧
      (parseAndEvalAll ["(and () (define z 1))", "z"] 60).val = some (box ATOM 0) ∧
      (parseAndEvalAll ["(or 1 (define z 1))", "z"] 60).val = some (box ATOM 0)) := by
  refine ⟨⟨?_, ?_, ?_, ?_⟩, runs_control.1⟩
  · intro e k t tl xs vs s s2 ht htl hea hvs hk
    unfold f_and
    rw [run_getS_bind]
    exact andLoop_all h n e s.sp tl htl xs vs k t s.tru s s2 ht (le_refl _) hea hvs hk
  · intro e k t tl x v xs rest vs s s2 s3 ht hea hvs hx hv hk
    unfold f_and
    rw [run_getS_bind]
    exact andLoop_break h n e s.sp tl x v rest s3 hv xs vs k t s.tru s s2 ht (le_refl _)
      hea hvs hx hk
  · intro e k t tl xs vs s s2 ht htl hea hvs hk
    unfold f_or
    rw [run_getS_bind]
    exact orLoop_all h n e s.sp tl htl xs vs k t s.nilv s s2 ht (le_refl _) hea hvs hk
  · intro e k t tl x v xs rest vs s s2 s3 ht hea hvs hx hv hk
    unfold f_or
    rw [run_getS_bind]
    exact orLoop_break h n e s.sp tl x v rest s3 hv xs vs k t s.nilv s s2 ht (le_refl _)
      hea hvs hx hk

/-- Witness for C27: the four cases on the argument lists of four calls
read after start-up: `(and 1 2)`, `(and 1 2 () 3)`, `(or () ())` and
`(or () () 5 6)`. -/
theorem and_or_short_circuit_witness :
    (f_and (eval decimalHost 60) 60 exampleAnd.valD exampleAnd.stateD.env exampleAnd.stateD
        = Res.ok (exampleAndValues.getLastD exampleAnd.stateD.tru) exampleAnd.stateD ∧
      f_and (eval decimalHost 60) 60 exampleAndStop.valD exampleAndStop.stateD.env
          exampleAndStop.stateD
        = Res.ok (box NIL 0) exampleAndStop.stateD) ∧
    (f_or (eval decimalHost 60) 60 exampleOr.valD exampleOr.stateD.env exampleOr.stateD
        = Res.ok (exampleOrValues.getLastD exampleOr.stateD.nilv) exampleOr.stateD ∧
      f_or (eval decimalHost 60) 60 exampleOrStop.valD exampleOrStop.stateD.env
          exampleOrStop.stateD
        = Res.ok (num 5) exampleOrStop.stateD) := by
  have facts := runs_control.2.1
  obtain ⟨⟨a1, a2, a3, a4⟩, l1, l2, l5, l0⟩ := facts
  have hea : ∀ (e : Nat) (s : State),
      EvalArgs decimalHost 60 e exampleAndValues s exampleAndValues s := fun e s =>
    EvalArgs.cons (eval_other_tag decimalHost 59 (num 1) _ _ l1.1 l1.2.1)
      (EvalArgs.cons (eval_other_tag decimalHost 59 (num 2) _ _ l2.1 l2.2.1) (EvalArgs.nil _))
  have hea2 : ∀ (e : Nat) (s : State),
      EvalArgs decimalHost 60 e exampleOrValues s exampleOrValues s := fun e s =>
    EvalArgs.cons (eval_other_tag decimalHost 59 (box NIL 0) _ _ l0.1 l0.2.1)
      (EvalArgs.cons (eval_other_tag decimalHost 59 (box NIL 0) _ _ l0.1 l0.2.1)
        (EvalArgs.nil _))
  have hv1 : ∀ w, w ∈ exampleAndValues → T w ≠ NIL := by
    intro w hw
    rcases List.mem_cons.1 hw with h1 | hw
    · rw [h1]; exact l1.2.2
    · rcases List.mem_cons.1 hw with h2 | hw
      · rw [h2]; exact l2.2.2
      · cases hw
  have hv2 : ∀ w, w ∈ exampleOrValues → T w = NIL := by
    intro w hw
    rcases List.mem_cons.1 hw with h1 | hw
    · rw [h1]; exact l0.2.2
    · rcases List.mem_cons.1 hw with h2 | hw
      · rw [h2]; exact l0.2.2
      · cases hw
  have k1 : exampleAndValues.length < 60 := by decide
  have k2 : exampleOrValues.length < 60 := by decide
  have m := (and_or_short_circuit decimalHost 60).1
  exact ⟨⟨m.1 exampleAnd.stateD.env 60 exampleAnd.valD (box NIL 0) exampleAndValues
        exampleAndValues exampleAnd.stateD exampleAnd.stateD a1 (by decide) (hea _ _) hv1 k1,
      m.2.1 exampleAndStop.stateD.env 60 exampleAndStop.valD (box NIL 0) (box NIL 0) (box NIL 0)
        exampleAndValues [num 3] exampleAndValues exampleAndStop.stateD exampleAndStop.stateD
        exampleAndStop.stateD a2 (hea _ _)
        hv1 (eval_other_tag decimalHost 59 (box NIL 0) _ _ l0.1 l0.2.1) l0.2.2 k1⟩,
    ⟨m.2.2.1 exampleOr.stateD.env 60 exampleOr.valD (box NIL 0) exampleOrValues
        exampleOrValues exampleOr.stateD exampleOr.stateD a3 (by decide) (hea2 _ _) hv2 k2,
      m.2.2.2 exampleOrStop.stateD.env 60 exampleOrStop.valD (box NIL 0) (num 5) (num 5)
        exampleOrValues [num 6] exampleOrValues exampleOrStop.stateD exampleOrStop.stateD
        exampleOrStop.stateD a4 (hea2 _ _)
        hv2 (eval_other_tag decimalHost 59 (num 5) _ _ l5.1 l5.2.1) l5.2.2 k2⟩⟩

/-! ## `let*` -/

theorem letBinds_framed (h : Host) (n : Nat) {e e2 : Nat} {bs : List (Nat × Nat)}
    {vs : List Nat} {s s3 : State} (hb : LetBinds h n e s bs vs e2 s3) :
    s3.sp ≤ s.sp ∧ ∀ i, s.sp ≤ i → s3.cell i = s.cell i := by
  induction hb with
  | nil => exact ⟨le_refl _, fun _ _ => rfl⟩
  | cons hev hp _ ih =>
    obtain ⟨a1, a2⟩ := framed_eval h n _ _ _ _ _ hev
    obtain ⟨b1, b2⟩ := framed_pair _ _ _ _ _ _ hp
    obtain ⟨c1, c2⟩ := ih
    exact ⟨by omega, fun i hi => by rw [c2 i (by omega), b2 i (by omega), a2 i hi]⟩

theorem letBinds_envSeg (h : Host) (n : Nat) {e e2 : Nat} {bs : List (Nat × Nat)}
    {vs : List Nat} {s s3 : State} (hb : LetBinds h n e s bs vs e2 s3) :
    envSeg s3 s3.sp e2 ((bs.map Prod.fst).zip vs).reverse e = true := by
  induction hb with
  | nil => simp [envSeg]
  | cons hev hp hrest ih =>
    rename_i e0 e1 e3 sym x v rest vs1 sa sb sc sd
    obtain ⟨p4, pN, _, pr, ps⟩ := (pair_ok_iff sym v e0 sb e1 sc).1 hp
    obtain ⟨c1, c2⟩ := letBinds_framed h n hrest
    have hsp : sc.sp = sb.sp - 4 := by rw [ps]; rfl
    rw [List.map_cons, List.zip_cons_cons, List.reverse_cons]
    apply envSeg_append sd sd.sp _ _ e1 e0 e3 ih
    apply envSeg_mono sd (show sd.sp ≤ sb.sp - 4 by omega)
    apply envSeg_frame sc sd (sb.sp - 4) (fun i hi => c2 i (by omega))
    rw [ps, pr]
    exact envSeg_afterPair sym v e0 sb (sb.sp - 4) p4 pN (le_refl _)

theorem letBinds_keeps_env (h : Host) (n : Nat) {e e2 : Nat} {bs : List (Nat × Nat)}
    {vs : List Nat} {s s3 : State} (hb : LetBinds h n e s bs vs e2 s3)
    (hpure : ∀ x, x ∈ bs.map Prod.snd → ∀ (e0 v : Nat) (sa sb : State),
      eval h n x e0 sa = Res.ok v sb → sb.env = sa.env) : s3.env = s.env := by
  induction hb with
  | nil => rfl
  | cons hev hp hrest ih =>
    rename_i e0 e1 e3 sym x v rest vs1 sa sb sc sd
    obtain ⟨_, _, _, _, ps⟩ := (pair_ok_iff sym v e0 sb e1 sc).1 hp
    have h1 : sb.env = sa.env := hpure x (by simp) e0 v sa sb hev
    have h2 : sc.env = sb.env := by rw [ps]; rfl
    have h3 := ih (fun y hy => hpure y (by
      rw [List.map_cons]
      exact List.mem_cons_of_mem _ hy))
    rw [h3, h2, h1]

theorem clauseSeg_head (s : State) (lo t tb body tl : Nat) (bs : List (Nat × Nat))
    (ht : clauseSeg s lo t bs tb = true) (hb : listSeg s lo tb [body] tl = true) :
    cellOk lo t = true := by
  cases bs with
  | nil =>
    have : t = tb := (clauseSeg_nil_iff s lo t tb).1 ht
    rw [this]
    exact ((listSeg_cons_iff s lo tb body [] tl).1 hb).1
  | cons ab rest => exact ((clauseSeg_cons_iff s lo t ab rest tb).1 ht).1

theorem leta_loop (h : Host) (n lo body tl tb : Nat) (htl : T tl = NIL) :
    ∀ (bs : List (Nat × Nat)) (vs : List Nat) (k t e e2 : Nat) (s s2 : State),
      clauseSeg s lo t bs tb = true → listSeg s lo tb [body] tl = true → s.sp ≤ lo →
      LetBinds h n e s bs vs e2 s2 → bs.length < k →
      f_leta (eval h n) k t e s = eval h n body e2 s2 := by
  intro bs
  induction bs with
  | nil =>
    intro vs k t e e2 s s2 ht hb _ hbind hk
    cases hbind
    obtain ⟨m, rfl⟩ : ∃ m, k = m + 1 := ⟨k - 1, by simp at hk; omega⟩
    have : t = tb := (clauseSeg_nil_iff s lo t tb).1 ht
    subst this
    obtain ⟨c1, c2, c3⟩ := (listSeg_cons_iff s lo t body [] tl).1 hb
    have hT : T t = CONS := ((cellOk_iff _ _).1 c1).1
    have hc : s.cell (ord t) = tl := (listSeg_nil_iff s lo _ tl).1 c3
    have hletv : letv t s = Res.ok false s := by
      unfold letv
      rw [if_neg (by rw [notv_of_CONS hT]; simp), run_bind_ok (cdr_cellOk c1 s), hc,
        notv_of_NIL htl]
      rfl
    unfold f_leta
    rw [run_bind_ok hletv]
    simp only [Bool.false_eq_true, if_false]
    rw [run_bind_ok (car_cellOk c1 s), c2]
  | cons ab bs ih =>
    intro vs k t e e2 s s2 ht hb hlo hbind hk
    have hl := List.length_cons ab bs
    obtain ⟨m, rfl⟩ : ∃ m, k = m + 1 := ⟨k - 1, by omega⟩
    cases hbind with
    | cons hev hp hrest =>
      rename_i e1 sym x v vs1 s1 sm
      obtain ⟨c1, c2, c3⟩ := (clauseSeg_cons_iff s lo t (sym, x) bs tb).1 ht
      obtain ⟨hT, k1, _⟩ := (cellOk_iff _ _).1 c1
      obtain ⟨r1, r2, r3⟩ := formAt_reads s lo _ sym x c2
      have hnext := clauseSeg_head s lo _ tb body tl bs c3 hb
      have hTn : T (s.cell (ord t)) = CONS := ((cellOk_iff _ _).1 hnext).1
      have hletv : letv t s = Res.ok true s := by
        unfold letv
        rw [if_neg (by rw [notv_of_CONS hT]; simp), run_bind_ok (cdr_cellOk c1 s),
          notv_of_CONS hTn]
        rfl
      obtain ⟨f1, f2⟩ := framed_eval h n x e s v s1 hev
      obtain ⟨g1, g2⟩ := framed_pair sym v e s1 e1 sm hp
      have hfr : ∀ i, lo ≤ i → sm.cell i = s.cell i := fun i hi => by
        rw [g2 i (by omega), f2 i (by omega)]
      have hcdr : cdr t sm = Res.ok (s.cell (ord t)) sm := by
        rw [cdr_cellOk c1, hfr _ k1]
      conv_lhs => unfold f_leta
      rw [run_bind_ok hletv, if_pos rfl, run_bind_ok (car_cellOk c1 s), run_bind_ok r1,
        run_bind_ok (car_cellOk c1 s), run_bind_ok r2, run_bind_ok r3, run_bind_ok hev,
        run_bind_ok hp, run_bind_ok hcdr]
      exact ih vs1 m _ e1 e2 sm s2 (clauseSeg_frame s sm lo hfr _ _ _ c3)
        (listSeg_frame s sm lo hfr _ _ _ hb) (by omega) hrest (by omega)

/-- C28: `f_leta` applied to the bindings `(s1 x1) .. (sn xn)` followed
by `body`: when the loop of bindings runs as described by `LetBinds`
(each `xi` evaluated in the environment extended with the bindings made
before it, then bound by `pair`), the call is the evaluation of `body`
in the final environment, which consists of the `n` new entries, the
last one first, on top of `e`.  The bindings are made by `pair` only,
so the global environment is unchanged unless the evaluation of some
`xi` changes it.  `(let* (x 1) (y (+ x 1)) (+ x y))` evaluates to 3 and
leaves the global environment as it was after start-up. -/
theorem leta_sequential (h : Host) (n e k t tb body tl e2 : Nat) (bs : List (Nat × Nat))
    (vs : List Nat) (s s2 : State)
    (ht : clauseSeg s s.sp t bs tb = true) (hb : listSeg s s.sp tb [body] tl = true)
    (htl : T tl = NIL) (hbind : LetBinds h n e s bs vs e2 s2) (hk : bs.length < k) :
    (f_leta (eval h n) k t e s = eval h n body e2 s2 ∧
      envSeg s2 s2.sp e2 ((bs.map Prod.fst).zip vs).reverse e = true ∧
      ((∀ x, x ∈ bs.map Prod.snd → ∀ (e0 v : Nat) (sa sb : State),
        eval h n x e0 sa = Res.ok v sb → sb.env = sa.env) → s2.env = s.env)) ∧
    ((parseAndEval "(let* (x 1) (y (+ x 1)) (+ x y))" 60).val = some (num 3) ∧
      (parseAndEval "(let* (x 1) (y (+ x 1)) (+ x y))" 60).stateD.env
        = exampleInit.stateD.env) := by
  refine ⟨⟨?_, letBinds_envSeg h n hbind, letBinds_keeps_env h n hbind⟩, runs_control.2.2.1⟩
  exact leta_loop h n s.sp body tl tb htl bs vs k t e e2 s s2 ht hb (le_refl _) hbind hk

/-- Witness for C28: the bindings `(x 1)`, `(y 2)` and the body
`(+ x y)` of `exampleLet`. -/
theorem leta_sequential_witness :
    f_leta (eval decimalHost 60) 60 exampleLet.valD exampleLet.stateD.env exampleLet.stateD
        = eval decimalHost 60 (box CONS 1946) (box CONS 1930) exampleLetEnd ∧
      envSeg exampleLetEnd exampleLetEnd.sp (box CONS 1930)
        ((exampleLetBinds.map Prod.fst).zip [num 1, num 2]).reverse exampleLet.stateD.env
        = true := by
  have facts := runs_control.2.2.2
  obtain ⟨a1, a2, l1, l2, r1, r2, q1, q2⟩ := facts
  have hp1 : pair (box ATOM 93) (num 1) exampleLet.stateD.env exampleLet.stateD
      = Res.ok (box CONS 1934) exampleLetMid := by
    rw [← q1]
    exact pair_ok _ _ _ _ r1.1 r1.2.1 r1.2.2
  have hp2 : pair (box ATOM 95) (num 2) (box CONS 1934) exampleLetMid
      = Res.ok (box CONS 1930) exampleLetEnd := by
    rw [← q2]
    exact pair_ok _ _ _ _ r2.1 r2.2.1 r2.2.2
  have hbind : LetBinds decimalHost 60 exampleLet.stateD.env exampleLet.stateD exampleLetBinds
      [num 1, num 2] (box CONS 1930) exampleLetEnd :=
    LetBinds.cons (eval_other_tag decimalHost 59 (num 1) _ _ l1.1 l1.2) hp1
      (LetBinds.cons (eval_other_tag decimalHost 59 (num 2) _ _ l2.1 l2.2) hp2
        (LetBinds.nil _ _))
  have hk : exampleLetBinds.length < 60 := by decide
  have hm := (leta_sequential decimalHost 60 exampleLet.stateD.env 60 exampleLet.valD
    (box CONS 1944) (box CONS 1946) (box NIL 0) (box CONS 1930) exampleLetBinds
    [num 1, num 2] exampleLet.stateD exampleLetEnd a1 a2 (by decide) hbind hk).1
  exact ⟨hm.1, hm.2.1⟩

/-! ## Dispatch of primitives -/

theorem find_unique {α : Type} (q : α → Bool) (l : List α) (x : α) (hx : x ∈ l)
    (hq : q x = true) (hu : ∀ y, y ∈ l → q y = true → y = x) : l.find? q = some x := by
  cases hf : l.find? q with
  | none =>
    rw [List.find?_eq_none] at hf
    exact absurd hq (hf x hx)
  | some y =>
    have h1 : y ∈ l := List.mem_of_find?_eq_some hf
    have h2 : q y = true := List.find?_some hf
    rw [hu y h1 h2]

theorem find_none_of_all {α : Type} (q : α → Bool) (l : List α)
    (hq : ∀ y, y ∈ l → q y = false) : l.find? q = none := by
  rw [List.find?_eq_none]
  intro y hy
  rw [hq y hy]
  simp

theorem prim_table_facts :
    (List.range 22).all (fun k =>
      decide ((lookupName (primNamesMain.getD k []) 60 exampleMain.stateD).val
        = some (box PRIM k)) &&
      decide ((primEntry k).1 = primNamesMain.getD k []) &&
      decide (primTableMain.lookup (primNamesMain.getD k []) = some (primEntry k).2) &&
      decide (primEntry k ∈ primTableMain) &&
      decide (mapGet exampleMain.stateD.primIndex (primEntry k).1 = k) &&
      primTableMain.all (fun y =>
        !(decide (mapGet exampleMain.stateD.primIndex y.1 = k)) || decide (y = primEntry k)))
      = true ∧
    primTableMain.all (fun y => decide (mapGet exampleMain.stateD.primIndex y.1 < 22)) = true ∧
    primNamesMain.Nodup ∧ exampleMain.stateD.prims = primTableMain :=
  runs_main.1

theorem T_box_PRIM {k : Nat} (hk : k < 2 ^ 48) : T (box PRIM k) = PRIM := T_box (by decide) hk

theorem apply_prim_found (h : Host) (ev : Nat → Nat → M Nat) (fuel f t e : Nat) (s : State)
    (p : GoString × Prim) (hf : T f = PRIM)
    (hfind : s.prims.find? (fun q => decide (mapGet s.primIndex q.1 = ord f)) = some p) :
    apply h ev fuel f t e s = callPrim h ev fuel p.2 t e s := by
  unfold apply
  rw [if_pos hf, run_getS_bind]
  simp only [hfind]

theorem apply_prim_missing (h : Host) (ev : Nat → Nat → M Nat) (fuel f t e : Nat) (s : State)
    (hf : T f = PRIM)
    (hfind : s.prims.find? (fun q => decide (mapGet s.primIndex q.1 = ord f)) = none) :
    apply h ev fuel f t e s = Res.ok s.err s := by
  unfold apply
  rw [if_pos hf, run_getS_bind]
  simp only [hfind]
  rfl

/-- C29: after the start-up of `main`, the name at index `k` of the
primitive name list resolves in the global environment to
`box(PRIM, k)`; the names are pairwise distinct and so are their
ordinals.  In every state whose `primIndex` is the one built at start-up
and whose `prims` holds the entries of the table in any order, `apply`
on `box(PRIM, k)` calls the function registered under the name at index
`k`, with the unevaluated argument list `t` and the caller's environment
`e`; a `PRIM` value with an ordinal outside the table yields `err`. -/
theorem prim_dispatch (perm : List (GoString × Prim)) (s : State)
    (hperm : perm.Perm primTableMain) (hp : s.prims = perm)
    (hi : s.primIndex = exampleMain.stateD.primIndex) :
    (∀ k, k < 22 →
      (lookupName (primNamesMain.getD k []) 60 exampleMain.stateD).val = some (box PRIM k)) ∧
    (primNamesMain.Nodup ∧ ∀ j k, j < 22 → k < 22 → j ≠ k → box PRIM j ≠ box PRIM k) ∧
    (∀ k, k < 22 → ∀ (h : Host) (ev : Nat → Nat → M Nat) (fuel t e : Nat),
      apply h ev fuel (box PRIM k) t e s =
        callPrim h ev fuel ((primTableMain.lookup (primNamesMain.getD k [])).getD Prim.f_eval)
          t e s) ∧
    (∀ f, T f = PRIM → 22 ≤ ord f → ∀ (h : Host) (ev : Nat → Nat → M Nat) (fuel t e : Nat),
      apply h ev fuel f t e s = Res.ok s.err s) := by
  obtain ⟨hall, hlt, hnd, _⟩ := prim_table_facts
  have hfact : ∀ k, k < 22 →
      (lookupName (primNamesMain.getD k []) 60 exampleMain.stateD).val = some (box PRIM k) ∧
      primTableMain.lookup (primNamesMain.getD k []) = some (primEntry k).2 ∧
      primEntry k ∈ primTableMain ∧
      mapGet exampleMain.stateD.primIndex (primEntry k).1 = k ∧
      ∀ y, y ∈ primTableMain → mapGet exampleMain.stateD.primIndex y.1 = k →
        y = primEntry k := by
    intro k hk
    have hk2 := List.all_eq_true.1 hall k (List.mem_range.2 hk)
    simp only [Bool.and_eq_true, decide_eq_true_eq] at hk2
    obtain ⟨⟨⟨⟨⟨b1, _⟩, b3⟩, b4⟩, b5⟩, b6⟩ := hk2
    refine ⟨b1, b3, b4, b5, fun y hy hyk => ?_⟩
    have := List.all_eq_true.1 b6 y hy
    simpa [hyk] using this
  refine ⟨fun k hk => (hfact k hk).1, ⟨hnd, ?_⟩, ?_, ?_⟩
  · intro j k hj hk hjk heq
    have := congrArg ord heq
    rw [ord_box (by decide) (by omega), ord_box (by decide) (by omega)] at this
    exact hjk this
  · intro k hk h ev fuel t e
    obtain ⟨_, c2, c3, c4, c5⟩ := hfact k hk
    have ho : ord (box PRIM k) = k := ord_box (by decide) (by omega)
    have hfind : s.prims.find?
        (fun q => decide (mapGet s.primIndex q.1 = ord (box PRIM k))) = some (primEntry k) := by
      rw [hp, hi, ho]
      refine find_unique _ perm (primEntry k) (hperm.mem_iff.2 c3) (by simpa using c4) ?_
      intro y hy hq
      exact c5 y (hperm.mem_iff.1 hy) (by simpa using hq)
    rw [apply_prim_found h ev fuel (box PRIM k) t e s (primEntry k) (T_box_PRIM (by omega))
      hfind, c2]
    rfl
  · intro f hf hge h ev fuel t e
    refine apply_prim_missing h ev fuel f t e s hf ?_
    rw [hp, hi]
    refine find_none_of_all _ perm ?_
    intro y hy
    have h1 := List.all_eq_true.1 hlt y (hperm.mem_iff.1 hy)
    have h2 : mapGet exampleMain.stateD.primIndex y.1 < 22 := by simpa using h1
    have h3 : mapGet exampleMain.stateD.primIndex y.1 ≠ ord f := by omega
    simp [h3]

theorem withPrims_fields (s : State) (p : List (GoString × Prim)) :
    (withPrims s p).prims = p ∧ (withPrims s p).primIndex = s.primIndex := ⟨rfl, rfl⟩

/-- Witness for C29: the state after the start-up of `main` with the
primitive table scanned in reverse order; `box(PRIM, 5)` is dispatched to
`f_add`, the function registered under the name `+`. -/
theorem prim_dispatch_witness :
    apply noHost (eval noHost 60) 60 (box PRIM 5) (box NIL 0) (box NIL 0)
        (withPrims exampleMain.stateD primTableMain.reverse)
      = callPrim noHost (eval noHost 60) 60
          ((primTableMain.lookup (primNamesMain.getD 5 [])).getD Prim.f_eval)
          (box NIL 0) (box NIL 0) (withPrims exampleMain.stateD primTableMain.reverse) ∧
      ((primTableMain.lookup (primNamesMain.getD 5 [])).getD Prim.f_eval = Prim.f_add ∧
        primNamesMain.getD 5 [] = bytes "+") := by
  have facts : (primTableMain.lookup (primNamesMain.getD 5 [])).getD Prim.f_eval = Prim.f_add ∧
      primNamesMain.getD 5 [] = bytes "+" := by
    decide!
  have hf := withPrims_fields exampleMain.stateD primTableMain.reverse
  have h5 : 5 < 22 := by decide
  exact ⟨(prim_dispatch primTableMain.reverse
      (withPrims exampleMain.stateD primTableMain.reverse)
      (List.reverse_perm _) hf.1 hf.2).2.2.1 5 h5 noHost (eval noHost 60) 60
      (box NIL 0) (box NIL 0), facts⟩

/-! ## Loading a file -/

/-- C30 (failing run): with a file `f` that holds `(define x 1) x`, the
call `(load 'f)` after the start-up of `main` returns the atom
`EVAL-ERROR`: the definition is made (the global environment binds `x`
to 1 afterwards), but the second form is evaluated in the environment
that was passed to `loadFile` before the definition, where `x` is
unbound.  The same two forms typed at the prompt yield 1. -/
theorem load_stale_env :
    exampleLoad.val = (atom (bytes "EVAL-ERROR") exampleLoad.stateD).val ∧
      exampleLoad.val ≠ none ∧ exampleLoad.val ≠ some (num 1) ∧
      (atom (bytes "EVAL-ERROR") exampleLoad.stateD).stateD.hp = exampleLoad.stateD.hp ∧
      (lookupName (bytes "x") 60 exampleLoad.stateD).val = some (num 1) ∧
      exampleRepl.val = some (num 1) :=
  runs_main.2.1

/-! ## Numbers and tags -/

theorem fexp_of_tag {x : Nat} (h1 : 0x7ff0 ≤ T x) (h2 : T x ≤ 0x7fff) : fexp x = 2047 := by
  unfold T at h1 h2
  rw [Nat.shiftRight_eq_div_pow] at h1 h2
  unfold fexp
  omega

theorem fexp_of_finite {x : Nat} (hn : fisNaN x = false) (hi : fisInf x = false) :
    fexp x ≠ 2047 := by
  intro he
  simp [fisNaN, fisInf, he] at hn hi
  exact hi hn

/-- C32: a float `x` that is neither a NaN nor an infinity has a tag
`T(x)` that is none of `ATOM`, `PRIM`, `CONS`, `CLOS`, `NIL`, and `x` is
not bit-identical to `box(t, i)` for any of these five tags `t` and any
48-bit ordinal `i`. -/
theorem finite_not_tagged (x : Nat) (hn : fisNaN x = false) (hi : fisInf x = false) :
    (T x ≠ ATOM ∧ T x ≠ PRIM ∧ T x ≠ CONS ∧ T x ≠ CLOS ∧ T x ≠ NIL) ∧
      ∀ (t i : Nat), t = ATOM ∨ t = PRIM ∨ t = CONS ∨ t = CLOS ∨ t = NIL → i < 2 ^ 48 →
        x ≠ box t i := by
  have he := fexp_of_finite hn hi
  have key : ∀ t, t = ATOM ∨ t = PRIM ∨ t = CONS ∨ t = CLOS ∨ t = NIL → T x ≠ t := by
    intro t ht hx
    apply he
    apply fexp_of_tag <;> rw [hx] <;> rcases ht with h | h | h | h | h <;> subst h <;> decide
  refine ⟨⟨key _ (Or.inl rfl), key _ (Or.inr (Or.inl rfl)), key _ (Or.inr (Or.inr (Or.inl rfl))),
    key _ (Or.inr (Or.inr (Or.inr (Or.inl rfl)))),
    key _ (Or.inr (Or.inr (Or.inr (Or.inr rfl))))⟩, ?_⟩
  intro t i ht hi2 hx
  apply key t ht
  rw [hx]
  exact T_box (tag_lt t ht) hi2

/-- Witness for C32: the float 3.14159 of `TestNumbers`, whose bit
pattern is `0x400921F9F01B866E`. -/
theorem finite_not_tagged_witness :
    fisNaN 0x400921F9F01B866E = false ∧ fisInf 0x400921F9F01B866E = false ∧
      ((T 0x400921F9F01B866E ≠ ATOM ∧ T 0x400921F9F01B866E ≠ PRIM ∧
          T 0x400921F9F01B866E ≠ CONS ∧ T 0x400921F9F01B866E ≠ CLOS ∧
          T 0x400921F9F01B866E ≠ NIL) ∧
        ∀ (t i : Nat), t = ATOM ∨ t = PRIM ∨ t = CONS ∨ t = CLOS ∨ t = NIL → i < 2 ^ 48 →
          0x400921F9F01B866E ≠ box t i) :=
  ⟨by decide, by decide, finite_not_tagged 0x400921F9F01B866E (by decide) (by decide)⟩

/-! ## Arithmetic on an empty argument list -/

theorem arithLoop_err (op : Nat → Nat → Nat) (s : State) (hp : isPairTag s.err = false)
    (hn : T s.err ≠ NIL) : ∀ (k n : Nat), arithLoop op k s.err n s = Res.diverge := by
  intro k
  induction k with
  | zero => intro n; rfl
  | succ k ih =>
    intro n
    have hnv : notv s.err = false := by simp [notv, hn]
    unfold arithLoop
    rw [run_bind_ok (cdr_not_pair hp s), hnv]
    simp only [Bool.false_eq_true, if_false]
    rw [run_bind_ok (car_not_pair hp s)]
    exact ih _

theorem arith_empty (op : Nat → Nat → Nat) (ev : Nat → Nat → M Nat) (k t e : Nat) (s : State)
    (ht : T t = NIL) (hnil : T s.nilv = NIL) (herr : T s.err = ATOM) :
    arith op ev k t e s = Res.diverge := by
  have hp : isPairTag s.err = false := isPairTag_of_ATOM herr
  have hn : T s.err ≠ NIL := by rw [herr]; decide
  cases k with
  | zero => rfl
  | succ j =>
    unfold arith
    rw [run_bind_ok (evlis_nil_tag ev j t e s ht),
      run_bind_ok (car_not_pair (isPairTag_of_NIL hnil) s)]
    unfold arithLoop
    have hnv : notv s.err = false := by simp [notv, hn]
    rw [run_bind_ok (cdr_not_pair (isPairTag_of_NIL hnil) s), hnv]
    simp only [Bool.false_eq_true, if_false]
    rw [run_bind_ok (car_not_pair hp s)]
    exact arithLoop_err op s hp hn j _

/-- C34: each of `f_add`, `f_sub`, `f_mul`, `f_div` applied to an empty
argument list (a value with tag `NIL`) has no outcome, whatever the
amount of fuel `k`: `evlis` returns `nilv` without calling the
evaluator, `cdr(nilv)` is the error atom, `cdr` of the error atom is the
error atom again, and the error atom is not falsy, so the exit test of
the loop never succeeds.  The variables `nilv` and `err` hold a NIL value
and an atom, as they do after start-up. -/
theorem arith_empty_diverges (ev : Nat → Nat → M Nat) (k t e : Nat) (s : State)
    (ht : T t = NIL) (hnil : T s.nilv = NIL) (herr : T s.err = ATOM) :
    (f_add ev k t e s = Res.diverge ∧ f_sub ev k t e s = Res.diverge ∧
      f_mul ev k t e s = Res.diverge ∧ f_div ev k t e s = Res.diverge) ∧
    (evlis ev (k + 1) t e s = Res.ok s.nilv s ∧ cdr s.nilv s = Res.ok s.err s ∧
      cdr s.err s = Res.ok s.err s ∧ notv s.err = false) := by
  refine ⟨⟨arith_empty _ ev k t e s ht hnil herr, arith_empty _ ev k t e s ht hnil herr,
    arith_empty _ ev k t e s ht hnil herr, arith_empty _ ev k t e s ht hnil herr⟩,
    evlis_nil_tag ev k t e s ht, cdr_not_pair (isPairTag_of_NIL hnil) s,
    cdr_not_pair (isPairTag_of_ATOM herr) s, ?_⟩
  simp [notv, herr]
  decide

/-- Witness for C34: the state after start-up, the empty argument list
`()`, the evaluator with fuel 60 and loop fuel 60. -/
theorem arith_empty_diverges_witness :
    (f_add (eval noHost 60) 60 (box NIL 0) exampleInit.stateD.env exampleInit.stateD
        = Res.diverge ∧
      f_sub (eval noHost 60) 60 (box NIL 0) exampleInit.stateD.env exampleInit.stateD
        = Res.diverge ∧
      f_mul (eval noHost 60) 60 (box NIL 0) exampleInit.stateD.env exampleInit.stateD
        = Res.diverge ∧
      f_div (eval noHost 60) 60 (box NIL 0) exampleInit.stateD.env exampleInit.stateD
        = Res.diverge) ∧
    (evlis (eval noHost 60) (60 + 1) (box NIL 0) exampleInit.stateD.env exampleInit.stateD
        = Res.ok exampleInit.stateD.nilv exampleInit.stateD ∧
      cdr exampleInit.stateD.nilv exampleInit.stateD
        = Res.ok exampleInit.stateD.err exampleInit.stateD ∧
      cdr exampleInit.stateD.err exampleInit.stateD
        = Res.ok exampleInit.stateD.err exampleInit.stateD ∧
      notv exampleInit.stateD.err = false) := by
  have facts := runs_startup.2.2.2.2.2.2.2
  exact arith_empty_diverges (eval noHost 60) 60 (box NIL 0) exampleInit.stateD.env
    exampleInit.stateD facts.1 facts.2.1 facts.2.2

/-! ## `cond` without a clause that applies -/

theorem cond_end (h : Host) (n k e tl : Nat) (l : List (Nat × Nat)) (tle lo : Nat) (s : State)
    (htl : T tl = NIL) (herr : T s.err = ATOM)
    (henv : envSeg s lo e l tle = true) (htle : T tle ≠ CONS)
    (hunb : lookupEnv s.err l = none) (hn : l.length + 1 < n) :
    f_cond (eval h n) (k + 1) tl e s = Res.ok s.err s := by
  have hp : isPairTag s.err = false := isPairTag_of_ATOM herr
  have hpt : isPairTag tl = false := isPairTag_of_NIL htl
  have hnv : notv s.err = false := by
    have : T s.err ≠ NIL := by rw [herr]; decide
    simp [notv, this]
  obtain ⟨m, rfl⟩ : ∃ m, n = ((m + 1) + l.length) + 1 := ⟨n - l.length - 2, by omega⟩
  have hev : eval h (((m + 1) + l.length) + 1) s.err e s = Res.ok s.err s := by
    show evalBody h (eval h ((m + 1) + l.length)) ((m + 1) + l.length) s.err e s = _
    unfold evalBody
    rw [if_pos herr, assoc_seg s.err s lo tle l (m + 1) e henv, hunb]
    exact assoc_nil m s.err tle s htle
  unfold f_cond
  rw [run_bind_ok (car_not_pair hpt s), run_bind_ok (car_not_pair hp s), run_bind_ok hev, hnv]
  simp only [Bool.false_eq_true, if_false]
  rw [run_bind_ok (car_not_pair hpt s), run_bind_ok (cdr_not_pair hp s),
    run_bind_ok (car_not_pair hp s)]
  exact hev

theorem cond_all_nil (h : Host) (n e lo tl : Nat) (htl : T tl = NIL) :
    ∀ (cl : List (Nat × Nat)) (vs : List Nat) (k t : Nat) (s s2 : State),
      clauseSeg s lo t cl tl = true → s.sp ≤ lo →
      EvalArgs h n e (cl.map Prod.fst) s vs s2 → (∀ v, v ∈ vs → T v = NIL) →
      cl.length < k →
      f_cond (eval h n) k t e s = f_cond (eval h n) (k - cl.length) tl e s2 := by
  intro cl
  induction cl with
  | nil =>
    intro vs k t s s2 ht _ hea _ _
    cases hea
    have : t = tl := (clauseSeg_nil_iff s lo t tl).1 ht
    subst this
    rfl
  | cons gb cl ih =>
    intro vs k t s s2 ht hlo hea hvs hk
    have hl := List.length_cons gb cl
    obtain ⟨m, rfl⟩ : ∃ m, k = m + 1 := ⟨k - 1, by omega⟩
    rw [List.map_cons] at hea
    cases hea with
    | cons hev hrest =>
      rename_i v vs1 s1
      obtain ⟨c1, c2, c3⟩ := (clauseSeg_cons_iff s lo t gb _ tl).1 ht
      obtain ⟨r1, _, _⟩ := formAt_reads s lo _ gb.1 gb.2 c2
      obtain ⟨f1, f2⟩ := framed_eval h n gb.1 e s v s1 hev
      have hfr : ∀ i, lo ≤ i → s1.cell i = s.cell i := fun i hi => f2 i (by omega)
      have k1 := ((cellOk_iff _ _).1 c1).2.1
      have hcdr1 : cdr t s1 = Res.ok (s.cell (ord t)) s1 := by
        rw [cdr_cellOk c1, hfr _ k1]
      have hv : T v = NIL := hvs v (List.mem_cons_self _ _)
      conv_lhs => unfold f_cond
      rw [run_bind_ok (car_cellOk c1 s), run_bind_ok r1, run_bind_ok hev,
        if_pos (notv_of_NIL hv), run_bind_ok hcdr1]
      rw [ih vs1 m _ s1 s2 (clauseSeg_frame s s1 lo hfr _ _ _ c3) (by omega) hrest
        (fun w hw => hvs w (List.mem_cons_of_mem _ hw)) (by omega)]
      have : m + 1 - (gb :: cl).length = m - cl.length := by omega
      rw [this]

/-- C35: let `t` be a proper list of clauses (last cdr NIL) whose guards
evaluate, one after the other, in the environment `e` to NIL values, and
let `e` be a chain of entries, none of which has the error atom as its
key, that ends in a value that is not a pair.  Then `f_cond(t, e)` returns
the error atom, in the state left by the last guard; the empty clause
list is the case of no guard.  Any loop fuel above the number of clauses
and any evaluator fuel above the length of the chain plus one is enough.
In the global environment after start-up `(cond (() 1))` and `(cond)`
are `ERR`. -/
theorem cond_no_clause (h : Host) (n e k t tl tle : Nat) (cl l : List (Nat × Nat))
    (vs : List Nat) (s s2 : State)
    (ht : clauseSeg s s.sp t cl tl = true) (htl : T tl = NIL)
    (hg : EvalArgs h n e (cl.map Prod.fst) s vs s2) (hvs : ∀ v, v ∈ vs → T v = NIL)
    (herr : T s.err = ATOM)
    (henv : envSeg s s.sp e l tle = true) (htle : T tle ≠ CONS)
    (hunb : lookupEnv s.err l = none)
    (hk : cl.length < k) (hn : l.length + 1 < n) :
    f_cond (eval h n) k t e s = Res.ok s.err s2 ∧
    (parseAndEval "(cond (() 1))" 60).val = some (box ATOM 0) ∧
    (parseAndEval "(cond)" 60).val = some (box ATOM 0) := by
  refine ⟨?_, runs_cond.2.2.1, runs_cond.2.2.2.1⟩
  obtain ⟨f1, f2⟩ := evalArgs_framed h n e hg
  obtain ⟨_, c2⟩ := evalArgs_consts h n e hg
  rw [cond_all_nil h n e s.sp tl htl cl vs k t s s2 ht (le_refl _) hg hvs hk]
  obtain ⟨j, hj⟩ : ∃ j, k - cl.length = j + 1 := ⟨k - cl.length - 1, by omega⟩
  rw [hj, ← c2]
  exact cond_end h n j e tl l tle s.sp s2 htl (by rw [c2]; exact herr)
    (envSeg_frame s s2 s.sp f2 _ _ _ henv) htle (by rw [c2]; exact hunb) hn

/-- Witness for C35: the clause list `((() 1))` read after start-up, in
the empty environment; the only guard is NIL. -/
theorem cond_no_clause_witness :
    f_cond (eval decimalHost 60) 60 exampleCondNone.valD (box NIL 0) exampleCondNone.stateD
      = Res.ok exampleCondNone.stateD.err exampleCondNone.stateD := by
  have facts := runs_cond.2.2.2.2
  obtain ⟨a1, ⟨l1, l2, l3⟩, a3⟩ := facts
  have hea : EvalArgs decimalHost 60 (box NIL 0) (exampleCondNoneClauses.map Prod.fst)
      exampleCondNone.stateD exampleCondNoneValues exampleCondNone.stateD :=
    EvalArgs.cons (eval_other_tag decimalHost 59 (box NIL 0) _ _ l1 l2) (EvalArgs.nil _)
  have hvs : ∀ v, v ∈ exampleCondNoneValues → T v = NIL := by
    intro v hv
    rcases List.mem_cons.1 hv with h1 | hv
    · rw [h1]; exact l3
    · cases hv
  exact (cond_no_clause decimalHost 60 (box NIL 0) 60 exampleCondNone.valD (box NIL 0)
    (box NIL 0) exampleCondNoneClauses [] exampleCondNoneValues exampleCondNone.stateD
    exampleCondNone.stateD a1 l3 hea hvs a3 ((envSeg_nil_iff _ _ _ _).2 rfl) l2 rfl
    (by decide) (by decide)).1

/-! ## The reader -/

theorem cursor_input (input : GoString) (i : Nat) : (cursor input i).input = input := by
  unfold cursor; split <;> rfl

theorem cursor_ch (input : GoString) (i : Nat) : (cursor input i).ch = (input.drop i).headD 0 := by
  unfold cursor
  split
  · rename_i hi
    show input.getD i 0 = _
    rw [List.headD_eq_head?_getD, List.head?_drop, List.getD_eq_getElem?_getD]
  · rename_i hi
    rw [List.drop_eq_nil_of_le (by omega)]
    rfl

theorem cursor_new (input : GoString) : newInputParser input = cursor input 0 := by
  unfold newInputParser cursor InputParser.next
  simp only
  split <;> rename_i hi
  · rfl
  · have : input.length = 0 := by omega
    simp [this]

theorem cursor_next (input : GoString) (i : Nat) (hi : i < input.length) :
    (cursor input i).next = cursor input (i + 1) := by
  unfold cursor InputParser.next
  rw [if_pos hi]
  simp only
  by_cases h2 : i + 1 < input.length
  · rw [if_pos h2, if_pos h2]
  · rw [if_neg h2, if_neg h2]
    have : i + 1 = input.length := by omega
    simp [this]

theorem drop_lt {input : GoString} {i : Nat} {c : Nat} {rest : GoString}
    (hd : input.drop i = c :: rest) : i < input.length := by
  by_contra hn
  rw [List.drop_eq_nil_of_le (by omega)] at hd
  cases hd

theorem drop_step {input : GoString} {i : Nat} {pre rest : GoString}
    (hd : input.drop i = pre ++ rest) : input.drop (i + pre.length) = rest := by
  rw [← List.drop_drop, hd, List.drop_left]

theorem skipLoop_cursor (input : GoString) (rest : GoString)
    (hrest : ¬ (0 < rest.headD 0 ∧ rest.headD 0 ≤ 32)) :
    ∀ (ws : GoString) (i fuel : Nat), input.drop i = ws ++ rest →
      (∀ c, c ∈ ws → 0 < c ∧ c ≤ 32) → ws.length < fuel →
      skipLoop fuel (cursor input i) = cursor input (i + ws.length) := by
  intro ws
  induction ws with
  | nil =>
    intro i fuel hd _ hf
    obtain ⟨f, rfl⟩ : ∃ f, fuel = f + 1 := ⟨fuel - 1, by simp at hf; omega⟩
    unfold skipLoop
    rw [cursor_ch, hd, List.nil_append, if_neg hrest]
    rfl
  | cons c ws ih =>
    intro i fuel hd hws hf
    have hl := List.length_cons c ws
    obtain ⟨f, rfl⟩ : ∃ f, fuel = f + 1 := ⟨fuel - 1, by omega⟩
    have hi : i < input.length := drop_lt (by rw [hd]; rfl)
    have hc := hws c (List.mem_cons_self _ _)
    unfold skipLoop
    rw [cursor_ch, hd, List.cons_append, List.headD_cons, if_pos hc, cursor_next _ _ hi]
    have hd1 : input.drop (i + 1) = ws ++ rest := by
      have := drop_step (show input.drop i = [c] ++ (ws ++ rest) by rw [hd]; rfl)
      simpa using this
    rw [ih (i + 1) f hd1 (fun d hd2 => hws d (List.mem_cons_of_mem _ hd2)) (by omega)]
    congr 1
    omega

theorem skip_cursor (input ws rest : GoString) (i : Nat)
    (hd : input.drop i = ws ++ rest) (hws : ∀ c, c ∈ ws → 0 < c ∧ c ≤ 32)
    (hrest : ¬ (0 < rest.headD 0 ∧ rest.headD 0 ≤ 32)) :
    (cursor input i).skipWhitespace = cursor input (i + ws.length) := by
  unfold InputParser.skipWhitespace
  rw [cursor_input]
  apply skipLoop_cursor input rest hrest ws i _ hd hws
  have := congrArg List.length hd
  rw [List.length_drop, List.length_append] at this
  omega

theorem symChar_iff (c : Nat) :
    symChar c = true ↔ (32 < c ∧ c ≠ 40 ∧ c ≠ 41 ∧ c ≠ 39 ∧ c ≠ 0) := by
  unfold symChar
  simp only [Bool.and_eq_true, decide_eq_true_eq]
  constructor
  · rintro ⟨⟨⟨a, b⟩, c1⟩, d⟩
    exact ⟨a, b, c1, d, by omega⟩
  · rintro ⟨a, b, c1, d, _⟩
    exact ⟨⟨⟨a, b⟩, c1⟩, d⟩

theorem atomLoop_cursor (input : GoString) (rest : GoString)
    (hrest : symChar (rest.headD 0) = false) :
    ∀ (name : GoString) (i fuel : Nat), input.drop i = name ++ rest →
      (∀ c, c ∈ name → symChar c = true) → name.length < fuel →
      atomLoop fuel (cursor input i) = cursor input (i + name.length) := by
  intro name
  induction name with
  | nil =>
    intro i fuel hd _ hf
    obtain ⟨f, rfl⟩ : ∃ f, fuel = f + 1 := ⟨fuel - 1, by simp at hf; omega⟩
    unfold atomLoop
    have hn : ¬ (32 < rest.headD 0 ∧ rest.headD 0 ≠ 40 ∧ rest.headD 0 ≠ 41 ∧
        rest.headD 0 ≠ 39 ∧ rest.headD 0 ≠ 0) := by
      rw [← symChar_iff, hrest]; simp
    rw [cursor_ch, hd, List.nil_append, if_neg hn]
    rfl
  | cons c name ih =>
    intro i fuel hd hall hf
    have hl := List.length_cons c name
    obtain ⟨f, rfl⟩ : ∃ f, fuel = f + 1 := ⟨fuel - 1, by omega⟩
    have hi : i < input.length := drop_lt (by rw [hd]; rfl)
    have hc := (symChar_iff c).1 (hall c (List.mem_cons_self _ _))
    unfold atomLoop
    rw [cursor_ch, hd, List.cons_append, List.headD_cons, if_pos hc, cursor_next _ _ hi]
    have hd1 : input.drop (i + 1) = name ++ rest := by
      have := drop_step (show input.drop i = [c] ++ (name ++ rest) by rw [hd]; rfl)
      simpa using this
    rw [ih (i + 1) f hd1 (fun d hd2 => hall d (List.mem_cons_of_mem _ hd2)) (by omega)]
    congr 1
    omega

theorem symTok_iff (h : Host) (name : GoString) :
    symTok h name = true ↔
      (name ≠ [] ∧ (∀ c, c ∈ name → symChar c = true) ∧ h.parseFloat name = none) := by
  unfold symTok
  simp [List.all_eq_true, and_assoc]

/-- The end offset that `readAtom` computes at the parser state after a
token: the offset of the byte that follows the token. -/
theorem cursor_end (input rest : GoString) (j : Nat) (hd : input.drop j = rest)
    (hj : j ≤ input.length) (h0 : rest = [] ∨ rest.headD 0 ≠ 0) :
    (if (cursor input j).ch ≠ 0 then (cursor input j).pos - 1 else (cursor input j).pos) = j := by
  rw [cursor_ch, hd]
  rcases h0 with h0 | h0
  · subst h0
    have hlen := congrArg List.length hd
    rw [List.length_drop] at hlen
    simp only [List.length_nil] at hlen
    have : ¬ j < input.length := by omega
    simp only [List.headD_nil, ne_eq, not_true_eq_false, if_false]
    unfold cursor
    rw [if_neg this]
    show input.length = j
    omega
  · rw [if_pos h0]
    have hne : rest ≠ [] := by
      intro hr; subst hr; exact h0 rfl
    have : j < input.length := by
      by_contra hn
      rw [List.drop_eq_nil_of_le (by omega)] at hd
      exact hne hd.symm
    unfold cursor
    rw [if_pos this]
    show j + 1 - 1 = j
    omega

theorem readAtom_sym (h : Host) (input name rest : GoString) (i : Nat) (s : State)
    (hd : input.drop i = name ++ rest) (hname : symTok h name = true)
    (hrest : symChar (rest.headD 0) = false) (h0 : rest = [] ∨ rest.headD 0 ≠ 0) :
    (cursor input i).readAtom h s =
      (atom name >>= fun a => pure (a, cursor input (i + name.length))) s := by
  obtain ⟨hne, hall, hpf⟩ := (symTok_iff h name).1 hname
  obtain ⟨c, nm, rfl⟩ : ∃ c nm, name = c :: nm := by
    cases name with
    | nil => exact absurd rfl hne
    | cons c nm => exact ⟨c, nm, rfl⟩
  have hi : i < input.length := drop_lt (by rw [hd]; rfl)
  have hlen := congrArg List.length hd
  rw [List.length_drop, List.length_append] at hlen
  have hpos : (cursor input i).pos = i + 1 := by unfold cursor; rw [if_pos hi]
  have hloop : atomLoop (input.length + 1) (cursor input i)
      = cursor input (i + (c :: nm).length) :=
    atomLoop_cursor input rest hrest _ i _ hd hall (by omega)
  have hend := cursor_end input rest (i + (c :: nm).length) (drop_step hd) (by omega) h0
  have htake : (List.drop i input).take (c :: nm).length = c :: nm := by
    rw [hd, List.take_left]
  unfold InputParser.readAtom
  rw [if_neg (by rw [hpos]; omega)]
  simp only [cursor_input, hloop, hend, hpos]
  rw [if_neg (by omega)]
  have e1 : i + (c :: nm).length - (i + 1 - 1) = (c :: nm).length := by omega
  have e2 : i + 1 - 1 = i := by omega
  have htake2 : List.take (nm.length + 1) (List.drop i input) = c :: nm := htake
  have e3 : i + (nm.length + 1) - i = nm.length + 1 := by omega
  simp only [e2, List.length_cons, e3, htake2, hpf, Nat.zero_lt_succ, if_true]

theorem M_bind_assoc {α β γ : Type} (m : M α) (f : α → M β) (g : β → M γ) :
    (m >>= f) >>= g = m >>= fun a => f a >>= g := by
  funext s
  show M.bind (M.bind m f) g s = M.bind m (fun a => M.bind (f a) g) s
  simp only [M.bind]
  cases m s <;> rfl

theorem M_pure_bind {α β : Type} (v : α) (f : α → M β) : (pure v >>= f) = f v := rfl

theorem not_space_of_sym {c : Nat} (h : symChar c = true) : ¬ (0 < c ∧ c ≤ 32) := by
  have := (symChar_iff c).1 h
  omega

theorem readExpr_sym (h : Host) (input name rest : GoString) (i k : Nat)
    (hd : input.drop i = name ++ rest) (hname : symTok h name = true)
    (hrest : symChar (rest.headD 0) = false) (h0 : rest = [] ∨ rest.headD 0 ≠ 0) :
    readGen h (k + 1) false (cursor input i) =
      atom name >>= fun a => pure (a, cursor input (i + name.length)) := by
  funext s
  obtain ⟨hne, hall, _⟩ := (symTok_iff h name).1 hname
  obtain ⟨c, nm, rfl⟩ : ∃ c nm, name = c :: nm := by
    cases name with
    | nil => exact absurd rfl hne
    | cons c nm => exact ⟨c, nm, rfl⟩
  have hc := hall c (List.mem_cons_self _ _)
  have hc2 := (symChar_iff c).1 hc
  have hskip : (cursor input i).skipWhitespace = cursor input i :=
    skip_cursor input [] (c :: nm ++ rest) i hd (fun _ hx => by cases hx)
      (by rw [List.cons_append, List.headD_cons]; exact not_space_of_sym hc)
  have hch : (cursor input i).ch = c := by rw [cursor_ch, hd]; rfl
  show readExprBody h (readGen h k true) (readGen h k false) (cursor input i) s = _
  unfold readExprBody
  simp only [hskip, hch]
  rw [if_neg (by omega), if_neg (by omega), if_neg (by omega)]
  exact readAtom_sym h input (c :: nm) rest i s hd hname hrest h0

theorem readExpr_open (h : Host) (input rest : GoString) (i k : Nat)
    (hd : input.drop i = 40 :: rest) :
    readGen h (k + 1) false (cursor input i) = readGen h k true (cursor input (i + 1)) := by
  funext s
  have hskip : (cursor input i).skipWhitespace = cursor input i :=
    skip_cursor input [] (40 :: rest) i hd (fun _ hx => by cases hx)
      (by rw [List.headD_cons]; omega)
  have hch : (cursor input i).ch = 40 := by rw [cursor_ch, hd]; rfl
  show readExprBody h (readGen h k true) (readGen h k false) (cursor input i) s = _
  unfold readExprBody
  simp only [hskip, hch]
  rw [if_neg (by decide)]
  simp only [if_true]
  rw [cursor_next _ _ (drop_lt hd)]

theorem readExpr_quote (h : Host) (input rest : GoString) (i k : Nat)
    (hd : input.drop i = 39 :: rest) :
    readGen h (k + 1) false (cursor input i) =
      (do let q ← atom (bytes "quote")
          let (x, p2) ← readGen h k false (cursor input (i + 1))
          let nl := (← getS).nilv
          let tl ← cons x nl
          let r ← cons q tl
          pure (r, p2)) := by
  funext s
  have hskip : (cursor input i).skipWhitespace = cursor input i :=
    skip_cursor input [] (39 :: rest) i hd (fun _ hx => by cases hx)
      (by rw [List.headD_cons]; omega)
  have hch : (cursor input i).ch = 39 := by rw [cursor_ch, hd]; rfl
  show readExprBody h (readGen h k true) (readGen h k false) (cursor input i) s = _
  unfold readExprBody
  simp only [hskip, hch]
  simp only [if_true]
  rw [cursor_next _ _ (drop_lt hd)]
  rfl

theorem readList_close (h : Host) (input ws rest : GoString) (i k : Nat)
    (hd : input.drop i = ws ++ 41 :: rest) (hws : ∀ c, c ∈ ws → 0 < c ∧ c ≤ 32) (s : State) :
    readGen h (k + 1) true (cursor input i) s =
      Res.ok (s.nilv, cursor input (i + ws.length + 1)) s := by
  have hskip : (cursor input i).skipWhitespace = cursor input (i + ws.length) :=
    skip_cursor input ws (41 :: rest) i hd hws (by rw [List.headD_cons]; omega)
  have hd2 := drop_step hd
  have hch : (cursor input (i + ws.length)).ch = 41 := by rw [cursor_ch, hd2]; rfl
  show readListBody (readGen h k false) (readGen h k true) (cursor input i) s = _
  unfold readListBody
  simp only [hskip, hch]
  simp only [if_true]
  rw [cursor_next _ _ (drop_lt hd2)]
  rfl

theorem readList_elem (h : Host) (input ws n rest : GoString) (i k : Nat)
    (hd : input.drop i = ws ++ (n ++ rest)) (hws : ∀ c, c ∈ ws → 0 < c ∧ c ≤ 32)
    (hn : symTok h n = true) (hdot : n.headD 0 ≠ 46)
    (hrest : symChar (rest.headD 0) = false) (h0 : rest = [] ∨ rest.headD 0 ≠ 0) :
    readGen h (k + 2) true (cursor input i) =
      (do let a ← atom n
          let (r, p3) ← readGen h (k + 1) true (cursor input (i + ws.length + n.length))
          let c ← cons a r
          pure (c, p3)) := by
  funext s
  obtain ⟨hne, hall, _⟩ := (symTok_iff h n).1 hn
  obtain ⟨c, nm, rfl⟩ : ∃ c nm, n = c :: nm := by
    cases n with
    | nil => exact absurd rfl hne
    | cons c nm => exact ⟨c, nm, rfl⟩
  have hc := hall c (List.mem_cons_self _ _)
  have hc2 := (symChar_iff c).1 hc
  have hskip : (cursor input i).skipWhitespace = cursor input (i + ws.length) :=
    skip_cursor input ws (c :: nm ++ rest) i hd hws
      (by rw [List.cons_append, List.headD_cons]; exact not_space_of_sym hc)
  have hd2 := drop_step hd
  have hch : (cursor input (i + ws.length)).ch = c := by rw [cursor_ch, hd2]; rfl
  have hdot2 : c ≠ 46 := hdot
  show readListBody (readGen h (k + 1) false) (readGen h (k + 1) true) (cursor input i) s = _
  unfold readListBody
  simp only [hskip, hch]
  rw [if_neg (by omega), if_neg (by omega), if_neg hdot2,
    readExpr_sym h input (c :: nm) rest (i + ws.length) k hd2 hn hrest h0, M_bind_assoc]
  rfl

theorem readList_dot (h : Host) (input ws ws2 b rest : GoString) (i k : Nat)
    (hd : input.drop i = ws ++ 46 :: (ws2 ++ (b ++ 41 :: rest)))
    (hws : ∀ c, c ∈ ws → 0 < c ∧ c ≤ 32) (hws2 : ∀ c, c ∈ ws2 → 0 < c ∧ c ≤ 32)
    (hb : symTok h b = true) :
    readGen h (k + 2) true (cursor input i) =
      atom b >>= fun y =>
        pure (y, cursor input (i + ws.length + 1 + ws2.length + b.length + 1)) := by
  funext s
  obtain ⟨hne, hall, _⟩ := (symTok_iff h b).1 hb
  obtain ⟨c, nm, rfl⟩ : ∃ c nm, b = c :: nm := by
    cases b with
    | nil => exact absurd rfl hne
    | cons c nm => exact ⟨c, nm, rfl⟩
  have hc := hall c (List.mem_cons_self _ _)
  have hskip : (cursor input i).skipWhitespace = cursor input (i + ws.length) :=
    skip_cursor input ws _ i hd hws (by rw [List.headD_cons]; omega)
  have hd2 := drop_step hd
  have hch : (cursor input (i + ws.length)).ch = 46 := by rw [cursor_ch, hd2]; rfl
  have hd3 : input.drop (i + ws.length + 1) = ws2 ++ (c :: nm ++ 41 :: rest) := by
    have := drop_step (show input.drop (i + ws.length) = [46] ++ _ from hd2)
    simpa using this
  have hskip2 : (cursor input (i + ws.length + 1)).skipWhitespace
      = cursor input (i + ws.length + 1 + ws2.length) :=
    skip_cursor input ws2 _ _ hd3 hws2
      (by rw [List.cons_append, List.headD_cons]; exact not_space_of_sym hc)
  have hd4 := drop_step hd3
  have hd5 := drop_step hd4
  have hskip3 : (cursor input (i + ws.length + 1 + ws2.length + (c :: nm).length)).skipWhitespace
      = cursor input (i + ws.length + 1 + ws2.length + (c :: nm).length) :=
    skip_cursor input [] _ _ hd5 (fun _ hx => by cases hx) (by rw [List.headD_cons]; omega)
  have hch5 : (cursor input (i + ws.length + 1 + ws2.length + (c :: nm).length)).ch = 41 := by
    rw [cursor_ch, hd5]; rfl
  show readListBody (readGen h (k + 1) false) (readGen h (k + 1) true) (cursor input i) s = _
  unfold readListBody
  simp only [hskip, hch]
  simp only [if_true]
  rw [cursor_next _ _ (drop_lt hd2), hskip2,
    readExpr_sym h input (c :: nm) (41 :: rest) _ k hd4 hb (by rw [List.headD_cons]; decide)
      (Or.inr (by rw [List.headD_cons]; omega)), M_bind_assoc]
  simp only [M_pure_bind, hskip3, hch5, if_true, cursor_next _ _ (drop_lt hd5)]
  rw [if_neg (by decide), if_neg (by decide)]

theorem elemsText_head (ns : List GoString) (rest : GoString) :
    symChar ((elemsText [32] ns ++ rest).headD 0) = false ∧
      (elemsText [32] ns ++ rest).headD 0 ≠ 0 := by
  cases ns with
  | nil => exact ⟨(by decide : symChar 41 = false), (by decide : (41 : Nat) ≠ 0)⟩
  | cons n ns => exact ⟨(by decide : symChar 32 = false), (by decide : (32 : Nat) ≠ 0)⟩

theorem interns_consts {ns : List GoString} {as : List Nat} {s sA : State}
    (hin : Interns ns s as sA) :
    sA.nilv = s.nilv ∧ sA.sp = s.sp ∧ sA.cell = s.cell ∧ sA.env = s.env := by
  induction hin with
  | nil s => exact ⟨rfl, rfl, rfl, rfl⟩
  | cons hat _ ih =>
    rcases atom_ok_shape _ _ _ _ hat with h1 | ⟨_, h1⟩
    · subst h1; exact ih
    · rw [h1] at ih; exact ih

theorem readList_elems (h : Host) (input rest : GoString) :
    ∀ (ns : List GoString) (sep : GoString) (as : List Nat) (i k : Nat) (s sA : State),
      (∀ c, c ∈ sep → 0 < c ∧ c ≤ 32) →
      input.drop i = elemsText sep ns ++ rest →
      (∀ n, n ∈ ns → symTok h n = true ∧ n.headD 0 ≠ 46) →
      Interns ns s as sA →
      2 * ns.length ≤ sA.sp → sA.sp ≤ N → sA.hp ≤ (sA.sp - 2 * ns.length) * 8 →
      ns.length < k →
      ∃ v s1, readGen h k true (cursor input i) s
          = Res.ok (v, cursor input (i + (elemsText sep ns).length)) s1 ∧
        listSeg s1 s1.sp v as sA.nilv = true ∧
        s1.sp = sA.sp - 2 * ns.length ∧
        (∀ j, sA.sp ≤ j → s1.cell j = sA.cell j) ∧
        s1.hp = sA.hp ∧ s1.A = sA.A ∧ s1.env = sA.env ∧ s1.nilv = sA.nilv := by
  intro ns
  induction ns with
  | nil =>
    intro sep as i k s sA _ hd _ hin _ _ _ hk
    cases hin
    obtain ⟨m, rfl⟩ : ∃ m, k = m + 1 := ⟨k - 1, by simp at hk; omega⟩
    refine ⟨s.nilv, s, ?_, by simp [listSeg], by simp, fun _ _ => rfl, rfl, rfl, rfl, rfl⟩
    exact readList_close h input [] rest i m hd (fun _ hx => by cases hx) s
  | cons n ns ih =>
    intro sep as i k s sA hsep hd hns hin hroom hN hhp hk
    cases hin with
    | cons hat hrest =>
      rename_i a as s1
      have hl := List.length_cons n ns
      obtain ⟨m, rfl⟩ : ∃ m, k = m + 2 := ⟨k - 2, by omega⟩
      obtain ⟨hn1, hn2⟩ := hns n (List.mem_cons_self _ _)
      obtain ⟨t1, t2⟩ := elemsText_head ns rest
      have hd0 : input.drop i = sep ++ (n ++ (elemsText [32] ns ++ rest)) := by
        rw [hd]; simp [elemsText, List.append_assoc]
      have hd1 : input.drop (i + sep.length + n.length) = elemsText [32] ns ++ rest :=
        drop_step (drop_step hd0)
      obtain ⟨r, s3, hr, hseg, hsp, hcell, hhp3, hA3, henv3, hnil3⟩ :=
        ih [32] as (i + sep.length + n.length) (m + 1) s1 sA (by decide) hd1
          (fun x hx => hns x (List.mem_cons_of_mem _ hx)) hrest (by omega) hN
          (le_trans hhp (Nat.mul_le_mul_right 8 (by omega))) (by omega)
      have hc : cons a r s3 = Res.ok (box CONS (s3.sp - 2))
          { s3 with cell := upd (upd s3.cell (s3.sp - 1) a) (s3.sp - 2) r, sp := s3.sp - 2 } :=
        (cons_ok_iff a r s3 _ _).2 ⟨by omega, by omega, by
          rw [hhp3, hsp]
          have : sA.sp - 2 * ns.length - 2 = sA.sp - 2 * (n :: ns).length := by omega
          rw [this]; exact hhp, rfl, rfl⟩
      have hNN := N_lt
      have hfr3 : ∀ j, s3.sp ≤ j →
          (upd (upd s3.cell (s3.sp - 1) a) (s3.sp - 2) r) j = s3.cell j := by
        intro j hj
        rw [upd_other _ _ (by omega), upd_other _ _ (by omega)]
      have hlen : i + (elemsText sep (n :: ns)).length
          = i + sep.length + n.length + (elemsText [32] ns).length := by
        simp [elemsText, List.length_append]; omega
      refine ⟨box CONS (s3.sp - 2),
        { s3 with cell := upd (upd s3.cell (s3.sp - 1) a) (s3.sp - 2) r, sp := s3.sp - 2 },
        ?_, ?_, ?_, ?_, hhp3, hA3, henv3, hnil3⟩
      · rw [readList_elem h input sep n _ i m hd0 hsep hn1 hn2 t1 (Or.inr t2),
          run_bind_ok hat, run_bind_ok hr]
        simp only
        rw [run_bind_ok hc, hlen]
        rfl
      · rw [listSeg_cons_iff]
        have ho : ord (box CONS (s3.sp - 2)) = s3.sp - 2 := ord_box (by decide) (by omega)
        rw [ho]
        refine ⟨cellOk_box (le_refl _) (by omega), ?_, ?_⟩
        · show upd (upd s3.cell (s3.sp - 1) a) (s3.sp - 2) r (s3.sp - 2 + 1) = a
          have e1 : s3.sp - 2 + 1 = s3.sp - 1 := by omega
          rw [e1, upd_other _ _ (by omega), upd_same]
        · have e2 : upd (upd s3.cell (s3.sp - 1) a) (s3.sp - 2) r (s3.sp - 2) = r := upd_same _ _ _
          show listSeg _ (s3.sp - 2) (upd (upd s3.cell (s3.sp - 1) a) (s3.sp - 2) r (s3.sp - 2))
            as sA.nilv = true
          rw [e2]
          apply listSeg_mono _ (show s3.sp - 2 ≤ s3.sp by omega)
          exact listSeg_frame s3 _ s3.sp hfr3 _ _ _ hseg
      · show s3.sp - 2 = _
        omega
      · intro j hj
        show upd (upd s3.cell (s3.sp - 1) a) (s3.sp - 2) r j = _
        rw [hfr3 j (by omega), hcell j hj]

theorem read_nil (h : Host) (k : Nat) (s : State) :
    (newInputParser (bytes "()")).readExpr h (k + 2) s
      = Res.ok (s.nilv, cursor (bytes "()") 2) s := by
  rw [cursor_new]
  show readGen h (k + 2) false (cursor (bytes "()") 0) s = _
  rw [readExpr_open h (bytes "()") [41] 0 (k + 1) rfl]
  exact readList_close h (bytes "()") [] [] 1 k rfl (fun _ hx => by cases hx) s

theorem read_list (h : Host) (names : List GoString) (as : List Nat) (k : Nat) (s sA : State)
    (hnames : ∀ n, n ∈ names → symTok h n = true ∧ n.headD 0 ≠ 46)
    (hin : Interns names s as sA)
    (h1 : 2 * names.length ≤ sA.sp) (h2 : sA.sp ≤ N)
    (h3 : sA.hp ≤ (sA.sp - 2 * names.length) * 8) (hk : names.length + 1 < k) :
    ∃ v s1, (newInputParser (listText names)).readExpr h k s
        = Res.ok (v, cursor (listText names) (listText names).length) s1 ∧
      listSeg s1 s1.sp v as s.nilv = true ∧
      s1.sp = sA.sp - 2 * names.length ∧
      (∀ j, sA.sp ≤ j → s1.cell j = sA.cell j) ∧ s1.hp = sA.hp ∧ s1.A = sA.A := by
  obtain ⟨m, rfl⟩ : ∃ m, k = m + 1 := ⟨k - 1, by omega⟩
  have hd : (listText names).drop (0 + 1) = elemsText [] names ++ [] := by
    simp [listText]
  obtain ⟨v, s1, hr, hseg, hsp, hcell, hhp, hA, _, _⟩ :=
    readList_elems h (listText names) [] names [] as (0 + 1) m s sA
      (fun _ hx => by cases hx) hd hnames hin h1 h2 h3 (by omega)
  refine ⟨v, s1, ?_, ?_, hsp, hcell, hhp, hA⟩
  · rw [cursor_new]
    show readGen h (m + 1) false (cursor (listText names) 0) s = _
    rw [readExpr_open h (listText names) (elemsText [] names) 0 m rfl, hr]
    have : 0 + 1 + (elemsText [] names).length = (listText names).length := by
      simp [listText]; omega
    rw [this]
  · rw [← (interns_consts hin).1]; exact hseg

theorem read_dotted (h : Host) (gap a b : GoString) (k : Nat)
    (hgap : ∀ c, c ∈ gap → 0 < c ∧ c ≤ 32)
    (ha : symTok h a = true) (hdot : a.headD 0 ≠ 46) (hb : symTok h b = true) :
    (newInputParser (dotText gap a b)).readExpr h (k + 4) =
      (do let x ← atom a
          let y ← atom b
          let r ← cons x y
          pure (r, cursor (dotText gap a b) (dotText gap a b).length)) := by
  rw [cursor_new]
  show readGen h (k + 4) false (cursor (dotText gap a b) 0) = _
  have hd1 : (dotText gap a b).drop (0 + 1) = [] ++ (a ++ (32 :: 46 :: (gap ++ (b ++ [41])))) := by
    simp [dotText]
  have hd2 : (dotText gap a b).drop (0 + 1 + ([] : GoString).length + a.length)
      = [32] ++ 46 :: (gap ++ (b ++ 41 :: [])) := drop_step (drop_step hd1)
  rw [readExpr_open h (dotText gap a b) _ 0 (k + 3) rfl,
    readList_elem h (dotText gap a b) [] a _ (0 + 1) (k + 1) hd1 (fun _ hx => by cases hx) ha hdot
      (show symChar 32 = false by decide) (Or.inr (show (32 : Nat) ≠ 0 by decide)),
    readList_dot h (dotText gap a b) [32] gap b [] _ k hd2 (by decide) hgap hb]
  have hlen : 0 + 1 + ([] : GoString).length + a.length + ([32] : GoString).length + 1
      + gap.length + b.length + 1 = (dotText gap a b).length := by
    simp [dotText, List.length_append]; omega
  rw [hlen]
  simp only [M_bind_assoc, M_pure_bind]

theorem read_quoted (h : Host) (x : GoString) (k : Nat) (hx : symTok h x = true) :
    (newInputParser (39 :: x)).readExpr h (k + 2) =
      (do let q ← atom (bytes "quote")
          let v ← atom x
          let tl ← cons v (← getS).nilv
          let r ← cons q tl
          pure (r, cursor (39 :: x) (x.length + 1))) := by
  rw [cursor_new]
  show readGen h (k + 2) false (cursor (39 :: x) 0) = _
  have hd1 : (39 :: x).drop (0 + 1) = x ++ [] := by simp
  rw [readExpr_quote h (39 :: x) x 0 (k + 1) rfl,
    readExpr_sym h (39 :: x) x [] (0 + 1) k hd1 hx (show symChar 0 = false by decide)
      (Or.inl rfl)]
  have : 0 + 1 + x.length = x.length + 1 := by omega
  rw [this]
  simp only [M_bind_assoc, M_pure_bind]

/-- C31 (amended): what `readExpr` returns, in any state `s` and with
any fuel `k` of at least four more than the number of names.  (1) The
text `()` is read as `nilv`, without a change of state.  (2) Let `names`
be symbol tokens, none starting with a dot, whose interning by `atom`,
one after the other, returns the atoms `as` and leaves the state `sA`,
with room for two cells per name; then the text `(n1 .. nk)` is read as a
chain of `k` fresh cells whose cars are `as` in textual order and whose
last cdr is `nilv`; the cells above the old watermark and the byte region
are as interning left them.  (3) For symbol tokens `a` (not starting with
a dot) and `b`, reading `(a . b)` is the run of `atom(a)`, `atom(b)` and
one `cons` of the two atoms.  (4) For a symbol token `x`, reading the
quote character followed by `x` is the run of `atom("quote")`, `atom(x)`,
`cons(x, nilv)` and `cons(quote, ...)` of the result.  In (3) and (4) the
reader and the listed calls have the same outcome in every state,
failures included. -/
theorem read_shapes (h : Host) (names : List GoString) (a b x : GoString) (as : List Nat)
    (k : Nat) (s sA : State)
    (hnames : ∀ n, n ∈ names → symTok h n = true ∧ n.headD 0 ≠ 46)
    (hin : Interns names s as sA)
    (hroom : 2 * names.length ≤ sA.sp ∧ sA.sp ≤ N ∧ sA.hp ≤ (sA.sp - 2 * names.length) * 8)
    (ha : symTok h a = true ∧ a.headD 0 ≠ 46) (hb : symTok h b = true)
    (hx : symTok h x = true) (hk : names.length + 4 ≤ k) :
    (newInputParser (bytes "()")).readExpr h k s = Res.ok (s.nilv, cursor (bytes "()") 2) s ∧
    (∃ v s1, (newInputParser (listText names)).readExpr h k s
        = Res.ok (v, cursor (listText names) (listText names).length) s1 ∧
      listSeg s1 s1.sp v as s.nilv = true ∧
      s1.sp = sA.sp - 2 * names.length ∧
      (∀ j, sA.sp ≤ j → s1.cell j = sA.cell j) ∧ s1.hp = sA.hp ∧ s1.A = sA.A) ∧
    (newInputParser (dotText [32] a b)).readExpr h k =
      (do let xa ← atom a
          let xb ← atom b
          let r ← cons xa xb
          pure (r, cursor (dotText [32] a b) (dotText [32] a b).length)) ∧
    (newInputParser (39 :: x)).readExpr h k =
      (do let q ← atom (bytes "quote")
          let v ← atom x
          let tl ← cons v (← getS).nilv
          let r ← cons q tl
          pure (r, cursor (39 :: x) (x.length + 1))) := by
  obtain ⟨m, rfl⟩ : ∃ m, k = m + 4 := ⟨k - 4, by omega⟩
  refine ⟨read_nil h (m + 2) s, ?_, ?_, read_quoted h x (m + 2) hx⟩
  · exact read_list h names as (m + 4) s sA hnames hin hroom.1 hroom.2.1 hroom.2.2 (by omega)
  · exact read_dotted h [32] a b m (by decide) ha.1 ha.2 hb

/-- Witness for C31 (amended): after start-up, without number syntax: the names
`a`, `b` of the text `(a b)`, the pair `(a . b)` and the quoted symbol
`hello` of `TestParsingQuotes`. -/
theorem read_shapes_witness :
    (newInputParser (bytes "()")).readExpr noHost 60 exampleInit.stateD
      = Res.ok (exampleInit.stateD.nilv, cursor (bytes "()") 2) exampleInit.stateD ∧
    (∃ v s1, (newInputParser (listText exampleNames)).readExpr noHost 60 exampleInit.stateD
        = Res.ok (v, cursor (listText exampleNames) (listText exampleNames).length) s1 ∧
      listSeg s1 s1.sp v exampleAtoms exampleInit.stateD.nilv = true ∧
      s1.sp = exampleAtomB.stateD.sp - 2 * exampleNames.length ∧
      (∀ j, exampleAtomB.stateD.sp ≤ j → s1.cell j = exampleAtomB.stateD.cell j) ∧
      s1.hp = exampleAtomB.stateD.hp ∧ s1.A = exampleAtomB.stateD.A) ∧
    (newInputParser (dotText [32] (bytes "a") (bytes "b"))).readExpr noHost 60 =
      (do let xa ← atom (bytes "a")
          let xb ← atom (bytes "b")
          let r ← cons xa xb
          pure (r, cursor (dotText [32] (bytes "a") (bytes "b"))
            (dotText [32] (bytes "a") (bytes "b")).length)) ∧
    (newInputParser (39 :: bytes "hello")).readExpr noHost 60 =
      (do let q ← atom (bytes "quote")
          let v ← atom (bytes "hello")
          let tl ← cons v (← getS).nilv
          let r ← cons q tl
          pure (r, cursor (39 :: bytes "hello") ((bytes "hello").length + 1))) := by
  have facts := runs_reader.1
  obtain ⟨f1, f2, f3, f4, f5, f6, f7⟩ := facts
  have h1 : atom (bytes "a") exampleInit.stateD = Res.ok (box ATOM 93) exampleAtomA.stateD :=
    Res.eq_ok_of_val f1
  have h2 : atom (bytes "b") exampleAtomA.stateD = Res.ok (box ATOM 95) exampleAtomB.stateD :=
    Res.eq_ok_of_val f2
  have hin : Interns exampleNames exampleInit.stateD exampleAtoms exampleAtomB.stateD :=
    Interns.cons h1 (Interns.cons h2 (Interns.nil _))
  have hnames : ∀ n, n ∈ exampleNames → symTok noHost n = true ∧ n.headD 0 ≠ 46 := by
    intro n hn
    rcases List.mem_cons.1 hn with e1 | hn
    · rw [e1]; exact f4
    · rcases List.mem_cons.1 hn with e2 | hn
      · rw [e2]; exact f5
      · cases hn
  exact read_shapes noHost exampleNames (bytes "a") (bytes "b") (bytes "hello") exampleAtoms 60
    exampleInit.stateD exampleAtomB.stateD hnames hin f3 f4 f5.1 f6 f7

/-- C31 (counterexample): `a` and `.b` are symbol tokens (read on their
own, each is interned under its name), and the text `(a .b)` is the
parenthesised sequence of the two; after start-up `readExpr` returns for
it a pair whose cdr is not a pair, so the value is not a list of two
elements, whatever the elements and the end of the list. -/
theorem read_shapes_counterexample :
    symTok noHost (bytes "a") = true ∧ symTok noHost (bytes ".b") = true ∧
      listText [bytes "a", bytes ".b"] = bytes "(a .b)" ∧
      (exampleRead ".b").val.map Prod.fst = some (box ATOM 93) ∧
      sliceA (exampleRead ".b").stateD.A 93 95 = bytes ".b" ∧
      (exampleRead "(a .b)").val.map Prod.fst = some (box CONS 1958) ∧
      (∀ x1 x2 tl,
        listSeg (exampleRead "(a .b)").stateD 0 (box CONS 1958) [x1, x2] tl = false) := by
  have facts := runs_reader.2.1
  obtain ⟨f1, f2, f3, f4, f5, f6, f7⟩ := facts
  refine ⟨f1, f2, f3, f4, f5, f6, ?_⟩
  intro x1 x2 tl
  rw [Bool.eq_false_iff]
  intro hl
  obtain ⟨_, _, h3⟩ := (listSeg_cons_iff _ _ _ _ _ _).1 hl
  obtain ⟨h4, _, _⟩ := (listSeg_cons_iff _ _ _ _ _ _).1 h3
  rw [f7] at h4
  cases h4

/-- C36: `readList` at an element that starts with a dot.  (1) Whenever
the current character after the white space is a dot, `readList` drops
it, skips white space, reads one expression with `readExpr` and returns
it as the tail, consuming a closing parenthesis if one follows.  (2) For
symbol tokens `a` (not starting with a dot) and `b`, reading the text
`(a .b)` is the run of `atom(a)`, `atom(b)` and one `cons` of the two
atoms, the same calls as for `(a . b)`: the name that is interned is `b`,
without the dot.  (3) After start-up both `(a .b)` and `(a . b)` are read
as the same pair, whose car is the atom `a` and whose cdr is the atom
`b`, stored at offset 95 as the single byte `b`; the two-element list
`(a b)` is another value. -/
theorem dot_marker (h : Host) (a b : GoString) (k : Nat) (p : InputParser)
    (hp : p.skipWhitespace.ch = 46)
    (ha : symTok h a = true ∧ a.headD 0 ≠ 46) (hb : symTok h b = true) (hk : 4 ≤ k) :
    p.readList h (k + 1) =
      (do let (r, p2) ← (p.skipWhitespace.next.skipWhitespace).readExpr h k
          let p3 := p2.skipWhitespace
          if p3.ch = 41 then pure (r, p3.next) else pure (r, p3)) ∧
    (newInputParser (dotText [] a b)).readExpr h k =
      (do let xa ← atom a
          let xb ← atom b
          let r ← cons xa xb
          pure (r, cursor (dotText [] a b) (dotText [] a b).length)) ∧
    ((exampleRead "(a .b)").val.map Prod.fst = some (box CONS 1958) ∧
      (exampleRead "(a .b)").stateD.cell 1959 = box ATOM 93 ∧
      (exampleRead "(a .b)").stateD.cell 1958 = box ATOM 95 ∧
      sliceA (exampleRead "(a .b)").stateD.A 93 94 = bytes "a" ∧
      sliceA (exampleRead "(a .b)").stateD.A 95 96 = bytes "b" ∧
      (exampleRead "(a .b)").stateD.hp = 97 ∧
      (exampleRead "(a . b)").val.map Prod.fst = some (box CONS 1958) ∧
      (exampleRead "(a . b)").stateD.cell 1959 = box ATOM 93 ∧
      (exampleRead "(a . b)").stateD.cell 1958 = box ATOM 95 ∧
      (exampleRead "(a b)").val.map Prod.fst = some (box CONS 1956)) := by
  obtain ⟨m, rfl⟩ : ∃ m, k = m + 4 := ⟨k - 4, by omega⟩
  refine ⟨?_, read_dotted h [] a b m (fun _ hx => by cases hx) ha.1 ha.2 hb, runs_reader.2.2.1⟩
  funext s
  show readListBody (readGen h (m + 4) false) (readGen h (m + 4) true) p s = _
  unfold readListBody
  simp only [hp]
  rw [if_neg (by decide), if_neg (by decide)]
  simp only [if_true]
  rfl

/-- Witness for C36: the parser at the text `.b)`, and the tokens `a`
and `b`. -/
theorem dot_marker_witness :
    (newInputParser (bytes ".b)")).readList noHost (60 + 1) =
      (do let (r, p2) ←
            ((newInputParser (bytes ".b)")).skipWhitespace.next.skipWhitespace).readExpr noHost 60
          let p3 := p2.skipWhitespace
          if p3.ch = 41 then pure (r, p3.next) else pure (r, p3)) ∧
    (newInputParser (dotText [] (bytes "a") (bytes "b"))).readExpr noHost 60 =
      (do let xa ← atom (bytes "a")
          let xb ← atom (bytes "b")
          let r ← cons xa xb
          pure (r, cursor (dotText [] (bytes "a") (bytes "b"))
            (dotText [] (bytes "a") (bytes "b")).length)) := by
  have facts := runs_reader.2.2.2
  have r := dot_marker noHost (bytes "a") (bytes "b") 60 (newInputParser (bytes ".b)"))
    facts.1 facts.2.1 facts.2.2 (by decide)
  exact ⟨r.1, r.2.1⟩

/-! ## References point upward: the cells reachable from the global environment -/

theorem or_eight (t : Nat) : t ||| 8 = if (t / 8) % 2 = 1 then t else t + 8 := by
  have hb : t % 16 < 16 := Nat.mod_lt _ (by decide)
  have h1 : t = 2 ^ 4 * (t / 16) + t % 16 := by omega
  have h2 : (t % 16 ||| 8) < 2 ^ 4 := Nat.or_lt_two_pow hb (by decide)
  have h3 : t ||| 8 = 2 ^ 4 * (t / 16) + (t % 16 ||| 8) := by
    rw [Nat.mul_add_lt_is_or h2]
    conv_lhs => rw [h1, Nat.mul_add_lt_is_or hb, Nat.or_assoc]
  have h4 : (t % 16 ||| 8) = if t % 16 < 8 then t % 16 + 8 else t % 16 := by
    generalize t % 16 = b at hb
    interval_cases b <;> decide
  rw [h3, h4]
  split <;> split <;> omega

theorem T_fquiet (v : Nat) : T (fquiet v) = T v ||| 8 := by
  unfold T fquiet
  apply Nat.eq_of_testBit_eq
  intro i
  have h8 : (8 : Nat) = 2 ^ 51 >>> 48 := by decide
  rw [h8]
  simp only [Nat.testBit_shiftRight, Nat.testBit_or]

theorem ord_fquiet (v : Nat) : ord (fquiet v) = ord v := by
  unfold ord fquiet
  rw [Nat.and_distrib_right]
  have : (2 ^ 51 : Nat) &&& 0xFFFFFFFFFFFF = 0 := by decide
  rw [this, Nat.or_zero]

theorem fquiet_idem (v : Nat) : fquiet (fquiet v) = fquiet v := by
  unfold fquiet
  rw [Nat.or_assoc, Nat.or_self]

theorem fquiet_lt {v : Nat} (h : v < 2 ^ 64) : fquiet v < 2 ^ 64 :=
  Nat.or_lt_two_pow h (by decide)

theorem pairLike_tag {v : Nat} (hv : v < 2 ^ 64) (h : isPairTag (fquiet v) = true) :
    T v = 0x7ff2 ∨ T v = 0x7ff3 ∨ T v = 0x7ffa ∨ T v = 0x7ffb := by
  have h1 := (isPairTag_iff (fquiet_lt hv)).1 h
  rw [T_fquiet, or_eight] at h1
  unfold CONS CLOS at h1
  split at h1 <;> omega

theorem isPairTag_fquiet {v : Nat} (hv : v < 2 ^ 64) (h : isPairTag v = true) :
    isPairTag (fquiet v) = true := by
  have h1 := (isPairTag_iff hv).1 h
  rw [isPairTag_iff (fquiet_lt hv), T_fquiet, or_eight]
  unfold CONS CLOS at *
  split <;> omega

theorem goodAt_mono {lo lo2 v : Nat} (h : lo2 ≤ lo) (hv : GoodAt lo v) : GoodAt lo2 v :=
  ⟨hv.1, fun hp => ⟨le_trans h (hv.2 hp).1, (hv.2 hp).2⟩⟩

theorem goodAt_of_tag {lo v : Nat} (hv : v < 2 ^ 64)
    (ht : T v ≠ 0x7ff2 ∧ T v ≠ 0x7ff3 ∧ T v ≠ 0x7ffa ∧ T v ≠ 0x7ffb) : GoodAt lo v := by
  refine ⟨hv, fun hp => ?_⟩
  have := pairLike_tag hv hp
  omega

theorem goodAt_small {lo v : Nat} (hv : v ≤ fposInf) : GoodAt lo v := by
  unfold fposInf at hv
  apply goodAt_of_tag (by omega)
  unfold T
  rw [Nat.shiftRight_eq_div_pow]
  omega

theorem goodAt_neg {lo v : Nat} (h1 : 2 ^ 63 ≤ v) (h2 : v < 2 ^ 64) : GoodAt lo v := by
  apply goodAt_of_tag h2
  unfold T
  rw [Nat.shiftRight_eq_div_pow]
  omega

theorem goodAt_box {lo t i : Nat} (ht : t = ATOM ∨ t = PRIM ∨ t = NIL) (hi : i < 2 ^ 48) :
    GoodAt lo (box t i) := by
  have hlt : t < 2 ^ 16 := by rcases ht with h | h | h <;> subst h <;> decide
  apply goodAt_of_tag (box_lt hlt hi)
  rw [T_box hlt hi]
  rcases ht with h | h | h <;> subst h <;> decide

theorem goodAt_ref {lo t o : Nat} (ht : t = CONS ∨ t = CLOS) (h1 : lo ≤ o) (h2 : o + 1 < N) :
    GoodAt lo (box t o) := by
  have hN := N_lt
  have hlt : t < 2 ^ 16 := by rcases ht with h | h <;> subst h <;> decide
  refine ⟨box_lt hlt (by omega), fun _ => ?_⟩
  rw [ord_box hlt (by omega)]
  exact ⟨h1, h2⟩

theorem goodAt_fquiet {lo v : Nat} (h : GoodAt lo v) : GoodAt lo (fquiet v) := by
  refine ⟨fquiet_lt h.1, fun hp => ?_⟩
  rw [fquiet_idem] at hp
  rw [ord_fquiet]
  exact h.2 hp

theorem ite_le_self (c b : Nat) : (if c ≤ b then c else b) ≤ c := by
  split <;> omega

theorem froundMag_le (n d : Nat) : froundMag n d ≤ fposInf := by
  unfold froundMag
  exact ite_le_self _ _

theorem goodAt_withSign {lo sgn m : Nat} (hs : sgn ≤ 1) (hm : m ≤ fposInf) :
    GoodAt lo (fwithSign sgn m) := by
  unfold fwithSign
  rcases Nat.le_one_iff_eq_zero_or_eq_one.1 hs with h | h
  · subst h
    apply goodAt_small
    omega
  · subst h
    unfold fposInf at hm
    apply goodAt_neg <;> omega

theorem fsign_le (x : Nat) : fsign x ≤ 1 := by
  unfold fsign; omega

theorem goodAt_const (lo : Nat) : GoodAt lo fdefaultNaN := by
  apply goodAt_neg <;> decide

theorem goodAt_nanOf {lo a b : Nat} (ha : GoodAt lo a) (hb : GoodAt lo b) :
    GoodAt lo (fnanOf a b) := by
  unfold fnanOf
  split
  · exact goodAt_fquiet ha
  · exact goodAt_fquiet hb

theorem goodAt_fadd {lo a b : Nat} (ha : GoodAt lo a) (hb : GoodAt lo b) :
    GoodAt lo (fadd a b) := by
  unfold fadd
  split
  · exact goodAt_nanOf ha hb
  · split
    · split
      · exact goodAt_const lo
      · exact ha
    · split
      · exact hb
      · simp only
        split
        · split
          · exact goodAt_withSign (le_refl _) (Nat.zero_le _)
          · exact goodAt_small (Nat.zero_le _)
        · exact goodAt_withSign (by split <;> omega) (froundMag_le _ _)

theorem goodAt_fneg {lo b : Nat} (hb : b < 2 ^ 64) (hn : fisNaN b = false) :
    GoodAt lo (fneg b) := by
  unfold fneg
  have hn2 : ¬ (fexp b = 2047 ∧ ffrac b ≠ 0) := by
    intro h
    simp [fisNaN, h.1, h.2] at hn
  unfold fexp ffrac at hn2
  split
  · rename_i hs
    unfold fsign at hs
    apply goodAt_of_tag (by omega)
    unfold T
    rw [Nat.shiftRight_eq_div_pow]
    omega
  · rename_i hs
    unfold fsign at hs
    apply goodAt_neg <;> omega

theorem goodAt_fsub {lo a b : Nat} (ha : GoodAt lo a) (hb : GoodAt lo b) :
    GoodAt lo (fsub a b) := by
  unfold fsub
  split
  · exact goodAt_nanOf ha hb
  · rename_i hn
    apply goodAt_fadd ha
    apply goodAt_fneg hb.1
    simp only [Bool.or_eq_true, not_or, Bool.not_eq_true] at hn
    exact hn.2

theorem goodAt_fmul {lo a b : Nat} (ha : GoodAt lo a) (hb : GoodAt lo b) :
    GoodAt lo (fmul a b) := by
  unfold fmul
  simp only
  have hs : (fsign a + fsign b) % 2 ≤ 1 := by omega
  split
  · exact goodAt_nanOf ha hb
  · split
    · split
      · exact goodAt_const lo
      · exact goodAt_withSign hs (le_refl _)
    · split
      · split
        · exact goodAt_const lo
        · exact goodAt_withSign hs (le_refl _)
      · exact goodAt_withSign hs (froundMag_le _ _)

theorem goodAt_fdiv {lo a b : Nat} (ha : GoodAt lo a) (hb : GoodAt lo b) :
    GoodAt lo (fdiv a b) := by
  unfold fdiv
  simp only
  have hs : (fsign a + fsign b) % 2 ≤ 1 := by omega
  split
  · exact goodAt_nanOf ha hb
  · split
    · split
      · exact goodAt_const lo
      · exact goodAt_withSign hs (le_refl _)
    · split
      · exact goodAt_withSign hs (Nat.zero_le _)
      · split
        · split
          · exact goodAt_const lo
          · exact goodAt_withSign hs (le_refl _)
        · exact goodAt_withSign hs (froundMag_le _ _)

theorem goodAt_ftrunc (lo n : Nat) : GoodAt lo (ftrunc n) := by
  unfold ftrunc
  simp only
  split
  · exact goodAt_small (Nat.zero_le _)
  · exact goodAt_withSign (fsign_le _) (froundMag_le _ _)

theorem goodAt_top {lo v : Nat} (h : GoodAt N v) : GoodAt lo v :=
  ⟨h.1, fun hp => absurd (h.2 hp) (by omega)⟩

theorem goodAt_cellOk {lo v : Nat} (h : cellOk lo v = true) : GoodAt lo v := by
  obtain ⟨h1, h2, h3⟩ := (cellOk_iff lo v).1 h
  exact ⟨T_CONS_lt h1, fun _ => ⟨h2, h3⟩⟩

theorem goodAt_is_pair {lo p : Nat} (hp : GoodAt lo p) (h : isPairTag p = true) :
    lo ≤ ord p ∧ ord p + 1 < N :=
  hp.2 (isPairTag_fquiet hp.1 h)

theorem goodAt_ifv {lo c alt : Nat} (hc : GoodAt lo c) (ha : GoodAt lo alt) :
    GoodAt lo (ifv c alt) := by
  unfold ifv
  split
  · exact ha
  · exact hc

theorem goodSt_env {lo : Nat} {st : State} (h : GoodSt lo st) : GoodAt lo st.env := h.1
theorem goodSt_nilv {lo : Nat} {st : State} (h : GoodSt lo st) (l : Nat) : GoodAt l st.nilv :=
  goodAt_top h.2.1
theorem goodSt_tru {lo : Nat} {st : State} (h : GoodSt lo st) (l : Nat) : GoodAt l st.tru :=
  goodAt_top h.2.2.1
theorem goodSt_err {lo : Nat} {st : State} (h : GoodSt lo st) (l : Nat) : GoodAt l st.err :=
  goodAt_top h.2.2.2

theorem safe_weaken {α : Type} {Q R : Nat → α → Prop} {lo : Nat} {m : M α}
    (h : Safe Q lo m) (hq : ∀ l v, Q l v → R l v) : Safe R lo m := by
  intro s v s1 hs hlo hr
  obtain ⟨a, b, c⟩ := h s v s1 hs hlo hr
  exact ⟨a, b, hq _ _ c⟩

theorem safe_lower {α : Type} {Q : Nat → α → Prop} {lo lo2 : Nat} {m : M α}
    (h : Safe Q lo m) (hl : lo2 ≤ lo) : Safe Q lo2 m :=
  fun s v s1 hs hlo hr => h s v s1 hs (le_trans hlo hl) hr

theorem safe_ret (lo v : Nat) (hv : GoodAt lo v) : Safe GoodAt lo (pure v : M Nat) := by
  intro s w s1 hs hlo hr
  rw [run_pure] at hr
  injection hr with h1 h2
  subst h1; subst h2
  exact ⟨hs, le_refl _, goodAt_mono hlo hv⟩

theorem safe_triv {α : Type} (lo : Nat) (v : α) :
    Safe (fun _ _ => True) lo (pure v : M α) := by
  intro s w s1 hs hlo hr
  rw [run_pure] at hr
  injection hr with h1 h2
  subst h2
  exact ⟨hs, le_refl _, trivial⟩

theorem safe_retPair {β : Type} (lo v : Nat) (p : β) (hv : GoodAt lo v) :
    Safe (fun l (r : Nat × β) => GoodAt l r.1) lo (pure (v, p) : M (Nat × β)) := by
  intro s w s1 hs hlo hr
  rw [run_pure] at hr
  injection hr with h1 h2
  subst h1; subst h2
  exact ⟨hs, le_refl _, goodAt_mono hlo hv⟩

theorem safe_bind {α β : Type} {Q : Nat → α → Prop} {R : Nat → β → Prop} {lo : Nat}
    {m : M α} {f : α → M β} (hm : Safe Q lo m)
    (hf : ∀ (v : α) (l : Nat), l ≤ lo → Q l v → Safe R l (f v)) : Safe R lo (m >>= f) := by
  intro s w s2 hs hlo h
  rw [run_bind] at h
  cases hr : m s with
  | ok a s1 =>
    rw [hr] at h
    obtain ⟨a1, a2, a3⟩ := hm s a s1 hs hlo hr
    obtain ⟨b1, b2, b3⟩ := hf a s1.sp (le_trans a2 hlo) a3 s1 w s2 a1 (le_refl _) h
    exact ⟨b1, le_trans b2 a2, b3⟩
  | panic p s1 => rw [hr] at h; cases h
  | diverge => rw [hr] at h; cases h

theorem safe_getS (lo : Nat) : Safe GoodSt lo getS := by
  intro s w s1 hs hlo h
  injection h with h1 h2
  subst h1; subst h2
  obtain ⟨h1, h2, h3, h4, h5, h6⟩ := hs
  exact ⟨⟨h1, h2, h3, h4, h5, h6⟩, le_refl _, goodAt_cellOk h2, h4, h5, h6⟩

theorem safe_throwP {α : Type} (Q : Nat → α → Prop) (lo : Nat) (p : Panic) :
    Safe Q lo (throwP p : M α) := by
  intro s w s1 _ _ h
  cases h

theorem safe_diverge {α : Type} (Q : Nat → α → Prop) (lo : Nat) :
    Safe Q lo (diverge : M α) := by
  intro s w s1 _ _ h
  cases h

theorem safe_readCell (lo i : Nat) (hi : lo ≤ i) : Safe GoodAt lo (readCell i) := by
  intro s w s1 hs hlo h
  unfold readCell at h
  split at h
  · rename_i hN
    injection h with h1 h2
    subst h1; subst h2
    exact ⟨hs, le_refl _, goodAt_mono (by omega) (hs.2.2.1 i (by omega) hN)⟩
  · cases h

theorem safe_car (lo p : Nat) (hp : GoodAt lo p) : Safe GoodAt lo (car p) := by
  unfold car
  split
  · rename_i h
    exact safe_readCell _ _ (by have := goodAt_is_pair hp h; omega)
  · exact safe_bind (safe_getS _) (fun st l _ hst => safe_ret _ _ (goodSt_err hst _))

theorem safe_cdr (lo p : Nat) (hp : GoodAt lo p) : Safe GoodAt lo (cdr p) := by
  unfold cdr
  split
  · rename_i h
    exact safe_readCell _ _ (goodAt_is_pair hp h).1
  · exact safe_bind (safe_getS _) (fun st l _ hst => safe_ret _ _ (goodSt_err hst _))

theorem cellOk_lower {lo lo2 v : Nat} (h : lo2 ≤ lo) (hv : cellOk lo v = true) :
    cellOk lo2 v = true := by
  rw [cellOk_iff] at hv ⊢
  exact ⟨hv.1, by omega, hv.2.2⟩

theorem safe_consOk (lo x y : Nat) (hx : GoodAt lo x) (hy : GoodAt lo y) :
    Safe (fun l r => cellOk l r = true) lo (cons x y) := by
  intro s w s1 hs hlo h
  obtain ⟨h2, hN, _, hr, rfl⟩ := (cons_ok_iff x y s w s1).1 h
  obtain ⟨i1, i2, i3, i4, i5, i6⟩ := hs
  subst hr
  refine ⟨⟨?_, ?_, ?_, i4, i5, i6⟩, Nat.sub_le _ _, ?_⟩
  · show s.sp - 2 ≤ N
    omega
  · exact cellOk_lower (Nat.sub_le _ _) i2
  · intro i hi hiN
    show GoodAt (i + 1) (upd (upd s.cell (s.sp - 1) x) (s.sp - 2) y i)
    have hi2 : s.sp - 2 ≤ i := hi
    by_cases e2 : i = s.sp - 2
    · subst e2
      rw [upd_same]
      exact goodAt_mono (by omega) hy
    · rw [upd_other _ _ e2]
      by_cases e1 : i = s.sp - 1
      · subst e1
        rw [upd_same]
        exact goodAt_mono (by omega) hx
      · rw [upd_other _ _ e1]
        exact i3 i (by omega) hiN
  · exact cellOk_box (le_refl _) (by show s.sp - 2 + 1 < N; omega)

theorem safe_cons (lo x y : Nat) (hx : GoodAt lo x) (hy : GoodAt lo y) :
    Safe GoodAt lo (cons x y) :=
  safe_weaken (safe_consOk lo x y hx hy) (fun _ _ h => goodAt_cellOk h)

theorem scanEnd_ge (A : Nat → Nat) (hp : Nat) : ∀ (k i e : Nat),
    scanEnd A hp k i = some e → i ≤ e := by
  intro k
  induction k with
  | zero => intro i e h; simp [scanEnd] at h; omega
  | succ k ih =>
    intro i e h
    unfold scanEnd at h
    split at h
    · split at h
      · split at h
        · have := ih _ _ h; omega
        · simp at h; omega
      · cases h
    · simp at h; omega

theorem atomScan_le (str : GoString) (A : Nat → Nat) (hp : Nat) : ∀ (k i j : Nat),
    atomScan str A hp k i = some (some j) → j ≤ ALEN := by
  intro k
  induction k with
  | zero => intro i j h; simp [atomScan] at h
  | succ k ih =>
    intro i j h
    unfold atomScan at h
    split at h
    · split at h
      · cases h
      · rename_i e he
        split at h
        · rename_i hle
          split at h
          · have := scanEnd_ge A hp _ _ _ he
            simp at h
            omega
          · exact ih _ _ h
        · cases h
    · simp at h

theorem atom_ok_value (str : GoString) (s s1 : State) (v : Nat)
    (h : atom str s = Res.ok v s1) : ∃ i, i ≤ ALEN ∧ v = box ATOM i := by
  unfold atom at h
  cases hscan : atomScan str s.A s.hp s.hp 0 with
  | none => rw [hscan] at h; simp at h
  | some r =>
    cases r with
    | some i =>
      rw [hscan] at h
      simp only at h
      injection h with h1 _
      exact ⟨i, atomScan_le str s.A s.hp _ _ _ hscan, h1.symm⟩
    | none =>
      rw [hscan] at h
      simp only at h
      by_cases hA : ALEN < s.hp
      · rw [if_pos hA] at h
        simp at h
      · rw [if_neg hA] at h
        by_cases hfit : ALEN ≤ s.hp + str.length
        · rw [if_pos hfit] at h
          simp at h
        · rw [if_neg hfit] at h
          split at h
          · cases h
          · injection h with h1 _
            exact ⟨s.hp, by omega, h1.symm⟩

theorem safe_atom (lo : Nat) (str : GoString) : Safe GoodAt lo (atom str) := by
  intro s w s1 hs hlo h
  obtain ⟨i, hi, rfl⟩ := atom_ok_value str s s1 _ h
  have hA := ALEN_lt
  have hg : ∀ l, GoodAt l (box ATOM i) := fun l => goodAt_box (Or.inl rfl) (by omega)
  rcases atom_ok_shape str s s1 _ h with h1 | ⟨_, h1⟩
  · subst h1
    exact ⟨hs, le_refl _, hg _⟩
  · subst h1
    exact ⟨hs, le_refl _, hg _⟩

theorem safe_bindN {β : Type} {R : Nat → β → Prop} {lo : Nat} {m : M Nat} {f : Nat → M β}
    (hm : Safe GoodAt lo m) (hf : ∀ (v l : Nat), l ≤ lo → GoodAt l v → Safe R l (f v)) :
    Safe R lo (m >>= f) := safe_bind hm hf

theorem safe_bindS {β : Type} {R : Nat → β → Prop} {lo : Nat} {m : M State} {f : State → M β}
    (hm : Safe GoodSt lo m) (hf : ∀ (v : State) (l : Nat), l ≤ lo → GoodSt l v → Safe R l (f v)) :
    Safe R lo (m >>= f) := safe_bind hm hf

theorem safe_bindP {β γ : Type} {R : Nat → β → Prop} {lo : Nat} {m : M (Nat × γ)}
    {f : Nat × γ → M β} (hm : Safe (fun l (r : Nat × γ) => GoodAt l r.1) lo m)
    (hf : ∀ (v : Nat × γ) (l : Nat), l ≤ lo → GoodAt l v.1 → Safe R l (f v)) :
    Safe R lo (m >>= f) := safe_bind hm hf

theorem safe_bindT {α β : Type} {R : Nat → β → Prop} {lo : Nat} {m : M α} {f : α → M β}
    (hm : Safe (fun _ _ => True) lo m) (hf : ∀ (v : α) (l : Nat), l ≤ lo → Safe R l (f v)) :
    Safe R lo (m >>= f) := safe_bind hm (fun v l hl _ => hf v l hl)

theorem safe_pairOk (lo v x e : Nat) (hv : GoodAt lo v) (hx : GoodAt lo x) (he : GoodAt lo e) :
    Safe (fun l r => cellOk l r = true) lo (pair v x e) := by
  unfold pair
  exact safe_bind (safe_cons _ _ _ hv hx)
    (fun p l hl hp => safe_consOk _ _ _ hp (goodAt_mono hl he))

theorem safe_pair (lo v x e : Nat) (hv : GoodAt lo v) (hx : GoodAt lo x) (he : GoodAt lo e) :
    Safe GoodAt lo (pair v x e) :=
  safe_weaken (safe_pairOk lo v x e hv hx he) (fun _ _ h => goodAt_cellOk h)

theorem goodAt_clos {lo p : Nat} (h : cellOk lo p = true) : GoodAt lo (box CLOS (ord p)) := by
  obtain ⟨_, h2, h3⟩ := (cellOk_iff lo p).1 h
  exact goodAt_ref (Or.inr rfl) h2 h3

theorem safe_closure (lo v x e : Nat) (hv : GoodAt lo v) (hx : GoodAt lo x) (he : GoodAt lo e) :
    Safe GoodAt lo (closure v x e) := by
  unfold closure
  refine safe_bind (safe_getS _) (fun st l hl hst => ?_)
  split
  · exact safe_bind (safe_pairOk _ _ _ _ (goodAt_mono hl hv) (goodAt_mono hl hx)
      (goodSt_nilv hst _)) (fun p l2 _ hp => safe_ret _ _ (goodAt_clos hp))
  · exact safe_bind (safe_pairOk _ _ _ _ (goodAt_mono hl hv) (goodAt_mono hl hx)
      (goodAt_mono hl he)) (fun p l2 _ hp => safe_ret _ _ (goodAt_clos hp))

theorem safe_assoc : ∀ (k lo v e : Nat), GoodAt lo e → Safe GoodAt lo (assoc k v e) := by
  intro k
  induction k with
  | zero => intro lo v e _; exact safe_diverge _ _
  | succ k ih =>
    intro lo v e he
    unfold assoc
    repeat' (first
      | with_reducible (first
        | exact safe_getS _
        | refine safe_ret _ _ ?_ | refine safe_car _ _ ?_ | refine safe_cdr _ _ ?_
        | refine ih _ _ _ ?_
        | refine safe_bindN ?_ (fun _ _ _ _ => ?_)
        | refine safe_bindS ?_ (fun _ _ _ _ => ?_)
        | refine safe_bindP ?_ (fun _ _ _ _ => ?_)
        | refine safe_bindT ?_ (fun _ _ _ => ?_))
      | (refine goodAt_mono ?_ (by assumption); omega)
      | exact goodSt_err (by assumption) _
      | split | dsimp only)

theorem safe_letv (lo x : Nat) (hx : GoodAt lo x) : Safe (fun _ _ => True) lo (letv x) := by
  unfold letv
  split
  · exact safe_triv _ _
  · exact safe_bind (safe_cdr _ _ hx) (fun _ _ _ _ => safe_triv _ _)

theorem safe_bindLoop : ∀ (k lo v t e : Nat), GoodAt lo v → GoodAt lo t → GoodAt lo e →
    Safe GoodAt lo (bind k v t e) := by
  intro k
  induction k with
  | zero => intro lo v t e _ _ _; exact safe_diverge _ _
  | succ k ih =>
    intro lo v t e hv ht he
    unfold bind
    repeat' (first
      | with_reducible (first
        | exact safe_getS _
        | refine safe_ret _ _ ?_ | refine safe_car _ _ ?_ | refine safe_cdr _ _ ?_
        | refine safe_pair _ _ _ _ ?_ ?_ ?_
        | refine ih _ _ _ _ ?_ ?_ ?_
        | refine safe_bindN ?_ (fun _ _ _ _ => ?_)
        | refine safe_bindS ?_ (fun _ _ _ _ => ?_)
        | refine safe_bindP ?_ (fun _ _ _ _ => ?_)
        | refine safe_bindT ?_ (fun _ _ _ => ?_))
      | (refine goodAt_mono ?_ (by assumption); omega)
      | split | dsimp only)

theorem safe_evlis {ev : Nat → Nat → M Nat}
    (hev : ∀ lo x e, GoodAt lo x → GoodAt lo e → Safe GoodAt lo (ev x e)) :
    ∀ (k lo t e : Nat), GoodAt lo t → GoodAt lo e → Safe GoodAt lo (evlis ev k t e) := by
  intro k
  induction k with
  | zero => intro lo t e _ _; exact safe_diverge _ _
  | succ k ih =>
    intro lo t e ht he
    unfold evlis
    repeat' (first
      | with_reducible (first
        | exact safe_getS _
        | refine safe_ret _ _ ?_ | refine safe_car _ _ ?_ | refine safe_cdr _ _ ?_
        | refine safe_cons _ _ _ ?_ ?_ | refine safe_assoc _ _ _ _ ?_
        | refine hev _ _ _ ?_ ?_
        | refine ih _ _ _ ?_ ?_
        | refine safe_bindN ?_ (fun _ _ _ _ => ?_)
        | refine safe_bindS ?_ (fun _ _ _ _ => ?_)
        | refine safe_bindP ?_ (fun _ _ _ _ => ?_)
        | refine safe_bindT ?_ (fun _ _ _ => ?_))
      | (refine goodAt_mono ?_ (by assumption); omega)
      | exact goodSt_nilv (by assumption) _
      | split | dsimp only)


theorem safe_definePair {β : Type} {R : Nat → β → Prop} (lo sym v : Nat) (f : Unit → M β)
    (hsym : GoodAt lo sym) (hv : GoodAt lo v) (hf : ∀ l, l ≤ lo → Safe R l (f ())) :
    Safe R lo (getS >>= fun s0 => pair sym v s0.env >>= fun e1 =>
      getS >>= fun s1 => (setS { s1 with env := e1 } >>= f)) := by
  intro s w s3 hs hlo h
  rw [run_getS_bind] at h
  obtain ⟨e1, s1, h1, h2⟩ := bind_ok_inv h
  rw [run_getS_bind, run_setS_bind] at h2
  obtain ⟨a1, a2, a3⟩ := safe_pairOk s.sp sym v s.env (goodAt_mono hlo hsym) (goodAt_mono hlo hv)
    (goodAt_cellOk hs.2.1) s e1 s1 hs (le_refl _) h1
  obtain ⟨i1, _, i3, i4, i5, i6⟩ := a1
  have hs2 : HeapOk { s1 with env := e1 } := ⟨i1, a3, i3, i4, i5, i6⟩
  obtain ⟨b1, b2, b3⟩ := hf s1.sp (le_trans a2 hlo) { s1 with env := e1 } w s3 hs2 (le_refl _) h2
  exact ⟨b1, le_trans b2 a2, b3⟩

theorem safe_f_cons {ev : Nat → Nat → M Nat}
    (hev : ∀ lo x e, GoodAt lo x → GoodAt lo e → Safe GoodAt lo (ev x e))
    (k lo t e : Nat) (ht : GoodAt lo t) (he : GoodAt lo e) :
    Safe GoodAt lo (f_cons ev k t e) := by
  unfold f_cons
  repeat' (first
    | with_reducible (first
      | exact safe_getS _ | exact safe_throwP _ _ _ | exact safe_diverge _ _
      | exact safe_triv _ _ | refine safe_ret _ _ ?_ | refine safe_retPair _ _ _ ?_
      | refine safe_car _ _ ?_ | refine safe_cdr _ _ ?_ | refine safe_cons _ _ _ ?_ ?_
      | exact safe_atom _ _ | refine safe_pair _ _ _ _ ?_ ?_ ?_
      | refine safe_closure _ _ _ _ ?_ ?_ ?_ | refine safe_assoc _ _ _ _ ?_
      | refine safe_letv _ _ ?_ | refine safe_evlis hev _ _ _ _ ?_ ?_ | refine hev _ _ _ ?_ ?_
      | refine safe_bindN ?_ (fun _ _ _ _ => ?_) | refine safe_bindS ?_ (fun _ _ _ _ => ?_)
      | refine safe_bindP ?_ (fun _ _ _ _ => ?_) | refine safe_bindT ?_ (fun _ _ _ => ?_))
    | (refine goodAt_mono ?_ (by assumption); omega)
    | exact goodSt_nilv (by assumption) _
    | exact goodSt_tru (by assumption) _
    | exact goodSt_err (by assumption) _
    | (refine goodAt_mono ?_ (goodSt_env (by assumption)); omega)
    | exact goodAt_ftrunc _ _
    | refine goodAt_ifv ?_ ?_
    | split | dsimp only)

theorem safe_f_lt {ev : Nat → Nat → M Nat}
    (hev : ∀ lo x e, GoodAt lo x → GoodAt lo e → Safe GoodAt lo (ev x e))
    (k lo t e : Nat) (ht : GoodAt lo t) (he : GoodAt lo e) :
    Safe GoodAt lo (f_lt ev k t e) := by
  unfold f_lt
  repeat' (first
    | with_reducible (first
      | exact safe_getS _ | exact safe_throwP _ _ _ | exact safe_diverge _ _
      | exact safe_triv _ _ | refine safe_ret _ _ ?_ | refine safe_retPair _ _ _ ?_
      | refine safe_car _ _ ?_ | refine safe_cdr _ _ ?_ | refine safe_cons _ _ _ ?_ ?_
      | exact safe_atom _ _ | refine safe_pair _ _ _ _ ?_ ?_ ?_
      | refine safe_closure _ _ _ _ ?_ ?_ ?_ | refine safe_assoc _ _ _ _ ?_
      | refine safe_letv _ _ ?_ | refine safe_evlis hev _ _ _ _ ?_ ?_ | refine hev _ _ _ ?_ ?_
      | refine safe_bindN ?_ (fun _ _ _ _ => ?_) | refine safe_bindS ?_ (fun _ _ _ _ => ?_)
      | refine safe_bindP ?_ (fun _ _ _ _ => ?_) | refine safe_bindT ?_ (fun _ _ _ => ?_))
    | (refine goodAt_mono ?_ (by assumption); omega)
    | exact goodSt_nilv (by assumption) _
    | exact goodSt_tru (by assumption) _
    | exact goodSt_err (by assumption) _
    | (refine goodAt_mono ?_ (goodSt_env (by assumption)); omega)
    | exact goodAt_ftrunc _ _
    | refine goodAt_ifv ?_ ?_
    | split | dsimp only)

theorem safe_f_define {ev : Nat → Nat → M Nat}
    (hev : ∀ lo x e, GoodAt lo x → GoodAt lo e → Safe GoodAt lo (ev x e))
    (lo t e : Nat) (ht : GoodAt lo t) (he : GoodAt lo e) :
    Safe GoodAt lo (f_define ev t e) := by
  unfold f_define
  repeat' (first
    | with_reducible (first
      | refine safe_definePair _ _ _ _ ?_ ?_ (fun _ _ => ?_) | exact safe_getS _
      | exact safe_throwP _ _ _ | exact safe_diverge _ _ | exact safe_triv _ _
      | refine safe_ret _ _ ?_ | refine safe_retPair _ _ _ ?_ | refine safe_car _ _ ?_
      | refine safe_cdr _ _ ?_ | refine safe_cons _ _ _ ?_ ?_ | exact safe_atom _ _
      | refine safe_pair _ _ _ _ ?_ ?_ ?_ | refine safe_closure _ _ _ _ ?_ ?_ ?_
      | refine safe_assoc _ _ _ _ ?_ | refine safe_letv _ _ ?_ | refine hev _ _ _ ?_ ?_
      | refine safe_bindN ?_ (fun _ _ _ _ => ?_) | refine safe_bindS ?_ (fun _ _ _ _ => ?_)
      | refine safe_bindP ?_ (fun _ _ _ _ => ?_) | refine safe_bindT ?_ (fun _ _ _ => ?_))
    | (refine goodAt_mono ?_ (by assumption); omega)
    | exact goodSt_nilv (by assumption) _
    | exact goodSt_tru (by assumption) _
    | exact goodSt_err (by assumption) _
    | (refine goodAt_mono ?_ (goodSt_env (by assumption)); omega)
    | exact goodAt_ftrunc _ _
    | refine goodAt_ifv ?_ ?_
    | split | dsimp only)

theorem safe_arithLoop (op : Nat → Nat → Nat)
    (hop : ∀ lo a b, GoodAt lo a → GoodAt lo b → GoodAt lo (op a b)) :
    ∀ (k lo t n : Nat), GoodAt lo t → GoodAt lo n → Safe GoodAt lo (arithLoop op k t n) := by
  intro k
  induction k with
  | zero => intro lo t n _ _; exact safe_diverge _ _
  | succ k ih =>
    intro lo t n g0 g1
    unfold arithLoop
    repeat' (first
      | with_reducible (first
        | exact safe_getS _ | exact safe_throwP _ _ _ | exact safe_diverge _ _
        | exact safe_triv _ _ | refine safe_ret _ _ ?_ | refine safe_retPair _ _ _ ?_
        | refine safe_car _ _ ?_ | refine safe_cdr _ _ ?_ | refine safe_cons _ _ _ ?_ ?_
        | exact safe_atom _ _ | refine safe_pair _ _ _ _ ?_ ?_ ?_
        | refine safe_closure _ _ _ _ ?_ ?_ ?_ | refine safe_assoc _ _ _ _ ?_
        | refine safe_letv _ _ ?_ | refine ih _ _ _ ?_ ?_
        | refine safe_bindN ?_ (fun _ _ _ _ => ?_) | refine safe_bindS ?_ (fun _ _ _ _ => ?_)
        | refine safe_bindP ?_ (fun _ _ _ _ => ?_) | refine safe_bindT ?_ (fun _ _ _ => ?_))
      | (refine goodAt_mono ?_ (by assumption); omega)
      | exact goodSt_nilv (by assumption) _
      | exact goodSt_tru (by assumption) _
      | exact goodSt_err (by assumption) _
      | (refine goodAt_mono ?_ (goodSt_env (by assumption)); omega)
      | exact goodAt_ftrunc _ _
      | refine goodAt_ifv ?_ ?_
      | refine hop _ _ _ ?_ ?_
      | split | dsimp only)

theorem safe_arith (op : Nat → Nat → Nat)
    (hop : ∀ lo a b, GoodAt lo a → GoodAt lo b → GoodAt lo (op a b))
    {ev : Nat → Nat → M Nat}
    (hev : ∀ lo x e, GoodAt lo x → GoodAt lo e → Safe GoodAt lo (ev x e))
    (k lo t e : Nat) (ht : GoodAt lo t) (he : GoodAt lo e) :
    Safe GoodAt lo (arith op ev k t e) := by
  unfold arith
  repeat' (first
    | with_reducible (first
      | exact safe_getS _ | exact safe_throwP _ _ _ | exact safe_diverge _ _
      | exact safe_triv _ _ | refine safe_ret _ _ ?_ | refine safe_retPair _ _ _ ?_
      | refine safe_car _ _ ?_ | refine safe_cdr _ _ ?_ | refine safe_cons _ _ _ ?_ ?_
      | exact safe_atom _ _ | refine safe_pair _ _ _ _ ?_ ?_ ?_
      | refine safe_closure _ _ _ _ ?_ ?_ ?_ | refine safe_assoc _ _ _ _ ?_
      | refine safe_letv _ _ ?_ | refine safe_evlis hev _ _ _ _ ?_ ?_
      | refine safe_arithLoop op hop _ _ _ _ ?_ ?_ | refine safe_bindN ?_ (fun _ _ _ _ => ?_)
      | refine safe_bindS ?_ (fun _ _ _ _ => ?_) | refine safe_bindP ?_ (fun _ _ _ _ => ?_)
      | refine safe_bindT ?_ (fun _ _ _ => ?_))
    | (refine goodAt_mono ?_ (by assumption); omega)
    | exact goodSt_nilv (by assumption) _
    | exact goodSt_tru (by assumption) _
    | exact goodSt_err (by assumption) _
    | (refine goodAt_mono ?_ (goodSt_env (by assumption)); omega)
    | exact goodAt_ftrunc _ _
    | refine goodAt_ifv ?_ ?_
    | split | dsimp only)

theorem safe_f_add {ev : Nat → Nat → M Nat}
    (hev : ∀ lo x e, GoodAt lo x → GoodAt lo e → Safe GoodAt lo (ev x e))
    (k lo t e : Nat) (ht : GoodAt lo t) (he : GoodAt lo e) :
    Safe GoodAt lo (f_add ev k t e) :=
  safe_arith fadd (fun _ _ _ ha hb => goodAt_fadd ha hb) hev k lo t e ht he

theorem safe_f_sub {ev : Nat → Nat → M Nat}
    (hev : ∀ lo x e, GoodAt lo x → GoodAt lo e → Safe GoodAt lo (ev x e))
    (k lo t e : Nat) (ht : GoodAt lo t) (he : GoodAt lo e) :
    Safe GoodAt lo (f_sub ev k t e) :=
  safe_arith fsub (fun _ _ _ ha hb => goodAt_fsub ha hb) hev k lo t e ht he

theorem safe_f_mul {ev : Nat → Nat → M Nat}
    (hev : ∀ lo x e, GoodAt lo x → GoodAt lo e → Safe GoodAt lo (ev x e))
    (k lo t e : Nat) (ht : GoodAt lo t) (he : GoodAt lo e) :
    Safe GoodAt lo (f_mul ev k t e) :=
  safe_arith fmul (fun _ _ _ ha hb => goodAt_fmul ha hb) hev k lo t e ht he

theorem safe_f_div {ev : Nat → Nat → M Nat}
    (hev : ∀ lo x e, GoodAt lo x → GoodAt lo e → Safe GoodAt lo (ev x e))
    (k lo t e : Nat) (ht : GoodAt lo t) (he : GoodAt lo e) :
    Safe GoodAt lo (f_div ev k t e) :=
  safe_arith fdiv (fun _ _ _ ha hb => goodAt_fdiv ha hb) hev k lo t e ht he

theorem safe_f_eval {ev : Nat → Nat → M Nat}
    (hev : ∀ lo x e, GoodAt lo x → GoodAt lo e → Safe GoodAt lo (ev x e))
    (k lo t e : Nat) (ht : GoodAt lo t) (he : GoodAt lo e) :
    Safe GoodAt lo (f_eval ev k t e) := by
  unfold f_eval
  repeat' (first
    | with_reducible (first
      | exact safe_getS _ | exact safe_throwP _ _ _ | exact safe_diverge _ _
      | exact safe_triv _ _ | refine safe_ret _ _ ?_ | refine safe_retPair _ _ _ ?_
      | refine safe_car _ _ ?_ | refine safe_cdr _ _ ?_ | refine safe_cons _ _ _ ?_ ?_
      | exact safe_atom _ _ | refine safe_pair _ _ _ _ ?_ ?_ ?_
      | refine safe_closure _ _ _ _ ?_ ?_ ?_ | refine safe_assoc _ _ _ _ ?_
      | refine safe_letv _ _ ?_ | refine safe_evlis hev _ _ _ _ ?_ ?_ | refine hev _ _ _ ?_ ?_
      | refine safe_bindN ?_ (fun _ _ _ _ => ?_) | refine safe_bindS ?_ (fun _ _ _ _ => ?_)
      | refine safe_bindP ?_ (fun _ _ _ _ => ?_) | refine safe_bindT ?_ (fun _ _ _ => ?_))
    | (refine goodAt_mono ?_ (by assumption); omega)
    | exact goodSt_nilv (by assumption) _
    | exact goodSt_tru (by assumption) _
    | exact goodSt_err (by assumption) _
    | (refine goodAt_mono ?_ (goodSt_env (by assumption)); omega)
    | exact goodAt_ftrunc _ _
    | refine goodAt_ifv ?_ ?_
    | split | dsimp only)

theorem safe_f_car {ev : Nat → Nat → M Nat}
    (hev : ∀ lo x e, GoodAt lo x → GoodAt lo e → Safe GoodAt lo (ev x e))
    (k lo t e : Nat) (ht : GoodAt lo t) (he : GoodAt lo e) :
    Safe GoodAt lo (f_car ev k t e) := by
  unfold f_car
  repeat' (first
    | with_reducible (first
      | exact safe_getS _ | exact safe_throwP _ _ _ | exact safe_diverge _ _
      | exact safe_triv _ _ | refine safe_ret _ _ ?_ | refine safe_retPair _ _ _ ?_
      | refine safe_car _ _ ?_ | refine safe_cdr _ _ ?_ | refine safe_cons _ _ _ ?_ ?_
      | exact safe_atom _ _ | refine safe_pair _ _ _ _ ?_ ?_ ?_
      | refine safe_closure _ _ _ _ ?_ ?_ ?_ | refine safe_assoc _ _ _ _ ?_
      | refine safe_letv _ _ ?_ | refine safe_evlis hev _ _ _ _ ?_ ?_ | refine hev _ _ _ ?_ ?_
      | refine safe_bindN ?_ (fun _ _ _ _ => ?_) | refine safe_bindS ?_ (fun _ _ _ _ => ?_)
      | refine safe_bindP ?_ (fun _ _ _ _ => ?_) | refine safe_bindT ?_ (fun _ _ _ => ?_))
    | (refine goodAt_mono ?_ (by assumption); omega)
    | exact goodSt_nilv (by assumption) _
    | exact goodSt_tru (by assumption) _
    | exact goodSt_err (by assumption) _
    | (refine goodAt_mono ?_ (goodSt_env (by assumption)); omega)
    | exact goodAt_ftrunc _ _
    | refine goodAt_ifv ?_ ?_
    | split | dsimp only)

theorem safe_f_cdr {ev : Nat → Nat → M Nat}
    (hev : ∀ lo x e, GoodAt lo x → GoodAt lo e → Safe GoodAt lo (ev x e))
    (k lo t e : Nat) (ht : GoodAt lo t) (he : GoodAt lo e) :
    Safe GoodAt lo (f_cdr ev k t e) := by
  unfold f_cdr
  repeat' (first
    | with_reducible (first
      | exact safe_getS _ | exact safe_throwP _ _ _ | exact safe_diverge _ _
      | exact safe_triv _ _ | refine safe_ret _ _ ?_ | refine safe_retPair _ _ _ ?_
      | refine safe_car _ _ ?_ | refine safe_cdr _ _ ?_ | refine safe_cons _ _ _ ?_ ?_
      | exact safe_atom _ _ | refine safe_pair _ _ _ _ ?_ ?_ ?_
      | refine safe_closure _ _ _ _ ?_ ?_ ?_ | refine safe_assoc _ _ _ _ ?_
      | refine safe_letv _ _ ?_ | refine safe_evlis hev _ _ _ _ ?_ ?_ | refine hev _ _ _ ?_ ?_
      | refine safe_bindN ?_ (fun _ _ _ _ => ?_) | refine safe_bindS ?_ (fun _ _ _ _ => ?_)
      | refine safe_bindP ?_ (fun _ _ _ _ => ?_) | refine safe_bindT ?_ (fun _ _ _ => ?_))
    | (refine goodAt_mono ?_ (by assumption); omega)
    | exact goodSt_nilv (by assumption) _
    | exact goodSt_tru (by assumption) _
    | exact goodSt_err (by assumption) _
    | (refine goodAt_mono ?_ (goodSt_env (by assumption)); omega)
    | exact goodAt_ftrunc _ _
    | refine goodAt_ifv ?_ ?_
    | split | dsimp only)

theorem safe_f_int {ev : Nat → Nat → M Nat}
    (hev : ∀ lo x e, GoodAt lo x → GoodAt lo e → Safe GoodAt lo (ev x e))
    (k lo t e : Nat) (ht : GoodAt lo t) (he : GoodAt lo e) :
    Safe GoodAt lo (f_int ev k t e) := by
  unfold f_int
  repeat' (first
    | with_reducible (first
      | exact safe_getS _ | exact safe_throwP _ _ _ | exact safe_diverge _ _
      | exact safe_triv _ _ | refine safe_ret _ _ ?_ | refine safe_retPair _ _ _ ?_
      | refine safe_car _ _ ?_ | refine safe_cdr _ _ ?_ | refine safe_cons _ _ _ ?_ ?_
      | exact safe_atom _ _ | refine safe_pair _ _ _ _ ?_ ?_ ?_
      | refine safe_closure _ _ _ _ ?_ ?_ ?_ | refine safe_assoc _ _ _ _ ?_
      | refine safe_letv _ _ ?_ | refine safe_evlis hev _ _ _ _ ?_ ?_ | refine hev _ _ _ ?_ ?_
      | refine safe_bindN ?_ (fun _ _ _ _ => ?_) | refine safe_bindS ?_ (fun _ _ _ _ => ?_)
      | refine safe_bindP ?_ (fun _ _ _ _ => ?_) | refine safe_bindT ?_ (fun _ _ _ => ?_))
    | (refine goodAt_mono ?_ (by assumption); omega)
    | exact goodSt_nilv (by assumption) _
    | exact goodSt_tru (by assumption) _
    | exact goodSt_err (by assumption) _
    | (refine goodAt_mono ?_ (goodSt_env (by assumption)); omega)
    | exact goodAt_ftrunc _ _
    | refine goodAt_ifv ?_ ?_
    | split | dsimp only)

theorem safe_f_eq {ev : Nat → Nat → M Nat}
    (hev : ∀ lo x e, GoodAt lo x → GoodAt lo e → Safe GoodAt lo (ev x e))
    (k lo t e : Nat) (ht : GoodAt lo t) (he : GoodAt lo e) :
    Safe GoodAt lo (f_eq ev k t e) := by
  unfold f_eq
  repeat' (first
    | with_reducible (first
      | exact safe_getS _ | exact safe_throwP _ _ _ | exact safe_diverge _ _
      | exact safe_triv _ _ | refine safe_ret _ _ ?_ | refine safe_retPair _ _ _ ?_
      | refine safe_car _ _ ?_ | refine safe_cdr _ _ ?_ | refine safe_cons _ _ _ ?_ ?_
      | exact safe_atom _ _ | refine safe_pair _ _ _ _ ?_ ?_ ?_
      | refine safe_closure _ _ _ _ ?_ ?_ ?_ | refine safe_assoc _ _ _ _ ?_
      | refine safe_letv _ _ ?_ | refine safe_evlis hev _ _ _ _ ?_ ?_ | refine hev _ _ _ ?_ ?_
      | refine safe_bindN ?_ (fun _ _ _ _ => ?_) | refine safe_bindS ?_ (fun _ _ _ _ => ?_)
      | refine safe_bindP ?_ (fun _ _ _ _ => ?_) | refine safe_bindT ?_ (fun _ _ _ => ?_))
    | (refine goodAt_mono ?_ (by assumption); omega)
    | exact goodSt_nilv (by assumption) _
    | exact goodSt_tru (by assumption) _
    | exact goodSt_err (by assumption) _
    | (refine goodAt_mono ?_ (goodSt_env (by assumption)); omega)
    | exact goodAt_ftrunc _ _
    | refine goodAt_ifv ?_ ?_
    | split | dsimp only)

theorem safe_f_pair {ev : Nat → Nat → M Nat}
    (hev : ∀ lo x e, GoodAt lo x → GoodAt lo e → Safe GoodAt lo (ev x e))
    (k lo t e : Nat) (ht : GoodAt lo t) (he : GoodAt lo e) :
    Safe GoodAt lo (f_pair ev k t e) := by
  unfold f_pair
  repeat' (first
    | with_reducible (first
      | exact safe_getS _ | exact safe_throwP _ _ _ | exact safe_diverge _ _
      | exact safe_triv _ _ | refine safe_ret _ _ ?_ | refine safe_retPair _ _ _ ?_
      | refine safe_car _ _ ?_ | refine safe_cdr _ _ ?_ | refine safe_cons _ _ _ ?_ ?_
      | exact safe_atom _ _ | refine safe_pair _ _ _ _ ?_ ?_ ?_
      | refine safe_closure _ _ _ _ ?_ ?_ ?_ | refine safe_assoc _ _ _ _ ?_
      | refine safe_letv _ _ ?_ | refine safe_evlis hev _ _ _ _ ?_ ?_ | refine hev _ _ _ ?_ ?_
      | refine safe_bindN ?_ (fun _ _ _ _ => ?_) | refine safe_bindS ?_ (fun _ _ _ _ => ?_)
      | refine safe_bindP ?_ (fun _ _ _ _ => ?_) | refine safe_bindT ?_ (fun _ _ _ => ?_))
    | (refine goodAt_mono ?_ (by assumption); omega)
    | exact goodSt_nilv (by assumption) _
    | exact goodSt_tru (by assumption) _
    | exact goodSt_err (by assumption) _
    | (refine goodAt_mono ?_ (goodSt_env (by assumption)); omega)
    | exact goodAt_ftrunc _ _
    | refine goodAt_ifv ?_ ?_
    | split | dsimp only)

theorem safe_f_not {ev : Nat → Nat → M Nat}
    (hev : ∀ lo x e, GoodAt lo x → GoodAt lo e → Safe GoodAt lo (ev x e))
    (k lo t e : Nat) (ht : GoodAt lo t) (he : GoodAt lo e) :
    Safe GoodAt lo (f_not ev k t e) := by
  unfold f_not
  repeat' (first
    | with_reducible (first
      | exact safe_getS _ | exact safe_throwP _ _ _ | exact safe_diverge _ _
      | exact safe_triv _ _ | refine safe_ret _ _ ?_ | refine safe_retPair _ _ _ ?_
      | refine safe_car _ _ ?_ | refine safe_cdr _ _ ?_ | refine safe_cons _ _ _ ?_ ?_
      | exact safe_atom _ _ | refine safe_pair _ _ _ _ ?_ ?_ ?_
      | refine safe_closure _ _ _ _ ?_ ?_ ?_ | refine safe_assoc _ _ _ _ ?_
      | refine safe_letv _ _ ?_ | refine safe_evlis hev _ _ _ _ ?_ ?_ | refine hev _ _ _ ?_ ?_
      | refine safe_bindN ?_ (fun _ _ _ _ => ?_) | refine safe_bindS ?_ (fun _ _ _ _ => ?_)
      | refine safe_bindP ?_ (fun _ _ _ _ => ?_) | refine safe_bindT ?_ (fun _ _ _ => ?_))
    | (refine goodAt_mono ?_ (by assumption); omega)
    | exact goodSt_nilv (by assumption) _
    | exact goodSt_tru (by assumption) _
    | exact goodSt_err (by assumption) _
    | (refine goodAt_mono ?_ (goodSt_env (by assumption)); omega)
    | exact goodAt_ftrunc _ _
    | refine goodAt_ifv ?_ ?_
    | split | dsimp only)

theorem safe_f_quote (lo t e : Nat) (ht : GoodAt lo t) (_he : GoodAt lo e) :
    Safe GoodAt lo (f_quote t e) := by
  unfold f_quote
  repeat' (first
    | with_reducible (first
      | exact safe_getS _ | exact safe_throwP _ _ _ | exact safe_diverge _ _
      | exact safe_triv _ _ | refine safe_ret _ _ ?_ | refine safe_retPair _ _ _ ?_
      | refine safe_car _ _ ?_ | refine safe_cdr _ _ ?_ | refine safe_cons _ _ _ ?_ ?_
      | exact safe_atom _ _ | refine safe_pair _ _ _ _ ?_ ?_ ?_
      | refine safe_closure _ _ _ _ ?_ ?_ ?_ | refine safe_assoc _ _ _ _ ?_
      | refine safe_letv _ _ ?_ | refine safe_bindN ?_ (fun _ _ _ _ => ?_)
      | refine safe_bindS ?_ (fun _ _ _ _ => ?_) | refine safe_bindP ?_ (fun _ _ _ _ => ?_)
      | refine safe_bindT ?_ (fun _ _ _ => ?_))
    | (refine goodAt_mono ?_ (by assumption); omega)
    | exact goodSt_nilv (by assumption) _
    | exact goodSt_tru (by assumption) _
    | exact goodSt_err (by assumption) _
    | (refine goodAt_mono ?_ (goodSt_env (by assumption)); omega)
    | exact goodAt_ftrunc _ _
    | refine goodAt_ifv ?_ ?_
    | split | dsimp only)

theorem safe_f_lambda (lo t e : Nat) (ht : GoodAt lo t) (he : GoodAt lo e) :
    Safe GoodAt lo (f_lambda t e) := by
  unfold f_lambda
  repeat' (first
    | with_reducible (first
      | exact safe_getS _ | exact safe_throwP _ _ _ | exact safe_diverge _ _
      | exact safe_triv _ _ | refine safe_ret _ _ ?_ | refine safe_retPair _ _ _ ?_
      | refine safe_car _ _ ?_ | refine safe_cdr _ _ ?_ | refine safe_cons _ _ _ ?_ ?_
      | exact safe_atom _ _ | refine safe_pair _ _ _ _ ?_ ?_ ?_
      | refine safe_closure _ _ _ _ ?_ ?_ ?_ | refine safe_assoc _ _ _ _ ?_
      | refine safe_letv _ _ ?_ | refine safe_bindN ?_ (fun _ _ _ _ => ?_)
      | refine safe_bindS ?_ (fun _ _ _ _ => ?_) | refine safe_bindP ?_ (fun _ _ _ _ => ?_)
      | refine safe_bindT ?_ (fun _ _ _ => ?_))
    | (refine goodAt_mono ?_ (by assumption); omega)
    | exact goodSt_nilv (by assumption) _
    | exact goodSt_tru (by assumption) _
    | exact goodSt_err (by assumption) _
    | (refine goodAt_mono ?_ (goodSt_env (by assumption)); omega)
    | exact goodAt_ftrunc _ _
    | refine goodAt_ifv ?_ ?_
    | split | dsimp only)

theorem safe_f_if {ev : Nat → Nat → M Nat}
    (hev : ∀ lo x e, GoodAt lo x → GoodAt lo e → Safe GoodAt lo (ev x e))
    (lo t e : Nat) (ht : GoodAt lo t) (he : GoodAt lo e) :
    Safe GoodAt lo (f_if ev t e) := by
  unfold f_if
  repeat' (first
    | with_reducible (first
      | exact safe_getS _ | exact safe_throwP _ _ _ | exact safe_diverge _ _
      | exact safe_triv _ _ | refine safe_ret _ _ ?_ | refine safe_retPair _ _ _ ?_
      | refine safe_car _ _ ?_ | refine safe_cdr _ _ ?_ | refine safe_cons _ _ _ ?_ ?_
      | exact safe_atom _ _ | refine safe_pair _ _ _ _ ?_ ?_ ?_
      | refine safe_closure _ _ _ _ ?_ ?_ ?_ | refine safe_assoc _ _ _ _ ?_
      | refine safe_letv _ _ ?_ | refine hev _ _ _ ?_ ?_
      | refine safe_bindN ?_ (fun _ _ _ _ => ?_) | refine safe_bindS ?_ (fun _ _ _ _ => ?_)
      | refine safe_bindP ?_ (fun _ _ _ _ => ?_) | refine safe_bindT ?_ (fun _ _ _ => ?_))
    | (refine goodAt_mono ?_ (by assumption); omega)
    | exact goodSt_nilv (by assumption) _
    | exact goodSt_tru (by assumption) _
    | exact goodSt_err (by assumption) _
    | (refine goodAt_mono ?_ (goodSt_env (by assumption)); omega)
    | exact goodAt_ftrunc _ _
    | refine goodAt_ifv ?_ ?_
    | split | dsimp only)

theorem safe_orLoop {ev : Nat → Nat → M Nat}
    (hev : ∀ lo x e, GoodAt lo x → GoodAt lo e → Safe GoodAt lo (ev x e)) :
    ∀ (k lo t e x : Nat), GoodAt lo t → GoodAt lo e → GoodAt lo x → Safe GoodAt lo (orLoop ev k t e x) := by
  intro k
  induction k with
  | zero => intro lo t e x _ _ _; exact safe_diverge _ _
  | succ k ih =>
    intro lo t e x g0 g1 g2
    unfold orLoop
    repeat' (first
      | with_reducible (first
        | exact safe_getS _ | exact safe_throwP _ _ _ | exact safe_diverge _ _
        | exact safe_triv _ _ | refine safe_ret _ _ ?_ | refine safe_retPair _ _ _ ?_
        | refine safe_car _ _ ?_ | refine safe_cdr _ _ ?_ | refine safe_cons _ _ _ ?_ ?_
        | exact safe_atom _ _ | refine safe_pair _ _ _ _ ?_ ?_ ?_
        | refine safe_closure _ _ _ _ ?_ ?_ ?_ | refine safe_assoc _ _ _ _ ?_
        | refine safe_letv _ _ ?_ | refine hev _ _ _ ?_ ?_ | refine ih _ _ _ _ ?_ ?_ ?_
        | refine safe_bindN ?_ (fun _ _ _ _ => ?_) | refine safe_bindS ?_ (fun _ _ _ _ => ?_)
        | refine safe_bindP ?_ (fun _ _ _ _ => ?_) | refine safe_bindT ?_ (fun _ _ _ => ?_))
      | (refine goodAt_mono ?_ (by assumption); omega)
      | exact goodSt_nilv (by assumption) _
      | exact goodSt_tru (by assumption) _
      | exact goodSt_err (by assumption) _
      | (refine goodAt_mono ?_ (goodSt_env (by assumption)); omega)
      | exact goodAt_ftrunc _ _
      | refine goodAt_ifv ?_ ?_
      | split | dsimp only)

theorem safe_andLoop {ev : Nat → Nat → M Nat}
    (hev : ∀ lo x e, GoodAt lo x → GoodAt lo e → Safe GoodAt lo (ev x e)) :
    ∀ (k lo t e x : Nat), GoodAt lo t → GoodAt lo e → GoodAt lo x → Safe GoodAt lo (andLoop ev k t e x) := by
  intro k
  induction k with
  | zero => intro lo t e x _ _ _; exact safe_diverge _ _
  | succ k ih =>
    intro lo t e x g0 g1 g2
    unfold andLoop
    repeat' (first
      | with_reducible (first
        | exact safe_getS _ | exact safe_throwP _ _ _ | exact safe_diverge _ _
        | exact safe_triv _ _ | refine safe_ret _ _ ?_ | refine safe_retPair _ _ _ ?_
        | refine safe_car _ _ ?_ | refine safe_cdr _ _ ?_ | refine safe_cons _ _ _ ?_ ?_
        | exact safe_atom _ _ | refine safe_pair _ _ _ _ ?_ ?_ ?_
        | refine safe_closure _ _ _ _ ?_ ?_ ?_ | refine safe_assoc _ _ _ _ ?_
        | refine safe_letv _ _ ?_ | refine hev _ _ _ ?_ ?_ | refine ih _ _ _ _ ?_ ?_ ?_
        | refine safe_bindN ?_ (fun _ _ _ _ => ?_) | refine safe_bindS ?_ (fun _ _ _ _ => ?_)
        | refine safe_bindP ?_ (fun _ _ _ _ => ?_) | refine safe_bindT ?_ (fun _ _ _ => ?_))
      | (refine goodAt_mono ?_ (by assumption); omega)
      | exact goodSt_nilv (by assumption) _
      | exact goodSt_tru (by assumption) _
      | exact goodSt_err (by assumption) _
      | (refine goodAt_mono ?_ (goodSt_env (by assumption)); omega)
      | exact goodAt_ftrunc _ _
      | refine goodAt_ifv ?_ ?_
      | split | dsimp only)

theorem safe_f_or {ev : Nat → Nat → M Nat}
    (hev : ∀ lo x e, GoodAt lo x → GoodAt lo e → Safe GoodAt lo (ev x e))
    (k lo t e : Nat) (ht : GoodAt lo t) (he : GoodAt lo e) :
    Safe GoodAt lo (f_or ev k t e) := by
  unfold f_or
  repeat' (first
    | with_reducible (first
      | exact safe_getS _ | exact safe_throwP _ _ _ | exact safe_diverge _ _
      | exact safe_triv _ _ | refine safe_ret _ _ ?_ | refine safe_retPair _ _ _ ?_
      | refine safe_car _ _ ?_ | refine safe_cdr _ _ ?_ | refine safe_cons _ _ _ ?_ ?_
      | exact safe_atom _ _ | refine safe_pair _ _ _ _ ?_ ?_ ?_
      | refine safe_closure _ _ _ _ ?_ ?_ ?_ | refine safe_assoc _ _ _ _ ?_
      | refine safe_letv _ _ ?_ | refine safe_orLoop hev _ _ _ _ _ ?_ ?_ ?_
      | refine safe_bindN ?_ (fun _ _ _ _ => ?_) | refine safe_bindS ?_ (fun _ _ _ _ => ?_)
      | refine safe_bindP ?_ (fun _ _ _ _ => ?_) | refine safe_bindT ?_ (fun _ _ _ => ?_))
    | (refine goodAt_mono ?_ (by assumption); omega)
    | exact goodSt_nilv (by assumption) _
    | exact goodSt_tru (by assumption) _
    | exact goodSt_err (by assumption) _
    | (refine goodAt_mono ?_ (goodSt_env (by assumption)); omega)
    | exact goodAt_ftrunc _ _
    | refine goodAt_ifv ?_ ?_
    | split | dsimp only)

theorem safe_f_and {ev : Nat → Nat → M Nat}
    (hev : ∀ lo x e, GoodAt lo x → GoodAt lo e → Safe GoodAt lo (ev x e))
    (k lo t e : Nat) (ht : GoodAt lo t) (he : GoodAt lo e) :
    Safe GoodAt lo (f_and ev k t e) := by
  unfold f_and
  repeat' (first
    | with_reducible (first
      | exact safe_getS _ | exact safe_throwP _ _ _ | exact safe_diverge _ _
      | exact safe_triv _ _ | refine safe_ret _ _ ?_ | refine safe_retPair _ _ _ ?_
      | refine safe_car _ _ ?_ | refine safe_cdr _ _ ?_ | refine safe_cons _ _ _ ?_ ?_
      | exact safe_atom _ _ | refine safe_pair _ _ _ _ ?_ ?_ ?_
      | refine safe_closure _ _ _ _ ?_ ?_ ?_ | refine safe_assoc _ _ _ _ ?_
      | refine safe_letv _ _ ?_ | refine safe_andLoop hev _ _ _ _ _ ?_ ?_ ?_
      | refine safe_bindN ?_ (fun _ _ _ _ => ?_) | refine safe_bindS ?_ (fun _ _ _ _ => ?_)
      | refine safe_bindP ?_ (fun _ _ _ _ => ?_) | refine safe_bindT ?_ (fun _ _ _ => ?_))
    | (refine goodAt_mono ?_ (by assumption); omega)
    | exact goodSt_nilv (by assumption) _
    | exact goodSt_tru (by assumption) _
    | exact goodSt_err (by assumption) _
    | (refine goodAt_mono ?_ (goodSt_env (by assumption)); omega)
    | exact goodAt_ftrunc _ _
    | refine goodAt_ifv ?_ ?_
    | split | dsimp only)

theorem safe_f_cond {ev : Nat → Nat → M Nat}
    (hev : ∀ lo x e, GoodAt lo x → GoodAt lo e → Safe GoodAt lo (ev x e)) :
    ∀ (k lo t e : Nat), GoodAt lo t → GoodAt lo e → Safe GoodAt lo (f_cond ev k t e) := by
  intro k
  induction k with
  | zero => intro lo t e _ _; exact safe_diverge _ _
  | succ k ih =>
    intro lo t e g0 g1
    unfold f_cond
    repeat' (first
      | with_reducible (first
        | exact safe_getS _ | exact safe_throwP _ _ _ | exact safe_diverge _ _
        | exact safe_triv _ _ | refine safe_ret _ _ ?_ | refine safe_retPair _ _ _ ?_
        | refine safe_car _ _ ?_ | refine safe_cdr _ _ ?_ | refine safe_cons _ _ _ ?_ ?_
        | exact safe_atom _ _ | refine safe_pair _ _ _ _ ?_ ?_ ?_
        | refine safe_closure _ _ _ _ ?_ ?_ ?_ | refine safe_assoc _ _ _ _ ?_
        | refine safe_letv _ _ ?_ | refine hev _ _ _ ?_ ?_ | refine ih _ _ _ ?_ ?_
        | refine safe_bindN ?_ (fun _ _ _ _ => ?_) | refine safe_bindS ?_ (fun _ _ _ _ => ?_)
        | refine safe_bindP ?_ (fun _ _ _ _ => ?_) | refine safe_bindT ?_ (fun _ _ _ => ?_))
      | (refine goodAt_mono ?_ (by assumption); omega)
      | exact goodSt_nilv (by assumption) _
      | exact goodSt_tru (by assumption) _
      | exact goodSt_err (by assumption) _
      | (refine goodAt_mono ?_ (goodSt_env (by assumption)); omega)
      | exact goodAt_ftrunc _ _
      | refine goodAt_ifv ?_ ?_
      | split | dsimp only)

theorem safe_f_leta {ev : Nat → Nat → M Nat}
    (hev : ∀ lo x e, GoodAt lo x → GoodAt lo e → Safe GoodAt lo (ev x e)) :
    ∀ (k lo t e : Nat), GoodAt lo t → GoodAt lo e → Safe GoodAt lo (f_leta ev k t e) := by
  intro k
  induction k with
  | zero => intro lo t e _ _; exact safe_diverge _ _
  | succ k ih =>
    intro lo t e g0 g1
    unfold f_leta
    repeat' (first
      | with_reducible (first
        | exact safe_getS _ | exact safe_throwP _ _ _ | exact safe_diverge _ _
        | exact safe_triv _ _ | refine safe_ret _ _ ?_ | refine safe_retPair _ _ _ ?_
        | refine safe_car _ _ ?_ | refine safe_cdr _ _ ?_ | refine safe_cons _ _ _ ?_ ?_
        | exact safe_atom _ _ | refine safe_pair _ _ _ _ ?_ ?_ ?_
        | refine safe_closure _ _ _ _ ?_ ?_ ?_ | refine safe_assoc _ _ _ _ ?_
        | refine safe_letv _ _ ?_ | refine hev _ _ _ ?_ ?_ | refine ih _ _ _ ?_ ?_
        | refine safe_bindN ?_ (fun _ _ _ _ => ?_) | refine safe_bindS ?_ (fun _ _ _ _ => ?_)
        | refine safe_bindP ?_ (fun _ _ _ _ => ?_) | refine safe_bindT ?_ (fun _ _ _ => ?_))
      | (refine goodAt_mono ?_ (by assumption); omega)
      | exact goodSt_nilv (by assumption) _
      | exact goodSt_tru (by assumption) _
      | exact goodSt_err (by assumption) _
      | (refine goodAt_mono ?_ (goodSt_env (by assumption)); omega)
      | exact goodAt_ftrunc _ _
      | refine goodAt_ifv ?_ ?_
      | split | dsimp only)

theorem safe_readAtomTail (h : Host) (hh : HostOk h) (lo : Nat) (str : GoString)
    (p1 : InputParser) :
    Safe (fun l (r : Nat × InputParser) => GoodAt l r.1) lo
      (match (if 0 < str.length then h.parseFloat str else none) with
        | some n => pure (n, p1)
        | none => do
          let a ← atom str
          pure (a, p1)) := by
  split
  · rename_i n heq
    refine safe_retPair _ _ _ (goodAt_top ?_)
    split at heq
    · exact hh _ _ heq
    · cases heq
  · exact safe_bindN (safe_atom _ _) (fun a l _ ha => safe_retPair _ _ _ ha)

theorem safe_readAtom (h : Host) (hh : HostOk h) (lo : Nat) (p : InputParser) :
    Safe (fun l (r : Nat × InputParser) => GoodAt l r.1) lo (p.readAtom h) := by
  unfold InputParser.readAtom
  repeat' (first
    | exact safe_throwP _ _ _ | exact safe_readAtomTail h hh _ _ _ | split | dsimp only)

theorem safe_readListBody {rdExpr rdList : InputParser → M (Nat × InputParser)}
    (h1 : ∀ lo p, Safe (fun l (r : Nat × InputParser) => GoodAt l r.1) lo (rdExpr p)) (h2 : ∀ lo p, Safe (fun l (r : Nat × InputParser) => GoodAt l r.1) lo (rdList p))
    (lo : Nat) (p0 : InputParser) :
    Safe (fun l (r : Nat × InputParser) => GoodAt l r.1) lo (readListBody rdExpr rdList p0) := by
  unfold readListBody
  repeat' (first
    | with_reducible (first
      | exact safe_getS _ | exact safe_throwP _ _ _ | exact safe_diverge _ _
      | exact safe_triv _ _ | refine safe_ret _ _ ?_ | refine safe_retPair _ _ _ ?_
      | refine safe_car _ _ ?_ | refine safe_cdr _ _ ?_ | refine safe_cons _ _ _ ?_ ?_
      | exact safe_atom _ _ | refine safe_pair _ _ _ _ ?_ ?_ ?_
      | refine safe_closure _ _ _ _ ?_ ?_ ?_ | refine safe_assoc _ _ _ _ ?_
      | refine safe_letv _ _ ?_ | exact h1 _ _ | exact h2 _ _
      | refine safe_bindN ?_ (fun _ _ _ _ => ?_) | refine safe_bindS ?_ (fun _ _ _ _ => ?_)
      | refine safe_bindP ?_ (fun _ _ _ _ => ?_) | refine safe_bindT ?_ (fun _ _ _ => ?_))
    | (refine goodAt_mono ?_ (by assumption); omega)
    | exact goodSt_nilv (by assumption) _
    | exact goodSt_tru (by assumption) _
    | exact goodSt_err (by assumption) _
    | (refine goodAt_mono ?_ (goodSt_env (by assumption)); omega)
    | exact goodAt_ftrunc _ _
    | refine goodAt_ifv ?_ ?_
    | split | dsimp only)

theorem safe_readExprBody (h : Host) (hh : HostOk h)
    {rdList rdExpr : InputParser → M (Nat × InputParser)}
    (h1 : ∀ lo p, Safe (fun l (r : Nat × InputParser) => GoodAt l r.1) lo (rdList p)) (h2 : ∀ lo p, Safe (fun l (r : Nat × InputParser) => GoodAt l r.1) lo (rdExpr p))
    (lo : Nat) (p0 : InputParser) :
    Safe (fun l (r : Nat × InputParser) => GoodAt l r.1) lo (readExprBody h rdList rdExpr p0) := by
  unfold readExprBody
  repeat' (first
    | with_reducible (first
      | exact safe_getS _ | exact safe_throwP _ _ _ | exact safe_diverge _ _
      | exact safe_triv _ _ | refine safe_ret _ _ ?_ | refine safe_retPair _ _ _ ?_
      | refine safe_car _ _ ?_ | refine safe_cdr _ _ ?_ | refine safe_cons _ _ _ ?_ ?_
      | exact safe_atom _ _ | refine safe_pair _ _ _ _ ?_ ?_ ?_
      | refine safe_closure _ _ _ _ ?_ ?_ ?_ | refine safe_assoc _ _ _ _ ?_
      | refine safe_letv _ _ ?_ | exact h1 _ _ | exact h2 _ _ | exact safe_readAtom h hh _ _
      | refine safe_bindN ?_ (fun _ _ _ _ => ?_) | refine safe_bindS ?_ (fun _ _ _ _ => ?_)
      | refine safe_bindP ?_ (fun _ _ _ _ => ?_) | refine safe_bindT ?_ (fun _ _ _ => ?_))
    | (refine goodAt_mono ?_ (by assumption); omega)
    | exact goodSt_nilv (by assumption) _
    | exact goodSt_tru (by assumption) _
    | exact goodSt_err (by assumption) _
    | (refine goodAt_mono ?_ (goodSt_env (by assumption)); omega)
    | exact goodAt_ftrunc _ _
    | refine goodAt_ifv ?_ ?_
    | split | dsimp only)

theorem safe_readGen (h : Host) (hh : HostOk h) : ∀ (k : Nat) (b : Bool) (lo : Nat)
    (p : InputParser), Safe (fun l (r : Nat × InputParser) => GoodAt l r.1) lo (readGen h k b p) := by
  intro k
  induction k with
  | zero => intro b lo p; exact safe_diverge _ _
  | succ k ih =>
    intro b lo p
    cases b with
    | true => exact safe_readListBody (fun l q => ih false l q) (fun l q => ih true l q) lo p
    | false =>
      exact safe_readExprBody h hh (fun l q => ih true l q) (fun l q => ih false l q) lo p

theorem safe_loadLoop (h : Host) (hh : HostOk h) {ev : Nat → Nat → M Nat}
    (hev : ∀ lo x e, GoodAt lo x → GoodAt lo e → Safe GoodAt lo (ev x e)) :
    ∀ (k lo : Nat) (p : InputParser) (e result : Nat), GoodAt lo e → GoodAt lo result →
      Safe GoodAt lo (loadLoop h ev k p e result) := by
  intro k
  induction k with
  | zero => intro lo p e r _ _; exact safe_diverge _ _
  | succ k ih =>
    intro lo p e r g0 g1
    unfold loadLoop
    repeat' (first
      | with_reducible (first
        | exact safe_getS _ | exact safe_throwP _ _ _ | exact safe_diverge _ _
        | exact safe_triv _ _ | refine safe_ret _ _ ?_ | refine safe_retPair _ _ _ ?_
        | refine safe_car _ _ ?_ | refine safe_cdr _ _ ?_ | refine safe_cons _ _ _ ?_ ?_
        | exact safe_atom _ _ | refine safe_pair _ _ _ _ ?_ ?_ ?_
        | refine safe_closure _ _ _ _ ?_ ?_ ?_ | refine safe_assoc _ _ _ _ ?_
        | refine safe_letv _ _ ?_ | refine hev _ _ _ ?_ ?_ | refine ih _ _ _ _ ?_ ?_
        | refine safe_bindN ?_ (fun _ _ _ _ => ?_) | refine safe_bindS ?_ (fun _ _ _ _ => ?_)
        | refine safe_bindP ?_ (fun _ _ _ _ => ?_) | refine safe_bindT ?_ (fun _ _ _ => ?_))
      | (refine goodAt_mono ?_ (by assumption); omega)
      | exact goodSt_nilv (by assumption) _
      | exact goodSt_tru (by assumption) _
      | exact goodSt_err (by assumption) _
      | (refine goodAt_mono ?_ (goodSt_env (by assumption)); omega)
      | exact goodAt_ftrunc _ _
      | refine goodAt_ifv ?_ ?_
      | exact safe_readGen h hh _ _ _ _
      | split | dsimp only)

theorem safe_loadFile (h : Host) (hh : HostOk h) {ev : Nat → Nat → M Nat}
    (hev : ∀ lo x e, GoodAt lo x → GoodAt lo e → Safe GoodAt lo (ev x e))
    (k lo : Nat) (filename : GoString) (e : Nat) (he : GoodAt lo e) :
    Safe GoodAt lo (loadFile h ev k filename e) := by
  unfold loadFile
  repeat' (first
    | with_reducible (first
      | exact safe_getS _ | exact safe_throwP _ _ _ | exact safe_diverge _ _
      | exact safe_triv _ _ | refine safe_ret _ _ ?_ | refine safe_retPair _ _ _ ?_
      | refine safe_car _ _ ?_ | refine safe_cdr _ _ ?_ | refine safe_cons _ _ _ ?_ ?_
      | exact safe_atom _ _ | refine safe_pair _ _ _ _ ?_ ?_ ?_
      | refine safe_closure _ _ _ _ ?_ ?_ ?_ | refine safe_assoc _ _ _ _ ?_
      | refine safe_letv _ _ ?_ | refine safe_loadLoop h hh hev _ _ _ _ _ ?_ ?_
      | refine safe_bindN ?_ (fun _ _ _ _ => ?_) | refine safe_bindS ?_ (fun _ _ _ _ => ?_)
      | refine safe_bindP ?_ (fun _ _ _ _ => ?_) | refine safe_bindT ?_ (fun _ _ _ => ?_))
    | (refine goodAt_mono ?_ (by assumption); omega)
    | exact goodSt_nilv (by assumption) _
    | exact goodSt_tru (by assumption) _
    | exact goodSt_err (by assumption) _
    | (refine goodAt_mono ?_ (goodSt_env (by assumption)); omega)
    | exact goodAt_ftrunc _ _
    | refine goodAt_ifv ?_ ?_
    | split | dsimp only)

theorem safe_nameLoop : ∀ (k lo j : Nat) (acc : GoString),
    Safe (fun _ _ => True) lo (nameLoop k j acc) := by
  intro k
  induction k with
  | zero => intro lo j acc; exact safe_throwP _ _ _
  | succ k ih =>
    intro lo j acc
    unfold nameLoop
    repeat' (first
      | with_reducible (first
        | exact safe_getS _ | exact safe_throwP _ _ _ | exact safe_diverge _ _
        | exact safe_triv _ _ | refine safe_ret _ _ ?_ | refine safe_retPair _ _ _ ?_
        | refine safe_car _ _ ?_ | refine safe_cdr _ _ ?_ | refine safe_cons _ _ _ ?_ ?_
        | exact safe_atom _ _ | refine safe_pair _ _ _ _ ?_ ?_ ?_
        | refine safe_closure _ _ _ _ ?_ ?_ ?_ | refine safe_assoc _ _ _ _ ?_
        | refine safe_letv _ _ ?_ | exact ih _ _ _ | refine safe_bindN ?_ (fun _ _ _ _ => ?_)
        | refine safe_bindS ?_ (fun _ _ _ _ => ?_) | refine safe_bindP ?_ (fun _ _ _ _ => ?_)
        | refine safe_bindT ?_ (fun _ _ _ => ?_))
      | (refine goodAt_mono ?_ (by assumption); omega)
      | exact goodSt_nilv (by assumption) _
      | exact goodSt_tru (by assumption) _
      | exact goodSt_err (by assumption) _
      | (refine goodAt_mono ?_ (goodSt_env (by assumption)); omega)
      | exact goodAt_ftrunc _ _
      | refine goodAt_ifv ?_ ?_
      | split | dsimp only)

theorem safe_f_load (h : Host) (hh : HostOk h) {ev : Nat → Nat → M Nat}
    (hev : ∀ lo x e, GoodAt lo x → GoodAt lo e → Safe GoodAt lo (ev x e))
    (k lo t e : Nat) (ht : GoodAt lo t) (he : GoodAt lo e) :
    Safe GoodAt lo (f_load h ev k t e) := by
  unfold f_load
  repeat' (first
    | with_reducible (first
      | exact safe_getS _ | exact safe_throwP _ _ _ | exact safe_diverge _ _
      | exact safe_triv _ _ | refine safe_ret _ _ ?_ | refine safe_retPair _ _ _ ?_
      | refine safe_car _ _ ?_ | refine safe_cdr _ _ ?_ | refine safe_cons _ _ _ ?_ ?_
      | exact safe_atom _ _ | refine safe_pair _ _ _ _ ?_ ?_ ?_
      | refine safe_closure _ _ _ _ ?_ ?_ ?_ | refine safe_assoc _ _ _ _ ?_
      | refine safe_letv _ _ ?_ | refine safe_evlis hev _ _ _ _ ?_ ?_
      | exact safe_nameLoop _ _ _ _ | refine safe_loadFile h hh hev _ _ _ _ ?_
      | refine safe_bindN ?_ (fun _ _ _ _ => ?_) | refine safe_bindS ?_ (fun _ _ _ _ => ?_)
      | refine safe_bindP ?_ (fun _ _ _ _ => ?_) | refine safe_bindT ?_ (fun _ _ _ => ?_))
    | (refine goodAt_mono ?_ (by assumption); omega)
    | exact goodSt_nilv (by assumption) _
    | exact goodSt_tru (by assumption) _
    | exact goodSt_err (by assumption) _
    | (refine goodAt_mono ?_ (goodSt_env (by assumption)); omega)
    | exact goodAt_ftrunc _ _
    | refine goodAt_ifv ?_ ?_
    | split | dsimp only)

theorem safe_callPrim (h : Host) (hh : HostOk h) {ev : Nat → Nat → M Nat}
    (hev : ∀ lo x e, GoodAt lo x → GoodAt lo e → Safe GoodAt lo (ev x e))
    (k : Nat) (p : Prim) (lo t e : Nat) (ht : GoodAt lo t) (he : GoodAt lo e) :
    Safe GoodAt lo (callPrim h ev k p t e) := by
  cases p
  · exact safe_f_eval hev k lo t e ht he
  · exact safe_f_quote lo t e ht he
  · exact safe_f_cons hev k lo t e ht he
  · exact safe_f_car hev k lo t e ht he
  · exact safe_f_cdr hev k lo t e ht he
  · exact safe_f_add hev k lo t e ht he
  · exact safe_f_sub hev k lo t e ht he
  · exact safe_f_mul hev k lo t e ht he
  · exact safe_f_div hev k lo t e ht he
  · exact safe_f_int hev k lo t e ht he
  · exact safe_f_lt hev k lo t e ht he
  · exact safe_f_eq hev k lo t e ht he
  · exact safe_f_pair hev k lo t e ht he
  · exact safe_f_or hev k lo t e ht he
  · exact safe_f_and hev k lo t e ht he
  · exact safe_f_not hev k lo t e ht he
  · exact safe_f_cond hev k lo t e ht he
  · exact safe_f_if hev lo t e ht he
  · exact safe_f_leta hev k lo t e ht he
  · exact safe_f_lambda lo t e ht he
  · exact safe_f_define hev lo t e ht he
  · exact safe_f_load h hh hev k lo t e ht he

theorem safe_apply (h : Host) (hh : HostOk h) {ev : Nat → Nat → M Nat}
    (hev : ∀ lo x e, GoodAt lo x → GoodAt lo e → Safe GoodAt lo (ev x e))
    (k lo f t e : Nat) (hf : GoodAt lo f) (ht : GoodAt lo t) (he : GoodAt lo e) :
    Safe GoodAt lo (apply h ev k f t e) := by
  unfold apply
  repeat' (first
    | with_reducible (first
      | exact safe_getS _ | exact safe_throwP _ _ _ | exact safe_diverge _ _
      | exact safe_triv _ _ | refine safe_ret _ _ ?_ | refine safe_retPair _ _ _ ?_
      | refine safe_car _ _ ?_ | refine safe_cdr _ _ ?_ | refine safe_cons _ _ _ ?_ ?_
      | exact safe_atom _ _ | refine safe_pair _ _ _ _ ?_ ?_ ?_
      | refine safe_closure _ _ _ _ ?_ ?_ ?_ | refine safe_assoc _ _ _ _ ?_
      | refine safe_letv _ _ ?_ | refine safe_evlis hev _ _ _ _ ?_ ?_ | refine hev _ _ _ ?_ ?_
      | refine safe_bindLoop _ _ _ _ _ ?_ ?_ ?_ | refine safe_callPrim h hh hev _ _ _ _ _ ?_ ?_
      | refine safe_bindN ?_ (fun _ _ _ _ => ?_) | refine safe_bindS ?_ (fun _ _ _ _ => ?_)
      | refine safe_bindP ?_ (fun _ _ _ _ => ?_) | refine safe_bindT ?_ (fun _ _ _ => ?_))
    | (refine goodAt_mono ?_ (by assumption); omega)
    | exact goodSt_nilv (by assumption) _
    | exact goodSt_tru (by assumption) _
    | exact goodSt_err (by assumption) _
    | (refine goodAt_mono ?_ (goodSt_env (by assumption)); omega)
    | exact goodAt_ftrunc _ _
    | refine goodAt_ifv ?_ ?_
    | split | dsimp only)

theorem safe_evalBody (h : Host) (hh : HostOk h) {ev : Nat → Nat → M Nat}
    (hev : ∀ lo x e, GoodAt lo x → GoodAt lo e → Safe GoodAt lo (ev x e))
    (k lo x e : Nat) (hx : GoodAt lo x) (he : GoodAt lo e) :
    Safe GoodAt lo (evalBody h ev k x e) := by
  unfold evalBody
  repeat' (first
    | with_reducible (first
      | exact safe_getS _ | exact safe_throwP _ _ _ | exact safe_diverge _ _
      | exact safe_triv _ _ | refine safe_ret _ _ ?_ | refine safe_retPair _ _ _ ?_
      | refine safe_car _ _ ?_ | refine safe_cdr _ _ ?_ | refine safe_cons _ _ _ ?_ ?_
      | exact safe_atom _ _ | refine safe_pair _ _ _ _ ?_ ?_ ?_
      | refine safe_closure _ _ _ _ ?_ ?_ ?_ | refine safe_assoc _ _ _ _ ?_
      | refine safe_letv _ _ ?_ | refine hev _ _ _ ?_ ?_
      | refine safe_apply h hh hev _ _ _ _ _ ?_ ?_ ?_ | refine safe_bindN ?_ (fun _ _ _ _ => ?_)
      | refine safe_bindS ?_ (fun _ _ _ _ => ?_) | refine safe_bindP ?_ (fun _ _ _ _ => ?_)
      | refine safe_bindT ?_ (fun _ _ _ => ?_))
    | (refine goodAt_mono ?_ (by assumption); omega)
    | exact goodSt_nilv (by assumption) _
    | exact goodSt_tru (by assumption) _
    | exact goodSt_err (by assumption) _
    | (refine goodAt_mono ?_ (goodSt_env (by assumption)); omega)
    | exact goodAt_ftrunc _ _
    | refine goodAt_ifv ?_ ?_
    | split | dsimp only)

theorem safe_eval (h : Host) (hh : HostOk h) : ∀ (n lo x e : Nat), GoodAt lo x → GoodAt lo e →
    Safe GoodAt lo (eval h n x e) := by
  intro n
  induction n with
  | zero => intro lo x e _ _; exact safe_diverge _ _
  | succ n ih => intro lo x e hx he; exact safe_evalBody h hh ih n lo x e hx he

theorem heapOk_primIndex {s : State} (hs : HeapOk s) (m : List (GoString × Nat)) :
    HeapOk { s with primIndex := m } := hs

theorem registerPrims_heapOk : ∀ (names : List GoString) (o : Nat) (s s1 : State),
    o + names.length < 2 ^ 48 → registerPrims names o s = Res.ok () s1 → HeapOk s →
    HeapOk s1 := by
  intro names
  induction names with
  | nil =>
    intro o s s1 _ h hi
    rw [registerPrims, run_pure] at h
    injection h with _ h2
    subst h2
    exact hi
  | cons name rest ih =>
    intro o s s1 ho h hi
    have hl := List.length_cons name rest
    rw [registerPrims, run_getS_bind] at h
    split at h
    · rw [run_setS_bind] at h
      obtain ⟨a, sa, ha, h2⟩ := bind_ok_inv h
      rw [run_getS_bind] at h2
      obtain ⟨e1, sb, h3, h4⟩ := bind_ok_inv h2
      rw [run_getS_bind, run_setS_bind] at h4
      have hW : (o + 1) % W64 = o + 1 := Nat.mod_eq_of_lt (by unfold W64; omega)
      rw [hW] at h4
      refine ih _ _ _ (by omega) h4 ?_
      obtain ⟨a1, _, a3⟩ := safe_atom s.sp name { s with primIndex := mapSet s.primIndex name o } a sa
        (heapOk_primIndex hi _) (le_refl _) ha
      obtain ⟨b1, _, b3⟩ := safe_pairOk sa.sp a (box PRIM o) sa.env a3
        (goodAt_box (Or.inr (Or.inl rfl)) (by omega)) (goodAt_cellOk a1.2.1) sa e1 sb a1
        (le_refl _) h3
      obtain ⟨i1, _, i3, i4, i5, i6⟩ := b1
      exact ⟨i1, b3, i3, i4, i5, i6⟩
    · exact ih _ _ _ (by omega) h hi

theorem atom_keeps (str : GoString) (s s1 : State) (v : Nat) (h : atom str s = Res.ok v s1) :
    s1.sp = s.sp ∧ s1.cell = s.cell ∧ s1.nilv = s.nilv ∧ s1.tru = s.tru ∧ s1.err = s.err := by
  rcases atom_ok_shape str s s1 v h with h1 | ⟨_, h1⟩
  · subst h1; exact ⟨rfl, rfl, rfl, rfl, rfl⟩
  · subst h1; exact ⟨rfl, rfl, rfl, rfl, rfl⟩

theorem setup_heapOk (table : List (GoString × Prim)) (names : List GoString)
    (s0 s : State) (hsp : s0.sp = N) (hn : names.length < 2 ^ 48)
    (h : setup table names s0 = Res.ok () s) : HeapOk s := by
  unfold setup at h
  rw [run_getS_bind, run_setS_bind] at h
  obtain ⟨er, s1, he1, h1⟩ := bind_ok_inv h
  rw [run_getS_bind, run_setS_bind] at h1
  obtain ⟨tr, s2, he2, h2⟩ := bind_ok_inv h1
  rw [run_getS_bind, run_setS_bind, run_getS_bind] at h2
  obtain ⟨e0, s3, h3, h4⟩ := bind_ok_inv h2
  rw [run_getS_bind, run_setS_bind] at h4
  refine registerPrims_heapOk _ _ _ _ (by omega) h4 ?_
  obtain ⟨p4, pN, _, pr, hs⟩ := (pair_ok_iff _ _ _ _ _ _).mp h3
  obtain ⟨x1, x2, x3, _, _⟩ := atom_keeps _ _ _ _ he1
  obtain ⟨y1, y2, y3, _, y5⟩ := atom_keeps _ _ _ _ he2
  obtain ⟨ie, hie, rfl⟩ := atom_ok_value _ _ _ _ he1
  obtain ⟨it, hit, rfl⟩ := atom_ok_value _ _ _ _ he2
  have hA := ALEN_lt
  have hNN := N_lt
  have hsp2 : s2.sp = N := by rw [y1]; show s1.sp = N; rw [x1]; exact hsp
  have hnil : s2.nilv = box NIL 0 := by rw [y3]; show s1.nilv = _; rw [x3]
  have herr : s2.err = box ATOM ie := y5
  have gt : ∀ l, GoodAt l (box ATOM it) := fun l => goodAt_box (Or.inl rfl) (by omega)
  have ge : ∀ l, GoodAt l (box ATOM ie) := fun l => goodAt_box (Or.inl rfl) (by omega)
  have gn : ∀ l, GoodAt l (box NIL 0) := fun l => goodAt_box (Or.inr (Or.inr rfl)) (by decide)
  subst hs
  subst pr
  change 4 ≤ s2.sp at p4
  obtain ⟨c1, c2, c3, c4⟩ := afterPair_cells (box ATOM it) (box ATOM it) s2.nilv s2 p4
  refine ⟨?_, ?_, ?_, ?_, ?_, ?_⟩
  · show s2.sp - 4 ≤ N
    omega
  · show cellOk (s2.sp - 4) (box CONS (s2.sp - 4)) = true
    exact cellOk_box (le_refl _) (by omega)
  · intro i hi hiN
    change s2.sp - 4 ≤ i at hi
    show GoodAt (i + 1) ((afterPair (box ATOM it) (box ATOM it) s2.nilv s2).cell i)
    have hcases : i = s2.sp - 4 ∨ i = s2.sp - 4 + 1 ∨ i = s2.sp - 2 ∨ i = s2.sp - 2 + 1 := by
      omega
    rcases hcases with e | e | e | e
    · rw [e, c1, hnil]; exact gn _
    · rw [e, c2]; exact goodAt_ref (Or.inl rfl) (by omega) (by omega)
    · rw [e, c3]; exact gt _
    · rw [e, c4]; exact gt _
  · show GoodAt N s2.nilv
    rw [hnil]; exact gn _
  · exact gt _
  · show GoodAt N s2.err
    rw [herr]; exact ge _

theorem init_heapOk (s0 s : State) (h : initTinyLisp s0 = Res.ok () s) : HeapOk s := by
  rw [initTinyLisp, run_getS_bind, run_setS_bind] at h
  exact setup_heapOk primTable primNames _ s rfl (by decide) h

theorem main_heapOk (s0 s : State) (hsp : s0.sp = N) (h : mainInit s0 = Res.ok () s) :
    HeapOk s :=
  setup_heapOk primTableMain primNamesMain s0 s hsp (by decide) h

theorem gc_eq (s s1 : State) (hg : gc s = Res.ok () s1) : s1 = { s with sp := ord s.env } := by
  have : gc s = Res.ok () { s with sp := ord s.env } := rfl
  rw [this] at hg
  injection hg with _ h2
  exact h2.symm

theorem gc_heapOk (s s1 : State) (hs : HeapOk s) (hg : gc s = Res.ok () s1) : HeapOk s1 := by
  have := gc_eq s s1 hg
  subst this
  obtain ⟨i1, i2, i3, i4, i5, i6⟩ := hs
  obtain ⟨c1, c2, c3⟩ := (cellOk_iff _ _).1 i2
  refine ⟨?_, ?_, ?_, i4, i5, i6⟩
  · show ord s.env ≤ N
    omega
  · show cellOk (ord s.env) s.env = true
    rw [cellOk_iff]
    exact ⟨c1, le_refl _, c3⟩
  · intro i hi hiN
    exact i3 i (le_trans c2 hi) hiN

theorem form_heapOk (h : Host) (hh : HostOk h) (src : GoString) (k n x v : Nat)
    (p : InputParser) (t t1 t2 : State) (ht : HeapOk t)
    (hr : (newInputParser src).readExpr h k t = Res.ok (x, p) t1)
    (he : eval h n x t1.env t1 = Res.ok v t2) : HeapOk t2 := by
  obtain ⟨a1, _, a3⟩ := safe_readGen h hh k false t.sp (newInputParser src) t (x, p) t1 ht
    (le_refl _) hr
  exact (safe_eval h hh n t1.sp x t1.env a3 (goodAt_cellOk a1.2.1) t1 v t2 a1 (le_refl _) he).1

theorem later_heapOk (h : Host) (hh : HostOk h) {s t : State} (hl : Later h s t)
    (hs : HeapOk s) : HeapOk t := by
  induction hl with
  | refl => exact hs
  | form src k n x v p t1 t2 _ hr he ih => exact form_heapOk h hh src k n x v p _ t1 t2 ih hr he
  | gc t1 _ hg ih => exact gc_heapOk _ t1 ih hg

theorem session_heapOk (h : Host) (hh : HostOk h) {s : State} (hs : Session h s) :
    HeapOk s := by
  obtain ⟨s0, s1, hstart, hl⟩ := hs
  apply later_heapOk h hh hl
  rcases hstart with h1 | ⟨h1, h2⟩
  · exact init_heapOk s0 s1 h1
  · exact main_heapOk s0 s1 h1 h2

theorem envReach_good {s : State} (hs : HeapOk s) {p : Nat} (hp : EnvReach s p) :
    GoodAt (ord s.env) p := by
  obtain ⟨_, i2, i3, _, _, _⟩ := hs
  obtain ⟨c1, c2, c3⟩ := (cellOk_iff _ _).1 i2
  induction hp with
  | root => exact ⟨T_CONS_lt c1, fun _ => ⟨le_refl _, c3⟩⟩
  | car _ hpair ih =>
    obtain ⟨g1, g2⟩ := goodAt_is_pair ih hpair
    exact goodAt_mono (by omega) (i3 _ (by omega) g2)
  | cdr _ hpair ih =>
    obtain ⟨g1, g2⟩ := goodAt_is_pair ih hpair
    exact goodAt_mono (by omega) (i3 _ (by omega) (by omega))

theorem step_env_le {s t : State} (h : Step s t) (hN : s.sp ≤ N) (hi : s.sp ≤ ord s.env) :
    t.sp ≤ N ∧ t.sp ≤ ord t.env ∧ ord t.env ≤ ord s.env := by
  cases h with
  | cons x y r _ _ hc =>
    obtain ⟨_, _, _, _, hs⟩ := (cons_ok_iff x y s r t).mp hc
    subst hs
    refine ⟨?_, ?_, le_refl _⟩
    · show s.sp - 2 ≤ N
      omega
    · show s.sp - 2 ≤ ord s.env
      omega
  | atom str v _ _ ha =>
    rcases atom_ok_shape str s t v ha with hs | ⟨_, hs⟩
    · subst hs; exact ⟨hN, hi, le_refl _⟩
    · subst hs; exact ⟨hN, hi, le_refl _⟩
  | define sym v e1 _ s1 hp =>
    obtain ⟨p4, pN, _, pr, hs⟩ := (pair_ok_iff sym v s.env s e1 s1).mp hp
    subst hs
    subst pr
    have ho : ord (box CONS (s.sp - 4)) = s.sp - 4 :=
      ord_box (by decide) (lt_of_le_of_lt (Nat.sub_le _ _) (lt_of_le_of_lt pN N_lt))
    refine ⟨?_, ?_, ?_⟩
    · show s.sp - 4 ≤ N
      omega
    · show s.sp - 4 ≤ ord (box CONS (s.sp - 4))
      rw [ho]
    · show ord (box CONS (s.sp - 4)) ≤ ord s.env
      rw [ho]
      omega

theorem steps_env_le {s t : State} (h : Steps s t) (hN : s.sp ≤ N) (hi : s.sp ≤ ord s.env) :
    t.sp ≤ N ∧ t.sp ≤ ord t.env ∧ ord t.env ≤ ord s.env := by
  induction h with
  | refl => exact ⟨hN, hi, le_refl _⟩
  | tail _ hs ih =>
    obtain ⟨a1, a2, a3⟩ := ih
    obtain ⟨b1, b2, b3⟩ := step_env_le hs a1 a2
    exact ⟨b1, b2, le_trans b3 a3⟩

theorem later_keeps (h : Host) {s t : State} (hl : Later h s t) (hN : s.sp ≤ N)
    (hi : s.sp ≤ ord s.env) (hE : ord s.env ≤ N) :
    (t.sp ≤ N ∧ t.sp ≤ ord t.env ∧ ord t.env ≤ ord s.env) ∧
      ∀ i, ord s.env ≤ i → t.cell i = s.cell i := by
  induction hl with
  | refl => exact ⟨⟨hN, hi, le_refl _⟩, fun _ _ => rfl⟩
  | form src k n x v p t1 t2 _ hr he ih =>
    obtain ⟨⟨a1, a2, a3⟩, a4⟩ := ih
    have st1 := traced_readGen h k false (newInputParser src) _ _ _ hr
    have st2 := traced_eval h n x _ _ _ _ he
    have st := steps_trans st1 st2
    obtain ⟨b1, b2, b3⟩ := steps_env_le st a1 a2
    obtain ⟨_, f2⟩ := steps_frame st
    exact ⟨⟨b1, b2, le_trans b3 a3⟩, fun i hi2 => by rw [f2 i (by omega), a4 i hi2]⟩
  | gc t1 _ hg ih =>
    obtain ⟨⟨a1, a2, a3⟩, a4⟩ := ih
    have := gc_eq _ t1 hg
    subst this
    refine ⟨⟨?_, le_refl _, a3⟩, a4⟩
    show ord _ ≤ N
    omega

theorem hostOk_decimal : HostOk decimalHost := by
  intro str n hp
  change (digitsValue str).map num = some n at hp
  cases hd : digitsValue str with
  | none => rw [hd] at hp; cases hp
  | some k =>
    rw [hd] at hp
    injection hp with hp
    subst hp
    exact goodAt_small (froundMag_le _ _)

theorem later_trans (h : Host) {s t u : State} (h1 : Later h s t) (h2 : Later h t u) :
    Later h s u := by
  induction h2 with
  | refl => exact h1
  | form src k n x v p t1 t2 _ hr he ih => exact Later.form src k n x v p t1 t2 ih hr he
  | gc t1 _ hg ih => exact Later.gc t1 ih hg

theorem later_replLines (h : Host) (fuel : Nat) : ∀ (srcs : List String) (r : Nat)
    (s s2 : State) (v : Nat), replLines h fuel srcs r s = Res.ok v s2 → Later h s s2 := by
  intro srcs
  induction srcs with
  | nil =>
    intro r s s2 v hr
    rw [replLines, run_pure] at hr
    injection hr with _ h2
    subst h2
    exact Later.refl _
  | cons src rest ih =>
    intro r s s2 v hr
    rw [replLines] at hr
    obtain ⟨xp, t1, h1, h2⟩ := bind_ok_inv hr
    obtain ⟨x, p⟩ := xp
    simp only at h2
    rw [run_getS_bind] at h2
    obtain ⟨r1, t2, h3, h4⟩ := bind_ok_inv h2
    obtain ⟨u, t3, h5, h6⟩ := bind_ok_inv h4
    exact later_trans h (Later.gc t3 (Later.form (bytes src) fuel fuel x r1 p t1 t2
      (Later.refl s) h1 h3) h5) (ih _ _ _ _ h6)

/-- C33: let `s` be a state of a session: start-up (`initTinyLisp`, or
`main` from the initial watermark) followed by any number of top-level
forms, each read by `readExpr` from a text and evaluated in the global
environment, and of calls of `gc()`, all of which returned; the host's
`ParseFloat` returns numbers.  Then every value `p` with tag `CONS` or
`CLOS` that is reachable from `env` through `car` and `cdr` (chain nodes,
entries, bound values, closures and their stored environments) has its
two cells inside the array at or above index `ord(env)`; the watermark
`sp` is at most `ord(env)`; and in every later state `t` of the session,
whatever forms and calls of `gc()` lead to it, both cells hold what they
hold in `s`. -/
theorem env_cells_kept (h : Host) (hh : HostOk h) (s t : State) (hs : Session h s)
    (ht : Later h s t) (p : Nat) (hp : EnvReach s p) (hpair : isPairTag p = true) :
    (ord s.env ≤ ord p ∧ ord p + 1 < N) ∧ s.sp ≤ ord s.env ∧
      (t.cell (ord p) = s.cell (ord p) ∧ t.cell (ord p + 1) = s.cell (ord p + 1)) := by
  have hok := session_heapOk h hh hs
  obtain ⟨g1, g2⟩ := goodAt_is_pair (envReach_good hok hp) hpair
  obtain ⟨c1, c2, c3⟩ := (cellOk_iff _ _).1 hok.2.1
  obtain ⟨_, k2⟩ := later_keeps h ht hok.1 c2 (by omega)
  exact ⟨⟨g1, g2⟩, c2, k2 _ g1, k2 _ (by omega)⟩

/-- Witness for C33: after the start-up of `main` and the line
`(define f (lambda (x) (cons x x)))` with its `gc()`, the closure bound
to `f`, reached from `env` by `car` and `cdr`; the later state is the one
after the line `(f 1)` and its `gc()`. -/
theorem env_cells_kept_witness :
    (ord exampleSessionA.stateD.env
        ≤ ord (exampleSessionA.stateD.cell
            (ord (exampleSessionA.stateD.cell (ord exampleSessionA.stateD.env + 1)))) ∧
      ord (exampleSessionA.stateD.cell
            (ord (exampleSessionA.stateD.cell (ord exampleSessionA.stateD.env + 1)))) + 1 < N) ∧
    exampleSessionA.stateD.sp ≤ ord exampleSessionA.stateD.env ∧
    (exampleSessionB.stateD.cell (ord (exampleSessionA.stateD.cell
          (ord (exampleSessionA.stateD.cell (ord exampleSessionA.stateD.env + 1)))))
        = exampleSessionA.stateD.cell (ord (exampleSessionA.stateD.cell
          (ord (exampleSessionA.stateD.cell (ord exampleSessionA.stateD.env + 1))))) ∧
      exampleSessionB.stateD.cell (ord (exampleSessionA.stateD.cell
          (ord (exampleSessionA.stateD.cell (ord exampleSessionA.stateD.env + 1)))) + 1)
        = exampleSessionA.stateD.cell (ord (exampleSessionA.stateD.cell
          (ord (exampleSessionA.stateD.cell (ord exampleSessionA.stateD.env + 1)))) + 1)) := by
  have facts := runs_main.2.2
  obtain ⟨f1, f2, f3, f4, f5, f6⟩ := facts
  have hm : mainInit zeroState = Res.ok () exampleMain.stateD := Res.eq_ok_of_val f1
  have hA : replLines decimalHost 60 ["(define f (lambda (x) (cons x x)))"] 0
      exampleMain.stateD = Res.ok (box ATOM 98) exampleSessionA.stateD := Res.eq_ok_of_val f2
  have hB : replLines decimalHost 60 ["(f 1)"] 0 exampleSessionA.stateD
      = Res.ok (box CONS 1912) exampleSessionB.stateD := Res.eq_ok_of_val f3
  have hs : Session decimalHost exampleSessionA.stateD :=
    ⟨zeroState, exampleMain.stateD, Or.inr ⟨rfl, hm⟩, later_replLines _ _ _ _ _ _ _ hA⟩
  exact env_cells_kept decimalHost hostOk_decimal exampleSessionA.stateD exampleSessionB.stateD
    hs (later_replLines _ _ _ _ _ _ _ hB) _ (EnvReach.cdr (EnvReach.car EnvReach.root f4) f5) f6

end Gisp
